import Mathlib

/-!
# Syslog File Converter: entry specification compiler and line decoder

A shallow embedding of `src/syslog_entry.c` (with the declarations of
`src/syslog_entry.h` and `src/syslog_fc.h`) and of the default configuration
and the function `convert_syslog` of `src/main.c`, and the properties of them
that the specification states.

Conventions of the embedding.

* A C string is the list of its characters before the terminator. A buffer
  is the list of all its characters, terminators included, and a pointer into
  it is an index.
* A result of type `Option _` is `none` exactly when the C code has no
  defined result: it reads memory beyond the end of the string or buffer it
  scans, or an `assert` fails.
* `malloc` is taken to succeed; the contents of a fresh `syslog_field_t`
  (indeterminate in C) are the all-zero value.
* `unsigned int` bit sets (`flags`, `fields_mask`) are natural numbers; no
  operation of the code on them can overflow 32 bits.
* The functions of the C library are modelled after their description in the
  C standard and POSIX, and after glibc where these leave a choice.
-/

namespace SyslogFc

/-! ## Constants of the C library headers -/

/-- The string terminator. -/
def NUL : Char := Char.ofNat 0

/-- Value of `EINVAL` in `<errno.h>` (Linux). -/
def EINVAL : Int := 22

/-- Value of `ENOMEM` in `<errno.h>` (Linux). -/
def ENOMEM : Int := 12

/-- Value of `EILSEQ` in `<errno.h>` (Linux). -/
def EILSEQ : Int := 84

/-! ## `syslog_entry.h` -/

/-- Drop field data from output. -/
def SYSLOG_FIELD_FLAG_DROP : Nat := 1 <<< 0

/-- Do not skip spaces at the beginning. -/
def SYSLOG_FIELD_FLAG_NOTRIM : Nat := 1 <<< 1

/-- Skip validation. -/
def SYSLOG_FIELD_FLAG_NOVALIDATION : Nat := 1 <<< 2

/-- Syslog entry field types. -/
inductive syslog_field_type_t where
  | SYSLOG_FIELD_TYPE_TIME
  | SYSLOG_FIELD_TYPE_INTEGER
  | SYSLOG_FIELD_TYPE_UINTEGER
  | SYSLOG_FIELD_TYPE_STRING
  deriving DecidableEq, Repr

/-- Syslog entry field identifiers. -/
inductive syslog_field_id_t where
  | SYSLOG_FIELD_ID_ID
  | SYSLOG_FIELD_ID_TIMESTAMP
  | SYSLOG_FIELD_ID_KTIME
  | SYSLOG_FIELD_ID_HOSTNAME
  | SYSLOG_FIELD_ID_FACILITY
  | SYSLOG_FIELD_ID_PRIORITY
  | SYSLOG_FIELD_ID_TAG
  | SYSLOG_FIELD_ID_MESSAGE
  deriving DecidableEq, Repr

open syslog_field_type_t syslog_field_id_t

/-- The integer value of an enumerator of `syslog_field_id_t`. -/
def syslog_field_id_t.toNat : syslog_field_id_t → Nat
  | SYSLOG_FIELD_ID_ID => 0
  | SYSLOG_FIELD_ID_TIMESTAMP => 1
  | SYSLOG_FIELD_ID_KTIME => 2
  | SYSLOG_FIELD_ID_HOSTNAME => 3
  | SYSLOG_FIELD_ID_FACILITY => 4
  | SYSLOG_FIELD_ID_PRIORITY => 5
  | SYSLOG_FIELD_ID_TAG => 6
  | SYSLOG_FIELD_ID_MESSAGE => 7

/-- The two functions a `validator` pointer of the registry can hold. -/
inductive validator_t where
  | validate_facility
  | validate_priority
  deriving DecidableEq, Repr

/-- Syslog field information structure. -/
structure syslog_field_info_t where
  id : syslog_field_id_t
  type : syslog_field_type_t
  spec : Char
  param_name : String
  human_name : String
  validator : Option validator_t := none
  deriving DecidableEq, Repr

/-- The `struct tm` of `<time.h>` (the members defined by the C standard). -/
structure tm where
  tm_sec : Int := 0
  tm_min : Int := 0
  tm_hour : Int := 0
  tm_mday : Int := 0
  tm_mon : Int := 0
  tm_year : Int := 0
  tm_wday : Int := 0
  tm_yday : Int := 0
  tm_isdst : Int := 0
  deriving DecidableEq, Repr

/-- The members of `union syslog_field_value_union`. A descriptor only ever
reads and writes the member that belongs to the type of its kind, so the
members are kept side by side. `string` is a pointer into the line buffer,
held as an index. -/
structure syslog_field_value_union where
  time_timestamp : tm := {}
  time_unixtime : Nat := 0
  uinteger : Nat := 0
  integer : Int := 0
  string : Nat := 0
  deriving DecidableEq, Repr

/-- Syslog field data structure; the `next` pointer is the list order. -/
structure syslog_field_t where
  info : syslog_field_info_t
  flags : Nat
  value : syslog_field_value_union := {}
  parse_start_char : Char
  parse_stop_char : Char
  deriving DecidableEq, Repr

/-- Syslog entry data structure (`fields_num` and `fields_output_num` are
never assigned or read by the program and are left out). -/
structure syslog_entry_t where
  num : Nat
  fields_mask : Nat
  fields : List syslog_field_t
  deriving DecidableEq, Repr

/-- Check for the presence of a specified field in the entry. -/
def syslog_entry_has_field (entry : syslog_entry_t) (field_id : syslog_field_id_t) : Nat :=
  if entry.fields_mask &&& (1 <<< field_id.toNat) ≠ 0 then 1 else 0

/-! ## `syslog_entry.c`: the registry -/

/-- Drop field data from output. -/
def SYSLOG_EXT_SPEC_DROP : Char := '!'

/-- Do not trim spaces at the beginning. -/
def SYSLOG_EXT_SPEC_NOTRIM : Char := '_'

/-- Do not validate parsed value. -/
def SYSLOG_EXT_SPEC_NOVALIDATION : Char := '@'

/-- Available syslog fields information array. -/
def syslog_field_info : List syslog_field_info_t :=
  [ { id := SYSLOG_FIELD_ID_TIMESTAMP, type := SYSLOG_FIELD_TYPE_TIME, spec := 'T',
      param_name := "timestamp", human_name := "Timestamp" },
    { type := SYSLOG_FIELD_TYPE_STRING, id := SYSLOG_FIELD_ID_HOSTNAME, spec := 'H',
      param_name := "hostname", human_name := "Hostname" },
    { id := SYSLOG_FIELD_ID_FACILITY, type := SYSLOG_FIELD_TYPE_STRING, spec := 'F',
      param_name := "facility", human_name := "Facility",
      validator := some validator_t.validate_facility },
    { id := SYSLOG_FIELD_ID_PRIORITY, type := SYSLOG_FIELD_TYPE_STRING, spec := 'P',
      param_name := "priority", human_name := "Priority",
      validator := some validator_t.validate_priority },
    { id := SYSLOG_FIELD_ID_TAG, type := SYSLOG_FIELD_TYPE_STRING, spec := 'G',
      param_name := "tag", human_name := "Tag" },
    { id := SYSLOG_FIELD_ID_MESSAGE, type := SYSLOG_FIELD_TYPE_STRING, spec := 'M',
      param_name := "message", human_name := "Message" } ]

/-! ## `syslog_entry_init` -/

/-- The local variables of `syslog_entry_init` that live across iterations of
its scan loop, together with the entry under construction. `last_field` is the
last element of `entry.fields`, and `field` is `NULL` at every loop head. -/
structure init_locals where
  flags : Nat
  field_info : Option syslog_field_info_t
  parse_start_char : Char
  entry : syslog_entry_t
  deriving DecidableEq, Repr

/-- The test `last_field && (last_field->parse_stop_char == 0)`. -/
def last_stop_unset (fields : List syslog_field_t) : Bool :=
  match fields.getLast? with
  | some last_field => last_field.parse_stop_char == NUL
  | none => false

/-- The assignment `last_field->parse_stop_char = c`. -/
def set_last_stop (c : Char) : List syslog_field_t → List syslog_field_t
  | [] => []
  | [last_field] => [{ last_field with parse_stop_char := c }]
  | field :: rest => field :: set_last_stop c rest

/-- Lines 196-204: the character `c` at `*p` is not the introducer. -/
def init_literal (st : init_locals) (c : Char) : init_locals :=
  if last_stop_unset st.entry.fields then
    { st with entry := { st.entry with fields := set_last_stop c st.entry.fields } }
  else
    { st with parse_start_char := c }

/-- Lines 232-291: the character `ch` that ends the run of modifiers has been
read. The result is either the return of the function (`Except.error`, with
the code and the entry as it stands) or the locals at the end of the loop
body (`Except.ok`), both for `continue` and for falling off the body. -/
def init_specifier (st : init_locals) (ch : Char) :
    Except (Int × syslog_entry_t) init_locals :=
  let field_info :=
    match syslog_field_info.find? (fun info => ch == info.spec) with
    | some info => some info
    | none => st.field_info
  match field_info with
  | none =>
    if ch = '%' then
      if last_stop_unset st.entry.fields then
        .ok { st with entry := { st.entry with fields := set_last_stop ch st.entry.fields } }
      else
        .ok st
    else
      .error (-EINVAL, st.entry)
  | some info =>
    if st.flags &&& SYSLOG_FIELD_FLAG_DROP = 0 ∧
        st.entry.fields_mask &&& (1 <<< info.id.toNat) ≠ 0 then
      .error (-EINVAL, st.entry)
    else
      let field : syslog_field_t :=
        { flags := st.flags, info := info,
          parse_start_char := st.parse_start_char, parse_stop_char := NUL }
      .ok { flags := 0, field_info := some info, parse_start_char := NUL,
            entry := { st.entry with
              fields_mask := st.entry.fields_mask ||| (1 <<< info.id.toNat),
              fields := st.entry.fields ++ [field] } }

/-- The scan loop of `syslog_entry_init` over the characters from `p` on.
`in_token = false` is the head of the `for` loop, `in_token = true` is the
label `get_next_ch` with `p` already advanced. The result is `none` when the
loop increment moves `p` beyond the terminator. -/
def init_scan : Bool → init_locals → List Char → Option (Int × syslog_entry_t)
  | false, st, [] => some (0, st.entry)
  | false, st, c :: p =>
    if c = NUL then some (0, st.entry)
    else if c ≠ '%' then init_scan false (init_literal st c) p
    else if last_stop_unset st.entry.fields then some (-EINVAL, st.entry)
    else init_scan true st p
  | true, st, [] =>
    match init_specifier st NUL with
    | .error r => some r
    | .ok _ => none
  | true, st, ch :: p =>
    if ch = SYSLOG_EXT_SPEC_DROP then
      init_scan true { st with flags := st.flags ||| SYSLOG_FIELD_FLAG_DROP } p
    else if ch = SYSLOG_EXT_SPEC_NOTRIM then
      init_scan true { st with flags := st.flags ||| SYSLOG_FIELD_FLAG_NOTRIM } p
    else if ch = SYSLOG_EXT_SPEC_NOVALIDATION then
      init_scan true { st with flags := st.flags ||| SYSLOG_FIELD_FLAG_NOVALIDATION } p
    else
      match init_specifier st ch with
      | .error r => some r
      | .ok st1 => if ch = NUL then none else init_scan false st1 p

/-- Initialize entry data structure by specified entry format specification:
the return code and the entry as the function leaves it. -/
def syslog_entry_init (entry_spec : List Char) : Option (Int × syslog_entry_t) :=
  init_scan false
    { flags := 0, field_info := none, parse_start_char := NUL,
      entry := { num := 0, fields_mask := 0, fields := [] } }
    entry_spec

/-- The `entry_spec` of `default_config`. -/
def default_entry_spec : List Char := "%T %F.%P %G: %_M".toList

/-- The `ts_parse_spec` of `default_config`. -/
def default_ts_parse_spec : List Char := "%a %b %d %H:%M:%S %Y".toList

/-! ## The grammar of the specification

The tokens of a specification as section 6 of the specification describes
them, used to state what a specification contains; `syslog_entry_init` does
not use them. -/

/-- A token of the specification mini-language: a literal character, a
`%<modifiers><c>` token (the escape when `c` is `%`), or a `%<modifiers>` that
the end of the string cuts short. -/
inductive spec_token where
  | literal (c : Char)
  | token (modifiers : List Char) (c : Char)
  | unterminated (modifiers : List Char)
  deriving DecidableEq, Repr

/-- The tokens of the characters from `p` on; `some modifiers` when a `%` and
the modifiers have been read. -/
def spec_tokens_from : Option (List Char) → List Char → List spec_token
  | none, [] => []
  | none, c :: p =>
    if c = NUL then []
    else if c = '%' then spec_tokens_from (some []) p
    else spec_token.literal c :: spec_tokens_from none p
  | some modifiers, [] => [spec_token.unterminated modifiers]
  | some modifiers, c :: p =>
    if c = '!' ∨ c = '_' ∨ c = '@' then spec_tokens_from (some (modifiers ++ [c])) p
    else if c = NUL then [spec_token.unterminated modifiers]
    else spec_token.token modifiers c :: spec_tokens_from none p

/-- The tokens of a specification. -/
def spec_tokens (entry_spec : List Char) : List spec_token :=
  spec_tokens_from none entry_spec

/-- The token is a field token with the letter `letter` and without the Drop
modifier. -/
def spec_token.is_kept_field (letter : Char) : spec_token → Bool
  | spec_token.token modifiers c => c == letter && !modifiers.contains '!'
  | _ => false

/-- The token is a literal character. -/
def spec_token.is_literal : spec_token → Bool
  | spec_token.literal _ => true
  | _ => false

/-- The flag that a modifier character stands for (0 for another
character). -/
def modifier_flag (c : Char) : Nat :=
  if c = SYSLOG_EXT_SPEC_DROP then SYSLOG_FIELD_FLAG_DROP
  else if c = SYSLOG_EXT_SPEC_NOTRIM then SYSLOG_FIELD_FLAG_NOTRIM
  else if c = SYSLOG_EXT_SPEC_NOVALIDATION then SYSLOG_FIELD_FLAG_NOVALIDATION
  else 0

/-- The flags that the modifier characters of a token stand for. -/
def modifier_flags : List Char → Nat
  | [] => 0
  | c :: modifiers => modifier_flag c ||| modifier_flags modifiers

/-! ## C library functions on strings held in a buffer

A buffer is the list of its characters, terminator included; a pointer into
it is an index. The functions below return `none` when the C function would
read beyond the end of the buffer. -/

/-- The string that starts at index `i` of `buf`: its characters before the
terminator. -/
def c_str (buf : List Char) (i : Nat) : Option (List Char) :=
  if NUL ∈ buf.drop i then some ((buf.drop i).takeWhile (fun c => c != NUL)) else none

/-- The `isspace` of `<ctype.h>` in the C locale. -/
def isspace (c : Char) : Bool :=
  c == ' ' || c == '\t' || c == '\n' || c == Char.ofNat 11 || c == Char.ofNat 12 || c == '\r'

/-- The scan of `strchr` over the characters from index `i` on. -/
def strchr_from : List Char → Char → Nat → Option (Option Nat)
  | [], _, _ => none
  | x :: xs, c, i =>
    if x = c then some (some i)
    else if x = NUL then some none
    else strchr_from xs c (i + 1)

/-- The `strchr` of `<string.h>`: the index of the first occurrence of `c` in
the string at `i` (the terminator is part of the string), `some none` for a
null pointer. -/
def strchr (buf : List Char) (i : Nat) (c : Char) : Option (Option Nat) :=
  strchr_from (buf.drop i) c i

/-- The scan of `strpbrk` over the characters from index `i` on. -/
def strpbrk_from : List Char → List Char → Nat → Option (Option Nat)
  | [], _, _ => none
  | x :: xs, accept, i =>
    if x = NUL then some none
    else if x ∈ accept then some (some i)
    else strpbrk_from xs accept (i + 1)

/-- The `strpbrk` of `<string.h>`. -/
def strpbrk (buf : List Char) (i : Nat) (accept : List Char) : Option (Option Nat) :=
  strpbrk_from (buf.drop i) accept i

/-- The `strcmp` of `<string.h>` on two strings given by their characters. -/
def strcmp : List Char → List Char → Int
  | [], [] => 0
  | [], y :: _ => - (y.toNat : Int)
  | x :: _, [] => (x.toNat : Int)
  | x :: xs, y :: ys => if x = y then strcmp xs ys else (x.toNat : Int) - (y.toNat : Int)

/-- The value of a digit of `strtol` / `strtoul`. -/
def digit_value (c : Char) : Option Nat :=
  if '0' ≤ c ∧ c ≤ '9' then some (c.toNat - '0'.toNat)
  else if 'a' ≤ c ∧ c ≤ 'z' then some (c.toNat - 'a'.toNat + 10)
  else if 'A' ≤ c ∧ c ≤ 'Z' then some (c.toNat - 'A'.toNat + 10)
  else none

/-- The value of the longest run of digits of `base` at the head of the
string, continuing from `acc`. -/
def strto_digits (base : Nat) : List Char → Nat → Nat
  | [], acc => acc
  | c :: cs, acc =>
    match digit_value c with
    | some d => if d < base then strto_digits base cs (acc * base + d) else acc
    | none => acc

/-- The subject sequence of `strtol` / `strtoul` with base 0: leading white
space, an optional sign, a "0x" / "0X" or "0" base indicator and the digits.
The result is the sign and the unbounded magnitude. -/
def strto_subject (s : List Char) : Bool × Nat :=
  let s := s.dropWhile isspace
  let signed : Bool × List Char :=
    match s with
    | '-' :: r => (true, r)
    | '+' :: r => (false, r)
    | _ => (false, s)
  match signed.2 with
  | '0' :: x :: r =>
    if x = 'x' ∨ x = 'X' then (signed.1, strto_digits 16 r 0)
    else (signed.1, strto_digits 8 (x :: r) 0)
  | _ => (signed.1, strto_digits 10 signed.2 0)

/-- The `strtol (s, NULL, 0)` of `<stdlib.h>` with a 64-bit `long`. -/
def strtol (s : List Char) : Int :=
  let r := strto_subject s
  if r.1 then (if r.2 > 2 ^ 63 then - (2 ^ 63 : Int) else - (r.2 : Int))
  else (if r.2 > 2 ^ 63 - 1 then (2 ^ 63 - 1 : Int) else (r.2 : Int))

/-- The `strtoul (s, NULL, 0)` of `<stdlib.h>` with a 64-bit `unsigned long`. -/
def strtoul (s : List Char) : Nat :=
  let r := strto_subject s
  if r.2 > 2 ^ 64 - 1 then 2 ^ 64 - 1
  else if r.1 then (2 ^ 64 - r.2) % 2 ^ 64
  else r.2

/-! ## The name tables of `<syslog.h>` and the validators -/

/-- The `CODE` structure of `<sys/syslog.h>`; a null `c_name` ends a table. -/
structure CODE where
  c_name : Option (List Char)
  c_val : Int
  deriving DecidableEq, Repr

/-- Modelled from the spec: the priority name table `prioritynames` of the
system header `<sys/syslog.h>` (glibc), which the repository includes and
does not contain. -/
def prioritynames : List CODE :=
  [ ⟨some "alert".toList, 1⟩, ⟨some "crit".toList, 2⟩, ⟨some "debug".toList, 7⟩,
    ⟨some "emerg".toList, 0⟩, ⟨some "err".toList, 3⟩, ⟨some "error".toList, 3⟩,
    ⟨some "info".toList, 6⟩, ⟨some "none".toList, 16⟩, ⟨some "notice".toList, 5⟩,
    ⟨some "panic".toList, 0⟩, ⟨some "warn".toList, 4⟩, ⟨some "warning".toList, 4⟩,
    ⟨none, -1⟩ ]

/-- Modelled from the spec: the facility name table `facilitynames` of the
system header `<sys/syslog.h>` (glibc), which the repository includes and
does not contain. -/
def facilitynames : List CODE :=
  [ ⟨some "auth".toList, 32⟩, ⟨some "authpriv".toList, 80⟩, ⟨some "cron".toList, 72⟩,
    ⟨some "daemon".toList, 24⟩, ⟨some "ftp".toList, 88⟩, ⟨some "kern".toList, 0⟩,
    ⟨some "lpr".toList, 48⟩, ⟨some "mail".toList, 16⟩, ⟨some "mark".toList, 192⟩,
    ⟨some "news".toList, 56⟩, ⟨some "security".toList, 32⟩, ⟨some "syslog".toList, 40⟩,
    ⟨some "user".toList, 8⟩, ⟨some "uucp".toList, 64⟩,
    ⟨some "local0".toList, 128⟩, ⟨some "local1".toList, 136⟩, ⟨some "local2".toList, 144⟩,
    ⟨some "local3".toList, 152⟩, ⟨some "local4".toList, 160⟩, ⟨some "local5".toList, 168⟩,
    ⟨some "local6".toList, 176⟩, ⟨some "local7".toList, 184⟩,
    ⟨none, -1⟩ ]

/-- Checks for the presence of the specified name in the array of the CODE
items: the found item, or `none` for a null pointer. -/
def find_syslog_name : List CODE → List Char → Option CODE
  | [], _ => none
  | c :: code, name =>
    match c.c_name with
    | none => none
    | some c_name => if strcmp name c_name = 0 then some c else find_syslog_name code name

/-- Validate syslog facility name in the syslog entry field value. The result
is `none` when the assertion on the field kind fails or the value is not a
string of the buffer. -/
def validate_facility (line : List Char) (field : syslog_field_t) : Option Int :=
  if field.info.id ≠ SYSLOG_FIELD_ID_FACILITY then none
  else
    match c_str line field.value.string with
    | none => none
    | some name =>
      if (find_syslog_name facilitynames name).isSome then some 0 else some (-EINVAL)

/-- Validate syslog priority name in the syslog entry field value. The result
is `none` when the assertion on the field kind fails or the value is not a
string of the buffer. -/
def validate_priority (line : List Char) (field : syslog_field_t) : Option Int :=
  if field.info.id ≠ SYSLOG_FIELD_ID_PRIORITY then none
  else
    match c_str line field.value.string with
    | none => none
    | some name =>
      if (find_syslog_name prioritynames name).isSome then some 0 else some (-EINVAL)

/-- The call through the `validator` function pointer. -/
def validator_t.call : validator_t → List Char → syslog_field_t → Option Int
  | validator_t.validate_facility => SyslogFc.validate_facility
  | validator_t.validate_priority => SyslogFc.validate_priority

/-! ## The line decoder -/

/-- The members of the global `config` that the decoder and the renderers
read (`output_fmt`, a table of callbacks, is left out). -/
structure config_t where
  is_stdin : Int := 0
  input_filename : Option (List Char) := none
  entry_spec : List Char := default_entry_spec
  ts_parse_spec : List Char := default_ts_parse_spec
  ts_output_spec : List Char := []
  csv_delimeter : List Char := [',']
  html_class_prefix : List Char := "syslog-".toList
  html_cell_classes : Int := 0

/-- The `default_config` of `main.c`, copied to `config` at program start. -/
def default_config : config_t := {}

/-- The time functions of the C library that the decoder calls.

* `strptime s format t` is the call `strptime (s, format, &t)` on the string
  with characters `s`: the number of characters of `s` before the returned
  pointer (`none` for a null pointer) and the structure as the call leaves
  it.
* `timelocal t` is the call `timelocal (&t)`: the normalized structure and
  the returned `time_t`. -/
structure time_functions where
  strptime : List Char → List Char → tm → Option Nat × tm
  timelocal : tm → tm × Int

/-- The state that decoding a line threads through the descriptors: the line
buffer, the cursor `*data` (`none` is a null pointer) and the messages written
to `stderr`. -/
structure parse_state where
  line : List Char
  data : Option Nat
  stderr : List String := []
  deriving DecidableEq, Repr

/-- The scan of `strskipspaces` over the characters from index `i` on. -/
def strskipspaces_from : List Char → Nat → Option Nat
  | [], _ => none
  | x :: xs, i => if isspace x then strskipspaces_from xs (i + 1) else some i

/-- Skip spaces at beginning of string. -/
def strskipspaces (buf : List Char) (p : Nat) : Option Nat :=
  strskipspaces_from (buf.drop p) p

/-- Timestamp parsing. -/
def parse_timestamp (tf : time_functions) (config : config_t) (st : parse_state)
    (field : syslog_field_t) : Option (Int × parse_state × syslog_field_t) :=
  match st.data with
  | none => none
  | some data =>
    match c_str st.line data with
    | none => none
    | some s =>
      let r := tf.strptime s config.ts_parse_spec field.value.time_timestamp
      match r.1 with
      | some n =>
        let tl := tf.timelocal r.2
        some (0, { st with data := some (data + n) },
          { field with value := { field.value with
              time_timestamp := tl.1, time_unixtime := (tl.2 % 2 ^ 64).toNat } })
      | none =>
        some (-EILSEQ, { st with data := none },
          { field with value := { field.value with time_timestamp := r.2 } })

/-- String parsing. -/
def parse_string (st : parse_state) (field : syslog_field_t) :
    Option (Int × parse_state × syslog_field_t) :=
  match st.data with
  | none => none
  | some data =>
    let skipped :=
      if field.flags &&& SYSLOG_FIELD_FLAG_NOTRIM ≠ 0 then strskipspaces st.line data
      else some data
    match skipped with
    | none => none
    | some p0 =>
      match strchr st.line p0 field.parse_stop_char with
      | none => none
      | some none => some (-EILSEQ, st, field)
      | some (some p) =>
        let line := st.line.set p NUL
        let field := { field with value := { field.value with string := data } }
        match strpbrk line field.value.string ['\r', '\n'] with
        | none => none
        | some none => some (0, { st with line := line, data := some (p + 1) }, field)
        | some (some q) =>
          some (0, { st with line := line.set q NUL, data := some (p + 1) }, field)

/-- Integer parsing. -/
def parse_integer (st : parse_state) (field : syslog_field_t) :
    Option (Int × parse_state × syslog_field_t) :=
  match parse_string st field with
  | none => none
  | some (ret, st1, field1) =>
    if ret = 0 then
      match c_str st1.line field1.value.string with
      | none => none
      | some s => some (ret, st1, { field1 with value := { field1.value with integer := strtol s } })
    else some (ret, st1, field1)

/-- Unsigned integer parsing. -/
def parse_uinteger (st : parse_state) (field : syslog_field_t) :
    Option (Int × parse_state × syslog_field_t) :=
  match parse_string st field with
  | none => none
  | some (ret, st1, field1) =>
    if ret = 0 then
      match c_str st1.line field1.value.string with
      | none => none
      | some s =>
        some (ret, st1, { field1 with value := { field1.value with uinteger := strtoul s } })
    else some (ret, st1, field1)

/-- The message of the first `fprintf` of `syslog_entry_field_parse`. -/
def msg_failed_to_parse (line_n : Nat) (param_name : String) (ret : Int) : String :=
  "line " ++ toString line_n ++ ": Failed to parse '" ++ param_name ++ "' field ("
    ++ toString ret ++ ")\n"

/-- The message of the second `fprintf` of `syslog_entry_field_parse`. -/
def msg_invalid_value (line_n : Nat) (param_name : String) (ret : Int) : String :=
  "line " ++ toString line_n ++ ": Readed invalid value for field '" ++ param_name ++ "' ("
    ++ toString ret ++ ")\n"

/-- Lines 473-486 of `syslog_entry_field_parse`: the start character and the
leading spaces. `some none` is the return on a start character that is not
found. -/
def field_parse_start (st : parse_state) (field : syslog_field_t) : Option (Option Nat) :=
  match st.data with
  | none => none
  | some data =>
    let started : Option (Option Nat) :=
      if field.parse_start_char ≠ NUL then
        match strchr st.line data field.parse_start_char with
        | none => none
        | some none => some none
        | some (some p) => some (some (p + 1))
      else some (some data)
    match started with
    | none => none
    | some none => some none
    | some (some data1) =>
      if field.flags &&& SYSLOG_FIELD_FLAG_NOTRIM = 0 then
        match strskipspaces st.line data1 with
        | none => none
        | some data2 => some (some data2)
      else some (some data1)

/-- Lines 488-509 of `syslog_entry_field_parse`: the `switch` on the type. -/
def field_parse_value (tf : time_functions) (config : config_t) (st : parse_state)
    (field : syslog_field_t) : Option (Int × parse_state × syslog_field_t) :=
  match field.info.type with
  | SYSLOG_FIELD_TYPE_TIME => parse_timestamp tf config st field
  | SYSLOG_FIELD_TYPE_STRING => parse_string st field
  | SYSLOG_FIELD_TYPE_INTEGER => parse_integer st field
  | SYSLOG_FIELD_TYPE_UINTEGER => parse_uinteger st field

/-- Lines 511-537 of `syslog_entry_field_parse`: the report of a failed
conversion and the validation of the parsed value. -/
def field_parse_finish (line_n : Nat) (ret : Int) (st : parse_state) (field : syslog_field_t) :
    Option (Int × parse_state × syslog_field_t) :=
  if ret ≠ 0 then
    some (ret,
      { st with stderr := st.stderr ++ [msg_failed_to_parse line_n field.info.param_name ret] },
      field)
  else if field.flags &&& SYSLOG_FIELD_FLAG_NOVALIDATION = 0 then
    match field.info.validator with
    | none => some (0, st, field)
    | some validator =>
      match validator.call st.line field with
      | none => none
      | some ret =>
        if ret ≠ 0 then
          some (ret,
            { st with stderr :=
                st.stderr ++ [msg_invalid_value line_n field.info.param_name ret] },
            field)
        else some (0, st, field)
  else some (0, st, field)

/-- Syslog entry field parsing function. -/
def syslog_entry_field_parse (tf : time_functions) (config : config_t) (line_n : Nat)
    (st : parse_state) (field : syslog_field_t) :
    Option (Int × parse_state × syslog_field_t) :=
  match field_parse_start st field with
  | none => none
  | some none => some (-EILSEQ, { st with data := none }, field)
  | some (some data) =>
    match field_parse_value tf config { st with data := some data } field with
    | none => none
    | some (ret, st1, field1) => field_parse_finish line_n ret st1 field1

/-- The loop of `syslog_entry_parse` over the fields from `field` on. -/
def parse_fields (tf : time_functions) (config : config_t) (line_n : Nat) :
    parse_state → List syslog_field_t → Option (Int × parse_state × List syslog_field_t)
  | st, [] => some (0, st, [])
  | st, field :: next =>
    match syslog_entry_field_parse tf config line_n st field with
    | none => none
    | some (ret, st1, field1) =>
      if ret ≠ 0 then some (ret, st1, field1 :: next)
      else
        match parse_fields tf config line_n st1 next with
        | none => none
        | some (ret2, st2, next2) => some (ret2, st2, field1 :: next2)

/-- Syslog entry line parsing function: the return code, the state of the
line buffer and of `stderr` after the call, and the entry with the values the
call has stored. -/
def syslog_entry_parse (tf : time_functions) (config : config_t) (entry : syslog_entry_t)
    (line_n : Nat) (line : List Char) : Option (Int × parse_state × syslog_entry_t) :=
  match parse_fields tf config line_n { line := line, data := some 0 } entry.fields with
  | none => none
  | some (ret, st, fields) => some (ret, st, { entry with fields := fields })

/-- The characters of the string a String field holds after decoding. -/
def field_string (st : parse_state) (field : syslog_field_t) : Option (List Char) :=
  c_str st.line field.value.string

/-- Two fields that differ at most in their values: the same descriptor. -/
def same_descriptor (f1 f : syslog_field_t) : Prop :=
  f1.info = f.info ∧ f1.flags = f.flags ∧ f1.parse_start_char = f.parse_start_char ∧
    f1.parse_stop_char = f.parse_stop_char

/-! ## A model of the time functions

The decoder is parametric in `time_functions`. The instance below follows
the `strptime` of glibc in the C locale for white space, ordinary characters
and the conversions `%%`, `%a`, `%A`, `%b`, `%B`, `%h`, `%d`, `%e`, `%H`,
`%M`, `%S` and `%Y`, and `timelocal` for the time zone UTC. -/

/-- Full weekday names of the C locale, Sunday first. -/
def weekday_name : List (List Char) :=
  ["Sunday", "Monday", "Tuesday", "Wednesday", "Thursday", "Friday", "Saturday"].map
    String.toList

/-- Full month names of the C locale. -/
def month_name : List (List Char) :=
  ["January", "February", "March", "April", "May", "June", "July", "August", "September",
    "October", "November", "December"].map String.toList

/-- The `match_string` of `strptime`: the input after `name`, compared without
regard to case. -/
def match_string : List Char → List Char → Option (List Char)
  | [], rp => some rp
  | _ :: _, [] => none
  | c :: name, r :: rp => if c.toLower = r.toLower then match_string name rp else none

/-- The first name of the table, counted from `cnt`, that the input starts
with, in full or abbreviated to three letters: its index and the input after
it. -/
def match_names : List (List Char) → Nat → List Char → Option (Nat × List Char)
  | [], _, _ => none
  | name :: names, cnt, rp =>
    match match_string name rp with
    | some rest => some (cnt, rest)
    | none =>
      match match_string (name.take 3) rp with
      | some rest => some (cnt, rest)
      | none => match_names names (cnt + 1) rp

/-- The digits that `get_number` reads after the first one: at most `n` more,
while ten times the value does not exceed `hi`. -/
def get_number_digits (hi : Nat) : Nat → List Char → Nat → Nat × List Char
  | 0, rp, val => (val, rp)
  | _ + 1, [], val => (val, [])
  | n + 1, c :: rp, val =>
    if val * 10 ≤ hi ∧ c.isDigit then get_number_digits hi n rp (val * 10 + (c.toNat - 48))
    else (val, c :: rp)

/-- The `get_number (lo, hi, n)` of `strptime`: spaces are skipped, then up to
`n` digits are read; the value has to lie between `lo` and `hi`. -/
def get_number (lo hi n : Nat) (rp : List Char) : Option (Nat × List Char) :=
  match rp.dropWhile (fun c => c == ' ') with
  | [] => none
  | c :: rest =>
    if c.isDigit then
      let r := get_number_digits hi (n - 1) rest (c.toNat - 48)
      if r.1 < lo ∨ r.1 > hi then none else some r
    else none

/-- The scan of `strptime` over the format: the input that is left (`none`
for a null pointer) and the structure. A conversion outside the modelled ones
ends the scan with a null pointer. -/
def strptime_scan : List Char → List Char → tm → Option (List Char) × tm
  | [], rp, t => (some rp, t)
  | '%' :: c :: fmt, rp, t =>
    if c = '%' then
      match rp with
      | r :: rp1 => if r = '%' then strptime_scan fmt rp1 t else (none, t)
      | [] => (none, t)
    else if c = 'a' ∨ c = 'A' then
      match match_names weekday_name 0 rp with
      | some (cnt, rp1) => strptime_scan fmt rp1 { t with tm_wday := cnt }
      | none => (none, t)
    else if c = 'b' ∨ c = 'B' ∨ c = 'h' then
      match match_names month_name 0 rp with
      | some (cnt, rp1) => strptime_scan fmt rp1 { t with tm_mon := cnt }
      | none => (none, t)
    else if c = 'd' ∨ c = 'e' then
      match get_number 1 31 2 rp with
      | some (val, rp1) => strptime_scan fmt rp1 { t with tm_mday := val }
      | none => (none, t)
    else if c = 'H' then
      match get_number 0 23 2 rp with
      | some (val, rp1) => strptime_scan fmt rp1 { t with tm_hour := val }
      | none => (none, t)
    else if c = 'M' then
      match get_number 0 59 2 rp with
      | some (val, rp1) => strptime_scan fmt rp1 { t with tm_min := val }
      | none => (none, t)
    else if c = 'S' then
      match get_number 0 61 2 rp with
      | some (val, rp1) => strptime_scan fmt rp1 { t with tm_sec := val }
      | none => (none, t)
    else if c = 'Y' then
      match get_number 0 9999 4 rp with
      | some (val, rp1) => strptime_scan fmt rp1 { t with tm_year := (val : Int) - 1900 }
      | none => (none, t)
    else (none, t)
  | c :: fmt, rp, t =>
    if c = '%' then (none, t)
    else if isspace c then strptime_scan fmt (rp.dropWhile isspace) t
    else
      match rp with
      | r :: rp1 => if r = c then strptime_scan fmt rp1 t else (none, t)
      | [] => (none, t)

/-- The model of `strptime (s, format, &t)`. The members `tm_wday` and
`tm_yday` that glibc derives from a complete date are not derived here;
`timelocal` does not read them and recomputes both. -/
def strptime_model (s format : List Char) (t : tm) : Option Nat × tm :=
  let r := strptime_scan format s t
  (r.1.map (fun rest => s.length - rest.length), r.2)

/-- Days from 1970-01-01 to the first day of month `m` (0 to 11) of year `y`
in the proleptic Gregorian calendar. -/
def days_from_civil (y m : Int) : Int :=
  let y1 := if m < 2 then y - 1 else y
  let era := y1 / 400
  let yoe := y1 - era * 400
  let mp := (m + 10) % 12
  let doy := (153 * mp + 2) / 5
  let doe := yoe * 365 + yoe / 4 - yoe / 100 + doy
  era * 146097 + doe - 719468

/-- The year, month (0 to 11) and day of month of the day `z` days after
1970-01-01. -/
def civil_from_days (z : Int) : Int × Int × Int :=
  let z1 := z + 719468
  let era := z1 / 146097
  let doe := z1 - era * 146097
  let yoe := (doe - doe / 1460 + doe / 36524 - doe / 146096) / 365
  let doy := doe - (365 * yoe + yoe / 4 - yoe / 100)
  let mp := (5 * doy + 2) / 153
  let d := doy - (153 * mp + 2) / 5 + 1
  let m := (mp + 2) % 12
  let y := yoe + era * 400 + (if m < 2 then 1 else 0)
  (y, m, d)

/-- The model of `timelocal (&t)` for the time zone UTC: the seconds since the
epoch of the calendar time of `t`, whose members may lie outside their
ranges, and the normalized structure. -/
def timelocal_utc (t : tm) : tm × Int :=
  let y := t.tm_year + 1900 + t.tm_mon / 12
  let m := t.tm_mon % 12
  let days := days_from_civil y m + (t.tm_mday - 1)
  let secs := ((days * 24 + t.tm_hour) * 60 + t.tm_min) * 60 + t.tm_sec
  let day := secs / 86400
  let rem := secs % 86400
  let ymd := civil_from_days day
  ({ tm_sec := rem % 60, tm_min := rem / 60 % 60, tm_hour := rem / 3600,
     tm_mday := ymd.2.2, tm_mon := ymd.2.1, tm_year := ymd.1 - 1900,
     tm_wday := (day + 4) % 7, tm_yday := day - days_from_civil ymd.1 0,
     tm_isdst := 0 }, secs)

/-- The modelled `strptime` with the `timelocal` of the time zone UTC. -/
def utc_time_functions : time_functions :=
  { strptime := strptime_model, timelocal := timelocal_utc }

/-! ## `main.c`: `convert_syslog` -/

/-- The largest value of an `unsigned int`. -/
def UINT_MAX : Nat := 4294967295

/-- Output format data structure. A callback is a C function that returns
nothing: it acts on the world outside `convert_syslog` (the standard output),
of type `σ` here, and it reads the strings of the entry where the entry points
to, in the line buffer, which it gets here as its second argument. -/
structure output_fmt_t (σ : Type) where
  name : String
  description : String
  fn_output_start : Option (syslog_entry_t → List Char → σ → σ)
  fn_output_entry : Option (syslog_entry_t → List Char → σ → σ)
  fn_output_end : Option (syslog_entry_t → List Char → σ → σ)

/-- The call `if (fn) fn (&entry)` on a callback of an output format. -/
def call_output {σ : Type} (fn : Option (syslog_entry_t → List Char → σ → σ))
    (entry : syslog_entry_t) (buffer : List Char) (out : σ) : σ :=
  match fn with
  | some f => f entry buffer out
  | none => out

/-- The characters that `fgets` takes from a stream when the buffer has room
for `room` of them before the terminator, and the rest of the stream. A
stream is the list of the characters that have not been read. -/
def fgets_chars : Nat → List Char → List Char × List Char
  | 0, stream => ([], stream)
  | _ + 1, [] => ([], [])
  | room + 1, c :: stream =>
    if c = '\n' then ([c], stream)
    else (c :: (fgets_chars room stream).1, (fgets_chars room stream).2)

/-- The call `fgets (s, n, stream)`: the string stored at `s` (`none` when a
null pointer is returned and nothing is stored) and the rest of the stream. A
null pointer is returned at the end of the stream, and for `n = 0`; for
`n = 1` the empty string is stored. -/
def fgets (n : Nat) (stream : List Char) : Option (List Char) × List Char :=
  if n = 0 then (none, stream)
  else if n = 1 then (some [], stream)
  else if (fgets_chars (n - 1) stream).1 = [] then (none, stream)
  else (some (fgets_chars (n - 1) stream).1, (fgets_chars (n - 1) stream).2)

/-- The call `strlen (s)` on the characters stored before a terminator. -/
def strlen (s : List Char) : Nat :=
  (s.takeWhile (fun c => c != NUL)).length

/-- How the inner loop of `convert_syslog` ends: by a `break`, with the
buffer, its size, `line_len` and the rest of the stream, or at the `return`
on the limit of the buffer size. -/
inductive read_result where
  | line (buffer : List Char) (buffer_size line_len : Nat) (input : List Char)
  | limit
  deriving DecidableEq, Repr

/-- The message on the limit of the buffer size. -/
def msg_buffer_limit (line_n MAX : Nat) : String :=
  "line " ++ toString line_n ++ ": Line buffer size limit (" ++ toString MAX ++ ") reached\n"

/-- The message on a failure of `syslog_entry_init`. -/
def msg_init_failed (ret : Int) : String :=
  "Syslog entry initialization failed (" ++ toString ret ++ ")\n"

/-- The inner loop of `convert_syslog`, which reads a line in pieces into
the buffer. `S` is `SYSLOG_BUFFER_SIZE` and `MAX` is `SYSLOG_MAX_BUFFER_SIZE`
(the header that defines them is not among the sources). The buffer holds the
characters that have been stored in it; `realloc` is taken to succeed. The
first argument bounds the number of iterations: the outer `none` is the
result when the bound is reached, the inner `none` is the result of the read
of `buffer[line_len - 1]` with `line_len = 0`. -/
def read_loop (S MAX : Nat) :
    Nat → List Char → Nat → Nat → Nat → List Char → Option (Option read_result)
  | 0, _, _, _, _, _ => none
  | fuel + 1, buffer, buffer_size, buffer_offset, line_len, input =>
    match fgets (buffer_size - buffer_offset) input with
    | (none, input) => some (some (.line buffer buffer_size line_len input))
    | (some line, input) =>
      let buffer := buffer.take buffer_offset ++ line ++ [NUL]
      let line_len := line_len + strlen line
      if line_len = 0 then some none
      else
        match buffer.get? (line_len - 1) with
        | none => some none
        | some c =>
          if c = '\r' ∨ c = '\n' then some (some (.line buffer buffer_size line_len input))
          else if buffer_size + S > MAX then some (some .limit)
          else read_loop S MAX fuel buffer (buffer_size + S) line_len line_len input

/-- The local variables of `convert_syslog` that live across the iterations
of its outer loop, with the state of the standard output and the messages
written to `stderr`. -/
structure convert_locals (σ : Type) where
  entry : syslog_entry_t
  buffer : List Char
  buffer_size : Nat
  parsed_n : Nat
  line_n : Nat
  out : σ
  stderr : List String

/-- How one pass through the body of the outer loop of `convert_syslog`
ends: at the end of the body, by the `break` at the end of the input, or by a
`return`. -/
inductive pass_result (σ : Type) where
  | next (locals : convert_locals σ) (input : List Char)
  | eof (locals : convert_locals σ)
  | ret (code : Int) (locals : convert_locals σ)

/-- One pass through the body of the outer loop of `convert_syslog`. The
outer `none` is an inner loop that has not ended within `MAX + 1` iterations,
the inner `none` is an undefined result. -/
def convert_pass {σ : Type} (tf : time_functions) (config : config_t)
    (output_fmt : output_fmt_t σ) (S MAX : Nat) (v : convert_locals σ) (input : List Char) :
    Option (Option (pass_result σ)) :=
  let line_n := (v.line_n + 1) % (UINT_MAX + 1)
  match read_loop S MAX (MAX + 1) v.buffer v.buffer_size 0 0 input with
  | none => none
  | some none => some none
  | some (some .limit) =>
    some (some (.ret (-EINVAL)
      { v with line_n := line_n, stderr := v.stderr ++ [msg_buffer_limit line_n MAX] }))
  | some (some (.line buffer buffer_size line_len input)) =>
    if line_len = 0 then
      some (some (.eof { v with line_n := line_n, buffer := buffer, buffer_size := buffer_size }))
    else
      match syslog_entry_parse tf config v.entry line_n buffer with
      | none => some none
      | some (status, st, entry) =>
        if status = 0 then
          let parsed_n := (v.parsed_n + 1) % (UINT_MAX + 1)
          let entry := { entry with num := parsed_n }
          some (some (.next
            { entry := entry, buffer := st.line, buffer_size := buffer_size,
              parsed_n := parsed_n, line_n := line_n,
              out := call_output output_fmt.fn_output_entry entry st.line v.out,
              stderr := v.stderr ++ st.stderr } input))
        else
          some (some (.next
            { entry := entry, buffer := st.line, buffer_size := buffer_size,
              parsed_n := v.parsed_n, line_n := line_n,
              out := v.out, stderr := v.stderr ++ st.stderr } input))

/-- The outer loop of `convert_syslog` and the statements after it: the
return code, the standard output and the messages on `stderr`. The first
argument bounds the number of passes; the outer `none` is the result when a
bound is reached, the inner `none` is an undefined result. -/
def convert_loop {σ : Type} (tf : time_functions) (config : config_t)
    (output_fmt : output_fmt_t σ) (S MAX : Nat) :
    Nat → convert_locals σ → List Char → Option (Option (Int × σ × List String))
  | 0, _, _ => none
  | fuel + 1, v, input =>
    match convert_pass tf config output_fmt S MAX v input with
    | none => none
    | some none => some none
    | some (some (.ret code v1)) => some (some (code, v1.out, v1.stderr))
    | some (some (.eof v1)) =>
      some (some (0, call_output output_fmt.fn_output_end v1.entry v1.buffer v1.out, v1.stderr))
    | some (some (.next v1 input1)) => convert_loop tf config output_fmt S MAX fuel v1 input1

/-- Convert syslog file into other text format: the return code, the
standard output as the callbacks of `output_fmt` leave it, and the messages
written to `stderr`. `input` is the stream, `out` is the standard output
before the call. The result is `none` when that of the C function is not
defined. -/
def convert_syslog {σ : Type} (tf : time_functions) (config : config_t)
    (output_fmt : output_fmt_t σ) (S MAX : Nat) (input : List Char) (out : σ) :
    Option (Int × σ × List String) :=
  match syslog_entry_init config.entry_spec with
  | none => none
  | some (ret, entry) =>
    if ret ≠ 0 then some (ret, out, [msg_init_failed ret])
    else
      (convert_loop tf config output_fmt S MAX (input.length + 1)
        { entry := entry, buffer := [], buffer_size := S, parsed_n := 0, line_n := 0,
          out := call_output output_fmt.fn_output_start entry [] out, stderr := [] }
        input).join

/-- A call of a callback of an output format, with the entry and the line
buffer at the call. -/
inductive output_call where
  | output_start (entry : syslog_entry_t) (buffer : List Char)
  | output_entry (entry : syslog_entry_t) (buffer : List Char)
  | output_end (entry : syslog_entry_t) (buffer : List Char)
  deriving DecidableEq, Repr

/-- The ordinal of the entry a call passes to the entry callback. -/
def output_call.entry_num : output_call → Option Nat
  | .output_entry entry _ => some entry.num
  | _ => none

/-- An output format whose callbacks write down that they are called, and
with what. -/
def call_recorder : output_fmt_t (List output_call) :=
  { name := "calls", description := "The calls of the callbacks",
    fn_output_start := some (fun entry buffer out => out ++ [.output_start entry buffer]),
    fn_output_entry := some (fun entry buffer out => out ++ [.output_entry entry buffer]),
    fn_output_end := some (fun entry buffer out => out ++ [.output_end entry buffer]) }

/-- The fields decode one after the other:
`decodes_in_sequence tf config line_n st fields st1 fields1` holds when the
field parse of every descriptor of `fields`, in order, returns 0, each from
the state that the one before it leaves; `st1` is the state after the last of
them and `fields1` are the descriptors with the values stored. -/
inductive decodes_in_sequence (tf : time_functions) (config : config_t) (line_n : Nat) :
    parse_state → List syslog_field_t → parse_state → List syslog_field_t → Prop where
  | nil (st : parse_state) : decodes_in_sequence tf config line_n st [] st []
  | cons {st st1 st2 : parse_state} {field field1 : syslog_field_t}
      {fields fields1 : List syslog_field_t} :
      syslog_entry_field_parse tf config line_n st field = some (0, st1, field1) →
      decodes_in_sequence tf config line_n st1 fields st2 fields1 →
      decodes_in_sequence tf config line_n st (field :: fields) st2 (field1 :: fields1)

/-- The buffer `after` is the buffer `before` with terminators written over
some of its characters: both have the same length, and a position of `after`
holds the character that it holds in `before`, or it holds the terminator and
in `before` it holds a CR, an LF, the terminator or the stop character of one
of `fields`. -/
def overwritten_with_terminators (fields : List syslog_field_t) (before after : List Char) :
    Prop :=
  after.length = before.length ∧
  ∀ i : Nat, after[i]? = before[i]? ∨
    (after[i]? = some NUL ∧ ∃ c, before[i]? = some c ∧
      (c = '\r' ∨ c = '\n' ∨ c = NUL ∨ ∃ f ∈ fields, c = f.parse_stop_char))

/-- The character is a digit of the base: a decimal digit or a letter, of
either case, whose value is less than `base`. -/
def is_digit_of (base : Nat) (c : Char) : Bool :=
  match digit_value c with
  | some d => decide (d < base)
  | none => false

/-- The number that a sequence of digits denotes in the base, continuing from
`acc`. -/
def digits_value_from (base : Nat) : List Char → Nat → Nat
  | [], acc => acc
  | c :: cs, acc => digits_value_from base cs (acc * base + (digit_value c).getD 0)

/-- The number that a sequence of digits denotes in the base. -/
def digits_value (base : Nat) (digits : List Char) : Nat :=
  digits_value_from base digits 0

/-- The largest value of a `long` of 64 bits. -/
def LONG_MAX : Int := 2 ^ 63 - 1

/-! ## The scan of `syslog_entry_init` token by token

The passes of the scan loop grouped by the tokens of the specification, and
what the tokens say about the descriptors; `init_scan` is proved to be the
scan over the tokens. -/

/-- The passes of the scan loop of `syslog_entry_init` over one token, from
the head of the loop at the first character of the token to the head of the
loop after its last character: the locals there (`Except.ok`) or the return
of the function (`Except.error`). The result is `none` when the loop
increment moves `p` beyond the terminator. -/
def init_token (st : init_locals) :
    spec_token → Option (Except (Int × syslog_entry_t) init_locals)
  | spec_token.literal c => some (.ok (init_literal st c))
  | spec_token.token modifiers ch =>
    if last_stop_unset st.entry.fields then some (.error (-EINVAL, st.entry))
    else some (init_specifier { st with flags := st.flags ||| modifier_flags modifiers } ch)
  | spec_token.unterminated modifiers =>
    if last_stop_unset st.entry.fields then some (.error (-EINVAL, st.entry))
    else
      match init_specifier { st with flags := st.flags ||| modifier_flags modifiers } NUL with
      | .error r => some (.error r)
      | .ok _ => none

/-- The scan loop of `syslog_entry_init` over a sequence of tokens: the locals
at the terminator or the return of the function before it. -/
def init_tokens :
    init_locals → List spec_token → Option (Except (Int × syslog_entry_t) init_locals)
  | st, [] => some (.ok st)
  | st, t :: ts =>
    match init_token st t with
    | none => none
    | some (.error r) => some (.error r)
    | some (.ok st1) => init_tokens st1 ts

/-- The return of `syslog_entry_init`: the `return` inside the loop, or the
`return 0` after it. -/
def init_return : Except (Int × syslog_entry_t) init_locals → Int × syslog_entry_t
  | .error r => r
  | .ok st => (0, st.entry)

/-- The letter is the `spec` of a record of the registry. -/
def registered (letter : Char) : Bool :=
  (syslog_field_info.find? (fun info => letter == info.spec)).isSome

/-- The token makes the scan append a descriptor: a `%<modifiers><c>` token
whose letter is registered, or any such token once a descriptor has been
appended (`seen`). -/
def spec_token.makes_descriptor (seen : Bool) : spec_token → Bool
  | spec_token.token _ c => seen || registered c
  | _ => false

/-- The tokens that make the scan append a descriptor, in order. -/
def descriptor_tokens : Bool → List spec_token → List spec_token
  | _, [] => []
  | seen, t :: ts =>
    if t.makes_descriptor seen then t :: descriptor_tokens true ts
    else descriptor_tokens seen ts

/-- The flags of the modifiers written in the token. -/
def spec_token.modifier_flags : spec_token → Nat
  | spec_token.token modifiers _ => SyslogFc.modifier_flags modifiers
  | spec_token.unterminated modifiers => SyslogFc.modifier_flags modifiers
  | spec_token.literal _ => 0

/-- The flags of the modifiers of all the tokens up to and including the first
one that makes a descriptor. -/
def flags_up_to_first_descriptor : List spec_token → Nat
  | [] => 0
  | t :: ts =>
    if t.makes_descriptor false then t.modifier_flags
    else t.modifier_flags ||| flags_up_to_first_descriptor ts

/-! ## The renderers

A callback of a renderer writes to the standard output and returns nothing;
below it is the text that it writes, `none` when it reads a string beyond the
end of the line buffer. `strftime format t` is the content of the buffer after
the call `strftime (buffer, sizeof (buffer), format, &t)`. -/

/-- The text of `printf ("%lu", n)`. -/
def print_lu (n : Nat) : List Char := (Nat.repr n).toList

/-- The text of `printf ("%ld", n)`. -/
def print_ld (n : Int) : List Char := (toString n).toList

/-- Get the formatted time of a Time-typed field: the content of the static
buffer that the function returns. -/
def syslog_field_time_fmt (strftime : List Char → tm → List Char) (config : config_t)
    (field : syslog_field_t) : List Char :=
  if config.ts_output_spec ≠ [] then
    strftime config.ts_output_spec field.value.time_timestamp
  else
    (print_lu field.value.time_unixtime).take 127

/-- The `switch (field->info->type)` with which every renderer writes the
value of a field: `time` is what the renderer does with the formatted time and
`string` what it does with the string of a String-typed field; the integers
are written with `printf`. -/
def output_value (strftime : List Char → tm → List Char) (config : config_t)
    (line : List Char) (field : syslog_field_t) (time string : List Char → List Char) :
    Option (List Char) :=
  match field.info.type with
  | SYSLOG_FIELD_TYPE_TIME => some (time (syslog_field_time_fmt strftime config field))
  | SYSLOG_FIELD_TYPE_INTEGER => some (print_ld field.value.integer)
  | SYSLOG_FIELD_TYPE_UINTEGER => some (print_lu field.value.uinteger)
  | SYSLOG_FIELD_TYPE_STRING => (c_str line field.value.string).map string

/-- The loop `for (field = entry->fields; field; field = field->next)` of a
renderer: a field with the Drop flag is skipped, for another one the body
writes `cell count field`, where `count` is the number of fields written
before it. -/
def output_fields (cell : Nat → syslog_field_t → Option (List Char)) :
    Nat → List syslog_field_t → Option (List Char)
  | _, [] => some []
  | count, field :: rest =>
    if field.flags &&& SYSLOG_FIELD_FLAG_DROP ≠ 0 then output_fields cell count rest
    else
      match cell count field, output_fields cell (count + 1) rest with
      | some text, some texts => some (text ++ texts)
      | _, _ => none

/-- The text of `printf ("%-10s", s)`. -/
def print_left_10 (s : List Char) : List Char :=
  s ++ List.replicate (10 - s.length) ' '

/-- The entry callback of the plain text renderer. -/
def fmt_plain_output_entry (strftime : List Char → tm → List Char) (config : config_t)
    (entry : syslog_entry_t) (line : List Char) : Option (List Char) :=
  (output_fields
    (fun _ field =>
      (output_value strftime config line field id id).map
        (fun value => print_left_10 field.info.human_name.toList ++ " : ".toList ++
          value ++ ['\n']))
    0 entry.fields).map (fun text => text ++ ['\n'])

/-- The start callback of the Markdown renderer. -/
def fmt_md_output_start (entry : syslog_entry_t) : Option (List Char) :=
  match output_fields (fun _ field => some ('|' :: field.info.human_name.toList)) 0
      entry.fields,
    output_fields (fun _ _ => some "|---".toList) 0 entry.fields with
  | some names, some rules => some (names ++ "|\n".toList ++ rules ++ "|\n".toList)
  | _, _ => none

/-- The string of a field as the Markdown and the AsciiDoc renderers write it:
that of the message between backquotes. -/
def output_string_quoted (field : syslog_field_t) (string : List Char) : List Char :=
  if field.info.id = SYSLOG_FIELD_ID_MESSAGE then "`".toList ++ string ++ "`".toList
  else string

/-- The entry callback of the Markdown renderer. -/
def fmt_md_output_entry (strftime : List Char → tm → List Char) (config : config_t)
    (entry : syslog_entry_t) (line : List Char) : Option (List Char) :=
  (output_fields
    (fun _ field =>
      (output_value strftime config line field id (output_string_quoted field)).map
        (fun value => '|' :: value))
    0 entry.fields).map (fun text => text ++ "|\n".toList)

/-- The characters of the string, each double quote doubled. -/
def fmt_csv_output_chars : List Char → List Char
  | [] => []
  | c :: p => (if c = '"' then ['"', '"'] else [c]) ++ fmt_csv_output_chars p

/-- The string between double quotes, each double quote of it doubled. -/
def fmt_csv_output_encoded (string : List Char) : List Char :=
  '"' :: fmt_csv_output_chars string ++ ['"']

/-- The start callback of the CSV renderer. -/
def fmt_csv_output_start (config : config_t) (entry : syslog_entry_t) :
    Option (List Char) :=
  (output_fields
    (fun count field =>
      some ((if count ≠ 0 then config.csv_delimeter else []) ++
        field.info.human_name.toList))
    0 entry.fields).map (fun text => text ++ ['\n'])

/-- The entry callback of the CSV renderer. -/
def fmt_csv_output_entry (strftime : List Char → tm → List Char) (config : config_t)
    (entry : syslog_entry_t) (line : List Char) : Option (List Char) :=
  (output_fields
    (fun count field =>
      (output_value strftime config line field fmt_csv_output_encoded
        fmt_csv_output_encoded).map
        (fun value => (if count ≠ 0 then config.csv_delimeter else []) ++ value))
    0 entry.fields).map (fun text => text ++ ['\n'])

/-- The string with the escapes of the JSON renderer. -/
def fmt_json_output_encoded : List Char → List Char
  | [] => []
  | c :: p =>
    (if c = Char.ofNat 8 then "\\b".toList
    else if c = Char.ofNat 12 then "\\f".toList
    else if c = '\n' then "\\n".toList
    else if c = '\r' then "\\r".toList
    else if c = '\t' then "\\t".toList
    else if c = '\\' then "\\\\".toList
    else if c = '"' then "\\\"".toList
    else if c = Char.ofNat 27 then "\\\\033".toList
    else [c]) ++ fmt_json_output_encoded p

/-- The start callback of the JSON renderer. -/
def fmt_json_output_start : Option (List Char) := some ['[']

/-- The entry callback of the JSON renderer. -/
def fmt_json_output_entry (strftime : List Char → tm → List Char) (config : config_t)
    (entry : syslog_entry_t) (line : List Char) : Option (List Char) :=
  (output_fields
    (fun count field =>
      (output_value strftime config line field
        (fun s => '"' :: fmt_json_output_encoded s ++ ['"'])
        (fun s => '"' :: fmt_json_output_encoded s ++ ['"'])).map
        (fun value => (if count > 0 then [','] else []) ++ '"' ::
          field.info.param_name.toList ++ "\":".toList ++ value))
    0 entry.fields).map
    (fun text => (if entry.num > 1 then [','] else []) ++ '\x7b' :: text ++ ['\x7d'])

/-- The end callback of the JSON renderer. -/
def fmt_json_output_end : Option (List Char) := some [']']

/-- The start callback of the AsciiDoc renderer. -/
def fmt_asciidoc_output_start (entry : syslog_entry_t) : Option (List Char) :=
  match
    output_fields
      (fun count field =>
        some ((if count ≠ 0 then [','] else []) ++
          (if field.info.id = SYSLOG_FIELD_ID_TIMESTAMP then "30".toList
          else if field.info.id = SYSLOG_FIELD_ID_MESSAGE then "70".toList
          else "1".toList)))
      0 entry.fields,
    output_fields (fun _ field => some ('|' :: field.info.human_name.toList ++ ['\n'])) 0
      entry.fields with
  | some cols, some names =>
    some ("[cols=\"".toList ++ cols ++ "\", options=\"header\"]\n".toList ++
      "|===\n".toList ++ names)
  | _, _ => none

/-- The end callback of the AsciiDoc renderer. -/
def fmt_asciidoc_output_stop : Option (List Char) := some "|===\n".toList

/-- The entry callback of the AsciiDoc renderer. -/
def fmt_asciidoc_output_entry (strftime : List Char → tm → List Char) (config : config_t)
    (entry : syslog_entry_t) (line : List Char) : Option (List Char) :=
  (output_fields
    (fun _ field =>
      (output_value strftime config line field id (output_string_quoted field)).map
        (fun value => '|' :: value ++ ['\n']))
    0 entry.fields).map (fun text => '\n' :: text)

/-- The opening tag that `fmt_html_open_tag` writes; `none` is a null
pointer. -/
def fmt_html_open_tag (tag : List Char) ( class_prefix class_name : Option (List Char)) :
    List Char :=
  match class_name with
  | some name =>
    '<' :: tag ++ " class=\"".toList ++ class_prefix.getD [] ++ name ++ "\">".toList
  | none => '<' :: tag ++ ['>']

/-- The closing tag that `fmt_html_close_tag` writes. -/
def fmt_html_close_tag (tag : List Char) : List Char :=
  "</".toList ++ tag ++ ['>']

/-- The string with the escapes of the HTML renderer. -/
def fmt_html_output_encoded : List Char → List Char
  | [] => []
  | c :: p =>
    (if c = '\n' then "<br />".toList
    else if c = '&' then "&amp;".toList
    else if c = '<' then "&lt;".toList
    else if c = '>' then "&gt;".toList
    else [c]) ++ fmt_html_output_encoded p

/-- The `tr_class` of `fmt_html_output_row`: the string of the first field of
kind Priority when the entry has an ordinal and the bit of the kind, a null
pointer (the inner `none`) otherwise. -/
def fmt_html_tr_class (entry : syslog_entry_t) (line : List Char) :
    Option (Option (List Char)) :=
  if entry.num ≠ 0 ∧ syslog_entry_has_field entry SYSLOG_FIELD_ID_PRIORITY ≠ 0 then
    match entry.fields.find? (fun field => field.info.id == SYSLOG_FIELD_ID_PRIORITY) with
    | some field => (c_str line field.value.string).map some
    | none => some none
  else some none

/-- The cell of a field in a row of the HTML table. -/
def fmt_html_output_cell (strftime : List Char → tm → List Char) (config : config_t)
    (html_cell_tag : List Char) (entry : syslog_entry_t) (line : List Char)
    (field : syslog_field_t) : Option (List Char) :=
  (if entry.num ≠ 0 then
    output_value strftime config line field fmt_html_output_encoded
      (fun s =>
        if field.info.id = SYSLOG_FIELD_ID_MESSAGE then
          fmt_html_open_tag "pre".toList none none ++ fmt_html_output_encoded s ++
            fmt_html_close_tag "pre".toList
        else fmt_html_output_encoded s)
  else some (fmt_html_output_encoded field.info.human_name.toList)).map
    (fun value =>
      fmt_html_open_tag html_cell_tag (some config.html_class_prefix)
          (if config.html_cell_classes ≠ 0 then some field.info.param_name.toList
           else none) ++
        value ++ fmt_html_close_tag html_cell_tag)

/-- A row of the HTML table: the heading row when the entry has no ordinal. -/
def fmt_html_output_row (strftime : List Char → tm → List Char) (config : config_t)
    (html_cell_tag : List Char) (entry : syslog_entry_t) (line : List Char) :
    Option (List Char) :=
  match fmt_html_tr_class entry line,
    output_fields (fun _ field =>
      fmt_html_output_cell strftime config html_cell_tag entry line field) 0
      entry.fields with
  | some tr_class, some cells =>
    some (fmt_html_open_tag "tr".toList (some config.html_class_prefix) tr_class ++ cells ++
      fmt_html_close_tag "tr".toList)
  | _, _ => none

/-- The start callback of the HTML renderer. -/
def fmt_html_output_start (strftime : List Char → tm → List Char) (config : config_t)
    (entry : syslog_entry_t) (line : List Char) : Option (List Char) :=
  (fmt_html_output_row strftime config "th".toList entry line).map
    (fun row =>
      fmt_html_open_tag "table".toList (some config.html_class_prefix)
          (some "table".toList) ++
        fmt_html_open_tag "thead".toList none none ++ row ++
        fmt_html_close_tag "thead".toList ++ fmt_html_open_tag "tbody".toList none none)

/-- The entry callback of the HTML renderer. -/
def fmt_html_output_entry (strftime : List Char → tm → List Char) (config : config_t)
    (entry : syslog_entry_t) (line : List Char) : Option (List Char) :=
  fmt_html_output_row strftime config "td".toList entry line

/-- The end callback of the HTML renderer. -/
def fmt_html_output_end : Option (List Char) :=
  some (fmt_html_close_tag "tbody".toList ++ fmt_html_close_tag "table".toList)

/-- The standard output after a callback has written `text` to it; `none` is
an undefined state. -/
def stdout_write (text : Option (List Char)) (out : Option (List Char)) :
    Option (List Char) :=
  match out, text with
  | some written, some text => some (written ++ text)
  | _, _ => none

/-- The output format `fmt_html`. -/
def fmt_html (strftime : List Char → tm → List Char) (config : config_t) :
    output_fmt_t (Option (List Char)) :=
  { name := "html", description := "HTML (HyperText Markup Language) table",
    fn_output_start := some (fun entry line out =>
      stdout_write (fmt_html_output_start strftime config entry line) out),
    fn_output_end := some (fun _ _ out => stdout_write fmt_html_output_end out),
    fn_output_entry := some (fun entry line out =>
      stdout_write (fmt_html_output_entry strftime config entry line) out) }

/-- The output format `fmt_csv`. -/
def fmt_csv (strftime : List Char → tm → List Char) (config : config_t) :
    output_fmt_t (Option (List Char)) :=
  { name := "csv", description := "CSV (Comma-Separated Values)",
    fn_output_start := some (fun entry _ out =>
      stdout_write (fmt_csv_output_start config entry) out),
    fn_output_end := none,
    fn_output_entry := some (fun entry line out =>
      stdout_write (fmt_csv_output_entry strftime config entry line) out) }

/-- The output format `fmt_plain`. -/
def fmt_plain (strftime : List Char → tm → List Char) (config : config_t) :
    output_fmt_t (Option (List Char)) :=
  { name := "plain", description := "Plain text",
    fn_output_start := none,
    fn_output_end := none,
    fn_output_entry := some (fun entry line out =>
      stdout_write (fmt_plain_output_entry strftime config entry line) out) }

/-- The output format `fmt_md`. -/
def fmt_md (strftime : List Char → tm → List Char) (config : config_t) :
    output_fmt_t (Option (List Char)) :=
  { name := "md", description := "Markdown table",
    fn_output_start := some (fun entry _ out => stdout_write (fmt_md_output_start entry) out),
    fn_output_end := none,
    fn_output_entry := some (fun entry line out =>
      stdout_write (fmt_md_output_entry strftime config entry line) out) }

/-- The output format `fmt_json`. -/
def fmt_json (strftime : List Char → tm → List Char) (config : config_t) :
    output_fmt_t (Option (List Char)) :=
  { name := "json", description := "JSON (JavaScript Object Notation)",
    fn_output_start := some (fun _ _ out => stdout_write fmt_json_output_start out),
    fn_output_end := some (fun _ _ out => stdout_write fmt_json_output_end out),
    fn_output_entry := some (fun entry line out =>
      stdout_write (fmt_json_output_entry strftime config entry line) out) }

/-- The output format `fmt_asciidoc`. -/
def fmt_asciidoc (strftime : List Char → tm → List Char) (config : config_t) :
    output_fmt_t (Option (List Char)) :=
  { name := "asciidoc", description := "AsciiDoc table",
    fn_output_start := some (fun entry _ out =>
      stdout_write (fmt_asciidoc_output_start entry) out),
    fn_output_end := some (fun _ _ out => stdout_write fmt_asciidoc_output_stop out),
    fn_output_entry := some (fun entry line out =>
      stdout_write (fmt_asciidoc_output_entry strftime config entry line) out) }

/-- The entry as a renderer sees it when the descriptors with the Drop flag
are taken out of it. -/
def without_dropped (entry : syslog_entry_t) : syslog_entry_t :=
  { entry with
    fields := entry.fields.filter (fun field => field.flags &&& SYSLOG_FIELD_FLAG_DROP = 0) }

/-- The two fields have the same value, read in their line buffers: the same
time, the same integers and the same string. -/
def same_value (line1 line2 : List Char) (field1 field2 : syslog_field_t) : Prop :=
  field1.value.time_timestamp = field2.value.time_timestamp ∧
  field1.value.time_unixtime = field2.value.time_unixtime ∧
  field1.value.integer = field2.value.integer ∧
  field1.value.uinteger = field2.value.uinteger ∧
  c_str line1 field1.value.string = c_str line2 field2.value.string

/-- The two entries, each with its line buffer, differ only in the values of
the fields with the Drop flag. -/
def differ_in_dropped_values (entry1 : syslog_entry_t) (line1 : List Char)
    (entry2 : syslog_entry_t) (line2 : List Char) : Prop :=
  entry1.num = entry2.num ∧ entry1.fields_mask = entry2.fields_mask ∧
  List.Forall₂
    (fun field1 field2 =>
      field1.info = field2.info ∧ field1.flags = field2.flags ∧
      field1.parse_start_char = field2.parse_start_char ∧
      field1.parse_stop_char = field2.parse_stop_char ∧
      (field1.flags &&& SYSLOG_FIELD_FLAG_DROP = 0 → same_value line1 line2 field1 field2))
    entry1.fields entry2.fields

/-! ## Descriptors that decode alike -/

/-- The two descriptors differ at most in their flags and their stop
delimiters, with the same NoTrim and NoValidation flags, and with the same
stop delimiter unless they are of type Time. -/
def read_alike (field1 field2 : syslog_field_t) : Prop :=
  field2 =
    { field1 with flags := field2.flags, parse_stop_char := field2.parse_stop_char } ∧
  field2.flags &&& SYSLOG_FIELD_FLAG_NOTRIM = field1.flags &&& SYSLOG_FIELD_FLAG_NOTRIM ∧
  field2.flags &&& SYSLOG_FIELD_FLAG_NOVALIDATION =
    field1.flags &&& SYSLOG_FIELD_FLAG_NOVALIDATION ∧
  (field1.info.type = SYSLOG_FIELD_TYPE_TIME ∨
    field2.parse_stop_char = field1.parse_stop_char)

/-- The two descriptors differ at most in the Drop flag. -/
def differ_in_drop_flag (field1 field2 : syslog_field_t) : Prop :=
  field2 = { field1 with flags := field2.flags } ∧
  field2.flags ||| SYSLOG_FIELD_FLAG_DROP = field1.flags ||| SYSLOG_FIELD_FLAG_DROP

/-- The two descriptors differ at most in the stop delimiter, and only when
they are of type Time. -/
def differ_in_time_stop_char (field1 field2 : syslog_field_t) : Prop :=
  field2 = { field1 with parse_stop_char := field2.parse_stop_char } ∧
  (field1.info.type ≠ SYSLOG_FIELD_TYPE_TIME →
    field2.parse_stop_char = field1.parse_stop_char)

/-- What decoding a line gives: the return code, the line buffer, the cursor
and the messages after the call, and the values of the descriptors in
order. -/
def decoding_result (r : Option (Int × parse_state × syslog_entry_t)) :
    Option (Int × parse_state × List syslog_field_value_union) :=
  r.map (fun r => (r.1, r.2.1, r.2.2.fields.map (fun field => field.value)))

/-! ## Field tokens and their kinds

The field tokens of a specification and the kinds that section 6 of the
specification gives to their letters, used to state what the descriptors
should be. -/

/-- The token is a field token: a `%<modifiers><letter>` that is not the
escape. -/
def spec_token.is_field : spec_token → Bool
  | spec_token.token _ c => c != '%'
  | _ => false

/-- The letter of a `%<modifiers><letter>` token. -/
def spec_token.letter : spec_token → Option Char
  | spec_token.token _ c => some c
  | _ => none

/-- The kind that the table of letters gives to a letter. -/
def kind_of_letter (letter : Char) : Option syslog_field_id_t :=
  if letter = 'T' then some SYSLOG_FIELD_ID_TIMESTAMP
  else if letter = 'H' then some SYSLOG_FIELD_ID_HOSTNAME
  else if letter = 'F' then some SYSLOG_FIELD_ID_FACILITY
  else if letter = 'P' then some SYSLOG_FIELD_ID_PRIORITY
  else if letter = 'G' then some SYSLOG_FIELD_ID_TAG
  else if letter = 'M' then some SYSLOG_FIELD_ID_MESSAGE
  else none

/-- The kinds of the field tokens, from left to right. -/
def field_token_kinds (tokens : List spec_token) : List (Option syslog_field_id_t) :=
  ((tokens.filter spec_token.is_field).filterMap spec_token.letter).map kind_of_letter

/-! ## The cursor and the end of the line -/

/-- The line buffer has `n + 1` characters, the last of which is the
terminator, and the cursor is at or before it. -/
def within_line (n : Nat) (st : parse_state) : Prop :=
  st.line.length = n + 1 ∧ st.line[n]? = some NUL ∧ ∃ data, st.data = some data ∧ data ≤ n

/-! ## Theorems -/


/-! ### Bit sets -/

theorem and_bit_ne_zero_iff (m i : Nat) : m &&& (1 <<< i) ≠ 0 ↔ m.testBit i = true := by
  rw [Nat.one_shiftLeft]
  constructor
  · intro h
    by_contra hb
    apply h
    apply Nat.eq_of_testBit_eq
    intro j
    rw [Nat.testBit_and, Nat.testBit_two_pow, Nat.zero_testBit]
    by_cases hij : i = j
    · subst hij; simp [hb]
    · simp [hij]
  · intro h h0
    have := congrArg (fun x => x.testBit i) h0
    simp [Nat.testBit_and, Nat.testBit_two_pow, h] at this

theorem or_bit_testBit (m i j : Nat) :
    (m ||| (1 <<< i)).testBit j = (m.testBit j || decide (i = j)) := by
  rw [Nat.one_shiftLeft, Nat.testBit_or, Nat.testBit_two_pow]

/-! ### The scan loop of `syslog_entry_init` -/

theorem init_specifier_error {st : init_locals} {ch : Char} {r : Int × syslog_entry_t}
    (h : init_specifier st ch = .error r) : r = (-EINVAL, st.entry) := by
  unfold init_specifier at h
  simp only at h
  split at h
  · split at h
    · split at h <;> simp at h
    · simp only [Except.error.injEq] at h
      exact h.symm
  · split at h
    · simp only [Except.error.injEq] at h
      exact h.symm
    · simp at h

/-- Invariant principle for the scan loop of `syslog_entry_init`. -/
theorem init_scan_invariant (I : Bool → init_locals → Prop)
    (hlit : ∀ st c, I false st → c ≠ NUL → c ≠ '%' → I false (init_literal st c))
    (henter : ∀ st, I false st → last_stop_unset st.entry.fields = false → I true st)
    (hmod : ∀ st bit, I true st →
      bit = SYSLOG_FIELD_FLAG_DROP ∨ bit = SYSLOG_FIELD_FLAG_NOTRIM ∨
        bit = SYSLOG_FIELD_FLAG_NOVALIDATION →
      I true { st with flags := st.flags ||| bit })
    (hspec : ∀ st ch st1, I true st → init_specifier st ch = .ok st1 → I false st1) :
    ∀ (p : List Char) (m : Bool) (st : init_locals) (e : syslog_entry_t),
      I m st → init_scan m st p = some (0, e) → ∃ st1, I false st1 ∧ st1.entry = e := by
  intro p
  induction p with
  | nil =>
    intro m st e hI h
    cases m with
    | false =>
      simp only [init_scan, Option.some.injEq, Prod.mk.injEq, true_and] at h
      exact ⟨st, hI, h⟩
    | true =>
      simp only [init_scan] at h
      split at h
      · rename_i r hr
        have := init_specifier_error hr
        simp only [Option.some.injEq] at h
        rw [h] at this
        simp [EINVAL] at this
      · simp at h
  | cons c p ih =>
    intro m st e hI h
    cases m with
    | false =>
      simp only [init_scan] at h
      split at h
      · simp only [Option.some.injEq, Prod.mk.injEq, true_and] at h
        exact ⟨st, hI, h⟩
      · rename_i hc
        split at h
        · rename_i hc2
          exact ih _ _ _ (hlit st c hI hc hc2) h
        · split at h
          · simp [EINVAL] at h
          · rename_i hl
            exact ih _ _ _ (henter st hI (by simpa using hl)) h
    | true =>
      simp only [init_scan] at h
      split at h
      · exact ih _ _ _ (hmod st _ hI (Or.inl rfl)) h
      · split at h
        · exact ih _ _ _ (hmod st _ hI (Or.inr (Or.inl rfl))) h
        · split at h
          · exact ih _ _ _ (hmod st _ hI (Or.inr (Or.inr rfl))) h
          · split at h
            · rename_i r hr
              have := init_specifier_error hr
              simp only [Option.some.injEq] at h
              rw [h] at this
              simp [EINVAL] at this
            · rename_i st1 hs
              split at h
              · simp at h
              · exact ih _ _ _ (hspec st c st1 hI hs) h

theorem set_last_stop_dropLast (c : Char) (fs : List syslog_field_t) :
    (set_last_stop c fs).dropLast = fs.dropLast := by
  induction fs with
  | nil => rfl
  | cons f rest ih =>
    cases rest with
    | nil => rfl
    | cons g rest2 =>
      simp only [set_last_stop]
      have hne : set_last_stop c (g :: rest2) ≠ [] := by
        cases rest2 <;> simp [set_last_stop]
      rw [List.dropLast_cons_of_ne_nil hne, List.dropLast_cons_of_ne_nil (by simp), ih]

theorem set_last_stop_map_info (c : Char) (fs : List syslog_field_t) :
    (set_last_stop c fs).map (fun f => f.info) = fs.map (fun f => f.info) := by
  induction fs with
  | nil => rfl
  | cons f rest ih =>
    cases rest with
    | nil => rfl
    | cons g rest2 =>
      simp only [set_last_stop, List.map_cons] at ih ⊢
      rw [ih]

theorem stop_set_of_dropLast {fs : List syslog_field_t}
    (hlast : last_stop_unset fs = false)
    (h : ∀ f ∈ fs.dropLast, f.parse_stop_char ≠ NUL) :
    ∀ f ∈ fs, f.parse_stop_char ≠ NUL := by
  intro f hf
  by_cases hne : fs = []
  · subst hne; simp at hf
  · rw [← List.dropLast_append_getLast hne] at hf
    rcases List.mem_append.mp hf with hf | hf
    · exact h f hf
    · simp only [List.mem_singleton] at hf
      subst hf
      unfold last_stop_unset at hlast
      rw [List.getLast?_eq_getLast _ hne] at hlast
      simpa using hlast

theorem init_specifier_ok {st st1 : init_locals} {ch : Char}
    (h : init_specifier st ch = .ok st1) :
    (ch = '%' ∧ syslog_field_info.find? (fun i => ch == i.spec) = none ∧
      st.field_info = none ∧ last_stop_unset st.entry.fields = false ∧ st1 = st) ∨
    (ch = '%' ∧ syslog_field_info.find? (fun i => ch == i.spec) = none ∧
      st.field_info = none ∧ last_stop_unset st.entry.fields = true ∧
      st1 = { st with entry := { st.entry with fields := set_last_stop ch st.entry.fields } }) ∨
    ∃ info, st1.field_info = some info ∧ st1.flags = 0 ∧ st1.parse_start_char = NUL ∧
      (st.flags &&& SYSLOG_FIELD_FLAG_DROP = 0 →
        st.entry.fields_mask &&& (1 <<< info.id.toNat) = 0) ∧
      (syslog_field_info.find? (fun i => ch == i.spec) = some info ∨
        (syslog_field_info.find? (fun i => ch == i.spec) = none ∧
          st.field_info = some info)) ∧
      st1.entry.fields_mask = st.entry.fields_mask ||| (1 <<< info.id.toNat) ∧
      st1.entry.num = st.entry.num ∧
      st1.entry.fields = st.entry.fields ++
        [{ flags := st.flags, info := info, parse_start_char := st.parse_start_char,
           parse_stop_char := NUL }] := by
  unfold init_specifier at h
  simp only at h
  split at h
  · rename_i hfi
    have hnone : syslog_field_info.find? (fun i => ch == i.spec) = none ∧
        st.field_info = none := by
      split at hfi <;> simp_all
    split at h
    · rename_i hch
      split at h
      · rename_i hl
        simp only [Except.ok.injEq] at h
        exact Or.inr (Or.inl ⟨hch, hnone.1, hnone.2, hl, h.symm⟩)
      · rename_i hl
        simp only [Except.ok.injEq] at h
        exact Or.inl ⟨hch, hnone.1, hnone.2, by simpa using hl, h.symm⟩
    · simp at h
  · rename_i info hfi
    split at h
    · simp at h
    · rename_i hdup
      simp only [Except.ok.injEq] at h
      subst h
      refine Or.inr (Or.inr ⟨info, rfl, rfl, rfl, ?_, ?_, rfl, rfl, rfl⟩)
      · intro hd
        by_contra hm
        exact hdup ⟨hd, hm⟩
      · split at hfi
        · rename_i i hi
          simp only [Option.some.injEq] at hfi
          subst hfi
          exact Or.inl hi
        · rename_i hi
          exact Or.inr ⟨hi, hfi⟩

/-- C6. For every specification on which `syslog_entry_init` succeeds, every
descriptor except the last has a stop delimiter that is not absent
(`parse_stop_char != 0`). -/
theorem init_nonfinal_stop_char_set (entry_spec : List Char) (entry : syslog_entry_t)
    (h : syslog_entry_init entry_spec = some (0, entry)) :
    ∀ field ∈ entry.fields.dropLast, field.parse_stop_char ≠ NUL := by
  have key := init_scan_invariant
    (fun m st => (∀ f ∈ st.entry.fields.dropLast, f.parse_stop_char ≠ NUL) ∧
      (m = true → last_stop_unset st.entry.fields = false))
    (by
      intro st c hI _ _
      refine ⟨?_, by simp⟩
      unfold init_literal
      split
      · simp only [set_last_stop_dropLast]
        exact hI.1
      · exact hI.1)
    (by
      intro st hI hl
      exact ⟨hI.1, fun _ => hl⟩)
    (by
      intro st bit hI _
      exact ⟨hI.1, fun _ => hI.2 rfl⟩)
    (by
      intro st ch st1 hI hs
      refine ⟨?_, by simp⟩
      rcases init_specifier_ok hs with ⟨_, _, _, _, hf⟩ | ⟨_, _, _, hl, _⟩ |
        ⟨info, _, _, _, _, _, _, _, hf⟩
      · rw [hf]; exact hI.1
      · rw [hI.2 rfl] at hl
        exact absurd hl (by simp)
      · rw [hf, List.dropLast_concat]
        exact stop_set_of_dropLast (hI.2 rfl) hI.1)
    entry_spec false _ entry ⟨by simp, by simp⟩ h
  obtain ⟨st1, hI, he⟩ := key
  rw [← he]
  exact hI.1

/-- Witness of C6: the default specification. -/
theorem init_nonfinal_stop_char_set_witness :
    ∃ entry, syslog_entry_init default_entry_spec = some (0, entry) ∧
      ∀ field ∈ entry.fields.dropLast, field.parse_stop_char ≠ NUL :=
  ⟨_, rfl, init_nonfinal_stop_char_set default_entry_spec _ rfl⟩

/-! ### Decoding leaves the descriptors as they are -/

theorem parse_timestamp_descriptor {tf : time_functions} {config : config_t}
    {st st1 : parse_state} {f f1 : syslog_field_t} {ret : Int}
    (h : parse_timestamp tf config st f = some (ret, st1, f1)) : same_descriptor f1 f := by
  unfold parse_timestamp at h
  split at h
  · simp at h
  · split at h
    · simp at h
    · simp only at h
      split at h <;>
        (simp only [Option.some.injEq, Prod.mk.injEq] at h
         obtain ⟨_, _, h⟩ := h
         subst h
         exact ⟨rfl, rfl, rfl, rfl⟩)

theorem parse_string_descriptor {st st1 : parse_state} {f f1 : syslog_field_t} {ret : Int}
    (h : parse_string st f = some (ret, st1, f1)) : same_descriptor f1 f := by
  unfold parse_string at h
  split at h
  · simp at h
  · simp only at h
    split at h
    · simp at h
    · split at h
      · simp at h
      · simp only [Option.some.injEq, Prod.mk.injEq] at h
        obtain ⟨_, _, h⟩ := h
        subst h
        exact ⟨rfl, rfl, rfl, rfl⟩
      · split at h
        · simp at h
        all_goals
          simp only [Option.some.injEq, Prod.mk.injEq] at h
          obtain ⟨_, _, h⟩ := h
          subst h
          exact ⟨rfl, rfl, rfl, rfl⟩

theorem parse_integer_descriptor {st st1 : parse_state} {f f1 : syslog_field_t} {ret : Int}
    (h : parse_integer st f = some (ret, st1, f1)) : same_descriptor f1 f := by
  unfold parse_integer at h
  split at h
  · simp at h
  · rename_i r s g hp
    have hd := parse_string_descriptor hp
    split at h
    · split at h
      · simp at h
      · simp only [Option.some.injEq, Prod.mk.injEq] at h
        obtain ⟨_, _, h⟩ := h
        subst h
        exact hd
    · simp only [Option.some.injEq, Prod.mk.injEq] at h
      obtain ⟨_, _, h⟩ := h
      subst h
      exact hd

theorem parse_uinteger_descriptor {st st1 : parse_state} {f f1 : syslog_field_t} {ret : Int}
    (h : parse_uinteger st f = some (ret, st1, f1)) : same_descriptor f1 f := by
  unfold parse_uinteger at h
  split at h
  · simp at h
  · rename_i r s g hp
    have hd := parse_string_descriptor hp
    split at h
    · split at h
      · simp at h
      · simp only [Option.some.injEq, Prod.mk.injEq] at h
        obtain ⟨_, _, h⟩ := h
        subst h
        exact hd
    · simp only [Option.some.injEq, Prod.mk.injEq] at h
      obtain ⟨_, _, h⟩ := h
      subst h
      exact hd

theorem field_parse_value_descriptor {tf : time_functions} {config : config_t}
    {st st1 : parse_state} {f f1 : syslog_field_t} {ret : Int}
    (h : field_parse_value tf config st f = some (ret, st1, f1)) : same_descriptor f1 f := by
  unfold field_parse_value at h
  split at h
  · exact parse_timestamp_descriptor h
  · exact parse_string_descriptor h
  · exact parse_integer_descriptor h
  · exact parse_uinteger_descriptor h

theorem field_parse_finish_descriptor {line_n : Nat} {st st1 : parse_state}
    {f f1 : syslog_field_t} {ret ret1 : Int}
    (h : field_parse_finish line_n ret st f = some (ret1, st1, f1)) : f1 = f := by
  unfold field_parse_finish at h
  split at h
  · simp only [Option.some.injEq, Prod.mk.injEq] at h
    exact h.2.2.symm
  · split at h
    · split at h
      · simp only [Option.some.injEq, Prod.mk.injEq] at h
        exact h.2.2.symm
      · split at h
        · simp at h
        · split at h <;>
            (simp only [Option.some.injEq, Prod.mk.injEq] at h
             exact h.2.2.symm)
    · simp only [Option.some.injEq, Prod.mk.injEq] at h
      exact h.2.2.symm

theorem field_parse_descriptor {tf : time_functions} {config : config_t} {line_n : Nat}
    {st st1 : parse_state} {f f1 : syslog_field_t} {ret : Int}
    (h : syslog_entry_field_parse tf config line_n st f = some (ret, st1, f1)) :
    same_descriptor f1 f := by
  unfold syslog_entry_field_parse at h
  split at h
  · simp at h
  · simp only [Option.some.injEq, Prod.mk.injEq] at h
    obtain ⟨_, _, h⟩ := h
    subst h
    exact ⟨rfl, rfl, rfl, rfl⟩
  · split at h
    · simp at h
    · rename_i r s g hv
      have hd := field_parse_value_descriptor hv
      rw [field_parse_finish_descriptor h]
      exact hd

theorem parse_fields_descriptor {tf : time_functions} {config : config_t} {line_n : Nat} :
    ∀ (fields : List syslog_field_t) {st st1 : parse_state} {fields1 : List syslog_field_t}
      {ret : Int}, parse_fields tf config line_n st fields = some (ret, st1, fields1) →
      List.Forall₂ same_descriptor fields1 fields := by
  intro fields
  induction fields with
  | nil =>
    intro st st1 fields1 ret h
    simp only [parse_fields, Option.some.injEq, Prod.mk.injEq] at h
    obtain ⟨_, _, h⟩ := h
    subst h
    exact List.Forall₂.nil
  | cons f next ih =>
    intro st st1 fields1 ret h
    simp only [parse_fields] at h
    split at h
    · simp at h
    · rename_i r s g hf
      have hd := field_parse_descriptor hf
      split at h
      · simp only [Option.some.injEq, Prod.mk.injEq] at h
        obtain ⟨_, _, h⟩ := h
        subst h
        refine List.Forall₂.cons hd ?_
        exact List.forall₂_same.mpr (fun x _ => ⟨rfl, rfl, rfl, rfl⟩)
      · split at h
        · simp at h
        · rename_i r2 s2 n2 hn
          simp only [Option.some.injEq, Prod.mk.injEq] at h
          obtain ⟨_, _, h⟩ := h
          subst h
          exact List.Forall₂.cons hd (ih hn)

theorem forall₂_same_descriptor_map_info {l1 l : List syslog_field_t}
    (h : List.Forall₂ same_descriptor l1 l) :
    l1.map (fun f => f.info) = l.map (fun f => f.info) := by
  induction h with
  | nil => rfl
  | cons hd _ ih => simp only [List.map_cons, hd.1, ih]

theorem syslog_field_id_toNat_injective {a b : syslog_field_id_t} (h : a.toNat = b.toNat) :
    a = b := by
  cases a <;> cases b <;> first | rfl | (exact absurd h (by decide))

theorem exists_mem_info_congr {l1 l : List syslog_field_t}
    (h : l1.map (fun f => f.info) = l.map (fun f => f.info)) (P : syslog_field_info_t → Prop) :
    (∃ f ∈ l1, P f.info) ↔ ∃ f ∈ l, P f.info := by
  have key : ∀ l : List syslog_field_t,
      (∃ f ∈ l, P f.info) ↔ ∃ i ∈ l.map (fun f => f.info), P i := by
    intro l
    simp only [List.mem_map, exists_exists_and_eq_and]
  rw [key, key, h]

/-- After a successful `syslog_entry_init` the bits of `fields_mask` are the
kinds of the fields, Drop-flagged or not. -/
theorem init_fields_mask (entry_spec : List Char) (entry : syslog_entry_t)
    (h : syslog_entry_init entry_spec = some (0, entry)) (k : Nat) :
    entry.fields_mask.testBit k = true ↔ ∃ f ∈ entry.fields, f.info.id.toNat = k := by
  have key := init_scan_invariant
    (fun _ st => ∀ k : Nat, st.entry.fields_mask.testBit k = true ↔
      ∃ f ∈ st.entry.fields, f.info.id.toNat = k)
    (by
      intro st c hI _ _ k
      unfold init_literal
      split
      · simp only
        rw [exists_mem_info_congr (set_last_stop_map_info c st.entry.fields)
          (fun i => i.id.toNat = k)]
        exact hI k
      · exact hI k)
    (fun st hI _ => hI)
    (fun st bit hI _ => hI)
    (by
      intro st ch st1 hI hs k
      rcases init_specifier_ok hs with ⟨_, _, _, _, hf⟩ | ⟨_, _, _, _, hf⟩ |
        ⟨info, _, _, _, _, _, hm, _, hf⟩
      · rw [hf]; exact hI k
      · rw [hf]
        simp only
        rw [exists_mem_info_congr (set_last_stop_map_info ch st.entry.fields)
          (fun i => i.id.toNat = k)]
        exact hI k
      · rw [hf, hm, or_bit_testBit]
        simp only [Bool.or_eq_true, decide_eq_true_eq, List.mem_append, List.mem_singleton]
        rw [hI k]
        constructor
        · rintro (⟨f, hf, hk⟩ | hk)
          · exact ⟨f, Or.inl hf, hk⟩
          · exact ⟨_, Or.inr rfl, hk⟩
        · rintro ⟨f, hf | hf, hk⟩
          · exact Or.inl ⟨f, hf, hk⟩
          · subst hf
            exact Or.inr hk)
    entry_spec false _ entry (by simp) h
  obtain ⟨st1, hI, he⟩ := key
  rw [← he]
  exact hI k

theorem has_field_eq_one_iff (entry : syslog_entry_t) (k : syslog_field_id_t) :
    syslog_entry_has_field entry k = 1 ↔ entry.fields_mask.testBit k.toNat = true := by
  unfold syslog_entry_has_field
  rw [← and_bit_ne_zero_iff]
  split <;> simp_all

/-- C7 (as stated, refuted). The specification "%!H" compiles and the line
"host" decodes, the Hostname bit of the presence bitmask is set, and the only
descriptor of kind Hostname is Drop-flagged. -/
theorem fields_mask_only_non_drop_counterexample :
    (syslog_entry_init "%!H".toList).bind (fun r =>
      (syslog_entry_parse utc_time_functions default_config r.2 1
        ("host".toList ++ [NUL])).map (fun out =>
          (r.1, out.1, syslog_entry_has_field out.2.2 SYSLOG_FIELD_ID_HOSTNAME,
            out.2.2.fields.map (fun f => (f.info.id, f.flags &&& SYSLOG_FIELD_FLAG_DROP))))) =
      some (0, 0, 1, [(SYSLOG_FIELD_ID_HOSTNAME, 1)]) := by
  decide

/-- C7 (amended). For every specification that compiles, the bit of field
kind `k` of the presence bitmask is set if and only if some descriptor,
Drop-flagged or not, has kind `k`; decoding a line, whatever its content and
whether or not it succeeds, leaves the bitmask and this equivalence as they
are. -/
theorem fields_mask_iff_kind_present (entry_spec : List Char) (entry : syslog_entry_t)
    (h : syslog_entry_init entry_spec = some (0, entry)) (k : syslog_field_id_t) :
    (syslog_entry_has_field entry k = 1 ↔ ∃ f ∈ entry.fields, f.info.id = k) ∧
    ∀ (tf : time_functions) (config : config_t) (line_n : Nat) (line : List Char)
      (ret : Int) (st : parse_state) (entry1 : syslog_entry_t),
      syslog_entry_parse tf config entry line_n line = some (ret, st, entry1) →
      entry1.fields_mask = entry.fields_mask ∧
      (syslog_entry_has_field entry1 k = 1 ↔ ∃ f ∈ entry1.fields, f.info.id = k) := by
  have h0 : syslog_entry_has_field entry k = 1 ↔ ∃ f ∈ entry.fields, f.info.id = k := by
    rw [has_field_eq_one_iff, init_fields_mask entry_spec entry h]
    constructor
    · rintro ⟨f, hf, hk⟩
      exact ⟨f, hf, syslog_field_id_toNat_injective hk⟩
    · rintro ⟨f, hf, hk⟩
      exact ⟨f, hf, by rw [hk]⟩
  refine ⟨h0, ?_⟩
  intro tf config line_n line ret st entry1 hp
  unfold syslog_entry_parse at hp
  split at hp
  · simp at hp
  · rename_i r s fields1 hfs
    simp only [Option.some.injEq, Prod.mk.injEq] at hp
    obtain ⟨_, _, hp⟩ := hp
    subst hp
    refine ⟨rfl, ?_⟩
    have hinfo := forall₂_same_descriptor_map_info (parse_fields_descriptor _ hfs)
    have hmask : syslog_entry_has_field { entry with fields := fields1 } k =
        syslog_entry_has_field entry k := rfl
    rw [hmask, h0]
    exact (exists_mem_info_congr hinfo (fun i => i.id = k)).symm

/-- Witness of C7 (amended): the default specification and the Message
kind. -/
theorem fields_mask_iff_kind_present_witness :
    ∃ entry, syslog_entry_init default_entry_spec = some (0, entry) ∧
      (syslog_entry_has_field entry SYSLOG_FIELD_ID_MESSAGE = 1 ↔
        ∃ f ∈ entry.fields, f.info.id = SYSLOG_FIELD_ID_MESSAGE) ∧
      ∀ (tf : time_functions) (config : config_t) (line_n : Nat) (line : List Char)
        (ret : Int) (st : parse_state) (entry1 : syslog_entry_t),
        syslog_entry_parse tf config entry line_n line = some (ret, st, entry1) →
        entry1.fields_mask = entry.fields_mask ∧
        (syslog_entry_has_field entry1 SYSLOG_FIELD_ID_MESSAGE = 1 ↔
          ∃ f ∈ entry1.fields, f.info.id = SYSLOG_FIELD_ID_MESSAGE) :=
  ⟨_, rfl, fields_mask_iff_kind_present default_entry_spec _ rfl SYSLOG_FIELD_ID_MESSAGE⟩

/-! ### Errors of `syslog_entry_init` -/

theorem or_flag_and_drop (flags bit : Nat)
    (hbit : bit = SYSLOG_FIELD_FLAG_NOTRIM ∨ bit = SYSLOG_FIELD_FLAG_NOVALIDATION)
    (h : (flags ||| bit) &&& SYSLOG_FIELD_FLAG_DROP ≠ 0) :
    flags &&& SYSLOG_FIELD_FLAG_DROP ≠ 0 := by
  unfold SYSLOG_FIELD_FLAG_DROP at h ⊢
  rw [and_bit_ne_zero_iff] at h ⊢
  rcases hbit with hb | hb <;> subst hb
  · unfold SYSLOG_FIELD_FLAG_NOTRIM at h
    rw [or_bit_testBit] at h
    simpa using h
  · unfold SYSLOG_FIELD_FLAG_NOVALIDATION at h
    rw [or_bit_testBit] at h
    simpa using h

theorem or_bit_and_bit_ne_zero (m i j : Nat) (h : m &&& (1 <<< i) ≠ 0) :
    (m ||| (1 <<< j)) &&& (1 <<< i) ≠ 0 := by
  rw [and_bit_ne_zero_iff] at h ⊢
  rw [or_bit_testBit, h]
  rfl

theorem or_bit_and_self_ne_zero (m i : Nat) : (m ||| (1 <<< i)) &&& (1 <<< i) ≠ 0 := by
  rw [and_bit_ne_zero_iff, or_bit_testBit]
  simp

theorem init_literal_locals (st : init_locals) (c : Char) :
    (init_literal st c).flags = st.flags ∧ (init_literal st c).field_info = st.field_info ∧
      (init_literal st c).entry.fields_mask = st.entry.fields_mask := by
  unfold init_literal
  split <;> exact ⟨rfl, rfl, rfl⟩

/-- Once the bit of a kind is set and a field has been compiled, a later
token of that kind without the Drop modifier makes the scan fail. -/
theorem init_scan_dup_after (letter : Char) (info : syslog_field_info_t)
    (hfind : syslog_field_info.find? (fun i => letter == i.spec) = some info) :
    ∀ (p : List Char) (mods : Option (List Char)) (st : init_locals),
      st.field_info.isSome = true →
      st.entry.fields_mask &&& (1 <<< info.id.toNat) ≠ 0 →
      (match mods with
        | none => st.flags = 0
        | some ms => st.flags &&& SYSLOG_FIELD_FLAG_DROP ≠ 0 → '!' ∈ ms) →
      1 ≤ (spec_tokens_from mods p).countP (spec_token.is_kept_field letter) →
      ∃ e, init_scan mods.isSome st p = some (-EINVAL, e) := by
  intro p
  induction p with
  | nil =>
    intro mods st _ _ _ hc
    cases mods <;> simp [spec_tokens_from, spec_token.is_kept_field] at hc
  | cons c p ih =>
    intro mods st hfi hmask hflags hc
    cases mods with
    | none =>
      simp only [spec_tokens_from] at hc
      simp only [Option.isSome_none, init_scan]
      split
      · rename_i hnul
        simp [hnul] at hc
      · rename_i hnul
        simp only [hnul, if_false] at hc
        split
        · rename_i hpct
          simp only [if_neg hpct, List.countP_cons, spec_token.is_kept_field] at hc
          have hl := init_literal_locals st c
          refine ih none _ (by rw [hl.2.1]; exact hfi) (by rw [hl.2.2]; exact hmask)
            (by simp only; rw [hl.1]; exact hflags) (by simpa using hc)
        · rename_i hpct
          have hpct : c = '%' := by simpa using hpct
          simp only [hpct, if_true] at hc
          split
          · exact ⟨_, rfl⟩
          · refine ih (some []) st hfi hmask ?_ hc
            simp only at hflags ⊢
            intro hd
            rw [hflags] at hd
            simp at hd
    | some ms =>
      simp only [spec_tokens_from] at hc
      simp only [Option.isSome_some, init_scan]
      simp only at hflags
      split
      · rename_i h1
        have h1' : c = '!' := h1
        simp only [h1', true_or, if_true] at hc
        refine ih (some (ms ++ ['!'])) _ hfi hmask ?_ hc
        simp
      · rename_i h1
        have h1' : c ≠ '!' := h1
        split
        · rename_i h2
          have h2' : c = '_' := h2
          simp only [h2', or_true, true_or, if_true] at hc
          refine ih (some (ms ++ ['_'])) _ hfi hmask ?_ hc
          simp only
          intro hd
          simp only [List.mem_append, List.mem_singleton]
          exact Or.inl (hflags (or_flag_and_drop _ _ (Or.inl rfl) hd))
        · rename_i h2
          have h2' : c ≠ '_' := h2
          split
          · rename_i h3
            have h3' : c = '@' := h3
            simp only [h3', or_true, if_true] at hc
            refine ih (some (ms ++ ['@'])) _ hfi hmask ?_ hc
            simp only
            intro hd
            simp only [List.mem_append, List.mem_singleton]
            exact Or.inl (hflags (or_flag_and_drop _ _ (Or.inr rfl) hd))
          · rename_i h3
            have h3' : c ≠ '@' := h3
            simp only [h1', h2', h3', or_self, if_false] at hc
            by_cases hnul : c = NUL
            · simp [hnul, spec_token.is_kept_field] at hc
            · simp only [hnul, if_false, List.countP_cons] at hc
              split
              · rename_i r hr
                rw [init_specifier_error hr]
                exact ⟨_, rfl⟩
              · rename_i st1 hs
                rcases init_specifier_ok hs with ⟨_, _, hn, _⟩ | ⟨_, _, hn, _⟩ |
                  ⟨info1, hfi1, hfl1, _, hdup, hsrc, hm1, _, _⟩
                · rw [hn] at hfi; simp at hfi
                · rw [hn] at hfi; simp at hfi
                · by_cases hk : spec_token.is_kept_field letter (spec_token.token ms c) = true
                  · exfalso
                    simp only [spec_token.is_kept_field, Bool.and_eq_true, beq_iff_eq,
                      Bool.not_eq_true', List.contains_eq_any_beq, List.any_eq_false,
                      beq_iff_eq] at hk
                    obtain ⟨hcl, hms⟩ := hk
                    subst hcl
                    have hnd : st.flags &&& SYSLOG_FIELD_FLAG_DROP = 0 := by
                      by_contra hd
                      have := hflags hd
                      exact absurd rfl (hms _ this)
                    rcases hsrc with hsrc | ⟨hsrc, _⟩
                    · rw [hfind] at hsrc
                      simp only [Option.some.injEq] at hsrc
                      subst hsrc
                      exact hmask (hdup hnd)
                    · rw [hfind] at hsrc
                      simp at hsrc
                  · simp only [hk, if_false, add_zero] at hc
                    rw [if_neg hnul]
                    refine ih none st1 (by rw [hfi1]; rfl) ?_ hfl1 (by simpa using hc)
                    rw [hm1]
                    exact or_bit_and_bit_ne_zero _ _ _ hmask

/-- Two tokens of one kind without the Drop modifier make the scan fail,
whatever the locals are when the scan reaches them. -/
theorem init_scan_dup (letter : Char) (info : syslog_field_info_t)
    (hfind : syslog_field_info.find? (fun i => letter == i.spec) = some info) :
    ∀ (p : List Char) (mods : Option (List Char)) (st : init_locals),
      2 ≤ (spec_tokens_from mods p).countP (spec_token.is_kept_field letter) →
      ∃ e, init_scan mods.isSome st p = some (-EINVAL, e) := by
  intro p
  induction p with
  | nil =>
    intro mods st hc
    cases mods <;> simp [spec_tokens_from, spec_token.is_kept_field] at hc
  | cons c p ih =>
    intro mods st hc
    cases mods with
    | none =>
      simp only [spec_tokens_from] at hc
      simp only [Option.isSome_none, init_scan]
      split
      · rename_i hnul
        simp [hnul] at hc
      · rename_i hnul
        simp only [hnul, if_false] at hc
        split
        · rename_i hpct
          simp only [if_neg hpct, List.countP_cons, spec_token.is_kept_field] at hc
          exact ih none _ (by simpa using hc)
        · rename_i hpct
          have hpct : c = '%' := by simpa using hpct
          simp only [hpct, if_true] at hc
          split
          · exact ⟨_, rfl⟩
          · exact ih (some []) st hc
    | some ms =>
      simp only [spec_tokens_from] at hc
      simp only [Option.isSome_some, init_scan]
      split
      · rename_i h1
        have h1' : c = '!' := h1
        simp only [h1', true_or, if_true] at hc
        exact ih (some (ms ++ ['!'])) _ hc
      · rename_i h1
        have h1' : c ≠ '!' := h1
        split
        · rename_i h2
          have h2' : c = '_' := h2
          simp only [h2', or_true, true_or, if_true] at hc
          exact ih (some (ms ++ ['_'])) _ hc
        · rename_i h2
          have h2' : c ≠ '_' := h2
          split
          · rename_i h3
            have h3' : c = '@' := h3
            simp only [h3', or_true, if_true] at hc
            exact ih (some (ms ++ ['@'])) _ hc
          · rename_i h3
            have h3' : c ≠ '@' := h3
            simp only [h1', h2', h3', or_self, if_false] at hc
            by_cases hnul : c = NUL
            · simp [hnul, spec_token.is_kept_field] at hc
            · simp only [hnul, if_false, List.countP_cons] at hc
              split
              · rename_i r hr
                rw [init_specifier_error hr]
                exact ⟨_, rfl⟩
              · rename_i st1 hs
                rw [if_neg hnul]
                by_cases hk : spec_token.is_kept_field letter (spec_token.token ms c) = true
                · simp only [hk, if_true] at hc
                  have hcl : c = letter := by
                    simp only [spec_token.is_kept_field, Bool.and_eq_true, beq_iff_eq] at hk
                    exact hk.1
                  subst hcl
                  rcases init_specifier_ok hs with ⟨_, hn, _⟩ | ⟨_, hn, _⟩ |
                    ⟨info1, hfi1, hfl1, _, _, hsrc, hm1, _, _⟩
                  · rw [hfind] at hn; simp at hn
                  · rw [hfind] at hn; simp at hn
                  · have hi : info1 = info := by
                      rcases hsrc with hsrc | ⟨hsrc, _⟩
                      · rw [hfind] at hsrc
                        simp only [Option.some.injEq] at hsrc
                        exact hsrc.symm
                      · rw [hfind] at hsrc
                        simp at hsrc
                    subst hi
                    exact init_scan_dup_after c info1 hfind p none st1 (by rw [hfi1]; rfl)
                      (by rw [hm1]; exact or_bit_and_self_ne_zero _ _) hfl1 (by omega)
                · simp only [hk, if_false, add_zero] at hc
                  exact ih none st1 (by simpa using hc)

/-- C3. For every registered field letter and every specification in which
that letter occurs twice as the letter of a field token without the Drop
modifier, `syslog_entry_init` returns an error (`-EINVAL`, which is not
zero). -/
theorem init_duplicate_field_rejected (entry_spec : List Char) (letter : Char)
    (hletter : letter ∈ syslog_field_info.map (fun info => info.spec))
    (htwice : 2 ≤ (spec_tokens entry_spec).countP (spec_token.is_kept_field letter)) :
    ∃ entry, syslog_entry_init entry_spec = some (-EINVAL, entry) ∧ -EINVAL ≠ 0 := by
  have hfind : ∃ info, syslog_field_info.find? (fun i => letter == i.spec) = some info := by
    simp only [syslog_field_info, List.map_cons, List.map_nil, List.mem_cons,
      List.mem_singleton, List.not_mem_nil, or_false] at hletter
    rcases hletter with h | h | h | h | h | h <;> subst h <;> exact ⟨_, rfl⟩
  obtain ⟨info, hfind⟩ := hfind
  obtain ⟨e, he⟩ := init_scan_dup letter info hfind entry_spec none _ htwice
  exact ⟨e, he, by decide⟩

/-- Witness of C3: the specification "%T %F %T". -/
theorem init_duplicate_field_rejected_witness :
    ∃ entry, syslog_entry_init "%T %F %T".toList = some (-EINVAL, entry) ∧ -EINVAL ≠ 0 :=
  init_duplicate_field_rejected "%T %F %T".toList 'T' (by decide) (by decide)

theorem spec_tokens_from_head_not_literal {p : List Char} {t : spec_token}
    {rest : List spec_token} (h : spec_tokens_from none p = t :: rest)
    (ht : t.is_literal = false) : ∃ p1, p = '%' :: p1 := by
  cases p with
  | nil => simp [spec_tokens_from] at h
  | cons c p1 =>
    simp only [spec_tokens_from] at h
    split at h
    · simp at h
    · split at h
      · rename_i hc
        exact ⟨p1, by rw [hc]⟩
      · simp only [List.cons.injEq] at h
        rw [← h.1] at ht
        simp [spec_token.is_literal] at ht

theorem last_stop_unset_concat (fields : List syslog_field_t) (field : syslog_field_t)
    (h : field.parse_stop_char = NUL) : last_stop_unset (fields ++ [field]) = true := by
  unfold last_stop_unset
  rw [List.getLast?_concat]
  simp [h]

/-- A field token directly followed by another token makes the scan fail. -/
theorem init_scan_adjacent (letter : Char) (info : syslog_field_info_t)
    (hfind : syslog_field_info.find? (fun i => letter == i.spec) = some info)
    (ms : List Char) (t2 : spec_token) (ht2 : t2.is_literal = false) (post : List spec_token) :
    ∀ (p : List Char) (mods : Option (List Char)) (st : init_locals) (pre : List spec_token),
      spec_tokens_from mods p = pre ++ spec_token.token ms letter :: t2 :: post →
      ∃ e, init_scan mods.isSome st p = some (-EINVAL, e) := by
  intro p
  induction p with
  | nil =>
    intro mods st pre h
    cases mods with
    | none => simp [spec_tokens_from] at h
    | some m =>
      simp only [spec_tokens_from] at h
      have := congrArg List.length h
      simp at this
      omega
  | cons c p ih =>
    intro mods st pre h
    cases mods with
    | none =>
      simp only [spec_tokens_from] at h
      simp only [Option.isSome_none, init_scan]
      split
      · rename_i hnul
        simp [hnul] at h
      · rename_i hnul
        simp only [hnul, if_false] at h
        split
        · rename_i hpct
          simp only [if_neg hpct] at h
          cases pre with
          | nil => simp at h
          | cons x pre1 =>
            simp only [List.cons_append, List.cons.injEq] at h
            exact ih none _ pre1 h.2
        · rename_i hpct
          have hpct : c = '%' := by simpa using hpct
          simp only [hpct, if_true] at h
          split
          · exact ⟨_, rfl⟩
          · exact ih (some []) st pre h
    | some m =>
      simp only [spec_tokens_from] at h
      simp only [Option.isSome_some, init_scan]
      split
      · rename_i h1
        have h1' : c = '!' := h1
        simp only [h1', true_or, if_true] at h
        exact ih (some (m ++ ['!'])) _ pre h
      · rename_i h1
        have h1' : c ≠ '!' := h1
        split
        · rename_i h2
          have h2' : c = '_' := h2
          simp only [h2', or_true, true_or, if_true] at h
          exact ih (some (m ++ ['_'])) _ pre h
        · rename_i h2
          have h2' : c ≠ '_' := h2
          split
          · rename_i h3
            have h3' : c = '@' := h3
            simp only [h3', or_true, if_true] at h
            exact ih (some (m ++ ['@'])) _ pre h
          · rename_i h3
            have h3' : c ≠ '@' := h3
            simp only [h1', h2', h3', or_self, if_false] at h
            by_cases hnul : c = NUL
            · simp only [hnul, if_true] at h
              have := congrArg List.length h
              simp at this
              omega
            · simp only [hnul, if_false] at h
              split
              · rename_i r hr
                rw [init_specifier_error hr]
                exact ⟨_, rfl⟩
              · rename_i st1 hs
                rw [if_neg hnul]
                cases pre with
                | cons x pre1 =>
                  simp only [List.cons_append, List.cons.injEq] at h
                  exact ih none st1 pre1 h.2
                | nil =>
                  simp only [List.nil_append, List.cons.injEq, spec_token.token.injEq] at h
                  obtain ⟨⟨_, hcl⟩, hrest⟩ := h
                  subst hcl
                  obtain ⟨p1, hp1⟩ := spec_tokens_from_head_not_literal hrest ht2
                  subst hp1
                  rcases init_specifier_ok hs with ⟨_, hn, _⟩ | ⟨_, hn, _⟩ |
                    ⟨info1, _, _, _, _, _, _, _, hf1⟩
                  · rw [hfind] at hn; simp at hn
                  · rw [hfind] at hn; simp at hn
                  · simp only [init_scan]
                    rw [if_neg (by decide), if_neg (by simp), hf1,
                      last_stop_unset_concat _ _ rfl]
                    exact ⟨_, rfl⟩

/-- C5. For every specification in which a field token (a registered letter
after `%` and modifiers) is directly followed by the `%` of another token, with
no literal character between the two, `syslog_entry_init` returns an error
(`-EINVAL`, which is not zero). -/
theorem init_adjacent_tokens_rejected (entry_spec : List Char) (letter : Char)
    (modifiers : List Char) (next : spec_token) (pre post : List spec_token)
    (hletter : letter ∈ syslog_field_info.map (fun info => info.spec))
    (hnext : next.is_literal = false)
    (hspec : spec_tokens entry_spec = pre ++ spec_token.token modifiers letter :: next :: post) :
    ∃ entry, syslog_entry_init entry_spec = some (-EINVAL, entry) ∧ -EINVAL ≠ 0 := by
  have hfind : ∃ info, syslog_field_info.find? (fun i => letter == i.spec) = some info := by
    simp only [syslog_field_info, List.map_cons, List.map_nil, List.mem_cons,
      List.mem_singleton, List.not_mem_nil, or_false] at hletter
    rcases hletter with h | h | h | h | h | h <;> subst h <;> exact ⟨_, rfl⟩
  obtain ⟨info, hfind⟩ := hfind
  obtain ⟨e, he⟩ :=
    init_scan_adjacent letter info hfind modifiers next hnext post entry_spec none _ pre hspec
  exact ⟨e, he, by decide⟩

/-- Witness of C5: the specification "%T%M". -/
theorem init_adjacent_tokens_rejected_witness :
    ∃ entry, syslog_entry_init "%T%M".toList = some (-EINVAL, entry) ∧ -EINVAL ≠ 0 :=
  init_adjacent_tokens_rejected "%T%M".toList 'T' [] (spec_token.token [] 'M') [] []
    (by decide) rfl (by decide)

/-- C4 (the code at the failing input). After a field has been compiled the
token "%!X", whose letter is not registered, is not rejected:
`syslog_entry_init` returns 0 on "%T %!X" and compiles the token to a second,
Drop-flagged Timestamp descriptor. -/
theorem init_unknown_specifier_after_field_accepted :
    (syslog_entry_init "%T %!X".toList).map
      (fun r => (r.1, r.2.fields.map (fun f => (f.info.id, f.flags)))) =
      some (0, [(SYSLOG_FIELD_ID_TIMESTAMP, 0),
        (SYSLOG_FIELD_ID_TIMESTAMP, SYSLOG_FIELD_FLAG_DROP)]) := by
  decide

/-- C1. `syslog_entry_init` on the default specification "%T %F.%P %G: %_M"
succeeds and yields exactly five descriptors, in the order Timestamp,
Facility, Priority, Tag, Message, with the stop delimiters ' ', '.', ' ', ':'
and absent (0), and the Message descriptor has the NoTrim flag set. -/
theorem init_default_spec_descriptors :
    ∃ entry, syslog_entry_init default_entry_spec = some (0, entry) ∧
      entry.fields.map (fun f => f.info.id) =
        [SYSLOG_FIELD_ID_TIMESTAMP, SYSLOG_FIELD_ID_FACILITY, SYSLOG_FIELD_ID_PRIORITY,
          SYSLOG_FIELD_ID_TAG, SYSLOG_FIELD_ID_MESSAGE] ∧
      entry.fields.map (fun f => f.parse_stop_char) = [' ', '.', ' ', ':', NUL] ∧
      ∀ f ∈ entry.fields, f.info.id = SYSLOG_FIELD_ID_MESSAGE →
        f.flags &&& SYSLOG_FIELD_FLAG_NOTRIM ≠ 0 := by
  refine ⟨_, rfl, rfl, rfl, ?_⟩
  decide

/-! ### The validators -/

theorem char_toNat_injective {x y : Char} (h : x.toNat = y.toNat) : x = y := by
  rw [← Char.ofNat_toNat x, ← Char.ofNat_toNat y, h]

theorem c_str_no_nul {buf : List Char} {i : Nat} {s : List Char}
    (h : c_str buf i = some s) : NUL ∉ s := by
  unfold c_str at h
  split at h
  · simp only [Option.some.injEq] at h
    subst h
    intro hmem
    have := List.mem_takeWhile_imp hmem
    simp at this
  · simp at h

theorem strcmp_eq_zero_iff :
    ∀ (a b : List Char), NUL ∉ a → NUL ∉ b → (strcmp a b = 0 ↔ a = b) := by
  intro a
  induction a with
  | nil =>
    intro b _ hb
    cases b with
    | nil => simp [strcmp]
    | cons y ys =>
      simp only [strcmp, neg_eq_zero, Nat.cast_eq_zero]
      constructor
      · intro h
        exfalso
        apply hb
        have : y = NUL := char_toNat_injective (by rw [h]; rfl)
        rw [this]
        exact List.mem_cons_self _ _
      · intro h
        simp at h
  | cons x xs ih =>
    intro b ha hb
    cases b with
    | nil =>
      simp only [strcmp, Nat.cast_eq_zero]
      constructor
      · intro h
        exfalso
        apply ha
        have : x = NUL := char_toNat_injective (by rw [h]; rfl)
        rw [this]
        exact List.mem_cons_self _ _
      · intro h
        simp at h
    | cons y ys =>
      simp only [strcmp]
      split
      · rename_i hxy
        subst hxy
        rw [ih ys (fun h => ha (List.mem_cons_of_mem _ h))
          (fun h => hb (List.mem_cons_of_mem _ h))]
        simp
      · rename_i hxy
        constructor
        · intro h
          exfalso
          apply hxy
          apply char_toNat_injective
          omega
        · intro h
          simp only [List.cons.injEq] at h
          exact absurd h.1 hxy

/-- The search of `find_syslog_name` succeeds exactly on the names of the
table, compared character by character. -/
theorem find_syslog_name_isSome_iff (name : List Char) (hname : NUL ∉ name) :
    ∀ (code : List CODE), (∀ c ∈ code, ∀ n, c.c_name = some n → NUL ∉ n) →
      ((find_syslog_name code name).isSome = true ↔
        some name ∈ (code.takeWhile (fun c => c.c_name.isSome)).map (fun c => c.c_name)) := by
  intro code
  induction code with
  | nil => intro _; simp [find_syslog_name]
  | cons c code ih =>
    intro hcode
    simp only [find_syslog_name]
    split
    · rename_i hc
      simp [List.takeWhile, hc]
    · rename_i n hc
      have hn : NUL ∉ n := hcode c (List.mem_cons_self _ _) n hc
      simp only [List.takeWhile, hc, Option.isSome_some, List.map_cons, List.mem_cons,
        Option.some.injEq]
      split
      · rename_i heq
        rw [strcmp_eq_zero_iff name n hname hn] at heq
        simp [heq]
      · rename_i hneq
        rw [strcmp_eq_zero_iff name n hname hn] at hneq
        rw [ih (fun c hc => hcode c (List.mem_cons_of_mem _ hc))]
        simp [hneq]

theorem validate_facility_eq {line : List Char} {field : syslog_field_t} {name : List Char}
    (hname : c_str line field.value.string = some name)
    (hid : field.info.id = SYSLOG_FIELD_ID_FACILITY) :
    validate_facility line field =
      some (if name ∈ facilitynames.filterMap CODE.c_name then 0 else -EINVAL) := by
  have hnul := c_str_no_nul hname
  have hiff := find_syslog_name_isSome_iff name hnul facilitynames (by decide)
  have htab : (facilitynames.takeWhile (fun c => c.c_name.isSome)).map (fun c => c.c_name) =
      (facilitynames.filterMap CODE.c_name).map some := by decide
  rw [htab] at hiff
  simp only [List.mem_map, Option.some.injEq, exists_eq_right] at hiff
  unfold validate_facility
  rw [if_neg (by simp [hid]), hname]
  simp only
  by_cases hmem : name ∈ facilitynames.filterMap CODE.c_name
  · rw [if_pos (hiff.mpr hmem), if_pos hmem]
  · rw [if_neg (fun h => hmem (hiff.mp h)), if_neg hmem]

theorem validate_priority_eq {line : List Char} {field : syslog_field_t} {name : List Char}
    (hname : c_str line field.value.string = some name)
    (hid : field.info.id = SYSLOG_FIELD_ID_PRIORITY) :
    validate_priority line field =
      some (if name ∈ prioritynames.filterMap CODE.c_name then 0 else -EINVAL) := by
  have hnul := c_str_no_nul hname
  have hiff := find_syslog_name_isSome_iff name hnul prioritynames (by decide)
  have htab : (prioritynames.takeWhile (fun c => c.c_name.isSome)).map (fun c => c.c_name) =
      (prioritynames.filterMap CODE.c_name).map some := by decide
  rw [htab] at hiff
  simp only [List.mem_map, Option.some.injEq, exists_eq_right] at hiff
  unfold validate_priority
  rw [if_neg (by simp [hid]), hname]
  simp only
  by_cases hmem : name ∈ prioritynames.filterMap CODE.c_name
  · rw [if_pos (hiff.mpr hmem), if_pos hmem]
  · rw [if_neg (fun h => hmem (hiff.mp h)), if_neg hmem]

/-- C9. `validate_facility` (respectively `validate_priority`) returns 0 if
the value is, character for character, one of the names of the facility
(respectively priority) name table and `-EINVAL` otherwise; the values
"LOCAL0", "local" and "local0 " are no facility names and "Info", "inf" and
"info " are no priority names, although "local0" and "info" are. -/
theorem validators_exact_match (line : List Char) (field : syslog_field_t) (name : List Char)
    (hname : c_str line field.value.string = some name) :
    (field.info.id = SYSLOG_FIELD_ID_FACILITY →
      validate_facility line field =
        some (if name ∈ facilitynames.filterMap CODE.c_name then 0 else -EINVAL)) ∧
    (field.info.id = SYSLOG_FIELD_ID_PRIORITY →
      validate_priority line field =
        some (if name ∈ prioritynames.filterMap CODE.c_name then 0 else -EINVAL)) ∧
    ("local0".toList ∈ facilitynames.filterMap CODE.c_name ∧
      ∀ v ∈ ["LOCAL0".toList, "local".toList, "local0 ".toList],
        v ∉ facilitynames.filterMap CODE.c_name) ∧
    ("info".toList ∈ prioritynames.filterMap CODE.c_name ∧
      ∀ v ∈ ["Info".toList, "inf".toList, "info ".toList],
        v ∉ prioritynames.filterMap CODE.c_name) :=
  ⟨validate_facility_eq hname, validate_priority_eq hname, by decide, by decide⟩

/-- Witness of C9: the value "LOCAL0" of a Facility field. -/
theorem validators_exact_match_witness :
    c_str ("LOCAL0".toList ++ [NUL]) 0 = some "LOCAL0".toList ∧
      validate_facility ("LOCAL0".toList ++ [NUL])
        { info := { id := SYSLOG_FIELD_ID_FACILITY,
                    type := syslog_field_type_t.SYSLOG_FIELD_TYPE_STRING, spec := 'F',
                    param_name := "facility", human_name := "Facility",
                    validator := some validator_t.validate_facility },
          flags := 0, parse_start_char := NUL, parse_stop_char := NUL } =
        some (if "LOCAL0".toList ∈ facilitynames.filterMap CODE.c_name then 0 else -EINVAL) :=
  ⟨by decide, (validators_exact_match _ _ _ (by decide)).1 rfl⟩

/-! ### The start delimiter -/

theorem strchr_from_eq (c : Char) (hc : c ≠ NUL) :
    ∀ (xs : List Char) (i : Nat), NUL ∈ xs →
      strchr_from xs c i =
        some (if c ∈ xs.takeWhile (fun x => x != NUL)
          then some (i + (xs.takeWhile (fun x => x != NUL)).indexOf c) else none) := by
  intro xs
  induction xs with
  | nil => intro i h; simp at h
  | cons x xs ih =>
    intro i h
    simp only [strchr_from]
    split
    · rename_i hxc
      subst hxc
      have hx' : (x != NUL) = true := by simpa using hc
      simp [List.takeWhile, hx']
    · rename_i hxc
      split
      · rename_i hx
        subst hx
        simp [List.takeWhile]
      · rename_i hx
        have hmem : NUL ∈ xs := by
          rcases List.mem_cons.mp h with h | h
          · exact absurd h.symm hx
          · exact h
        rw [ih (i + 1) hmem]
        have hx' : (x != NUL) = true := by simpa using hx
        simp only [List.takeWhile, hx', List.mem_cons]
        have hcx : c ≠ x := fun h => hxc h.symm
        simp only [hcx, false_or]
        split
        · rename_i hm
          rw [List.indexOf_cons_ne _ hxc]
          simp only [Option.some.injEq]
          omega
        · rfl

theorem strchr_eq {buf : List Char} {i : Nat} {s : List Char} (c : Char) (hc : c ≠ NUL)
    (hs : c_str buf i = some s) :
    strchr buf i c = some (if c ∈ s then some (i + s.indexOf c) else none) := by
  unfold c_str at hs
  split at hs
  · rename_i hmem
    simp only [Option.some.injEq] at hs
    subst hs
    unfold strchr
    exact strchr_from_eq c hc _ i hmem
  · simp at hs

theorem parse_fields_append {tf : time_functions} {config : config_t} {line_n : Nat} :
    ∀ (pre : List syslog_field_t) (rest : List syslog_field_t) (st0 st : parse_state)
      (pre1 : List syslog_field_t),
      parse_fields tf config line_n st0 pre = some (0, st, pre1) →
      parse_fields tf config line_n st0 (pre ++ rest) =
        (parse_fields tf config line_n st rest).map
          (fun r => (r.1, r.2.1, pre1 ++ r.2.2)) := by
  intro pre
  induction pre with
  | nil =>
    intro rest st0 st pre1 h
    simp only [parse_fields, Option.some.injEq, Prod.mk.injEq, true_and] at h
    obtain ⟨h1, h2⟩ := h
    subst h1 h2
    simp
  | cons f pre ih =>
    intro rest st0 st pre1 h
    simp only [parse_fields, List.cons_append] at h ⊢
    split at h
    · simp at h
    · rename_i r s g hf
      split at h
      · rename_i hr
        simp only [Option.some.injEq, Prod.mk.injEq] at h
        exact absurd h.1 hr
      · rename_i hr
        rw [if_neg hr]
        split at h
        · simp at h
        · rename_i r2 s2 n2 hn
          simp only [Option.some.injEq, Prod.mk.injEq] at h
          obtain ⟨h1, h2, h3⟩ := h
          subst h1 h2 h3
          rw [List.append_eq, ih rest s s2 n2 hn]
          cases parse_fields tf config line_n s2 rest with
          | none => rfl
          | some v => rfl

/-- A field that fails after the fields before it have decoded fails the line
with its error; the fields after it are not processed. -/
theorem syslog_entry_parse_fails_at {tf : time_functions} {config : config_t} {line_n : Nat}
    {entry : syslog_entry_t} {line : List Char} {pre rest pre1 : List syslog_field_t}
    {field field2 : syslog_field_t} {st st2 : parse_state} {ret : Int}
    (hfields : entry.fields = pre ++ field :: rest)
    (hpre : parse_fields tf config line_n { line := line, data := some 0 } pre =
      some (0, st, pre1))
    (hfield : syslog_entry_field_parse tf config line_n st field = some (ret, st2, field2))
    (hret : ret ≠ 0) :
    syslog_entry_parse tf config entry line_n line =
      some (ret, st2, { entry with fields := pre1 ++ field2 :: rest }) := by
  unfold syslog_entry_parse
  rw [hfields, parse_fields_append pre (field :: rest) _ st pre1 hpre]
  simp only [parse_fields, hfield]
  rw [if_pos hret]
  rfl

theorem or_novalidation_and_notrim (flags : Nat) :
    (flags ||| SYSLOG_FIELD_FLAG_NOVALIDATION) &&& SYSLOG_FIELD_FLAG_NOTRIM =
      flags &&& SYSLOG_FIELD_FLAG_NOTRIM := by
  rw [Nat.and_comm, Nat.and_or_distrib_left, Nat.and_comm]
  have : SYSLOG_FIELD_FLAG_NOTRIM &&& SYSLOG_FIELD_FLAG_NOVALIDATION = 0 := by decide
  rw [this, Nat.or_zero]

theorem or_novalidation_and_self (flags : Nat) :
    (flags ||| SYSLOG_FIELD_FLAG_NOVALIDATION) &&& SYSLOG_FIELD_FLAG_NOVALIDATION ≠ 0 := by
  unfold SYSLOG_FIELD_FLAG_NOVALIDATION
  exact or_bit_and_self_ne_zero flags 2

theorem parse_timestamp_flags (tf : time_functions) (config : config_t)
    (st : parse_state) (f : syslog_field_t) (flags : Nat) :
    parse_timestamp tf config st { f with flags := flags } =
      (parse_timestamp tf config st f).map
        (fun r => (r.1, r.2.1, { r.2.2 with flags := flags })) := by
  unfold parse_timestamp
  cases st.data with
  | none => rfl
  | some data =>
    simp only
    cases c_str st.line data with
    | none => rfl
    | some s =>
      simp only
      cases (tf.strptime s config.ts_parse_spec f.value.time_timestamp).1 <;> rfl

theorem parse_string_flags (st : parse_state) (f : syslog_field_t) (flags : Nat)
    (hflags : flags &&& SYSLOG_FIELD_FLAG_NOTRIM = f.flags &&& SYSLOG_FIELD_FLAG_NOTRIM) :
    parse_string st { f with flags := flags } =
      (parse_string st f).map (fun r => (r.1, r.2.1, { r.2.2 with flags := flags })) := by
  unfold parse_string
  cases st.data with
  | none => rfl
  | some data =>
    simp only [hflags]
    cases (if f.flags &&& SYSLOG_FIELD_FLAG_NOTRIM ≠ 0 then strskipspaces st.line data
      else some data) with
    | none => rfl
    | some p0 =>
      simp only
      cases strchr st.line p0 f.parse_stop_char with
      | none => rfl
      | some q =>
        cases q with
        | none => rfl
        | some p =>
          simp only
          cases strpbrk (st.line.set p NUL) data ['\r', '\n'] with
          | none => rfl
          | some q2 => cases q2 <;> rfl

theorem parse_integer_flags (st : parse_state) (f : syslog_field_t) (flags : Nat)
    (hflags : flags &&& SYSLOG_FIELD_FLAG_NOTRIM = f.flags &&& SYSLOG_FIELD_FLAG_NOTRIM) :
    parse_integer st { f with flags := flags } =
      (parse_integer st f).map (fun r => (r.1, r.2.1, { r.2.2 with flags := flags })) := by
  unfold parse_integer
  rw [parse_string_flags st f flags hflags]
  cases parse_string st f with
  | none => rfl
  | some r =>
    obtain ⟨ret, st1, f1⟩ := r
    simp only [Option.map_some']
    by_cases hret : ret = 0
    · simp only [hret, if_true]
      cases c_str st1.line f1.value.string <;> rfl
    · simp only [hret, if_false, Option.map_some']

theorem parse_uinteger_flags (st : parse_state) (f : syslog_field_t) (flags : Nat)
    (hflags : flags &&& SYSLOG_FIELD_FLAG_NOTRIM = f.flags &&& SYSLOG_FIELD_FLAG_NOTRIM) :
    parse_uinteger st { f with flags := flags } =
      (parse_uinteger st f).map (fun r => (r.1, r.2.1, { r.2.2 with flags := flags })) := by
  unfold parse_uinteger
  rw [parse_string_flags st f flags hflags]
  cases parse_string st f with
  | none => rfl
  | some r =>
    obtain ⟨ret, st1, f1⟩ := r
    simp only [Option.map_some']
    by_cases hret : ret = 0
    · simp only [hret, if_true]
      cases c_str st1.line f1.value.string <;> rfl
    · simp only [hret, if_false, Option.map_some']

theorem field_parse_value_flags (tf : time_functions) (config : config_t)
    (st : parse_state) (f : syslog_field_t) (flags : Nat)
    (hflags : flags &&& SYSLOG_FIELD_FLAG_NOTRIM = f.flags &&& SYSLOG_FIELD_FLAG_NOTRIM) :
    field_parse_value tf config st { f with flags := flags } =
      (field_parse_value tf config st f).map
        (fun r => (r.1, r.2.1, { r.2.2 with flags := flags })) := by
  unfold field_parse_value
  cases h : f.info.type <;> simp only [h]
  · exact parse_timestamp_flags tf config st f flags
  · exact parse_integer_flags st f flags hflags
  · exact parse_uinteger_flags st f flags hflags
  · exact parse_string_flags st f flags hflags

theorem field_parse_start_flags (st : parse_state) (f : syslog_field_t) (flags : Nat)
    (hflags : flags &&& SYSLOG_FIELD_FLAG_NOTRIM = f.flags &&& SYSLOG_FIELD_FLAG_NOTRIM) :
    field_parse_start st { f with flags := flags } = field_parse_start st f := by
  unfold field_parse_start
  simp only [hflags]

theorem strpbrk_from_some_none {accept : List Char} :
    ∀ {xs : List Char} {i : Nat}, strpbrk_from xs accept i = some none → NUL ∈ xs := by
  intro xs
  induction xs with
  | nil => intro i h; simp [strpbrk_from] at h
  | cons x xs ih =>
    intro i h
    simp only [strpbrk_from] at h
    split at h
    · rename_i hx
      rw [hx]
      exact List.mem_cons_self _ _
    · split at h
      · simp at h
      · exact List.mem_cons_of_mem _ (ih h)

theorem strpbrk_from_some_some {accept : List Char} :
    ∀ {xs : List Char} {i q : Nat}, strpbrk_from xs accept i = some (some q) →
      i ≤ q ∧ q < i + xs.length := by
  intro xs
  induction xs with
  | nil => intro i q h; simp [strpbrk_from] at h
  | cons x xs ih =>
    intro i q h
    simp only [strpbrk_from] at h
    split at h
    · simp at h
    · split at h
      · simp only [Option.some.injEq] at h
        subst h
        simp
      · have := ih h
        simp only [List.length_cons]
        omega

theorem nul_mem_drop_set (buf : List Char) (data q : Nat) (h1 : data ≤ q)
    (h2 : q < buf.length) : NUL ∈ (buf.set q NUL).drop data := by
  rw [List.mem_iff_getElem]
  refine ⟨q - data, ?_, ?_⟩
  · simp only [List.length_drop, List.length_set]
    omega
  · rw [List.getElem_drop]
    have : data + (q - data) = q := by omega
    simp only [this, List.getElem_set_self]

/-- After a successful `parse_string` the value is a string of the buffer. -/
theorem parse_string_value_defined {st st1 : parse_state} {f f1 : syslog_field_t}
    (h : parse_string st f = some (0, st1, f1)) :
    ∃ name, c_str st1.line f1.value.string = some name := by
  unfold parse_string at h
  split at h
  · simp at h
  · rename_i data hdata
    simp only at h
    split at h
    · simp at h
    · split at h
      · simp at h
      · simp only [Option.some.injEq, Prod.mk.injEq] at h
        exact absurd h.1 (by decide)
      · rename_i p0 hp0 p hp
        split at h
        · simp at h
        · rename_i hbrk
          simp only [Option.some.injEq, Prod.mk.injEq, true_and] at h
          obtain ⟨h1, h2⟩ := h
          subst h1 h2
          have := strpbrk_from_some_none hbrk
          unfold c_str
          simp only
          rw [if_pos this]
          exact ⟨_, rfl⟩
        · rename_i q hbrk
          simp only [Option.some.injEq, Prod.mk.injEq, true_and] at h
          obtain ⟨h1, h2⟩ := h
          subst h1 h2
          have hq := strpbrk_from_some_some hbrk
          simp only [List.length_drop] at hq
          unfold c_str
          simp only
          rw [if_pos (nul_mem_drop_set _ _ _ hq.1 (by omega))]
          exact ⟨_, rfl⟩

/-- C8. Let the start delimiter, white space and conversion of a field of a
registered kind whose NoValidate flag is clear succeed (lines 473-509), with
the value read into `field1`. Then: the same field with the NoValidate flag
set (as compiled with '@') is accepted with the same buffer and value; a
kind without validator is accepted, and Hostname, Tag and Message are such
kinds; a Facility (Priority) field is accepted if its value is a name of the
facility (priority) table, and otherwise it fails with the error `-EINVAL`
of the validator and one message on `stderr`, and so does
`syslog_entry_parse` for a line on which the fields before this one decode
and leave the line and the cursor in the state `st`. -/
theorem validation_gate (tf : time_functions) (config : config_t) (line_n : Nat)
    (st st1 : parse_state) (field field1 : syslog_field_t) (data : Nat)
    (hinfo : field.info ∈ syslog_field_info)
    (hclear : field.flags &&& SYSLOG_FIELD_FLAG_NOVALIDATION = 0)
    (hstart : field_parse_start st field = some (some data))
    (hvalue : field_parse_value tf config { st with data := some data } field =
      some (0, st1, field1)) :
    syslog_entry_field_parse tf config line_n st
        { field with flags := field.flags ||| SYSLOG_FIELD_FLAG_NOVALIDATION } =
      some (0, st1, { field1 with flags := field.flags ||| SYSLOG_FIELD_FLAG_NOVALIDATION }) ∧
    (field.info.validator = none →
      syslog_entry_field_parse tf config line_n st field = some (0, st1, field1)) ∧
    (field.info.validator = some validator_t.validate_facility →
      ∃ name, field_string st1 field1 = some name ∧
        (syslog_entry_field_parse tf config line_n st field =
          if name ∈ facilitynames.filterMap CODE.c_name then some (0, st1, field1)
          else some (-EINVAL,
            { st1 with stderr := st1.stderr ++ [msg_invalid_value line_n "facility" (-EINVAL)] },
            field1)) ∧
        (name ∉ facilitynames.filterMap CODE.c_name →
          ∀ (entry : syslog_entry_t) (line : List Char) (pre rest pre1 : List syslog_field_t),
            entry.fields = pre ++ field :: rest →
            parse_fields tf config line_n { line := line, data := some 0 } pre =
              some (0, st, pre1) →
            syslog_entry_parse tf config entry line_n line =
              some (-EINVAL,
                { st1 with stderr :=
                    st1.stderr ++ [msg_invalid_value line_n "facility" (-EINVAL)] },
                { entry with fields := pre1 ++ field1 :: rest }))) ∧
    (field.info.validator = some validator_t.validate_priority →
      ∃ name, field_string st1 field1 = some name ∧
        (syslog_entry_field_parse tf config line_n st field =
          if name ∈ prioritynames.filterMap CODE.c_name then some (0, st1, field1)
          else some (-EINVAL,
            { st1 with stderr := st1.stderr ++ [msg_invalid_value line_n "priority" (-EINVAL)] },
            field1)) ∧
        (name ∉ prioritynames.filterMap CODE.c_name →
          ∀ (entry : syslog_entry_t) (line : List Char) (pre rest pre1 : List syslog_field_t),
            entry.fields = pre ++ field :: rest →
            parse_fields tf config line_n { line := line, data := some 0 } pre =
              some (0, st, pre1) →
            syslog_entry_parse tf config entry line_n line =
              some (-EINVAL,
                { st1 with stderr :=
                    st1.stderr ++ [msg_invalid_value line_n "priority" (-EINVAL)] },
                { entry with fields := pre1 ++ field1 :: rest }))) ∧
    (field.info.id = SYSLOG_FIELD_ID_HOSTNAME ∨ field.info.id = SYSLOG_FIELD_ID_TAG ∨
        field.info.id = SYSLOG_FIELD_ID_MESSAGE → field.info.validator = none) := by
  have hd := field_parse_value_descriptor hvalue
  have hparse : syslog_entry_field_parse tf config line_n st field =
      field_parse_finish line_n 0 st1 field1 := by
    unfold syslog_entry_field_parse
    rw [hstart]
    simp only [hvalue]
  have hfl : field1.flags &&& SYSLOG_FIELD_FLAG_NOVALIDATION = 0 := by rw [hd.2.1]; exact hclear
  have hreg : ∀ info ∈ syslog_field_info, ∀ v, info.validator = some v →
      info.type = SYSLOG_FIELD_TYPE_STRING ∧
      (v = validator_t.validate_facility →
        info.id = SYSLOG_FIELD_ID_FACILITY ∧ info.param_name = "facility") ∧
      (v = validator_t.validate_priority →
        info.id = SYSLOG_FIELD_ID_PRIORITY ∧ info.param_name = "priority") := by decide
  have hnoval : ∀ info ∈ syslog_field_info,
      info.id = SYSLOG_FIELD_ID_HOSTNAME ∨ info.id = SYSLOG_FIELD_ID_TAG ∨
        info.id = SYSLOG_FIELD_ID_MESSAGE → info.validator = none := by decide
  have hname : ∀ v, field.info.validator = some v →
      ∃ name, c_str st1.line field1.value.string = some name := by
    intro v hv
    have htype := (hreg _ hinfo v hv).1
    unfold field_parse_value at hvalue
    simp only [htype] at hvalue
    exact parse_string_value_defined hvalue
  refine ⟨?_, ?_, ?_, ?_, hnoval _ hinfo⟩
  · unfold syslog_entry_field_parse
    rw [field_parse_start_flags _ _ _ (or_novalidation_and_notrim _), hstart]
    simp only [field_parse_value_flags _ _ _ _ _ (or_novalidation_and_notrim _), hvalue,
      Option.map_some']
    unfold field_parse_finish
    rw [if_neg (by simp), if_neg (or_novalidation_and_self _)]
  · intro hv
    rw [hparse]
    unfold field_parse_finish
    rw [if_neg (by simp), if_pos hfl, hd.1, hv]
  · intro hv
    obtain ⟨name, hname⟩ := hname _ hv
    have hid := ((hreg _ hinfo _ hv).2.1 rfl)
    have hres : syslog_entry_field_parse tf config line_n st field =
        if name ∈ facilitynames.filterMap CODE.c_name then some (0, st1, field1)
        else some (-EINVAL,
          { st1 with stderr := st1.stderr ++ [msg_invalid_value line_n "facility" (-EINVAL)] },
          field1) := by
      rw [hparse]
      unfold field_parse_finish
      rw [if_neg (by simp), if_pos hfl, hd.1, hv]
      simp only [validator_t.call]
      rw [validate_facility_eq hname (by rw [hd.1]; exact hid.1)]
      by_cases hmem : name ∈ facilitynames.filterMap CODE.c_name
      · simp only [hmem, if_true]
        rfl
      · simp only [hmem, if_false, hid.2]
        rfl
    refine ⟨name, hname, hres, ?_⟩
    intro hmem entry line pre rest pre1 hfields hpre
    rw [if_neg hmem] at hres
    exact syslog_entry_parse_fails_at hfields hpre hres (by decide)
  · intro hv
    obtain ⟨name, hname⟩ := hname _ hv
    have hid := ((hreg _ hinfo _ hv).2.2 rfl)
    have hres : syslog_entry_field_parse tf config line_n st field =
        if name ∈ prioritynames.filterMap CODE.c_name then some (0, st1, field1)
        else some (-EINVAL,
          { st1 with stderr := st1.stderr ++ [msg_invalid_value line_n "priority" (-EINVAL)] },
          field1) := by
      rw [hparse]
      unfold field_parse_finish
      rw [if_neg (by simp), if_pos hfl, hd.1, hv]
      simp only [validator_t.call]
      rw [validate_priority_eq hname (by rw [hd.1]; exact hid.1)]
      by_cases hmem : name ∈ prioritynames.filterMap CODE.c_name
      · simp only [hmem, if_true]
        rfl
      · simp only [hmem, if_false, hid.2]
        rfl
    refine ⟨name, hname, hres, ?_⟩
    intro hmem entry line pre rest pre1 hfields hpre
    rw [if_neg hmem] at hres
    exact syslog_entry_parse_fails_at hfields hpre hres (by decide)

/-- Witness of C8: the Facility field of the default specification at the
head of the line "bogus99.info"; with the NoValidate flag the field is
accepted and its value is "bogus99". -/
theorem validation_gate_witness :
    syslog_entry_field_parse utc_time_functions default_config 1
        { line := "bogus99.info".toList ++ [NUL], data := some 0 }
        { info := { id := SYSLOG_FIELD_ID_FACILITY, type := SYSLOG_FIELD_TYPE_STRING,
                    spec := 'F', param_name := "facility", human_name := "Facility",
                    validator := some validator_t.validate_facility },
          flags := 0 ||| SYSLOG_FIELD_FLAG_NOVALIDATION,
          parse_start_char := NUL, parse_stop_char := '.' } =
      some (0, { line := "bogus99".toList ++ [NUL] ++ "info".toList ++ [NUL], data := some 8 },
        { info := { id := SYSLOG_FIELD_ID_FACILITY, type := SYSLOG_FIELD_TYPE_STRING,
                    spec := 'F', param_name := "facility", human_name := "Facility",
                    validator := some validator_t.validate_facility },
          flags := 0 ||| SYSLOG_FIELD_FLAG_NOVALIDATION,
          parse_start_char := NUL, parse_stop_char := '.' }) :=
  (validation_gate utc_time_functions default_config 1
    { line := "bogus99.info".toList ++ [NUL], data := some 0 }
    { line := "bogus99".toList ++ [NUL] ++ "info".toList ++ [NUL], data := some 8 }
    { info := { id := SYSLOG_FIELD_ID_FACILITY, type := SYSLOG_FIELD_TYPE_STRING,
                spec := 'F', param_name := "facility", human_name := "Facility",
                validator := some validator_t.validate_facility },
      flags := 0, parse_start_char := NUL, parse_stop_char := '.' }
    { info := { id := SYSLOG_FIELD_ID_FACILITY, type := SYSLOG_FIELD_TYPE_STRING,
                spec := 'F', param_name := "facility", human_name := "Facility",
                validator := some validator_t.validate_facility },
      flags := 0, parse_start_char := NUL, parse_stop_char := '.' }
    0 (by decide) (by decide) (by decide) (by decide)).1

/-! ### The default specification on a line -/

/-- C2 (as stated, refuted). With the default specification, the default
timestamp pattern and the modelled `strptime`, the line
"Jun 24 18:12:50 2019 local0.info tag: hello world" does not decode:
`syslog_entry_init` returns 0 and `syslog_entry_parse` returns `-EILSEQ`,
because the conversion `%a` at the head of the pattern finds no weekday
name. -/
theorem default_spec_line_without_weekday_counterexample :
    (syslog_entry_init default_entry_spec).bind (fun r =>
      (syslog_entry_parse utc_time_functions default_config r.2 1
        ("Jun 24 18:12:50 2019 local0.info tag: hello world".toList ++ [NUL])).map
        (fun out => (r.1, out.1, out.2.1.stderr))) =
      some (0, -EILSEQ, [msg_failed_to_parse 1 "timestamp" (-EILSEQ)]) := by
  decide

/-- C2 (amended). With the default specification, the default timestamp
pattern, the modelled `strptime` and any `timelocal`, the line
"Mon Jun 24 18:12:50 2019 local0.info tag: hello world" decodes: both
functions return 0, the descriptors are Timestamp, Facility, Priority, Tag,
Message, the strings are "local0", "info", "tag" and "hello world", and the
Timestamp holds what `timelocal` returns for a structure `t` with the
calendar fields of 2019-06-24 18:12:50. -/
theorem default_spec_line_decodes (timelocal : tm → tm × Int) :
    ∃ t : tm,
      (t.tm_year = 119 ∧ t.tm_mon = 5 ∧ t.tm_mday = 24 ∧
        t.tm_hour = 18 ∧ t.tm_min = 12 ∧ t.tm_sec = 50) ∧
      (syslog_entry_init default_entry_spec).bind (fun r =>
        (syslog_entry_parse { strptime := strptime_model, timelocal := timelocal }
          default_config r.2 1
          ("Mon Jun 24 18:12:50 2019 local0.info tag: hello world".toList ++ [NUL])).map
          (fun out => (r.1, out.1,
            out.2.2.fields.map (fun f => f.info.id),
            (out.2.2.fields.take 1).map
              (fun f => (f.value.time_timestamp, f.value.time_unixtime)),
            (out.2.2.fields.drop 1).map (field_string out.2.1)))) =
        some (0, 0,
          [SYSLOG_FIELD_ID_TIMESTAMP, SYSLOG_FIELD_ID_FACILITY, SYSLOG_FIELD_ID_PRIORITY,
            SYSLOG_FIELD_ID_TAG, SYSLOG_FIELD_ID_MESSAGE],
          [((timelocal t).1, ((timelocal t).2 % 2 ^ 64).toNat)],
          [some "local0".toList, some "info".toList, some "tag".toList,
            some "hello world".toList]) := by
  refine ⟨{ tm_sec := 50, tm_min := 12, tm_hour := 18, tm_mday := 24, tm_mon := 5,
            tm_year := 119, tm_wday := 1 }, by decide, ?_⟩
  with_unfolding_all rfl

/-! ### Strings in a buffer -/

/-- The string at `i` is `s` exactly when the buffer continues at `i` with
`s` and a terminator. -/
theorem c_str_eq_some_iff {buf : List Char} {i : Nat} {s : List Char} :
    c_str buf i = some s ↔ NUL ∉ s ∧ ∃ rest, buf.drop i = s ++ NUL :: rest := by
  unfold c_str
  constructor
  · intro h
    split at h
    · rename_i hmem
      simp only [Option.some.injEq] at h
      subst h
      refine ⟨?_, ?_⟩
      · intro hm
        have := List.mem_takeWhile_imp hm
        simp at this
      · have hsplit := List.takeWhile_append_dropWhile (fun c => c != NUL) (buf.drop i)
        cases hd : List.dropWhile (fun c => c != NUL) (buf.drop i) with
        | nil =>
          exfalso
          rw [hd, List.append_nil] at hsplit
          rw [← hsplit] at hmem
          have := List.mem_takeWhile_imp hmem
          simp at this
        | cons x rest =>
          have hx : x = NUL := by
            have := List.head_dropWhile_not (fun c => c != NUL) (buf.drop i)
              (by rw [hd]; simp)
            simp only [hd, List.head_cons] at this
            simpa using this
          subst hx
          refine ⟨rest, ?_⟩
          rw [hd] at hsplit
          exact hsplit.symm
    · simp at h
  · rintro ⟨hs, rest, hrest⟩
    have hmem : NUL ∈ buf.drop i := by rw [hrest]; simp
    rw [if_pos hmem, hrest]
    congr 1
    rw [List.takeWhile_append_of_pos (by
      intro c hc
      have : c ≠ NUL := fun h => hs (h ▸ hc)
      simpa using this)]
    simp [List.takeWhile]

theorem drop_lt_length_of_eq {buf : List Char} {i : Nat} {s rest : List Char}
    (h : buf.drop i = s ++ NUL :: rest) : i + s.length < buf.length := by
  have := congrArg List.length h
  simp only [List.length_drop, List.length_append, List.length_cons] at this
  omega

/-- Writing the terminator into the string at `i`, at most at the place of
its terminator, cuts the string there. -/
theorem drop_set_nul {buf : List Char} {i j : Nat} {s rest : List Char}
    (h : buf.drop i = s ++ NUL :: rest) (hj : j ≤ s.length) :
    ∃ rest1, (buf.set (i + j) NUL).drop i = s.take j ++ NUL :: rest1 := by
  have hlen := drop_lt_length_of_eq h
  have hset : (buf.set (i + j) NUL).drop i = (buf.drop i).set j NUL :=
    List.set_drop.symm
  rw [hset, h]
  rcases Nat.lt_or_eq_of_le hj with hlt | heq
  · refine ⟨s.drop (j + 1) ++ NUL :: rest, ?_⟩
    rw [List.set_append_left _ _ hlt]
    rw [List.set_eq_take_append_cons_drop, if_pos hlt]
    simp
  · subst heq
    refine ⟨rest, ?_⟩
    rw [List.set_append_right _ _ (le_refl _)]
    simp

theorem c_str_set_nul {buf : List Char} {i j : Nat} {s : List Char}
    (h : c_str buf i = some s) (hj : j ≤ s.length) :
    c_str (buf.set (i + j) NUL) i = some (s.take j) := by
  rw [c_str_eq_some_iff] at h ⊢
  obtain ⟨hs, rest, hrest⟩ := h
  refine ⟨fun hm => hs (List.mem_of_mem_take hm), drop_set_nul hrest hj⟩

theorem c_str_add {buf : List Char} {i k : Nat} {s : List Char}
    (h : c_str buf i = some s) (hk : k ≤ s.length) :
    c_str buf (i + k) = some (s.drop k) := by
  rw [c_str_eq_some_iff] at h ⊢
  obtain ⟨hs, rest, hrest⟩ := h
  refine ⟨fun hm => hs (List.mem_of_mem_drop hm), rest, ?_⟩
  rw [← List.drop_drop, hrest, List.drop_append_of_le_length hk]

theorem strchr_from_nul :
    ∀ (s rest : List Char) (i : Nat), NUL ∉ s →
      strchr_from (s ++ NUL :: rest) NUL i = some (some (i + s.length)) := by
  intro s
  induction s with
  | nil => intro rest i _; simp [strchr_from]
  | cons x xs ih =>
    intro rest i hs
    have hx : x ≠ NUL := fun h => hs (h ▸ List.mem_cons_self _ _)
    rw [List.cons_append, strchr_from, if_neg hx, if_neg hx,
      ih rest (i + 1) (fun h => hs (List.mem_cons_of_mem _ h))]
    simp only [List.length_cons, Option.some.injEq]
    omega

theorem strchr_nul {buf : List Char} {i : Nat} {s : List Char} (hs : c_str buf i = some s) :
    strchr buf i NUL = some (some (i + s.length)) := by
  rw [c_str_eq_some_iff] at hs
  obtain ⟨hnul, rest, hrest⟩ := hs
  unfold strchr
  rw [hrest]
  exact strchr_from_nul s rest i hnul

theorem isspace_nul : isspace NUL = false := by decide

theorem strskipspaces_from_eq :
    ∀ (s rest : List Char) (i : Nat),
      strskipspaces_from (s ++ NUL :: rest) i = some (i + (s.takeWhile isspace).length) := by
  intro s
  induction s with
  | nil => intro rest i; simp [strskipspaces_from, isspace_nul]
  | cons x xs ih =>
    intro rest i
    rw [List.cons_append, strskipspaces_from]
    by_cases hx : isspace x = true
    · rw [if_pos hx, ih rest (i + 1)]
      simp only [List.takeWhile, hx, List.length_cons, Option.some.injEq]
      omega
    · rw [if_neg hx]
      have hx' : isspace x = false := by simpa using hx
      simp [List.takeWhile, hx']

theorem strskipspaces_eq {buf : List Char} {i : Nat} {s : List Char}
    (hs : c_str buf i = some s) :
    strskipspaces buf i = some (i + (s.takeWhile isspace).length) := by
  rw [c_str_eq_some_iff] at hs
  obtain ⟨_, rest, hrest⟩ := hs
  unfold strskipspaces
  rw [hrest]
  exact strskipspaces_from_eq s rest i

theorem strpbrk_from_eq (accept : List Char) :
    ∀ (s rest : List Char) (i : Nat), NUL ∉ s →
      strpbrk_from (s ++ NUL :: rest) accept i =
        some (if (s.takeWhile (fun c => decide (c ∉ accept))).length < s.length
          then some (i + (s.takeWhile (fun c => decide (c ∉ accept))).length) else none) := by
  intro s
  induction s with
  | nil => intro rest i _; simp [strpbrk_from]
  | cons x xs ih =>
    intro rest i hs
    have hx : x ≠ NUL := fun h => hs (h ▸ List.mem_cons_self _ _)
    rw [List.cons_append, strpbrk_from, if_neg hx]
    by_cases hacc : x ∈ accept
    · rw [if_pos hacc]
      simp [List.takeWhile, hacc]
    · rw [if_neg hacc, ih rest (i + 1) (fun h => hs (List.mem_cons_of_mem _ h))]
      simp only [List.takeWhile, hacc, not_false_eq_true, decide_True, List.length_cons,
        Nat.add_lt_add_iff_right]
      split
      · simp only [Option.some.injEq]
        omega
      · rfl

theorem strpbrk_eq {buf : List Char} {i : Nat} {s : List Char} (accept : List Char)
    (hs : c_str buf i = some s) :
    strpbrk buf i accept =
      some (if (s.takeWhile (fun c => decide (c ∉ accept))).length < s.length
        then some (i + (s.takeWhile (fun c => decide (c ∉ accept))).length) else none) := by
  rw [c_str_eq_some_iff] at hs
  obtain ⟨hnul, rest, hrest⟩ := hs
  unfold strpbrk
  rw [hrest]
  exact strpbrk_from_eq accept s rest i hnul

/-! ### `parse_string` -/

theorem takeWhile_eq_take_length {α : Type} (p : α → Bool) (l : List α) :
    l.takeWhile p = l.take (l.takeWhile p).length := by
  induction l with
  | nil => rfl
  | cons x xs ih =>
    by_cases hx : p x = true
    · simp only [List.takeWhile, hx, List.length_cons, List.take_succ_cons]
      rw [← ih]
    · have hx' : p x = false := by simpa using hx
      simp [List.takeWhile, hx']

theorem takeWhile_length_le {α : Type} (p : α → Bool) (l : List α) :
    (l.takeWhile p).length ≤ l.length := by
  induction l with
  | nil => simp
  | cons x xs ih =>
    by_cases hx : p x = true
    · simp only [List.takeWhile, hx, List.length_cons]
      omega
    · have hx' : p x = false := by simpa using hx
      simp [List.takeWhile, hx']

theorem takeWhile_eq_self_of_length {α : Type} (p : α → Bool) (l : List α)
    (h : ¬ (l.takeWhile p).length < l.length) : l.takeWhile p = l := by
  have h1 := takeWhile_eq_take_length p l
  have h2 := takeWhile_length_le p l
  rw [h1, List.take_of_length_le (by omega)]

/-- The number of characters that `parse_string` skips before it looks for
the stop character. -/
theorem parse_string_skipped {st : parse_state} {f : syslog_field_t} {data : Nat}
    {s : List Char} (hs : c_str st.line data = some s) :
    (if f.flags &&& SYSLOG_FIELD_FLAG_NOTRIM ≠ 0 then strskipspaces st.line data
      else some data) =
      some (data + (if f.flags &&& SYSLOG_FIELD_FLAG_NOTRIM ≠ 0
        then (s.takeWhile isspace).length else 0)) := by
  split
  · exact strskipspaces_eq hs
  · rfl

/-- The line buffer after `parse_string` has cut the string at `data` at
index `idx` and at the first CR or LF before it. -/
theorem parse_string_of_strchr {st : parse_state} {f : syslog_field_t} {data k idx : Nat}
    {s : List Char} (hdata : st.data = some data) (hs : c_str st.line data = some s)
    (hk : k = if f.flags &&& SYSLOG_FIELD_FLAG_NOTRIM ≠ 0
      then (s.takeWhile isspace).length else 0)
    (hidx : idx ≤ s.length)
    (hchr : strchr st.line (data + k) f.parse_stop_char = some (some (data + idx))) :
    parse_string st f =
      some (0,
        { st with
          line :=
            if ((s.take idx).takeWhile (fun c => decide (c ∉ ['\r', '\n']))).length < idx then
              (st.line.set (data + idx) NUL).set
                (data + ((s.take idx).takeWhile (fun c => decide (c ∉ ['\r', '\n']))).length) NUL
            else st.line.set (data + idx) NUL,
          data := some (data + idx + 1) },
        { f with value := { f.value with string := data } }) := by
  unfold parse_string
  rw [hdata]
  simp only
  rw [parse_string_skipped hs, ← hk]
  simp only [hchr]
  rw [strpbrk_eq ['\r', '\n'] (c_str_set_nul hs hidx)]
  have hlen : (s.take idx).length = idx := by
    rw [List.length_take]; omega
  simp only [hlen]
  by_cases hlt : ((s.take idx).takeWhile (fun c => decide (c ∉ ['\r', '\n']))).length < idx
  · rw [if_pos hlt, if_pos hlt]
  · rw [if_neg hlt, if_neg hlt]

theorem parse_string_of_strchr_null {st : parse_state} {f : syslog_field_t} {data k : Nat}
    {s : List Char} (hdata : st.data = some data) (hs : c_str st.line data = some s)
    (hk : k = if f.flags &&& SYSLOG_FIELD_FLAG_NOTRIM ≠ 0
      then (s.takeWhile isspace).length else 0)
    (hchr : strchr st.line (data + k) f.parse_stop_char = some none) :
    parse_string st f = some (-EILSEQ, st, f) := by
  unfold parse_string
  rw [hdata]
  simp only
  rw [parse_string_skipped hs, ← hk]
  simp only [hchr]

/-- The decoded string after the cut of `parse_string_of_strchr`. -/
theorem c_str_after_cut {line : List Char} {data idx : Nat} {s : List Char}
    (hs : c_str line data = some s) (hidx : idx ≤ s.length) :
    c_str
      (if ((s.take idx).takeWhile (fun c => decide (c ∉ ['\r', '\n']))).length < idx then
        (line.set (data + idx) NUL).set
          (data + ((s.take idx).takeWhile (fun c => decide (c ∉ ['\r', '\n']))).length) NUL
      else line.set (data + idx) NUL) data =
      some ((s.take idx).takeWhile (fun c => decide (c ∉ ['\r', '\n']))) := by
  have hlen : (s.take idx).length = idx := by
    rw [List.length_take]; omega
  have hcap := c_str_set_nul hs hidx
  split
  · rename_i hlt
    rw [c_str_set_nul hcap (by rw [hlen]; omega), ← takeWhile_eq_take_length]
  · rename_i hlt
    rw [hcap, takeWhile_eq_self_of_length _ _ (by rw [hlen]; exact hlt)]

/-- The result of `parse_string` on the string `s` at the cursor: `k`
characters are skipped before the search for the stop character, which cuts
the string at `idx`. -/
theorem parse_string_eq {st : parse_state} {f : syslog_field_t} {data k : Nat}
    {s : List Char} (hdata : st.data = some data) (hs : c_str st.line data = some s)
    (hk : k = if f.flags &&& SYSLOG_FIELD_FLAG_NOTRIM ≠ 0
      then (s.takeWhile isspace).length else 0) :
    k ≤ s.length ∧
    (f.parse_stop_char ≠ NUL → f.parse_stop_char ∉ s.drop k →
      parse_string st f = some (-EILSEQ, st, f)) ∧
    ∀ idx,
      (f.parse_stop_char = NUL ∧ idx = s.length) ∨
        (f.parse_stop_char ≠ NUL ∧ f.parse_stop_char ∈ s.drop k ∧
          idx = k + (s.drop k).indexOf f.parse_stop_char) →
      idx ≤ s.length ∧
      parse_string st f =
        some (0,
          { st with
            line :=
              if ((s.take idx).takeWhile (fun c => decide (c ∉ ['\r', '\n']))).length < idx
              then
                (st.line.set (data + idx) NUL).set
                  (data + ((s.take idx).takeWhile
                    (fun c => decide (c ∉ ['\r', '\n']))).length) NUL
              else st.line.set (data + idx) NUL,
            data := some (data + idx + 1) },
          { f with value := { f.value with string := data } }) := by
  have hkle : k ≤ s.length := by
    rw [hk]
    split
    · exact takeWhile_length_le _ _
    · omega
  have hsk := c_str_add hs hkle
  refine ⟨hkle, ?_, ?_⟩
  · intro hd hmem
    apply parse_string_of_strchr_null hdata hs hk
    rw [strchr_eq _ hd hsk, if_neg hmem]
  · intro idx hcase
    rcases hcase with ⟨hd, hidx⟩ | ⟨hd, hmem, hidx⟩
    · subst hidx
      refine ⟨le_refl _, parse_string_of_strchr hdata hs hk (le_refl _) ?_⟩
      rw [hd, strchr_nul hsk, List.length_drop]
      simp only [Option.some.injEq]
      omega
    · have hlt : (s.drop k).indexOf f.parse_stop_char < (s.drop k).length :=
        List.indexOf_lt_length.mpr hmem
      rw [List.length_drop] at hlt
      have hle : idx ≤ s.length := by omega
      refine ⟨hle, parse_string_of_strchr hdata hs hk hle ?_⟩
      rw [strchr_eq _ hd hsk, if_pos hmem, hidx]
      simp only [Option.some.injEq]
      omega

/-- C11. For a field without NoTrim whose stop delimiter `d` is not absent,
with the string `s` at the cursor: if `d` does not occur in `s`,
`parse_string` fails with `-EILSEQ` and leaves buffer and cursor as they are;
otherwise it succeeds, the text cut off at `d` is the characters of `s`
before the first occurrence of `d`, the cursor moves to just after that
occurrence, and the decoded value is that text up to its first CR or LF (the
whole text when it has none). -/
theorem parse_string_bounded (st : parse_state) (field : syslog_field_t) (data : Nat)
    (s : List Char) (hdata : st.data = some data) (hs : c_str st.line data = some s)
    (hnotrim : field.flags &&& SYSLOG_FIELD_FLAG_NOTRIM = 0)
    (hstop : field.parse_stop_char ≠ NUL) :
    (field.parse_stop_char ∉ s → parse_string st field = some (-EILSEQ, st, field)) ∧
    (field.parse_stop_char ∈ s →
      ∃ st1 field1, parse_string st field = some (0, st1, field1) ∧
        c_str (st.line.set (data + s.indexOf field.parse_stop_char) NUL) data =
          some (s.take (s.indexOf field.parse_stop_char)) ∧
        st1.data = some (data + s.indexOf field.parse_stop_char + 1) ∧
        field1.value.string = data ∧
        field_string st1 field1 =
          some ((s.take (s.indexOf field.parse_stop_char)).takeWhile
            (fun c => decide (c ∉ ['\r', '\n']))) ∧
        ((∀ c ∈ s.take (s.indexOf field.parse_stop_char), c ∉ ['\r', '\n']) →
          field_string st1 field1 = some (s.take (s.indexOf field.parse_stop_char)))) := by
  have hk : 0 = if field.flags &&& SYSLOG_FIELD_FLAG_NOTRIM ≠ 0
      then (s.takeWhile isspace).length else 0 := by
    rw [if_neg (by simp [hnotrim])]
  obtain ⟨_, hfail, hok⟩ := parse_string_eq hdata hs hk
  simp only [List.drop_zero, Nat.zero_add] at hfail hok
  refine ⟨hfail hstop, ?_⟩
  intro hmem
  obtain ⟨hle, hres⟩ := hok _ (Or.inr ⟨hstop, hmem, rfl⟩)
  have hval := c_str_after_cut hs hle
  refine ⟨_, _, hres, c_str_set_nul hs hle, rfl, rfl, hval, ?_⟩
  intro hall
  unfold field_string
  simp only
  rw [hval]
  congr 1
  rw [List.takeWhile_eq_self_iff]
  intro c hc
  simpa using hall c hc
/-- Witness of C11: the Facility field of the default specification at the
head of the line "local0.info": the text cut off is "local0" and the cursor
moves to index 7. -/
theorem parse_string_bounded_witness :
    ∃ st1 field1,
      parse_string { line := "local0.info".toList ++ [NUL], data := some 0 }
        { info := { id := SYSLOG_FIELD_ID_FACILITY, type := SYSLOG_FIELD_TYPE_STRING,
                    spec := 'F', param_name := "facility", human_name := "Facility",
                    validator := some validator_t.validate_facility },
          flags := 0, parse_start_char := NUL, parse_stop_char := '.' } = some (0, st1, field1) ∧
      c_str (("local0.info".toList ++ [NUL]).set
          (0 + "local0.info".toList.indexOf '.') NUL) 0 =
        some ("local0.info".toList.take ("local0.info".toList.indexOf '.')) ∧
      st1.data = some (0 + "local0.info".toList.indexOf '.' + 1) ∧
      field1.value.string = 0 ∧
      field_string st1 field1 =
        some (("local0.info".toList.take ("local0.info".toList.indexOf '.')).takeWhile
          (fun c => decide (c ∉ ['\r', '\n']))) ∧
      ((∀ c ∈ "local0.info".toList.take ("local0.info".toList.indexOf '.'),
          c ∉ ['\r', '\n']) →
        field_string st1 field1 =
          some ("local0.info".toList.take ("local0.info".toList.indexOf '.'))) :=
  (parse_string_bounded { line := "local0.info".toList ++ [NUL], data := some 0 }
    { info := { id := SYSLOG_FIELD_ID_FACILITY, type := SYSLOG_FIELD_TYPE_STRING,
                    spec := 'F', param_name := "facility", human_name := "Facility",
                    validator := some validator_t.validate_facility },
          flags := 0, parse_start_char := NUL, parse_stop_char := '.' } 0 "local0.info".toList rfl (by decide) (by decide) (by decide)).2 (by decide)

theorem takeWhile_append_line_end (body term : List Char)
    (hbody : ∀ c ∈ body, c ∉ ['\r', '\n']) (hterm : ∀ c ∈ term, c ∈ ['\r', '\n']) :
    (body ++ term).takeWhile (fun c => decide (c ∉ ['\r', '\n'])) = body := by
  rw [List.takeWhile_append_of_pos (by
    intro c hc
    simpa using hbody c hc)]
  have : term.takeWhile (fun c => decide (c ∉ ['\r', '\n'])) = [] := by
    cases term with
    | nil => rfl
    | cons x xs =>
      have hx := hterm x (List.mem_cons_self _ _)
      simp only [List.takeWhile]
      have : decide (x ∉ ['\r', '\n']) = false := decide_eq_false (not_not.mpr hx)
      rw [this]
  rw [this, List.append_nil]

/-- C12 (as stated, refuted). For the Message field of the default
specification and the remaining text "a\rb\n", `parse_string` returns 0 and
the decoded value is "a": the text without its trailing record terminator
would be "a\rb". -/
theorem parse_string_unbounded_embedded_cr_counterexample :
    (parse_string { line := ['a', '\r', 'b', '\n', NUL], data := some 0 }
      { info := { id := SYSLOG_FIELD_ID_MESSAGE, type := SYSLOG_FIELD_TYPE_STRING,
                  spec := 'M', param_name := "message", human_name := "Message" },
        flags := SYSLOG_FIELD_FLAG_NOTRIM, parse_start_char := ' ',
        parse_stop_char := NUL }).map
      (fun r => (r.1, r.2.1.data, field_string r.2.1 r.2.2)) =
      some (0, some 5, some ['a']) := by
  decide

/-- C12 (amended). For a field whose stop delimiter is absent, with the
string `s` at the cursor, `parse_string` does not fail: it cuts at the
terminator, so that the text it takes is all of `s` and the cursor moves to
just after the terminator, and the decoded value is `s` up to its first CR or
LF; when `s` is a text without CR or LF followed only by CR and LF
characters, the decoded value is that text. -/
theorem parse_string_unbounded (st : parse_state) (field : syslog_field_t) (data : Nat)
    (s : List Char) (hdata : st.data = some data) (hs : c_str st.line data = some s)
    (hstop : field.parse_stop_char = NUL) :
    ∃ st1 field1, parse_string st field = some (0, st1, field1) ∧
      c_str (st.line.set (data + s.length) NUL) data = some s ∧
      st1.data = some (data + s.length + 1) ∧
      field1.value.string = data ∧
      field_string st1 field1 =
        some (s.takeWhile (fun c => decide (c ∉ ['\r', '\n']))) ∧
      ∀ body term, s = body ++ term → (∀ c ∈ body, c ∉ ['\r', '\n']) →
        (∀ c ∈ term, c ∈ ['\r', '\n']) → field_string st1 field1 = some body := by
  obtain ⟨_, _, hok⟩ := parse_string_eq hdata hs rfl
  obtain ⟨hle, hres⟩ := hok s.length (Or.inl ⟨hstop, rfl⟩)
  have hval := c_str_after_cut hs hle
  have hcap := c_str_set_nul hs hle
  rw [List.take_length] at hval hcap
  have hfs : field_string
      { st with
        line :=
          if ((s.take s.length).takeWhile (fun c => decide (c ∉ ['\r', '\n']))).length
              < s.length then
            (st.line.set (data + s.length) NUL).set
              (data + ((s.take s.length).takeWhile
                (fun c => decide (c ∉ ['\r', '\n']))).length) NUL
          else st.line.set (data + s.length) NUL,
        data := some (data + s.length + 1) }
      { field with value := { field.value with string := data } } =
      some (s.takeWhile (fun c => decide (c ∉ ['\r', '\n']))) := by
    unfold field_string
    simp only [List.take_length]
    exact hval
  refine ⟨_, _, hres, hcap, rfl, rfl, hfs, ?_⟩
  intro body term hsplit hbody hterm
  rw [hfs, hsplit, takeWhile_append_line_end body term hbody hterm]

/-- Witness of C12 (amended): the Message field of the default specification
on the remaining text "hello world\n". -/
theorem parse_string_unbounded_witness :
    ∃ st1 field1,
      parse_string { line := "hello world\n".toList ++ [NUL], data := some 0 }
        { info := { id := SYSLOG_FIELD_ID_MESSAGE, type := SYSLOG_FIELD_TYPE_STRING,
                    spec := 'M', param_name := "message", human_name := "Message" },
          flags := SYSLOG_FIELD_FLAG_NOTRIM, parse_start_char := ' ',
          parse_stop_char := NUL } = some (0, st1, field1) ∧
      field_string st1 field1 = some "hello world".toList :=
  (parse_string_unbounded { line := "hello world\n".toList ++ [NUL], data := some 0 }
    { info := { id := SYSLOG_FIELD_ID_MESSAGE, type := SYSLOG_FIELD_TYPE_STRING,
                spec := 'M', param_name := "message", human_name := "Message" },
      flags := SYSLOG_FIELD_FLAG_NOTRIM, parse_start_char := ' ', parse_stop_char := NUL }
    0 "hello world\n".toList rfl (by decide) rfl).elim
    (fun st1 h => h.elim (fun field1 h =>
      ⟨st1, field1, h.1,
        h.2.2.2.2.2 "hello world".toList ['\n'] (by decide) (by decide) (by decide)⟩))

/-- C13 (as stated, refuted). For the Tag field of the default specification
at the head of the line "a\rb: x", `parse_string` cuts off the text "a\rb" at
the stop delimiter ':' and the decoded value is "a": the text "b" after the
embedded CR is not kept. -/
theorem parse_string_value_embedded_cr_counterexample :
    (parse_string { line := ['a', '\r', 'b', ':', ' ', 'x', NUL], data := some 0 }
      { info := { id := SYSLOG_FIELD_ID_TAG, type := SYSLOG_FIELD_TYPE_STRING,
                  spec := 'G', param_name := "tag", human_name := "Tag" },
        flags := 0, parse_start_char := NUL, parse_stop_char := ':' }).map
      (fun r => (r.1, r.2.1.data,
        c_str (['a', '\r', 'b', ':', ' ', 'x', NUL].set 3 NUL) 0,
        field_string r.2.1 r.2.2)) =
      some (0, some 4, some ['a', '\r', 'b'], some ['a']) := by
  decide

/-- C13 (amended). Whenever `parse_string` succeeds on the string `s` at the
cursor, it has cut `s` at some index `idx` (the stop delimiter), and the
decoded value is the text before `idx` up to its first CR or LF: the
characters before the first CR or LF are kept, and that character and all
that follows it are removed. When the text is free of CR and LF but for CR
and LF characters at its end, exactly these are removed. -/
theorem parse_string_value (st st1 : parse_state) (field field1 : syslog_field_t)
    (data : Nat) (s : List Char) (hdata : st.data = some data)
    (hs : c_str st.line data = some s)
    (hres : parse_string st field = some (0, st1, field1)) :
    ∃ idx, idx ≤ s.length ∧
      c_str (st.line.set (data + idx) NUL) data = some (s.take idx) ∧
      st1.data = some (data + idx + 1) ∧
      field1.value.string = data ∧
      field_string st1 field1 =
        some ((s.take idx).takeWhile (fun c => decide (c ∉ ['\r', '\n']))) ∧
      ∀ body term, s.take idx = body ++ term → (∀ c ∈ body, c ∉ ['\r', '\n']) →
        (∀ c ∈ term, c ∈ ['\r', '\n']) → field_string st1 field1 = some body := by
  obtain ⟨_, hfail, hok⟩ := parse_string_eq hdata hs rfl
  have key : ∀ idx, idx ≤ s.length →
      parse_string st field =
        some (0,
          { st with
            line :=
              if ((s.take idx).takeWhile (fun c => decide (c ∉ ['\r', '\n']))).length < idx
              then
                (st.line.set (data + idx) NUL).set
                  (data + ((s.take idx).takeWhile
                    (fun c => decide (c ∉ ['\r', '\n']))).length) NUL
              else st.line.set (data + idx) NUL,
            data := some (data + idx + 1) },
          { field with value := { field.value with string := data } }) →
      ∃ idx, idx ≤ s.length ∧
        c_str (st.line.set (data + idx) NUL) data = some (s.take idx) ∧
        st1.data = some (data + idx + 1) ∧
        field1.value.string = data ∧
        field_string st1 field1 =
          some ((s.take idx).takeWhile (fun c => decide (c ∉ ['\r', '\n']))) ∧
        ∀ body term, s.take idx = body ++ term → (∀ c ∈ body, c ∉ ['\r', '\n']) →
          (∀ c ∈ term, c ∈ ['\r', '\n']) → field_string st1 field1 = some body := by
    intro idx hle heq
    rw [hres] at heq
    simp only [Option.some.injEq, Prod.mk.injEq, true_and] at heq
    obtain ⟨h1, h2⟩ := heq
    have hval := c_str_after_cut hs hle
    have hfs : field_string st1 field1 =
        some ((s.take idx).takeWhile (fun c => decide (c ∉ ['\r', '\n']))) := by
      rw [h1, h2]
      exact hval
    refine ⟨idx, hle, c_str_set_nul hs hle, by rw [h1], by rw [h2], hfs, ?_⟩
    intro body term hsplit hbody hterm
    rw [hfs, hsplit, takeWhile_append_line_end body term hbody hterm]
  by_cases hd : field.parse_stop_char = NUL
  · obtain ⟨hle, heq⟩ := hok s.length (Or.inl ⟨hd, rfl⟩)
    exact key _ hle heq
  · by_cases hmem : field.parse_stop_char ∈ s.drop
        (if field.flags &&& SYSLOG_FIELD_FLAG_NOTRIM ≠ 0
          then (s.takeWhile isspace).length else 0)
    · obtain ⟨hle, heq⟩ := hok _ (Or.inr ⟨hd, hmem, rfl⟩)
      exact key _ hle heq
    · have := hfail hd hmem
      rw [hres] at this
      simp only [Option.some.injEq, Prod.mk.injEq] at this
      exact absurd this.1 (by decide)

/-- Witness of C13 (amended): the Tag field at the head of the line
"a\rb: x". -/
theorem parse_string_value_witness :
    ∃ idx, idx ≤ ['a', '\r', 'b', ':', ' ', 'x'].length ∧
      c_str (['a', '\r', 'b', ':', ' ', 'x', NUL].set (0 + idx) NUL) 0 =
        some (['a', '\r', 'b', ':', ' ', 'x'].take idx) ∧
      (some 4 : Option Nat) = some (0 + idx + 1) ∧
      (0 : Nat) = 0 ∧
      field_string { line := ['a', NUL, 'b', NUL, ' ', 'x', NUL], data := some 4 }
          { info := { id := SYSLOG_FIELD_ID_TAG, type := SYSLOG_FIELD_TYPE_STRING,
                      spec := 'G', param_name := "tag", human_name := "Tag" },
            flags := 0, parse_start_char := NUL, parse_stop_char := ':' } =
        some ((['a', '\r', 'b', ':', ' ', 'x'].take idx).takeWhile
          (fun c => decide (c ∉ ['\r', '\n']))) ∧
      ∀ body term, ['a', '\r', 'b', ':', ' ', 'x'].take idx = body ++ term →
        (∀ c ∈ body, c ∉ ['\r', '\n']) → (∀ c ∈ term, c ∈ ['\r', '\n']) →
        field_string { line := ['a', NUL, 'b', NUL, ' ', 'x', NUL], data := some 4 }
          { info := { id := SYSLOG_FIELD_ID_TAG, type := SYSLOG_FIELD_TYPE_STRING,
                      spec := 'G', param_name := "tag", human_name := "Tag" },
            flags := 0, parse_start_char := NUL, parse_stop_char := ':' } = some body :=
  parse_string_value { line := ['a', '\r', 'b', ':', ' ', 'x', NUL], data := some 0 }
    { line := ['a', NUL, 'b', NUL, ' ', 'x', NUL], data := some 4 }
    { info := { id := SYSLOG_FIELD_ID_TAG, type := SYSLOG_FIELD_TYPE_STRING,
                spec := 'G', param_name := "tag", human_name := "Tag" },
      flags := 0, parse_start_char := NUL, parse_stop_char := ':' }
    { info := { id := SYSLOG_FIELD_ID_TAG, type := SYSLOG_FIELD_TYPE_STRING,
                spec := 'G', param_name := "tag", human_name := "Tag" },
      flags := 0, parse_start_char := NUL, parse_stop_char := ':' }
    0 ['a', '\r', 'b', ':', ' ', 'x'] rfl (by decide) (by decide)

/-! ### Leading white space -/

theorem drop_takeWhile_length {α : Type} (p : α → Bool) (l : List α) :
    l.drop (l.takeWhile p).length = l.dropWhile p := by
  induction l with
  | nil => rfl
  | cons x xs ih =>
    by_cases hx : p x = true
    · simp only [List.takeWhile, hx, List.length_cons, List.drop_succ_cons, List.dropWhile]
      exact ih
    · have hx' : p x = false := by simpa using hx
      simp [List.takeWhile, List.dropWhile, hx']

theorem head?_dropWhile_isspace (l : List Char) :
    ∀ c ∈ (l.dropWhile isspace).head?, isspace c = false := by
  induction l with
  | nil => simp
  | cons x xs ih =>
    by_cases hx : isspace x = true
    · simp only [List.dropWhile, hx]
      exact ih
    · have hx' : isspace x = false := by simpa using hx
      simp [List.dropWhile, hx']

theorem head_of_initial_part {v s : List Char} (h : v <+: s) : ∀ c ∈ v.head?, c ∈ s.head? := by
  obtain ⟨t, ht⟩ := h
  subst ht
  cases v with
  | nil => simp
  | cons x xs => simp

theorem field_parse_finish_ok {line_n : Nat} {r : Int} {st st1 : parse_state}
    {f f1 : syslog_field_t} (h : field_parse_finish line_n r st f = some (0, st1, f1)) :
    r = 0 ∧ st1 = st ∧ f1 = f := by
  unfold field_parse_finish at h
  split at h
  · rename_i hr
    simp only [Option.some.injEq, Prod.mk.injEq] at h
    exact absurd h.1 hr
  · rename_i hr
    have hr0 : r = 0 := by simpa using hr
    split at h
    · split at h
      · simp only [Option.some.injEq, Prod.mk.injEq, true_and] at h
        exact ⟨hr0, h.1.symm, h.2.symm⟩
      · split at h
        · simp at h
        · split at h
          · rename_i hret
            simp only [Option.some.injEq, Prod.mk.injEq] at h
            exact absurd h.1 hret
          · simp only [Option.some.injEq, Prod.mk.injEq, true_and] at h
            exact ⟨hr0, h.1.symm, h.2.symm⟩
    · simp only [Option.some.injEq, Prod.mk.injEq, true_and] at h
      exact ⟨hr0, h.1.symm, h.2.symm⟩

/-- The cursor after lines 473-486 of a field without NoTrim. -/
theorem field_parse_start_trim {st : parse_state} {f : syslog_field_t} {data data2 : Nat}
    {s : List Char} (hnotrim : f.flags &&& SYSLOG_FIELD_FLAG_NOTRIM = 0)
    (hdata : st.data = some data) (hs : c_str st.line data = some s)
    (hstart : field_parse_start st f = some (some data2)) :
    ∃ data1 s1, c_str st.line data1 = some s1 ∧
      (f.parse_start_char = NUL → data1 = data ∧ s1 = s) ∧
      (f.parse_start_char ≠ NUL → f.parse_start_char ∈ s ∧
        data1 = data + s.indexOf f.parse_start_char + 1 ∧
        s1 = s.drop (s.indexOf f.parse_start_char + 1)) ∧
      data2 = data1 + (s1.takeWhile isspace).length ∧
      c_str st.line data2 = some (s1.dropWhile isspace) := by
  have hfin : ∀ data1 s1, c_str st.line data1 = some s1 →
      strskipspaces st.line data1 = some data2 →
      data2 = data1 + (s1.takeWhile isspace).length ∧
        c_str st.line data2 = some (s1.dropWhile isspace) := by
    intro data1 s1 hs1 hskip
    rw [strskipspaces_eq hs1] at hskip
    simp only [Option.some.injEq] at hskip
    refine ⟨hskip.symm, ?_⟩
    rw [← hskip, c_str_add hs1 (takeWhile_length_le _ _), drop_takeWhile_length]
  unfold field_parse_start at hstart
  rw [hdata] at hstart
  simp only [hnotrim, if_true] at hstart
  by_cases hc : f.parse_start_char = NUL
  · simp only [hc, ne_eq, not_true_eq_false, if_false] at hstart
    refine ⟨data, s, hs, fun _ => ⟨rfl, rfl⟩, fun h => absurd hc h, ?_⟩
    apply hfin data s hs
    cases hsk : strskipspaces st.line data with
    | none => rw [hsk] at hstart; simp at hstart
    | some d =>
      rw [hsk] at hstart
      simp only [Option.some.injEq] at hstart
      rw [hstart]
  · simp only [hc, ne_eq, not_false_eq_true, if_true, strchr_eq _ hc hs] at hstart
    by_cases hmem : f.parse_start_char ∈ s
    · simp only [hmem, if_true] at hstart
      have hlt : s.indexOf f.parse_start_char < s.length := List.indexOf_lt_length.mpr hmem
      have hs1 := c_str_add (k := s.indexOf f.parse_start_char + 1) hs (by omega)
      rw [← Nat.add_assoc] at hs1
      refine ⟨_, _, hs1, fun h => absurd h hc, fun _ => ⟨hmem, rfl, rfl⟩, ?_⟩
      apply hfin _ _ hs1
      cases hsk : strskipspaces st.line (data + s.indexOf f.parse_start_char + 1) with
      | none => rw [hsk] at hstart; simp at hstart
      | some d =>
        rw [hsk] at hstart
        simp only [Option.some.injEq] at hstart
        rw [hstart]
    · simp [hmem] at hstart

/-- The string a successful `parse_string` leaves in the field is a prefix of
the string at the cursor. -/
theorem parse_string_ok_initial_part {st st1 : parse_state} {f f1 : syslog_field_t} {data : Nat}
    {s : List Char} (hdata : st.data = some data) (hs : c_str st.line data = some s)
    (hres : parse_string st f = some (0, st1, f1)) :
    ∃ v, field_string st1 f1 = some v ∧ v <+: s := by
  obtain ⟨_, hfail, hok⟩ := parse_string_eq (f := f) hdata hs rfl
  have key : ∀ idx, idx ≤ s.length →
      parse_string st f =
        some (0,
          { st with
            line :=
              if ((s.take idx).takeWhile (fun c => decide (c ∉ ['\r', '\n']))).length < idx
              then
                (st.line.set (data + idx) NUL).set
                  (data + ((s.take idx).takeWhile
                    (fun c => decide (c ∉ ['\r', '\n']))).length) NUL
              else st.line.set (data + idx) NUL,
            data := some (data + idx + 1) },
          { f with value := { f.value with string := data } }) →
      ∃ v, field_string st1 f1 = some v ∧ v <+: s := by
    intro idx hle heq
    rw [hres] at heq
    simp only [Option.some.injEq, Prod.mk.injEq, true_and] at heq
    obtain ⟨h1, h2⟩ := heq
    have hval := c_str_after_cut hs hle
    refine ⟨(s.take idx).takeWhile (fun c => decide (c ∉ ['\r', '\n'])), ?_,
      ⟨((s.take idx).dropWhile (fun c => decide (c ∉ ['\r', '\n']))) ++ s.drop idx, by
        rw [← List.append_assoc, List.takeWhile_append_dropWhile, List.take_append_drop]⟩⟩
    unfold field_string
    rw [h1, h2]
    exact hval
  by_cases hc : f.parse_stop_char = NUL
  · obtain ⟨hle, heq⟩ := hok s.length (Or.inl ⟨hc, rfl⟩)
    exact key _ hle heq
  · by_cases hmem : f.parse_stop_char ∈ s.drop
        (if f.flags &&& SYSLOG_FIELD_FLAG_NOTRIM ≠ 0 then (s.takeWhile isspace).length else 0)
    · obtain ⟨hle, heq⟩ := hok _ (Or.inr ⟨hc, hmem, rfl⟩)
      exact key _ hle heq
    · have h := hfail hc hmem
      rw [hres] at h
      simp only [Option.some.injEq, Prod.mk.injEq] at h
      have : (0 : Int) = -EILSEQ := h.1
      exact absurd this (by decide)

/-- C14. A field without the NoTrim flag is read from the first character
that is not white space at the cursor, after the start delimiter if the field
has one: the value is read at the cursor plus the length of the run of white
space there, the string at that place is the string at the cursor without its
leading white space and does not begin with white space, and the value a
String field decodes to is empty or begins with a character that is not white
space. -/
theorem leading_whitespace_skipped (tf : time_functions) (config : config_t) (line_n : Nat)
    (st st1 : parse_state) (field field1 : syslog_field_t) (data : Nat) (s : List Char)
    (hnotrim : field.flags &&& SYSLOG_FIELD_FLAG_NOTRIM = 0)
    (hdata : st.data = some data) (hs : c_str st.line data = some s) :
    (∀ data2, field_parse_start st field = some (some data2) →
      ∃ data1 s1, c_str st.line data1 = some s1 ∧
        (field.parse_start_char = NUL → data1 = data ∧ s1 = s) ∧
        (field.parse_start_char ≠ NUL → field.parse_start_char ∈ s ∧
          data1 = data + s.indexOf field.parse_start_char + 1 ∧
          s1 = s.drop (s.indexOf field.parse_start_char + 1)) ∧
        data2 = data1 + (s1.takeWhile isspace).length ∧
        c_str st.line data2 = some (s1.dropWhile isspace) ∧
        (∀ c ∈ (s1.dropWhile isspace).head?, isspace c = false) ∧
        syslog_entry_field_parse tf config line_n st field =
          (field_parse_value tf config { st with data := some data2 } field).bind
            (fun r => field_parse_finish line_n r.1 r.2.1 r.2.2)) ∧
    (field.info.type = SYSLOG_FIELD_TYPE_STRING →
      syslog_entry_field_parse tf config line_n st field = some (0, st1, field1) →
      ∃ v, field_string st1 field1 = some v ∧ ∀ c ∈ v.head?, isspace c = false) := by
  constructor
  · intro data2 hstart
    obtain ⟨data1, s1, h1, h2, h3, h4, h5⟩ := field_parse_start_trim hnotrim hdata hs hstart
    refine ⟨data1, s1, h1, h2, h3, h4, h5, head?_dropWhile_isspace s1, ?_⟩
    unfold syslog_entry_field_parse
    rw [hstart]
    dsimp only
    generalize field_parse_value tf config { st with data := some data2 } field = o
    cases o with
    | none => rfl
    | some r => rfl
  · intro htype hres
    unfold syslog_entry_field_parse at hres
    cases hstart : field_parse_start st field with
    | none => rw [hstart] at hres; simp at hres
    | some o =>
      cases o with
      | none =>
        rw [hstart] at hres
        simp only [Option.some.injEq, Prod.mk.injEq] at hres
        have : -EILSEQ = (0 : Int) := hres.1
        exact absurd this (by decide)
      | some data2 =>
        rw [hstart] at hres
        obtain ⟨data1, s1, _, _, _, _, h5⟩ := field_parse_start_trim hnotrim hdata hs hstart
        simp only [field_parse_value, htype] at hres
        cases hval : parse_string { st with data := some data2 } field with
        | none => rw [hval] at hres; simp at hres
        | some r =>
          obtain ⟨ret, sta, fa⟩ := r
          rw [hval] at hres
          obtain ⟨hr, hst, hf⟩ := field_parse_finish_ok hres
          subst hr hst hf
          obtain ⟨v, hv, hpre⟩ := @parse_string_ok_initial_part { st with data := some data2 } _ _ _ _ _
            rfl h5 hval
          refine ⟨v, hv, ?_⟩
          intro c hc
          exact head?_dropWhile_isspace s1 c (head_of_initial_part hpre c hc)

theorem leading_whitespace_skipped_witness :
    (∀ data2, field_parse_start { line := "h:  \tmy tag: x".toList ++ [NUL], data := some 0 }
        { info := { id := SYSLOG_FIELD_ID_TAG, spec := 'G', type := SYSLOG_FIELD_TYPE_STRING,
                    param_name := "tag", human_name := "Tag" },
          flags := 0, value := {}, parse_start_char := ':', parse_stop_char := ':' }
        = some (some data2) →
      ∃ data1 s1, c_str ("h:  \tmy tag: x".toList ++ [NUL]) data1 = some s1 ∧
        ((':' : Char) = NUL → data1 = 0 ∧ s1 = "h:  \tmy tag: x".toList) ∧
        ((':' : Char) ≠ NUL → ':' ∈ "h:  \tmy tag: x".toList ∧
          data1 = 0 + ("h:  \tmy tag: x".toList).indexOf ':' + 1 ∧
          s1 = ("h:  \tmy tag: x".toList).drop (("h:  \tmy tag: x".toList).indexOf ':' + 1)) ∧
        data2 = data1 + (s1.takeWhile isspace).length ∧
        c_str ("h:  \tmy tag: x".toList ++ [NUL]) data2 = some (s1.dropWhile isspace) ∧
        (∀ c ∈ (s1.dropWhile isspace).head?, isspace c = false) ∧
        syslog_entry_field_parse utc_time_functions default_config 1
          { line := "h:  \tmy tag: x".toList ++ [NUL], data := some 0 }
          { info := { id := SYSLOG_FIELD_ID_TAG, spec := 'G', type := SYSLOG_FIELD_TYPE_STRING,
                      param_name := "tag", human_name := "Tag" },
            flags := 0, value := {}, parse_start_char := ':', parse_stop_char := ':' } =
          (field_parse_value utc_time_functions default_config
            { line := "h:  \tmy tag: x".toList ++ [NUL], data := some data2 }
            { info := { id := SYSLOG_FIELD_ID_TAG, spec := 'G', type := SYSLOG_FIELD_TYPE_STRING,
                        param_name := "tag", human_name := "Tag" },
              flags := 0, value := {}, parse_start_char := ':', parse_stop_char := ':' }).bind
            (fun r => field_parse_finish 1 r.1 r.2.1 r.2.2)) ∧
    (SYSLOG_FIELD_TYPE_STRING = SYSLOG_FIELD_TYPE_STRING →
      syslog_entry_field_parse utc_time_functions default_config 1
          { line := "h:  \tmy tag: x".toList ++ [NUL], data := some 0 }
          { info := { id := SYSLOG_FIELD_ID_TAG, spec := 'G', type := SYSLOG_FIELD_TYPE_STRING,
                      param_name := "tag", human_name := "Tag" },
            flags := 0, value := {}, parse_start_char := ':', parse_stop_char := ':' } =
        some (0, { line := "h:  \tmy tag\x00 x".toList ++ [NUL], data := some 12 },
          { info := { id := SYSLOG_FIELD_ID_TAG, spec := 'G', type := SYSLOG_FIELD_TYPE_STRING,
                      param_name := "tag", human_name := "Tag" },
            flags := 0, value := { string := 5 }, parse_start_char := ':',
            parse_stop_char := ':' }) →
      ∃ v, field_string { line := "h:  \tmy tag\x00 x".toList ++ [NUL], data := some 12 }
          { info := { id := SYSLOG_FIELD_ID_TAG, spec := 'G', type := SYSLOG_FIELD_TYPE_STRING,
                      param_name := "tag", human_name := "Tag" },
            flags := 0, value := { string := 5 }, parse_start_char := ':',
            parse_stop_char := ':' } = some v ∧
        ∀ c ∈ v.head?, isspace c = false) :=
  leading_whitespace_skipped utc_time_functions default_config 1
    { line := "h:  \tmy tag: x".toList ++ [NUL], data := some 0 }
    { line := "h:  \tmy tag\x00 x".toList ++ [NUL], data := some 12 }
    { info := { id := SYSLOG_FIELD_ID_TAG, spec := 'G', type := SYSLOG_FIELD_TYPE_STRING,
                param_name := "tag", human_name := "Tag" },
      flags := 0, value := {}, parse_start_char := ':', parse_stop_char := ':' }
    { info := { id := SYSLOG_FIELD_ID_TAG, spec := 'G', type := SYSLOG_FIELD_TYPE_STRING,
                param_name := "tag", human_name := "Tag" },
      flags := 0, value := { string := 5 }, parse_start_char := ':', parse_stop_char := ':' }
    0 "h:  \tmy tag: x".toList (by decide) rfl (by decide)

/-! ### Failures without a diagnostic -/

/-- C16 (not met by the code). With the specification "%H [%G" the line
"host x" fails at the Tag field, whose start delimiter '[' is not found:
`syslog_entry_parse`, called with line number 7, returns `-EILSEQ` and writes
nothing to the diagnostic stream. `convert_syslog` adds no message of its
own: on the input "host x\n" (read with a buffer of 1024 characters) it
returns 0, calls the start and the end callback only, and the diagnostic
stream stays empty. A line that fails at the stop delimiter of the Hostname
field ("host") does get its message. -/
theorem start_delimiter_failure_without_diagnostic :
    (syslog_entry_init "%H [%G".toList).bind (fun r =>
      (syslog_entry_parse utc_time_functions default_config r.2 7
        ("host x".toList ++ [NUL])).map (fun out => (r.1, out.1, out.2.1.stderr))) =
      some (0, -EILSEQ, []) ∧
    (convert_syslog utc_time_functions { default_config with entry_spec := "%H [%G".toList }
      call_recorder 1024 65536 "host x\n".toList []).map
        (fun r => (r.1, r.2.1.map output_call.entry_num, r.2.2)) =
      some (0, [none, none], []) ∧
    (syslog_entry_init "%H [%G".toList).bind (fun r =>
      (syslog_entry_parse utc_time_functions default_config r.2 7
        ("host".toList ++ [NUL])).map (fun out => (r.1, out.1, out.2.1.stderr))) =
      some (0, -EILSEQ, [msg_failed_to_parse 7 "hostname" (-EILSEQ)]) := by
  refine ⟨by decide, by decide, by decide⟩

/-! ### The entry after a failed `syslog_entry_init` -/

/-- A scan that fails returns `-EINVAL`, and the entry it leaves is the one
that the scan of a part of the characters, up to the token that fails,
returns with code 0. -/
theorem init_scan_error_compiled_part :
    ∀ (p : List Char) (m : Bool) (st : init_locals) (code : Int) (e : syslog_entry_t),
      init_scan m st p = some (code, e) → code ≠ 0 →
      code = -EINVAL ∧
        ((m = true ∧ e = st.entry) ∨
          ∃ q r, p = q ++ r ∧ init_scan m st q = some (0, e)) := by
  intro p
  induction p with
  | nil =>
    intro m st code e h hne
    cases m with
    | false =>
      simp only [init_scan, Option.some.injEq, Prod.mk.injEq] at h
      exact absurd h.1.symm hne
    | true =>
      simp only [init_scan] at h
      split at h
      · rename_i r hr
        rw [init_specifier_error hr] at h
        simp only [Option.some.injEq, Prod.mk.injEq] at h
        exact ⟨h.1.symm, Or.inl ⟨rfl, h.2.symm⟩⟩
      · simp at h
  | cons c p ih =>
    intro m st code e h hne
    cases m with
    | false =>
      simp only [init_scan] at h
      split at h
      · simp only [Option.some.injEq, Prod.mk.injEq] at h
        exact absurd h.1.symm hne
      · rename_i hnul
        split at h
        · rename_i hpct
          obtain ⟨hc, hcase⟩ := ih false (init_literal st c) code e h hne
          refine ⟨hc, Or.inr ?_⟩
          rcases hcase with ⟨hf, _⟩ | ⟨q, r, hp, hq⟩
          · exact absurd hf (by decide)
          · refine ⟨c :: q, r, by rw [hp]; rfl, ?_⟩
            simp only [init_scan]
            rw [if_neg hnul, if_pos hpct]
            exact hq
        · rename_i hpct
          split at h
          · rename_i hl
            simp only [Option.some.injEq, Prod.mk.injEq] at h
            refine ⟨h.1.symm, Or.inr ⟨[], c :: p, rfl, ?_⟩⟩
            simp only [init_scan, Option.some.injEq, Prod.mk.injEq, true_and]
            exact h.2
          · rename_i hl
            obtain ⟨hc, hcase⟩ := ih true st code e h hne
            refine ⟨hc, Or.inr ?_⟩
            rcases hcase with ⟨_, he⟩ | ⟨q, r, hp, hq⟩
            · refine ⟨[], c :: p, rfl, ?_⟩
              simp only [init_scan, Option.some.injEq, Prod.mk.injEq, true_and]
              exact he.symm
            · refine ⟨c :: q, r, by rw [hp]; rfl, ?_⟩
              simp only [init_scan]
              rw [if_neg hnul, if_neg hpct, if_neg hl]
              exact hq
    | true =>
      have hmod : ∀ bit, init_scan true { st with flags := st.flags ||| bit } p = some (code, e) →
          (∀ q, init_scan true st (c :: q) =
            init_scan true { st with flags := st.flags ||| bit } q) →
          code = -EINVAL ∧
            ((true = true ∧ e = st.entry) ∨
              ∃ q r, c :: p = q ++ r ∧ init_scan true st q = some (0, e)) := by
        intro bit h1 hstep
        obtain ⟨hc, hcase⟩ := ih true _ code e h1 hne
        refine ⟨hc, ?_⟩
        rcases hcase with ⟨_, he⟩ | ⟨q, r, hp, hq⟩
        · exact Or.inl ⟨rfl, he⟩
        · refine Or.inr ⟨c :: q, r, by rw [hp]; rfl, ?_⟩
          rw [hstep q]
          exact hq
      simp only [init_scan] at h
      split at h
      · rename_i h1
        exact hmod _ h (fun q => by simp only [init_scan]; rw [if_pos h1])
      · rename_i h1
        split at h
        · rename_i h2
          exact hmod _ h (fun q => by simp only [init_scan]; rw [if_neg h1, if_pos h2])
        · rename_i h2
          split at h
          · rename_i h3
            exact hmod _ h
              (fun q => by simp only [init_scan]; rw [if_neg h1, if_neg h2, if_pos h3])
          · rename_i h3
            split at h
            · rename_i r hr
              rw [init_specifier_error hr] at h
              simp only [Option.some.injEq, Prod.mk.injEq] at h
              exact ⟨h.1.symm, Or.inl ⟨rfl, h.2.symm⟩⟩
            · rename_i st1 hs
              split at h
              · simp at h
              · rename_i hnul
                obtain ⟨hc, hcase⟩ := ih false st1 code e h hne
                refine ⟨hc, Or.inr ?_⟩
                rcases hcase with ⟨hf, _⟩ | ⟨q, r, hp, hq⟩
                · exact absurd hf (by decide)
                · refine ⟨c :: q, r, by rw [hp]; rfl, ?_⟩
                  simp only [init_scan]
                  rw [if_neg h1, if_neg h2, if_neg h3, hs]
                  simp only
                  rw [if_neg hnul]
                  exact hq

/-- C17 (as stated, refuted). On the specification "%T %T"
`syslog_entry_init` returns the error `-EINVAL` and leaves in the entry the
Timestamp descriptor compiled from the first token, with the Timestamp bit of
the presence bitmask set. -/
theorem init_error_keeps_descriptors_counterexample :
    (syslog_entry_init "%T %T".toList).map
      (fun r => (r.1, r.2.fields_mask, r.2.fields.map (fun f => f.info.id))) =
      some (-EINVAL, 1 <<< SYSLOG_FIELD_ID_TIMESTAMP.toNat, [SYSLOG_FIELD_ID_TIMESTAMP]) := by
  decide

/-! ### Repeated kinds -/

/-- A field token followed, anywhere later, by a token of the same letter
without the Drop modifier makes the scan fail. -/
theorem init_scan_kind_repeated (letter : Char) (info : syslog_field_info_t)
    (hfind : syslog_field_info.find? (fun i => letter == i.spec) = some info)
    (ms : List Char) (post : List spec_token)
    (hpost : 1 ≤ post.countP (spec_token.is_kept_field letter)) :
    ∀ (p : List Char) (mods : Option (List Char)) (st : init_locals) (pre : List spec_token),
      spec_tokens_from mods p = pre ++ spec_token.token ms letter :: post →
      ∃ e, init_scan mods.isSome st p = some (-EINVAL, e) := by
  intro p
  induction p with
  | nil =>
    intro mods st pre h
    cases mods with
    | none => simp [spec_tokens_from] at h
    | some m =>
      simp only [spec_tokens_from] at h
      cases pre with
      | nil => simp at h
      | cons x pre1 =>
        have := congrArg List.length h
        simp at this
  | cons c p ih =>
    intro mods st pre h
    cases mods with
    | none =>
      simp only [spec_tokens_from] at h
      simp only [Option.isSome_none, init_scan]
      split
      · rename_i hnul
        simp [hnul] at h
      · rename_i hnul
        simp only [hnul, if_false] at h
        split
        · rename_i hpct
          simp only [if_neg hpct] at h
          cases pre with
          | nil => simp at h
          | cons x pre1 =>
            simp only [List.cons_append, List.cons.injEq] at h
            exact ih none _ pre1 h.2
        · rename_i hpct
          have hpct : c = '%' := by simpa using hpct
          simp only [hpct, if_true] at h
          split
          · exact ⟨_, rfl⟩
          · exact ih (some []) st pre h
    | some m =>
      simp only [spec_tokens_from] at h
      simp only [Option.isSome_some, init_scan]
      split
      · rename_i h1
        have h1' : c = '!' := h1
        simp only [h1', true_or, if_true] at h
        exact ih (some (m ++ ['!'])) _ pre h
      · rename_i h1
        have h1' : c ≠ '!' := h1
        split
        · rename_i h2
          have h2' : c = '_' := h2
          simp only [h2', or_true, true_or, if_true] at h
          exact ih (some (m ++ ['_'])) _ pre h
        · rename_i h2
          have h2' : c ≠ '_' := h2
          split
          · rename_i h3
            have h3' : c = '@' := h3
            simp only [h3', or_true, if_true] at h
            exact ih (some (m ++ ['@'])) _ pre h
          · rename_i h3
            have h3' : c ≠ '@' := h3
            simp only [h1', h2', h3', or_self, if_false] at h
            by_cases hnul : c = NUL
            · simp only [hnul, if_true] at h
              cases pre with
              | nil => simp at h
              | cons x pre1 =>
                have := congrArg List.length h
                simp at this
            · simp only [hnul, if_false] at h
              split
              · rename_i r hr
                rw [init_specifier_error hr]
                exact ⟨_, rfl⟩
              · rename_i st1 hs
                rw [if_neg hnul]
                cases pre with
                | cons x pre1 =>
                  simp only [List.cons_append, List.cons.injEq] at h
                  exact ih none st1 pre1 h.2
                | nil =>
                  simp only [List.nil_append, List.cons.injEq, spec_token.token.injEq] at h
                  obtain ⟨⟨_, hcl⟩, hrest⟩ := h
                  subst hcl
                  rcases init_specifier_ok hs with ⟨_, hn, _⟩ | ⟨_, hn, _⟩ |
                    ⟨info1, hfi1, hfl1, _, _, hsrc, hm1, _, _⟩
                  · rw [hfind] at hn; simp at hn
                  · rw [hfind] at hn; simp at hn
                  · have hinfo : info1 = info := by
                      rcases hsrc with h1 | ⟨h1, _⟩
                      · rw [hfind] at h1
                        exact (Option.some.inj h1).symm
                      · rw [hfind] at h1; simp at h1
                    subst hinfo
                    exact init_scan_dup_after c info1 hfind p none st1 (by rw [hfi1]; rfl)
                      (by rw [hm1]; exact or_bit_and_self_ne_zero _ _) hfl1
                      (by rw [hrest]; exact hpost)

/-- A token with the Drop modifier and a registered letter is compiled,
whatever has been compiled before it. -/
theorem init_specifier_drop {st : init_locals} {ch : Char} {info : syslog_field_info_t}
    (hfind : syslog_field_info.find? (fun i => ch == i.spec) = some info)
    (hdrop : st.flags &&& SYSLOG_FIELD_FLAG_DROP ≠ 0) :
    init_specifier st ch =
      .ok { flags := 0, field_info := some info, parse_start_char := NUL,
            entry := { st.entry with
              fields_mask := st.entry.fields_mask ||| (1 <<< info.id.toNat),
              fields := st.entry.fields ++
                [{ flags := st.flags, info := info,
                   parse_start_char := st.parse_start_char, parse_stop_char := NUL }] } } := by
  unfold init_specifier
  simp only [hfind]
  rw [if_neg (fun h => hdrop h.1)]

/-- C18 (as stated, refuted). The specification "%!T %T", in which only one
of the two Timestamp tokens lacks the Drop modifier, does not compile:
`syslog_entry_init` returns `-EINVAL`. -/
theorem drop_token_before_kept_token_counterexample :
    (syslog_entry_init "%!T %T".toList).map (fun r => r.1) = some (-EINVAL) := by
  decide

/-- C18 (amended). A token without the Drop modifier is rejected whenever a
field token of its letter, with or without Drop, comes before it:
`syslog_entry_init` returns `-EINVAL`. A token with the Drop modifier is not
rejected for repeating a kind: whatever has been compiled, the token of that
letter with the flags of its modifiers is compiled to one more descriptor. So
"%T %!T" and "%!T %!T" compile. -/
theorem repeated_kind_rejected_unless_drop (entry_spec : List Char) (letter : Char)
    (modifiers : List Char) (pre post : List spec_token)
    (hletter : letter ∈ syslog_field_info.map (fun info => info.spec))
    (hspec : spec_tokens entry_spec = pre ++ spec_token.token modifiers letter :: post)
    (hkept : 1 ≤ post.countP (spec_token.is_kept_field letter)) :
    (∃ entry, syslog_entry_init entry_spec = some (-EINVAL, entry) ∧ -EINVAL ≠ 0) ∧
    (∀ st : init_locals, st.flags &&& SYSLOG_FIELD_FLAG_DROP ≠ 0 →
      ∃ info st1, syslog_field_info.find? (fun i => letter == i.spec) = some info ∧
        init_specifier st letter = .ok st1 ∧
        st1.entry.fields = st.entry.fields ++
          [{ flags := st.flags, info := info,
             parse_start_char := st.parse_start_char, parse_stop_char := NUL }]) ∧
    (syslog_entry_init "%T %!T".toList).map
        (fun r => (r.1, r.2.fields.map (fun f => (f.info.id, f.flags)))) =
      some (0, [(SYSLOG_FIELD_ID_TIMESTAMP, 0),
        (SYSLOG_FIELD_ID_TIMESTAMP, SYSLOG_FIELD_FLAG_DROP)]) ∧
    (syslog_entry_init "%!T %!T".toList).map
        (fun r => (r.1, r.2.fields.map (fun f => (f.info.id, f.flags)))) =
      some (0, [(SYSLOG_FIELD_ID_TIMESTAMP, SYSLOG_FIELD_FLAG_DROP),
        (SYSLOG_FIELD_ID_TIMESTAMP, SYSLOG_FIELD_FLAG_DROP)]) := by
  have hfind : ∃ info, syslog_field_info.find? (fun i => letter == i.spec) = some info := by
    simp only [syslog_field_info, List.map_cons, List.map_nil, List.mem_cons,
      List.mem_singleton, List.not_mem_nil, or_false] at hletter
    rcases hletter with h | h | h | h | h | h <;> subst h <;> exact ⟨_, rfl⟩
  obtain ⟨info, hfind⟩ := hfind
  refine ⟨?_, ?_, by decide, by decide⟩
  · obtain ⟨e, he⟩ :=
      init_scan_kind_repeated letter info hfind modifiers post hkept entry_spec none _ pre hspec
    exact ⟨e, he, by decide⟩
  · intro st hdrop
    exact ⟨info, _, hfind, init_specifier_drop hfind hdrop, rfl⟩

/-- Witness of C18 (amended): the specification "%!T %T". -/
theorem repeated_kind_rejected_unless_drop_witness :
    (∃ entry, syslog_entry_init "%!T %T".toList = some (-EINVAL, entry) ∧ -EINVAL ≠ 0) ∧
    (∀ st : init_locals, st.flags &&& SYSLOG_FIELD_FLAG_DROP ≠ 0 →
      ∃ info st1, syslog_field_info.find? (fun i => 'T' == i.spec) = some info ∧
        init_specifier st 'T' = .ok st1 ∧
        st1.entry.fields = st.entry.fields ++
          [{ flags := st.flags, info := info,
             parse_start_char := st.parse_start_char, parse_stop_char := NUL }]) ∧
    (syslog_entry_init "%T %!T".toList).map
        (fun r => (r.1, r.2.fields.map (fun f => (f.info.id, f.flags)))) =
      some (0, [(SYSLOG_FIELD_ID_TIMESTAMP, 0),
        (SYSLOG_FIELD_ID_TIMESTAMP, SYSLOG_FIELD_FLAG_DROP)]) ∧
    (syslog_entry_init "%!T %!T".toList).map
        (fun r => (r.1, r.2.fields.map (fun f => (f.info.id, f.flags)))) =
      some (0, [(SYSLOG_FIELD_ID_TIMESTAMP, SYSLOG_FIELD_FLAG_DROP),
        (SYSLOG_FIELD_ID_TIMESTAMP, SYSLOG_FIELD_FLAG_DROP)]) :=
  repeated_kind_rejected_unless_drop "%!T %T".toList 'T' ['!'] []
    [spec_token.literal ' ', spec_token.token [] 'T'] (by decide) (by decide) (by decide)

/-! ### The escape `%%` -/

/-- C19 (not met by the code). After a field the escape "%%" is not a
literal '%': on "%T%%%M" `syslog_entry_init` returns `-EINVAL` and leaves the
Timestamp descriptor without a stop delimiter, and on "%T %%" and "%T %% %M"
it returns `-EINVAL` as well. With the Drop modifier the escape compiles to a
descriptor: "%T %!% %M" gives Timestamp, a Drop-flagged Timestamp and
Message. Before the first field the escape is skipped and is no delimiter:
"%%%T" gives a Timestamp descriptor without a start delimiter. -/
theorem escape_after_field_not_literal :
    (syslog_entry_init "%T%%%M".toList).map
        (fun r => (r.1, r.2.fields.map (fun f => (f.info.id, f.parse_stop_char)))) =
      some (-EINVAL, [(SYSLOG_FIELD_ID_TIMESTAMP, NUL)]) ∧
    (syslog_entry_init "%T %%".toList).map (fun r => r.1) = some (-EINVAL) ∧
    (syslog_entry_init "%T %% %M".toList).map (fun r => r.1) = some (-EINVAL) ∧
    (syslog_entry_init "%T %!% %M".toList).map
        (fun r => (r.1, r.2.fields.map (fun f => (f.info.id, f.flags)))) =
      some (0, [(SYSLOG_FIELD_ID_TIMESTAMP, 0),
        (SYSLOG_FIELD_ID_TIMESTAMP, SYSLOG_FIELD_FLAG_DROP), (SYSLOG_FIELD_ID_MESSAGE, 0)]) ∧
    (syslog_entry_init "%%%T".toList).map
        (fun r => (r.1, r.2.fields.map (fun f => (f.info.id, f.parse_start_char)))) =
      some (0, [(SYSLOG_FIELD_ID_TIMESTAMP, NUL)]) := by
  refine ⟨by decide, by decide, by decide, by decide, by decide⟩

/-! ### Modifiers -/

/-- The scan of the modifier characters of a token adds their flags to the
flags that the scan has when it enters the token. -/
theorem init_scan_modifiers (p : List Char) :
    ∀ (ms : List Char) (st : init_locals), (∀ c ∈ ms, c ∈ ['!', '_', '@']) →
      init_scan true st (ms ++ p) =
        init_scan true { st with flags := st.flags ||| modifier_flags ms } p := by
  intro ms
  induction ms with
  | nil =>
    intro st _
    simp [modifier_flags]
  | cons c ms ih =>
    intro st hms
    have hc := hms c (List.mem_cons_self _ _)
    have hrest : ∀ x ∈ ms, x ∈ ['!', '_', '@'] :=
      fun x hx => hms x (List.mem_cons_of_mem _ hx)
    simp only [List.mem_cons, List.mem_singleton, List.not_mem_nil, or_false] at hc
    rw [List.cons_append]
    rcases hc with h | h | h
    · subst h
      have hf : modifier_flag '!' = SYSLOG_FIELD_FLAG_DROP := by decide
      simp only [init_scan]
      rw [if_pos (by decide : '!' = SYSLOG_EXT_SPEC_DROP), ih _ hrest, modifier_flags, hf,
        ← Nat.lor_assoc]
    · subst h
      have hf : modifier_flag '_' = SYSLOG_FIELD_FLAG_NOTRIM := by decide
      simp only [init_scan]
      rw [if_neg (by decide : ¬ '_' = SYSLOG_EXT_SPEC_DROP),
        if_pos (by decide : '_' = SYSLOG_EXT_SPEC_NOTRIM), ih _ hrest, modifier_flags, hf,
        ← Nat.lor_assoc]
    · subst h
      have hf : modifier_flag '@' = SYSLOG_FIELD_FLAG_NOVALIDATION := by decide
      simp only [init_scan]
      rw [if_neg (by decide : ¬ '@' = SYSLOG_EXT_SPEC_DROP),
        if_neg (by decide : ¬ '@' = SYSLOG_EXT_SPEC_NOTRIM),
        if_pos (by decide : '@' = SYSLOG_EXT_SPEC_NOVALIDATION), ih _ hrest, modifier_flags, hf,
        ← Nat.lor_assoc]

/-- The flags of a run of modifier characters are those of the distinct
modifiers in it. -/
theorem modifier_flags_eq (ms : List Char) :
    modifier_flags ms =
      (if '!' ∈ ms then SYSLOG_FIELD_FLAG_DROP else 0) |||
      (if '_' ∈ ms then SYSLOG_FIELD_FLAG_NOTRIM else 0) |||
      (if '@' ∈ ms then SYSLOG_FIELD_FLAG_NOVALIDATION else 0) := by
  induction ms with
  | nil => rfl
  | cons c ms ih =>
    rw [modifier_flags, ih]
    by_cases h1 : c = '!'
    · subst h1
      by_cases a : '!' ∈ ms <;> by_cases b : '_' ∈ ms <;> by_cases d : '@' ∈ ms <;>
        simp [a, b, d, modifier_flag, SYSLOG_EXT_SPEC_DROP, SYSLOG_EXT_SPEC_NOTRIM,
          SYSLOG_EXT_SPEC_NOVALIDATION, SYSLOG_FIELD_FLAG_DROP, SYSLOG_FIELD_FLAG_NOTRIM,
          SYSLOG_FIELD_FLAG_NOVALIDATION]
    · by_cases h2 : c = '_'
      · subst h2
        by_cases a : '!' ∈ ms <;> by_cases b : '_' ∈ ms <;> by_cases d : '@' ∈ ms <;>
          simp [a, b, d, modifier_flag, SYSLOG_EXT_SPEC_DROP, SYSLOG_EXT_SPEC_NOTRIM,
            SYSLOG_EXT_SPEC_NOVALIDATION, SYSLOG_FIELD_FLAG_DROP, SYSLOG_FIELD_FLAG_NOTRIM,
            SYSLOG_FIELD_FLAG_NOVALIDATION]
      · by_cases h3 : c = '@'
        · subst h3
          by_cases a : '!' ∈ ms <;> by_cases b : '_' ∈ ms <;> by_cases d : '@' ∈ ms <;>
            simp [a, b, d, modifier_flag, SYSLOG_EXT_SPEC_DROP, SYSLOG_EXT_SPEC_NOTRIM,
              SYSLOG_EXT_SPEC_NOVALIDATION, SYSLOG_FIELD_FLAG_DROP, SYSLOG_FIELD_FLAG_NOTRIM,
              SYSLOG_FIELD_FLAG_NOVALIDATION]
        · have e1 : ('!' = c) = False := eq_false (fun h => h1 h.symm)
          have e2 : ('_' = c) = False := eq_false (fun h => h2 h.symm)
          have e3 : ('@' = c) = False := eq_false (fun h => h3 h.symm)
          simp [h1, h2, h3, e1, e2, e3, modifier_flag, SYSLOG_EXT_SPEC_DROP,
            SYSLOG_EXT_SPEC_NOTRIM, SYSLOG_EXT_SPEC_NOVALIDATION]

/-- C20 (not met by the code for the flags; what holds). Inside a token
(after its '%', whatever the locals of the scan are) two runs of modifier
characters with the same distinct modifiers give the same result, and each
gives the result of the scan with the flags of its distinct modifiers added
to the flags the scan has at the '%'; "%!_@M", "%@_!M" and "%!!_@M" compile
to the same Message descriptor with the three flags. The flags at the '%' are
not always clear, so the flags of a descriptor are not exactly those of its
modifiers: on "%!% %T" the Timestamp token has no modifier and its descriptor
has the Drop flag, left by the escape "%!%". -/
theorem modifiers_add_to_flags_at_token_start (st : init_locals)
    (modifiers1 modifiers2 p : List Char)
    (h1 : ∀ c ∈ modifiers1, c ∈ ['!', '_', '@'])
    (h2 : ∀ c ∈ modifiers2, c ∈ ['!', '_', '@'])
    (hsame : ∀ c, c ∈ modifiers1 ↔ c ∈ modifiers2) :
    init_scan true st (modifiers1 ++ p) = init_scan true st (modifiers2 ++ p) ∧
    init_scan true st (modifiers1 ++ p) =
      init_scan true { st with flags := st.flags ||| modifier_flags modifiers1 } p ∧
    modifier_flags modifiers1 =
      (if '!' ∈ modifiers1 then SYSLOG_FIELD_FLAG_DROP else 0) |||
      (if '_' ∈ modifiers1 then SYSLOG_FIELD_FLAG_NOTRIM else 0) |||
      (if '@' ∈ modifiers1 then SYSLOG_FIELD_FLAG_NOVALIDATION else 0) ∧
    (syslog_entry_init "%!_@M".toList).map
        (fun r => (r.1, r.2.fields.map (fun f => (f.info.id, f.flags)))) =
      some (0, [(SYSLOG_FIELD_ID_MESSAGE, SYSLOG_FIELD_FLAG_DROP |||
        SYSLOG_FIELD_FLAG_NOTRIM ||| SYSLOG_FIELD_FLAG_NOVALIDATION)]) ∧
    syslog_entry_init "%@_!M".toList = syslog_entry_init "%!_@M".toList ∧
    syslog_entry_init "%!!_@M".toList = syslog_entry_init "%!_@M".toList ∧
    (syslog_entry_init "%!% %T".toList).map
        (fun r => (r.1, r.2.fields.map (fun f => (f.info.id, f.flags)))) =
      some (0, [(SYSLOG_FIELD_ID_TIMESTAMP, SYSLOG_FIELD_FLAG_DROP)]) := by
  have hflags : modifier_flags modifiers1 = modifier_flags modifiers2 := by
    rw [modifier_flags_eq, modifier_flags_eq]
    simp only [hsame]
  refine ⟨?_, init_scan_modifiers p modifiers1 st h1, modifier_flags_eq modifiers1,
    by decide, by decide, by decide, by decide⟩
  rw [init_scan_modifiers p modifiers1 st h1, init_scan_modifiers p modifiers2 st h2, hflags]

/-- Witness of C20: the modifiers "!_@" and "@_!!" before the letter M. -/
theorem modifiers_add_to_flags_at_token_start_witness :
    init_scan true
        { flags := 0, field_info := none, parse_start_char := NUL,
          entry := { num := 0, fields_mask := 0, fields := [] } }
        (['!', '_', '@'] ++ ['M']) =
      init_scan true
        { flags := 0, field_info := none, parse_start_char := NUL,
          entry := { num := 0, fields_mask := 0, fields := [] } }
        (['@', '_', '!', '!'] ++ ['M']) ∧
    init_scan true
        { flags := 0, field_info := none, parse_start_char := NUL,
          entry := { num := 0, fields_mask := 0, fields := [] } }
        (['!', '_', '@'] ++ ['M']) =
      init_scan true
        { flags := 0 ||| modifier_flags ['!', '_', '@'], field_info := none,
          parse_start_char := NUL,
          entry := { num := 0, fields_mask := 0, fields := [] } } ['M'] ∧
    modifier_flags ['!', '_', '@'] =
      (if '!' ∈ ['!', '_', '@'] then SYSLOG_FIELD_FLAG_DROP else 0) |||
      (if '_' ∈ ['!', '_', '@'] then SYSLOG_FIELD_FLAG_NOTRIM else 0) |||
      (if '@' ∈ ['!', '_', '@'] then SYSLOG_FIELD_FLAG_NOVALIDATION else 0) ∧
    (syslog_entry_init "%!_@M".toList).map
        (fun r => (r.1, r.2.fields.map (fun f => (f.info.id, f.flags)))) =
      some (0, [(SYSLOG_FIELD_ID_MESSAGE, SYSLOG_FIELD_FLAG_DROP |||
        SYSLOG_FIELD_FLAG_NOTRIM ||| SYSLOG_FIELD_FLAG_NOVALIDATION)]) ∧
    syslog_entry_init "%@_!M".toList = syslog_entry_init "%!_@M".toList ∧
    syslog_entry_init "%!!_@M".toList = syslog_entry_init "%!_@M".toList ∧
    (syslog_entry_init "%!% %T".toList).map
        (fun r => (r.1, r.2.fields.map (fun f => (f.info.id, f.flags)))) =
      some (0, [(SYSLOG_FIELD_ID_TIMESTAMP, SYSLOG_FIELD_FLAG_DROP)]) :=
  modifiers_add_to_flags_at_token_start
    { flags := 0, field_info := none, parse_start_char := NUL,
      entry := { num := 0, fields_mask := 0, fields := [] } }
    ['!', '_', '@'] ['@', '_', '!', '!'] ['M'] (by decide) (by decide)
    (fun c => by
      simp only [List.mem_cons, List.mem_singleton, List.not_mem_nil, or_false]
      tauto)

/-! ### `convert_syslog`: the ordinals of the records -/

theorem fgets_chars_append (room : Nat) :
    ∀ stream : List Char,
      (fgets_chars room stream).1 ++ (fgets_chars room stream).2 = stream := by
  induction room with
  | zero => intro stream; rfl
  | succ room ih =>
    intro stream
    cases stream with
    | nil => rfl
    | cons c stream =>
      simp only [fgets_chars]
      split
      · rfl
      · simp only [List.cons_append, ih stream]

/-- What `fgets` stores and what it leaves in the stream make up the stream
before the call. -/
theorem fgets_some {n : Nat} {stream line rest : List Char}
    (h : fgets n stream = (some line, rest)) : stream = line ++ rest := by
  unfold fgets at h
  split at h
  · simp at h
  · split at h
    · simp only [Prod.mk.injEq, Option.some.injEq] at h
      rw [← h.1, ← h.2]
      rfl
    · split at h
      · simp at h
      · simp only [Prod.mk.injEq, Option.some.injEq] at h
        rw [← h.1, ← h.2]
        exact (fgets_chars_append _ _).symm

theorem fgets_none {n : Nat} {stream rest : List Char}
    (h : fgets n stream = (none, rest)) : rest = stream := by
  unfold fgets at h
  split at h
  · simp only [Prod.mk.injEq, true_and] at h
    exact h.symm
  · split at h
    · simp at h
    · split at h
      · simp only [Prod.mk.injEq, true_and] at h
        exact h.symm
      · simp at h

theorem strlen_le (s : List Char) : strlen s ≤ s.length :=
  takeWhile_length_le _ _

/-- The inner loop of `convert_syslog` takes from the stream at least as many
characters as it adds to `line_len`. -/
theorem read_loop_consumes (S MAX : Nat) :
    ∀ (fuel : Nat) (buffer : List Char) (buffer_size buffer_offset line_len : Nat)
      (input buffer1 : List Char) (buffer_size1 line_len1 : Nat) (input1 : List Char),
      read_loop S MAX fuel buffer buffer_size buffer_offset line_len input =
        some (some (.line buffer1 buffer_size1 line_len1 input1)) →
      input1.length + line_len1 ≤ input.length + line_len := by
  intro fuel
  induction fuel with
  | zero =>
    intro buffer buffer_size buffer_offset line_len input buffer1 buffer_size1 line_len1 input1 h
    simp [read_loop] at h
  | succ fuel ih =>
    intro buffer buffer_size buffer_offset line_len input buffer1 buffer_size1 line_len1 input1 h
    simp only [read_loop] at h
    split at h
    · rename_i rest hf
      have := fgets_none hf
      simp only [Option.some.injEq, read_result.line.injEq] at h
      obtain ⟨_, _, h3, h4⟩ := h
      rw [← h3, ← h4, this]
    · rename_i line rest hf
      have hsplit := fgets_some hf
      have hlen : input.length = line.length + rest.length := by
        rw [hsplit, List.length_append]
      have hstr := strlen_le line
      split at h
      · simp at h
      · split at h
        · simp at h
        · split at h
          · simp only [Option.some.injEq, read_result.line.injEq] at h
            obtain ⟨_, _, h3, h4⟩ := h
            rw [← h3, ← h4]
            omega
          · split at h
            · simp at h
            · have := ih _ _ _ _ _ _ _ _ _ h
              omega

/-- With a buffer size of at least 1 the inner loop of `convert_syslog` ends
before the bound on its iterations is reached. -/
theorem read_loop_ends (S MAX : Nat) (hS : 1 ≤ S) :
    ∀ (fuel : Nat) (buffer : List Char) (buffer_size buffer_offset line_len : Nat)
      (input : List Char), MAX ≤ fuel + buffer_size →
      ∃ r, read_loop S MAX (fuel + 1) buffer buffer_size buffer_offset line_len input =
        some r := by
  intro fuel
  induction fuel with
  | zero =>
    intro buffer buffer_size buffer_offset line_len input hfuel
    simp only [read_loop]
    split
    · exact ⟨_, rfl⟩
    · split
      · exact ⟨_, rfl⟩
      · split
        · exact ⟨_, rfl⟩
        · split
          · exact ⟨_, rfl⟩
          · split
            · exact ⟨_, rfl⟩
            · rename_i hgt
              exact absurd (by omega) hgt
  | succ fuel ih =>
    intro buffer buffer_size buffer_offset line_len input hfuel
    rw [read_loop]
    split
    · exact ⟨_, rfl⟩
    · dsimp only
      split
      · exact ⟨_, rfl⟩
      · split
        · exact ⟨_, rfl⟩
        · split
          · exact ⟨_, rfl⟩
          · split
            · exact ⟨_, rfl⟩
            · exact ih _ _ _ _ _ (by omega)

/-- What a pass through the body of the outer loop of `convert_syslog` does,
by the way it ends. -/
theorem convert_pass_cases {σ : Type} {tf : time_functions} {config : config_t}
    {output_fmt : output_fmt_t σ} {S MAX : Nat} {v : convert_locals σ} {input : List Char}
    {r : pass_result σ}
    (h : convert_pass tf config output_fmt S MAX v input = some (some r)) :
    (∃ v1, r = .ret (-EINVAL) v1 ∧ v1.out = v.out ∧
      read_loop S MAX (MAX + 1) v.buffer v.buffer_size 0 0 input = some (some .limit)) ∨
    (∃ v1 buffer buffer_size input1, r = .eof v1 ∧ v1.out = v.out ∧ v1.entry = v.entry ∧
      v1.parsed_n = v.parsed_n ∧
      read_loop S MAX (MAX + 1) v.buffer v.buffer_size 0 0 input =
        some (some (.line buffer buffer_size 0 input1))) ∨
    (∃ v1 buffer buffer_size line_len input1 status st entry,
      r = .next v1 input1 ∧ line_len ≠ 0 ∧
      read_loop S MAX (MAX + 1) v.buffer v.buffer_size 0 0 input =
        some (some (.line buffer buffer_size line_len input1)) ∧
      syslog_entry_parse tf config v.entry ((v.line_n + 1) % (UINT_MAX + 1)) buffer =
        some (status, st, entry) ∧
      v1.line_n = (v.line_n + 1) % (UINT_MAX + 1) ∧ v1.buffer = st.line ∧
      v1.buffer_size = buffer_size ∧ v1.stderr = v.stderr ++ st.stderr ∧
      (status = 0 →
        v1.parsed_n = (v.parsed_n + 1) % (UINT_MAX + 1) ∧
        v1.entry = { entry with num := (v.parsed_n + 1) % (UINT_MAX + 1) } ∧
        v1.out = call_output output_fmt.fn_output_entry
          { entry with num := (v.parsed_n + 1) % (UINT_MAX + 1) } st.line v.out) ∧
      (status ≠ 0 → v1.parsed_n = v.parsed_n ∧ v1.entry = entry ∧ v1.out = v.out)) := by
  unfold convert_pass at h
  simp only at h
  split at h
  · simp at h
  · simp at h
  · rename_i hread
    simp only [Option.some.injEq] at h
    exact Or.inl ⟨_, h.symm, rfl, hread⟩
  · rename_i buffer buffer_size line_len input1 hread
    split at h
    · rename_i hz
      simp only [Option.some.injEq] at h
      subst hz
      exact Or.inr (Or.inl ⟨_, buffer, buffer_size, input1, h.symm, rfl, rfl, rfl, hread⟩)
    · rename_i hz
      split at h
      · simp at h
      · rename_i status st entry hparse
        split at h
        · rename_i hst
          simp only [Option.some.injEq] at h
          refine Or.inr (Or.inr ⟨_, buffer, buffer_size, line_len, input1, status, st, entry,
            h.symm, hz, hread, hparse, rfl, rfl, rfl, rfl, fun _ => ⟨rfl, rfl, rfl⟩,
            fun hne => absurd hst hne⟩)
        · rename_i hst
          simp only [Option.some.injEq] at h
          refine Or.inr (Or.inr ⟨_, buffer, buffer_size, line_len, input1, status, st, entry,
            h.symm, hz, hread, hparse, rfl, rfl, rfl, rfl, fun h0 => absurd h0 hst,
            fun _ => ⟨rfl, rfl, rfl⟩⟩)

/-- A pass that ends at the end of the body has taken characters from the
stream. -/
theorem convert_pass_next_input {σ : Type} {tf : time_functions} {config : config_t}
    {output_fmt : output_fmt_t σ} {S MAX : Nat} {v v1 : convert_locals σ}
    {input input1 : List Char}
    (h : convert_pass tf config output_fmt S MAX v input = some (some (.next v1 input1))) :
    input1.length < input.length := by
  rcases convert_pass_cases h with ⟨_, hr, _⟩ | ⟨_, _, _, _, hr, _⟩ |
    ⟨v2, buffer, buffer_size, line_len, input2, _, _, _, hr, hz, hread, _⟩
  · simp at hr
  · simp at hr
  · simp only [pass_result.next.injEq] at hr
    have := read_loop_consumes S MAX _ _ _ _ _ _ _ _ _ _ hread
    rw [hr.2]
    omega

/-- With a buffer size of at least 1, `convert_syslog` ends before the
bounds on the iterations of its loops are reached: the loops are run for as
many iterations as the C function runs them. -/
theorem convert_loop_ends {σ : Type} (tf : time_functions) (config : config_t)
    (output_fmt : output_fmt_t σ) (S MAX : Nat) (hS : 1 ≤ S) :
    ∀ (fuel : Nat) (v : convert_locals σ) (input : List Char), input.length < fuel →
      ∃ r, convert_loop tf config output_fmt S MAX fuel v input = some r := by
  intro fuel
  induction fuel with
  | zero => intro v input h; omega
  | succ fuel ih =>
    intro v input hfuel
    rw [convert_loop]
    have hpass : ∃ r, convert_pass tf config output_fmt S MAX v input = some r := by
      unfold convert_pass
      obtain ⟨r, hr⟩ := read_loop_ends S MAX hS MAX v.buffer v.buffer_size 0 0 input (by omega)
      simp only [hr]
      split
      · rename_i h; simp at h
      · exact ⟨_, rfl⟩
      · exact ⟨_, rfl⟩
      · split
        · exact ⟨_, rfl⟩
        · split
          · exact ⟨_, rfl⟩
          · split <;> exact ⟨_, rfl⟩
    obtain ⟨r, hr⟩ := hpass
    rw [hr]
    cases r with
    | none => exact ⟨_, rfl⟩
    | some r =>
      cases r with
      | ret code v1 => exact ⟨_, rfl⟩
      | eof v1 => exact ⟨_, rfl⟩
      | next v1 input1 =>
        have := convert_pass_next_input hr
        exact ih v1 input1 (by omega)

/-- The calls that the outer loop of `convert_syslog` makes from a pass on:
calls of the entry callback, with ordinals that count on from `parsed_n`, and
then the call of the end callback unless the function returns in the loop. -/
theorem convert_loop_calls (tf : time_functions) (config : config_t) (S MAX : Nat) :
    ∀ (fuel : Nat) (v : convert_locals (List output_call)) (input : List Char) (ret : Int)
      (out : List output_call) (err : List String),
      convert_loop tf config call_recorder S MAX fuel v input = some (some (ret, out, err)) →
      ∃ (entries : List (syslog_entry_t × List Char)) (tail : List output_call),
        out = v.out ++ entries.map (fun p => output_call.output_entry p.1 p.2) ++ tail ∧
        ((ret = 0 ∧ ∃ e b, tail = [output_call.output_end e b]) ∨ (ret ≠ 0 ∧ tail = [])) ∧
        ∀ k (hk : k < entries.length),
          (entries.get ⟨k, hk⟩).1.num = (v.parsed_n + k + 1) % (UINT_MAX + 1) := by
  intro fuel
  induction fuel with
  | zero => intro v input ret out err h; simp [convert_loop] at h
  | succ fuel ih =>
    intro v input ret out err h
    rw [convert_loop] at h
    cases hp : convert_pass tf config call_recorder S MAX v input with
    | none => rw [hp] at h; simp at h
    | some r =>
      cases r with
      | none => rw [hp] at h; simp at h
      | some r =>
        rw [hp] at h
        rcases convert_pass_cases hp with ⟨v1, hr, hout, _⟩ | ⟨v1, _, _, _, hr, hout, _⟩ |
          ⟨v1, buffer, buffer_size, line_len, input1, status, st, entry, hr, _, _, _, _, _, _,
            _, hok, hfail⟩
        · subst hr
          simp only [Option.some.injEq, Prod.mk.injEq] at h
          refine ⟨[], [], ?_, Or.inr ⟨?_, rfl⟩, fun k hk => absurd hk (by simp)⟩
          · rw [← h.2.1, hout]; simp
          · rw [← h.1]; decide
        · subst hr
          simp only [Option.some.injEq, Prod.mk.injEq] at h
          refine ⟨[], [output_call.output_end v1.entry v1.buffer], ?_,
            Or.inl ⟨h.1.symm, _, _, rfl⟩, fun k hk => absurd hk (by simp)⟩
          rw [← h.2.1, ← hout]
          simp [call_output, call_recorder]
        · subst hr
          simp only at h
          obtain ⟨entries, tail, hout, htail, hnum⟩ := ih v1 input1 ret out err h
          by_cases hst : status = 0
          · obtain ⟨hp1, he1, ho1⟩ := hok hst
            refine ⟨({ entry with num := (v.parsed_n + 1) % (UINT_MAX + 1) }, st.line) ::
              entries, tail, ?_, htail, ?_⟩
            · rw [hout, ho1]
              simp [call_output, call_recorder]
            · intro k hk
              cases k with
              | zero => rfl
              | succ k =>
                simp only [List.length_cons, Nat.add_lt_add_iff_right] at hk
                have := hnum k hk
                simp only [List.get_cons_succ]
                rw [this, hp1]
                simp only [UINT_MAX]
                omega
          · obtain ⟨hp1, _, ho1⟩ := hfail hst
            refine ⟨entries, tail, ?_, htail, ?_⟩
            · rw [hout, ho1]
            · intro k hk
              rw [hnum k hk, hp1]

/-- The entry that `syslog_entry_init` returns with code 0 has the ordinal
0. -/
theorem syslog_entry_init_num {entry_spec : List Char} {e : syslog_entry_t}
    (h : syslog_entry_init entry_spec = some (0, e)) : e.num = 0 := by
  obtain ⟨st1, hI, he⟩ := init_scan_invariant (fun _ st => st.entry.num = 0)
    (fun st c hI _ _ => by
      unfold init_literal
      split
      · exact hI
      · exact hI)
    (fun st hI _ => hI)
    (fun st bit hI _ => hI)
    (fun st ch st1 hI hs => by
      rcases init_specifier_ok hs with ⟨_, _, _, _, h1⟩ | ⟨_, _, _, _, h1⟩ |
        ⟨_, _, _, _, _, _, _, hn, _⟩
      · rw [h1]; exact hI
      · rw [h1]; exact hI
      · show st1.entry.num = 0
        rw [hn]; exact hI)
    entry_spec false _ e rfl h
  rw [← he]
  exact hI

/-- The outer loop of `convert_syslog` on `n` lines "x", with the Message
field as the only field and a buffer of at least 3 characters: every line is
passed to the entry callback, with the ordinal that counts on from
`parsed_n`, modulo `UINT_MAX + 1`. -/
theorem convert_loop_x_lines (tf : time_functions) (config : config_t) (k MAX : Nat)
    (e0 : syslog_entry_t) (he0 : syslog_entry_init "%M".toList = some (0, e0)) :
    ∀ (n fuel : Nat) (v : convert_locals (List output_call)), n < fuel →
      v.buffer_size = k + 3 → v.entry.fields = e0.fields →
      v.entry.fields_mask = e0.fields_mask →
      ∃ e b, convert_loop tf config call_recorder (k + 3) MAX fuel v
          (List.replicate n ['x', '\n']).flatten =
        some (some (0,
          v.out ++ (List.range n).map (fun i => output_call.output_entry
            { e0 with num := (v.parsed_n + i + 1) % (UINT_MAX + 1) } ['x', NUL, NUL]) ++
            [output_call.output_end e b],
          v.stderr)) := by
  have hE : e0 = syslog_entry_t.mk 0 128
      [{ info := { id := SYSLOG_FIELD_ID_MESSAGE, type := SYSLOG_FIELD_TYPE_STRING,
                   spec := 'M', param_name := "message", human_name := "Message" },
         flags := 0, parse_start_char := NUL, parse_stop_char := NUL }] := by
    have h1 : syslog_entry_init "%M".toList = some (0, syslog_entry_t.mk 0 128
        [{ info := { id := SYSLOG_FIELD_ID_MESSAGE, type := SYSLOG_FIELD_TYPE_STRING,
                     spec := 'M', param_name := "message", human_name := "Message" },
           flags := 0, parse_start_char := NUL, parse_stop_char := NUL }]) := by
      decide
    rw [h1] at he0
    simp only [Option.some.injEq, Prod.mk.injEq, true_and] at he0
    exact he0.symm
  have hparse : ∀ num line_n : Nat,
      syslog_entry_parse tf config { e0 with num := num } line_n ['x', '\n', NUL] =
        some (0, { line := ['x', NUL, NUL], data := some 3 }, { e0 with num := num }) := by
    intro num line_n
    rw [hE]
    rfl
  have hread : ∀ buffer rest : List Char,
      read_loop (k + 3) MAX (MAX + 1) buffer (k + 3) 0 0 ('x' :: '\n' :: rest) =
        some (some (.line ['x', '\n', NUL] (k + 3) 2 rest)) := by
    intro buffer rest
    simp [read_loop, fgets, fgets_chars, strlen, NUL]
  have hnil : ∀ buffer : List Char,
      read_loop (k + 3) MAX (MAX + 1) buffer (k + 3) 0 0 [] =
        some (some (.line buffer (k + 3) 0 [])) := by
    intro buffer
    simp [read_loop, fgets, fgets_chars]
  intro n
  induction n with
  | zero =>
    intro fuel v hfuel hbs _ _
    obtain ⟨fuel, rfl⟩ : ∃ f, fuel = f + 1 := ⟨fuel - 1, by omega⟩
    refine ⟨v.entry, v.buffer, ?_⟩
    simp only [List.replicate, List.flatten, List.range_zero, List.map_nil, List.append_nil]
    rw [convert_loop]
    simp only [convert_pass, hbs, hnil]
    simp [call_output, call_recorder]
  | succ n ih =>
    intro fuel v hfuel hbs hf hm
    obtain ⟨fuel, rfl⟩ : ∃ f, fuel = f + 1 := ⟨fuel - 1, by omega⟩
    have hv : v.entry = { e0 with num := v.entry.num } := by
      cases hve : v.entry with
      | mk num mask fields =>
        rw [hve] at hf hm
        simp only at hf hm
        rw [hf, hm]
    obtain ⟨e, b, hrest⟩ := ih fuel
      { entry := { e0 with num := (v.parsed_n + 1) % (UINT_MAX + 1) },
        buffer := ['x', NUL, NUL], buffer_size := k + 3,
        parsed_n := (v.parsed_n + 1) % (UINT_MAX + 1),
        line_n := (v.line_n + 1) % (UINT_MAX + 1),
        out := v.out ++ [output_call.output_entry
          { e0 with num := (v.parsed_n + 1) % (UINT_MAX + 1) } ['x', NUL, NUL]],
        stderr := v.stderr } (by omega) rfl rfl rfl
    refine ⟨e, b, ?_⟩
    have hjoin : (List.replicate (n + 1) ['x', '\n']).flatten =
        'x' :: '\n' :: (List.replicate n ['x', '\n']).flatten := rfl
    rw [hjoin, convert_loop]
    simp only [convert_pass, hbs, hread]
    rw [hv, hparse]
    simp only [call_output, call_recorder, List.append_nil, if_true, OfNat.ofNat_ne_zero,
      if_false]
    have key : (List.range (n + 1)).map (fun i => output_call.output_entry
          { e0 with num := (v.parsed_n + i + 1) % (UINT_MAX + 1) } ['x', NUL, NUL]) =
        output_call.output_entry
          { e0 with num := (v.parsed_n + 1) % (UINT_MAX + 1) } ['x', NUL, NUL] ::
        (List.range n).map (fun i => output_call.output_entry
          { e0 with num := ((v.parsed_n + 1) % (UINT_MAX + 1) + i + 1) % (UINT_MAX + 1) }
          ['x', NUL, NUL]) := by
      rw [List.range_succ_eq_map, List.map_cons, List.map_map]
      refine congrArg₂ List.cons rfl ?_
      apply List.map_congr_left
      intro i _
      have : (v.parsed_n + (i + 1) + 1) % (UINT_MAX + 1) =
          ((v.parsed_n + 1) % (UINT_MAX + 1) + i + 1) % (UINT_MAX + 1) := by
        simp only [UINT_MAX]
        omega
      simp only [Function.comp, Nat.succ_eq_add_one, this]
    refine hrest.trans ?_
    simp only [key, List.append_assoc, List.singleton_append, List.cons_append,
      List.nil_append]

theorem length_flatten_replicate_x (n : Nat) :
    (List.replicate n ['x', '\n']).flatten.length = 2 * n := by
  induction n with
  | zero => rfl
  | succ n ih =>
    have : (List.replicate (n + 1) ['x', '\n']).flatten =
        'x' :: '\n' :: (List.replicate n ['x', '\n']).flatten := rfl
    rw [this, List.length_cons, List.length_cons, ih]
    omega

theorem filterMap_entry_num_calls (start tail : output_call) (hstart : start.entry_num = none)
    (htail : tail.entry_num = none) (f : Nat → syslog_entry_t) (b : List Char) (l : List Nat) :
    ([start] ++ l.map (fun i => output_call.output_entry (f i) b) ++ [tail]).filterMap
        output_call.entry_num = l.map (fun i => (f i).num) := by
  rw [List.filterMap_append, List.filterMap_append]
  simp only [List.filterMap_cons, List.filterMap_nil, hstart, htail, List.nil_append,
    List.append_nil]
  induction l with
  | nil => rfl
  | cons x l ih =>
    simp only [List.map_cons, List.filterMap_cons, output_call.entry_num, ih]

/-- The run of `convert_syslog` on `n` lines "x" with the specification
"%M": the ordinals of the records are those of 1, ..., `n` modulo
`UINT_MAX + 1`. -/
theorem convert_syslog_x_lines (n : Nat) :
    ∃ calls,
      convert_syslog utc_time_functions { default_config with entry_spec := "%M".toList }
        call_recorder 1024 65536 (List.replicate n ['x', '\n']).flatten [] =
        some (0, calls, []) ∧
      calls.filterMap output_call.entry_num =
        (List.range n).map (fun i => (i + 1) % (UINT_MAX + 1)) := by
  obtain ⟨e0, he0⟩ : ∃ e0, syslog_entry_init "%M".toList = some (0, e0) :=
    ⟨syslog_entry_t.mk 0 128
      [{ info := { id := SYSLOG_FIELD_ID_MESSAGE, type := SYSLOG_FIELD_TYPE_STRING,
                   spec := 'M', param_name := "message", human_name := "Message" },
         flags := 0, parse_start_char := NUL, parse_stop_char := NUL }], by decide⟩
  obtain ⟨e, b, h⟩ := convert_loop_x_lines utc_time_functions
    { default_config with entry_spec := "%M".toList } 1021 65536 e0 he0 n
    ((List.replicate n ['x', '\n']).flatten.length + 1)
    { entry := e0, buffer := [], buffer_size := 1024, parsed_n := 0, line_n := 0,
      out := call_output call_recorder.fn_output_start e0 [] [], stderr := [] }
    (by rw [length_flatten_replicate_x]; omega) rfl rfl rfl
  refine ⟨[output_call.output_start e0 []] ++
    (List.range n).map (fun i => output_call.output_entry
      { e0 with num := (0 + i + 1) % (UINT_MAX + 1) } ['x', NUL, NUL]) ++
    [output_call.output_end e b], ?_, ?_⟩
  · unfold convert_syslog
    simp only [he0]
    rw [if_neg (by decide)]
    exact congrArg Option.join h
  · have := filterMap_entry_num_calls (output_call.output_start e0 [])
      (output_call.output_end e b) rfl rfl
      (fun i => { e0 with num := (0 + i + 1) % (UINT_MAX + 1) }) ['x', NUL, NUL] (List.range n)
    simp only [Nat.zero_add] at this
    simp only [Nat.zero_add]
    exact this

/-- C15 (as stated, refuted). On an input of `UINT_MAX + 1`, that is 2 ^ 32,
lines "x", all of which decode with the specification "%M", `convert_syslog`
calls the entry callback `UINT_MAX + 1` times, and the last of these calls,
for the line that is the 2 ^ 32-th to decode, has the ordinal 0. -/
theorem record_ordinal_wraps_counterexample :
    ∃ calls,
      convert_syslog utc_time_functions { default_config with entry_spec := "%M".toList }
        call_recorder 1024 65536 (List.replicate (UINT_MAX + 1) ['x', '\n']).flatten [] =
        some (0, calls, []) ∧
      (calls.filterMap output_call.entry_num).length = UINT_MAX + 1 ∧
      (calls.filterMap output_call.entry_num).get? UINT_MAX = some 0 := by
  obtain ⟨calls, hrun, hnums⟩ := convert_syslog_x_lines (UINT_MAX + 1)
  refine ⟨calls, hrun, ?_, ?_⟩
  · rw [hnums, List.length_map, List.length_range]
  · rw [hnums, List.get?_eq_getElem?, List.getElem?_map,
      List.getElem?_range (Nat.lt_succ_self _)]
    show some ((UINT_MAX + 1) % (UINT_MAX + 1)) = some 0
    rw [Nat.mod_self]

/-- C15 (amended). The calls that `convert_syslog` makes to the callbacks of
an output format, for every input, specification and buffer sizes: none when
`syslog_entry_init` fails; otherwise the start callback with ordinal 0, then
calls of the entry callback, then the end callback unless the function
returns an error from its loop. The k-th call of the entry callback has the
ordinal k modulo `UINT_MAX + 1` (2 ^ 32), which is k as long as no more than
`UINT_MAX` records are emitted. In a pass through the loop the line that has
been read is decoded; if it decodes, `parsed_n` is incremented (modulo
`UINT_MAX + 1`) and the entry callback is called once, with the new
`parsed_n` as ordinal and after the calls of the earlier lines; if it fails,
no callback is called and `parsed_n` keeps its value. -/
theorem records_numbered_modulo_uint (tf : time_functions) (config : config_t)
    (S MAX : Nat) (input : List Char) (ret : Int) (calls : List output_call)
    (stderr : List String)
    (hrun : convert_syslog tf config call_recorder S MAX input [] =
      some (ret, calls, stderr)) :
    ((ret ≠ 0 ∧ calls = []) ∨
      ∃ (entry0 : syslog_entry_t) (entries : List (syslog_entry_t × List Char))
        (tail : List output_call),
        syslog_entry_init config.entry_spec = some (0, entry0) ∧ entry0.num = 0 ∧
        calls = output_call.output_start entry0 [] ::
          entries.map (fun p => output_call.output_entry p.1 p.2) ++ tail ∧
        ((ret = 0 ∧ ∃ e b, tail = [output_call.output_end e b]) ∨ (ret ≠ 0 ∧ tail = [])) ∧
        (∀ k (hk : k < entries.length),
          (entries.get ⟨k, hk⟩).1.num = (k + 1) % (UINT_MAX + 1)) ∧
        (entries.length ≤ UINT_MAX →
          ∀ k (hk : k < entries.length), (entries.get ⟨k, hk⟩).1.num = k + 1)) ∧
    (∀ (v v1 : convert_locals (List output_call)) (inp inp1 : List Char),
      convert_pass tf config call_recorder S MAX v inp = some (some (.next v1 inp1)) →
      ∃ buffer status st entry,
        syslog_entry_parse tf config v.entry ((v.line_n + 1) % (UINT_MAX + 1)) buffer =
          some (status, st, entry) ∧
        (status = 0 →
          v1.parsed_n = (v.parsed_n + 1) % (UINT_MAX + 1) ∧
          v1.out = v.out ++ [output_call.output_entry
            { entry with num := (v.parsed_n + 1) % (UINT_MAX + 1) } st.line]) ∧
        (status ≠ 0 → v1.parsed_n = v.parsed_n ∧ v1.out = v.out)) := by
  constructor
  · unfold convert_syslog at hrun
    cases hinit : syslog_entry_init config.entry_spec with
    | none => rw [hinit] at hrun; simp at hrun
    | some r =>
      obtain ⟨code, entry0⟩ := r
      rw [hinit] at hrun
      simp only at hrun
      by_cases hcode : code = 0
      · subst hcode
        rw [if_neg (by simp)] at hrun
        cases hloop : convert_loop tf config call_recorder S MAX (input.length + 1)
            { entry := entry0, buffer := [], buffer_size := S, parsed_n := 0, line_n := 0,
              out := call_output call_recorder.fn_output_start entry0 [] [], stderr := [] }
            input with
        | none => rw [hloop] at hrun; simp at hrun
        | some o =>
          cases o with
          | none => rw [hloop] at hrun; simp at hrun
          | some res =>
            rw [hloop] at hrun
            have hres : res = (ret, calls, stderr) := Option.some.inj hrun
            subst hres
            obtain ⟨entries, tail, hout, htail, hnum⟩ :=
              convert_loop_calls tf config S MAX _ _ _ _ _ _ hloop
            refine Or.inr ⟨entry0, entries, tail, rfl, syslog_entry_init_num hinit, ?_, htail,
              ?_, ?_⟩
            · rw [hout]
              simp [call_output, call_recorder]
            · intro k hk
              have := hnum k hk
              simp only [Nat.zero_add] at this
              exact this
            · intro hle k hk
              have := hnum k hk
              simp only [Nat.zero_add] at this
              rw [this]
              apply Nat.mod_eq_of_lt
              omega
      · rw [if_pos hcode] at hrun
        simp only [Option.some.injEq, Prod.mk.injEq] at hrun
        exact Or.inl ⟨by rw [← hrun.1]; exact hcode, hrun.2.1.symm⟩
  · intro v v1 inp inp1 hpass
    rcases convert_pass_cases hpass with ⟨_, hr, _⟩ | ⟨_, _, _, _, hr, _⟩ |
      ⟨v2, buffer, buffer_size, line_len, input2, status, st, entry, hr, _, _, hparse, _, _, _,
        _, hok, hfail⟩
    · simp at hr
    · simp at hr
    · simp only [pass_result.next.injEq] at hr
      obtain ⟨hv, _⟩ := hr
      subst hv
      refine ⟨buffer, status, st, entry, hparse, ?_, ?_⟩
      · intro h0
        obtain ⟨h1, _, h3⟩ := hok h0
        refine ⟨h1, ?_⟩
        rw [h3]
        rfl
      · intro hne
        obtain ⟨h1, _, h3⟩ := hfail hne
        exact ⟨h1, h3⟩

/-- Witness of C15 (amended): the input "a b", "bad", "c d" with the
specification "%H %M", where the second line fails. -/
theorem records_numbered_modulo_uint_witness :
    (((0 : Int) ≠ 0 ∧
        ((convert_syslog utc_time_functions { default_config with entry_spec := "%H %M".toList }
          call_recorder 1024 65536 "a b\nbad\nc d\n".toList []).map
          (fun r => r.2.1)).getD [] = []) ∨
      ∃ (entry0 : syslog_entry_t) (entries : List (syslog_entry_t × List Char))
        (tail : List output_call),
        syslog_entry_init ({ default_config with entry_spec := "%H %M".toList }).entry_spec =
          some (0, entry0) ∧ entry0.num = 0 ∧
        ((convert_syslog utc_time_functions { default_config with entry_spec := "%H %M".toList }
          call_recorder 1024 65536 "a b\nbad\nc d\n".toList []).map
          (fun r => r.2.1)).getD [] =
          output_call.output_start entry0 [] ::
            entries.map (fun p => output_call.output_entry p.1 p.2) ++ tail ∧
        (((0 : Int) = 0 ∧ ∃ e b, tail = [output_call.output_end e b]) ∨
          ((0 : Int) ≠ 0 ∧ tail = [])) ∧
        (∀ k (hk : k < entries.length),
          (entries.get ⟨k, hk⟩).1.num = (k + 1) % (UINT_MAX + 1)) ∧
        (entries.length ≤ UINT_MAX →
          ∀ k (hk : k < entries.length), (entries.get ⟨k, hk⟩).1.num = k + 1)) ∧
    (∀ (v v1 : convert_locals (List output_call)) (inp inp1 : List Char),
      convert_pass utc_time_functions { default_config with entry_spec := "%H %M".toList }
        call_recorder 1024 65536 v inp = some (some (.next v1 inp1)) →
      ∃ buffer status st entry,
        syslog_entry_parse utc_time_functions { default_config with entry_spec := "%H %M".toList }
          v.entry ((v.line_n + 1) % (UINT_MAX + 1)) buffer = some (status, st, entry) ∧
        (status = 0 →
          v1.parsed_n = (v.parsed_n + 1) % (UINT_MAX + 1) ∧
          v1.out = v.out ++ [output_call.output_entry
            { entry with num := (v.parsed_n + 1) % (UINT_MAX + 1) } st.line]) ∧
        (status ≠ 0 → v1.parsed_n = v.parsed_n ∧ v1.out = v.out)) :=
  records_numbered_modulo_uint utc_time_functions
    { default_config with entry_spec := "%H %M".toList } 1024 65536
    "a b\nbad\nc d\n".toList 0
    (((convert_syslog utc_time_functions { default_config with entry_spec := "%H %M".toList }
          call_recorder 1024 65536 "a b\nbad\nc d\n".toList []).map
          (fun r => r.2.1)).getD [])
    [msg_failed_to_parse 2 "hostname" (-EILSEQ)] (by decide)

/-! ### The descriptors under decoding -/

/-- C23. Decoding a line, whether it succeeds or fails, leaves the ordinal
and the presence bitmask of the entry, the number of descriptors and, at
every position, the registry record (kind, type, names, validator), the
flags, the start delimiter and the stop delimiter of the descriptor as they
are: only the values of the descriptors can differ. -/
theorem descriptors_immutable_under_decoding (tf : time_functions) (config : config_t)
    (entry entry1 : syslog_entry_t) (line_n : Nat) (line : List Char) (ret : Int)
    (st : parse_state)
    (hparse : syslog_entry_parse tf config entry line_n line = some (ret, st, entry1)) :
    entry1.num = entry.num ∧ entry1.fields_mask = entry.fields_mask ∧
    entry1.fields.length = entry.fields.length ∧
    ∀ (i : Nat) (h1 : i < entry1.fields.length) (h : i < entry.fields.length),
      (entry1.fields.get ⟨i, h1⟩).info = (entry.fields.get ⟨i, h⟩).info ∧
      (entry1.fields.get ⟨i, h1⟩).flags = (entry.fields.get ⟨i, h⟩).flags ∧
      (entry1.fields.get ⟨i, h1⟩).parse_start_char =
        (entry.fields.get ⟨i, h⟩).parse_start_char ∧
      (entry1.fields.get ⟨i, h1⟩).parse_stop_char =
        (entry.fields.get ⟨i, h⟩).parse_stop_char := by
  unfold syslog_entry_parse at hparse
  split at hparse
  · simp at hparse
  · rename_i r s fields1 hfs
    simp only [Option.some.injEq, Prod.mk.injEq] at hparse
    obtain ⟨_, _, hparse⟩ := hparse
    subst hparse
    have hd := parse_fields_descriptor _ hfs
    refine ⟨rfl, rfl, hd.length_eq, ?_⟩
    intro i h1 h
    exact List.Forall₂.get hd h1 h

/-- Witness of C23: a Hostname descriptor with the stop delimiter ' ' and the
line "host x". -/
theorem descriptors_immutable_under_decoding_witness :
    (0 : Nat) = 0 ∧ (8 : Nat) = 8 ∧
    [({ info := { id := SYSLOG_FIELD_ID_HOSTNAME, type := SYSLOG_FIELD_TYPE_STRING,
                  spec := 'H', param_name := "hostname", human_name := "Hostname" },
        flags := 0, parse_start_char := NUL, parse_stop_char := ' ' } :
        syslog_field_t)].length =
      [({ info := { id := SYSLOG_FIELD_ID_HOSTNAME, type := SYSLOG_FIELD_TYPE_STRING,
                    spec := 'H', param_name := "hostname", human_name := "Hostname" },
          flags := 0, parse_start_char := NUL, parse_stop_char := ' ' } :
          syslog_field_t)].length ∧
    ∀ (i : Nat)
      (h1 : i < [({ info := { id := SYSLOG_FIELD_ID_HOSTNAME,
                              type := SYSLOG_FIELD_TYPE_STRING, spec := 'H',
                              param_name := "hostname", human_name := "Hostname" },
                    flags := 0, parse_start_char := NUL, parse_stop_char := ' ' } :
                    syslog_field_t)].length)
      (h : i < [({ info := { id := SYSLOG_FIELD_ID_HOSTNAME,
                             type := SYSLOG_FIELD_TYPE_STRING, spec := 'H',
                             param_name := "hostname", human_name := "Hostname" },
                   flags := 0, parse_start_char := NUL, parse_stop_char := ' ' } :
                   syslog_field_t)].length),
      ([({ info := { id := SYSLOG_FIELD_ID_HOSTNAME, type := SYSLOG_FIELD_TYPE_STRING,
                     spec := 'H', param_name := "hostname", human_name := "Hostname" },
           flags := 0, parse_start_char := NUL, parse_stop_char := ' ' } :
           syslog_field_t)].get ⟨i, h1⟩).info =
        ([({ info := { id := SYSLOG_FIELD_ID_HOSTNAME, type := SYSLOG_FIELD_TYPE_STRING,
                       spec := 'H', param_name := "hostname", human_name := "Hostname" },
             flags := 0, parse_start_char := NUL, parse_stop_char := ' ' } :
             syslog_field_t)].get ⟨i, h⟩).info ∧
      ([({ info := { id := SYSLOG_FIELD_ID_HOSTNAME, type := SYSLOG_FIELD_TYPE_STRING,
                     spec := 'H', param_name := "hostname", human_name := "Hostname" },
           flags := 0, parse_start_char := NUL, parse_stop_char := ' ' } :
           syslog_field_t)].get ⟨i, h1⟩).flags =
        ([({ info := { id := SYSLOG_FIELD_ID_HOSTNAME, type := SYSLOG_FIELD_TYPE_STRING,
                       spec := 'H', param_name := "hostname", human_name := "Hostname" },
             flags := 0, parse_start_char := NUL, parse_stop_char := ' ' } :
             syslog_field_t)].get ⟨i, h⟩).flags ∧
      ([({ info := { id := SYSLOG_FIELD_ID_HOSTNAME, type := SYSLOG_FIELD_TYPE_STRING,
                     spec := 'H', param_name := "hostname", human_name := "Hostname" },
           flags := 0, parse_start_char := NUL, parse_stop_char := ' ' } :
           syslog_field_t)].get ⟨i, h1⟩).parse_start_char =
        ([({ info := { id := SYSLOG_FIELD_ID_HOSTNAME, type := SYSLOG_FIELD_TYPE_STRING,
                       spec := 'H', param_name := "hostname", human_name := "Hostname" },
             flags := 0, parse_start_char := NUL, parse_stop_char := ' ' } :
             syslog_field_t)].get ⟨i, h⟩).parse_start_char ∧
      ([({ info := { id := SYSLOG_FIELD_ID_HOSTNAME, type := SYSLOG_FIELD_TYPE_STRING,
                     spec := 'H', param_name := "hostname", human_name := "Hostname" },
           flags := 0, parse_start_char := NUL, parse_stop_char := ' ' } :
           syslog_field_t)].get ⟨i, h1⟩).parse_stop_char =
        ([({ info := { id := SYSLOG_FIELD_ID_HOSTNAME, type := SYSLOG_FIELD_TYPE_STRING,
                       spec := 'H', param_name := "hostname", human_name := "Hostname" },
             flags := 0, parse_start_char := NUL, parse_stop_char := ' ' } :
             syslog_field_t)].get ⟨i, h⟩).parse_stop_char :=
  descriptors_immutable_under_decoding utc_time_functions default_config
    { num := 0, fields_mask := 8,
      fields := [{ info := { id := SYSLOG_FIELD_ID_HOSTNAME, type := SYSLOG_FIELD_TYPE_STRING,
                             spec := 'H', param_name := "hostname", human_name := "Hostname" },
                   flags := 0, parse_start_char := NUL, parse_stop_char := ' ' }] }
    { num := 0, fields_mask := 8,
      fields := [{ info := { id := SYSLOG_FIELD_ID_HOSTNAME, type := SYSLOG_FIELD_TYPE_STRING,
                             spec := 'H', param_name := "hostname", human_name := "Hostname" },
                   flags := 0, parse_start_char := NUL, parse_stop_char := ' ' }] }
    3 ("host x".toList ++ [NUL]) 0
    { line := "host\x00x".toList ++ [NUL], data := some 5 } (by decide)

/-! ### The kinds a specification reaches -/

theorem set_last_stop_info_mem (c : Char) (fields : List syslog_field_t)
    (h : ∀ f ∈ fields, f.info ∈ syslog_field_info) :
    ∀ f ∈ set_last_stop c fields, f.info ∈ syslog_field_info := by
  intro f hf
  have : f.info ∈ (set_last_stop c fields).map (fun f => f.info) := List.mem_map_of_mem _ hf
  rw [set_last_stop_map_info c fields] at this
  obtain ⟨g, hg, hgi⟩ := List.mem_map.mp this
  rw [← hgi]
  exact h g hg

/-- The descriptors of a compiled entry carry records of the registry. -/
theorem init_fields_info_registered (entry_spec : List Char) (entry : syslog_entry_t)
    (h : syslog_entry_init entry_spec = some (0, entry)) :
    ∀ f ∈ entry.fields, f.info ∈ syslog_field_info := by
  obtain ⟨st1, hI, he⟩ := init_scan_invariant
    (fun _ st => (∀ f ∈ st.entry.fields, f.info ∈ syslog_field_info) ∧
      ∀ info, st.field_info = some info → info ∈ syslog_field_info)
    (fun st c hI _ _ => by
      refine ⟨?_, ?_⟩
      · unfold init_literal
        split
        · exact set_last_stop_info_mem c _ hI.1
        · exact hI.1
      · intro info hinfo
        rw [(init_literal_locals st c).2.1] at hinfo
        exact hI.2 info hinfo)
    (fun st hI _ => hI)
    (fun st bit hI _ => hI)
    (fun st ch st1 hI hs => by
      rcases init_specifier_ok hs with ⟨_, _, _, _, h1⟩ | ⟨_, _, _, _, h1⟩ |
        ⟨info, hfi1, _, _, _, hsrc, _, _, hf1⟩
      · rw [h1]; exact hI
      · rw [h1]
        exact ⟨set_last_stop_info_mem ch _ hI.1, hI.2⟩
      · have hreg : info ∈ syslog_field_info := by
          rcases hsrc with h1 | ⟨_, h1⟩
          · exact List.mem_of_find?_eq_some h1
          · exact hI.2 info h1
        refine ⟨?_, ?_⟩
        · intro f hf
          rw [hf1] at hf
          rcases List.mem_append.mp hf with hf | hf
          · exact hI.1 f hf
          · simp only [List.mem_singleton] at hf
            rw [hf]
            exact hreg
        · intro info2 h2
          rw [hfi1] at h2
          rw [← Option.some.inj h2]
          exact hreg)
    entry_spec false _ entry ⟨by simp, by simp⟩ h
  rw [← he]
  exact hI.1

/-- C26. After every successful `syslog_entry_init` each descriptor carries
one of the six records of the registry, so that its kind is Timestamp,
Hostname, Facility, Priority, Tag or Message and its type is Time or String,
and the Id and KernelTime bits of the presence bitmask are clear. -/
theorem id_and_ktime_not_reached (entry_spec : List Char) (entry : syslog_entry_t)
    (hinit : syslog_entry_init entry_spec = some (0, entry)) :
    (∀ f ∈ entry.fields,
      f.info ∈ syslog_field_info ∧
      f.info.id ∈ [SYSLOG_FIELD_ID_TIMESTAMP, SYSLOG_FIELD_ID_HOSTNAME,
        SYSLOG_FIELD_ID_FACILITY, SYSLOG_FIELD_ID_PRIORITY, SYSLOG_FIELD_ID_TAG,
        SYSLOG_FIELD_ID_MESSAGE] ∧
      (f.info.type = SYSLOG_FIELD_TYPE_TIME ∨ f.info.type = SYSLOG_FIELD_TYPE_STRING)) ∧
    syslog_entry_has_field entry SYSLOG_FIELD_ID_ID = 0 ∧
    syslog_entry_has_field entry SYSLOG_FIELD_ID_KTIME = 0 ∧
    entry.fields_mask &&& (1 <<< SYSLOG_FIELD_ID_ID.toNat) = 0 ∧
    entry.fields_mask &&& (1 <<< SYSLOG_FIELD_ID_KTIME.toNat) = 0 := by
  have hreg := init_fields_info_registered entry_spec entry hinit
  have hkinds : ∀ info ∈ syslog_field_info,
      info.id ∈ [SYSLOG_FIELD_ID_TIMESTAMP, SYSLOG_FIELD_ID_HOSTNAME,
        SYSLOG_FIELD_ID_FACILITY, SYSLOG_FIELD_ID_PRIORITY, SYSLOG_FIELD_ID_TAG,
        SYSLOG_FIELD_ID_MESSAGE] ∧
      (info.type = SYSLOG_FIELD_TYPE_TIME ∨ info.type = SYSLOG_FIELD_TYPE_STRING) := by
    decide
  have hclear : ∀ k : syslog_field_id_t,
      k ∉ [SYSLOG_FIELD_ID_TIMESTAMP, SYSLOG_FIELD_ID_HOSTNAME,
        SYSLOG_FIELD_ID_FACILITY, SYSLOG_FIELD_ID_PRIORITY, SYSLOG_FIELD_ID_TAG,
        SYSLOG_FIELD_ID_MESSAGE] →
      syslog_entry_has_field entry k = 0 ∧ entry.fields_mask &&& (1 <<< k.toNat) = 0 := by
    intro k hk
    have hne : ¬ syslog_entry_has_field entry k = 1 := by
      rw [has_field_eq_one_iff, init_fields_mask entry_spec entry hinit]
      rintro ⟨f, hf, hid⟩
      have := (hkinds f.info (hreg f hf)).1
      rw [syslog_field_id_toNat_injective hid] at this
      exact hk this
    unfold syslog_entry_has_field at hne ⊢
    by_cases hz : entry.fields_mask &&& (1 <<< k.toNat) = 0
    · simp [hz]
    · simp [hz] at hne
  refine ⟨fun f hf => ⟨hreg f hf, hkinds f.info (hreg f hf)⟩,
    (hclear SYSLOG_FIELD_ID_ID (by decide)).1, (hclear SYSLOG_FIELD_ID_KTIME (by decide)).1,
    (hclear SYSLOG_FIELD_ID_ID (by decide)).2, (hclear SYSLOG_FIELD_ID_KTIME (by decide)).2⟩

/-- Witness of C26: the specification "%H". -/
theorem id_and_ktime_not_reached_witness :
    (∀ f ∈ (syslog_entry_t.mk 0 8
        [{ info := { id := SYSLOG_FIELD_ID_HOSTNAME, type := SYSLOG_FIELD_TYPE_STRING,
                     spec := 'H', param_name := "hostname", human_name := "Hostname" },
           flags := 0, parse_start_char := NUL, parse_stop_char := NUL }]).fields,
      f.info ∈ syslog_field_info ∧
      f.info.id ∈ [SYSLOG_FIELD_ID_TIMESTAMP, SYSLOG_FIELD_ID_HOSTNAME,
        SYSLOG_FIELD_ID_FACILITY, SYSLOG_FIELD_ID_PRIORITY, SYSLOG_FIELD_ID_TAG,
        SYSLOG_FIELD_ID_MESSAGE] ∧
      (f.info.type = SYSLOG_FIELD_TYPE_TIME ∨ f.info.type = SYSLOG_FIELD_TYPE_STRING)) ∧
    syslog_entry_has_field (syslog_entry_t.mk 0 8
        [{ info := { id := SYSLOG_FIELD_ID_HOSTNAME, type := SYSLOG_FIELD_TYPE_STRING,
                     spec := 'H', param_name := "hostname", human_name := "Hostname" },
           flags := 0, parse_start_char := NUL, parse_stop_char := NUL }]) SYSLOG_FIELD_ID_ID = 0 ∧
    syslog_entry_has_field (syslog_entry_t.mk 0 8
        [{ info := { id := SYSLOG_FIELD_ID_HOSTNAME, type := SYSLOG_FIELD_TYPE_STRING,
                     spec := 'H', param_name := "hostname", human_name := "Hostname" },
           flags := 0, parse_start_char := NUL, parse_stop_char := NUL }]) SYSLOG_FIELD_ID_KTIME = 0 ∧
    (syslog_entry_t.mk 0 8
        [{ info := { id := SYSLOG_FIELD_ID_HOSTNAME, type := SYSLOG_FIELD_TYPE_STRING,
                     spec := 'H', param_name := "hostname", human_name := "Hostname" },
           flags := 0, parse_start_char := NUL, parse_stop_char := NUL }]).fields_mask &&& (1 <<< SYSLOG_FIELD_ID_ID.toNat) = 0 ∧
    (syslog_entry_t.mk 0 8
        [{ info := { id := SYSLOG_FIELD_ID_HOSTNAME, type := SYSLOG_FIELD_TYPE_STRING,
                     spec := 'H', param_name := "hostname", human_name := "Hostname" },
           flags := 0, parse_start_char := NUL, parse_stop_char := NUL }]).fields_mask &&& (1 <<< SYSLOG_FIELD_ID_KTIME.toNat) = 0 :=
  id_and_ktime_not_reached "%H".toList
    (syslog_entry_t.mk 0 8
        [{ info := { id := SYSLOG_FIELD_ID_HOSTNAME, type := SYSLOG_FIELD_TYPE_STRING,
                     spec := 'H', param_name := "hostname", human_name := "Hostname" },
           flags := 0, parse_start_char := NUL, parse_stop_char := NUL }]) (by decide)

/-! ### The loop over the descriptors -/

theorem parse_fields_of_decodes_in_sequence {tf : time_functions} {config : config_t}
    {line_n : Nat} {st st1 : parse_state} {fields fields1 : List syslog_field_t}
    (h : decodes_in_sequence tf config line_n st fields st1 fields1) :
    parse_fields tf config line_n st fields = some (0, st1, fields1) := by
  induction h with
  | nil st => rfl
  | cons hf _ ih =>
    simp only [parse_fields, hf, ih]
    rfl

/-- The loop of `syslog_entry_parse` either decodes all fields in sequence,
or decodes the fields before some field in sequence and returns what that
field returns, with the fields after it as they were. -/
theorem parse_fields_cases {tf : time_functions} {config : config_t} {line_n : Nat} :
    ∀ (fields : List syslog_field_t) (st0 st : parse_state) (ret : Int)
      (fields1 : List syslog_field_t),
      parse_fields tf config line_n st0 fields = some (ret, st, fields1) →
      (ret = 0 ∧ decodes_in_sequence tf config line_n st0 fields st fields1) ∨
      (ret ≠ 0 ∧ ∃ pre field rest stp pre1 field1,
        fields = pre ++ field :: rest ∧
        decodes_in_sequence tf config line_n st0 pre stp pre1 ∧
        syslog_entry_field_parse tf config line_n stp field = some (ret, st, field1) ∧
        fields1 = pre1 ++ field1 :: rest) := by
  intro fields
  induction fields with
  | nil =>
    intro st0 st ret fields1 h
    simp only [parse_fields, Option.some.injEq, Prod.mk.injEq] at h
    obtain ⟨h1, h2, h3⟩ := h
    subst h1 h2 h3
    exact Or.inl ⟨rfl, decodes_in_sequence.nil _⟩
  | cons f next ih =>
    intro st0 st ret fields1 h
    simp only [parse_fields] at h
    split at h
    · simp at h
    · rename_i r s g hf
      split at h
      · rename_i hr
        simp only [Option.some.injEq, Prod.mk.injEq] at h
        obtain ⟨h1, h2, h3⟩ := h
        subst h1 h2 h3
        exact Or.inr ⟨hr, [], f, next, st0, [], g, rfl, decodes_in_sequence.nil _, hf, rfl⟩
      · rename_i hr
        have hr0 : r = 0 := by simpa using hr
        subst hr0
        split at h
        · simp at h
        · rename_i r2 s2 n2 hn
          simp only [Option.some.injEq, Prod.mk.injEq] at h
          obtain ⟨h1, h2, h3⟩ := h
          subst h1 h2 h3
          rcases ih _ _ _ _ hn with ⟨h0, hseq⟩ | ⟨hne, pre, field, rest, stp, pre1, field1,
            hsplit, hseq, hfield, hres⟩
          · exact Or.inl ⟨h0, decodes_in_sequence.cons hf hseq⟩
          · refine Or.inr ⟨hne, f :: pre, field, rest, stp, g :: pre1, field1, ?_,
              decodes_in_sequence.cons hf hseq, hfield, ?_⟩
            · rw [hsplit]; rfl
            · rw [hres]; rfl

/-- C27. `syslog_entry_parse` returns 0 if and only if the field parse of
every descriptor, in order and each from the cursor that the one before it
leaves, returns 0; the state and the values are then those that the sequence
leaves. Otherwise the descriptors before some descriptor decode in sequence,
the field parse of that descriptor returns the code, which is not 0, that
`syslog_entry_parse` returns, the buffer, the cursor and the messages are as
that field parse leaves them, and the descriptors after it are as they
were. -/
theorem parse_stops_at_first_failure (tf : time_functions) (config : config_t)
    (entry entry1 : syslog_entry_t) (line_n : Nat) (line : List Char) (ret : Int)
    (st : parse_state)
    (hparse : syslog_entry_parse tf config entry line_n line = some (ret, st, entry1)) :
    (ret = 0 ↔ ∃ st1 fields1, decodes_in_sequence tf config line_n
      { line := line, data := some 0 } entry.fields st1 fields1) ∧
    (ret = 0 → decodes_in_sequence tf config line_n { line := line, data := some 0 }
      entry.fields st entry1.fields) ∧
    (ret ≠ 0 → ∃ pre field rest stp pre1 field1,
      entry.fields = pre ++ field :: rest ∧
      decodes_in_sequence tf config line_n { line := line, data := some 0 } pre stp pre1 ∧
      syslog_entry_field_parse tf config line_n stp field = some (ret, st, field1) ∧
      entry1.fields = pre1 ++ field1 :: rest) := by
  unfold syslog_entry_parse at hparse
  split at hparse
  · simp at hparse
  · rename_i r s fields1 hfs
    simp only [Option.some.injEq, Prod.mk.injEq] at hparse
    obtain ⟨h1, h2, h3⟩ := hparse
    subst h1 h2 h3
    rcases parse_fields_cases _ _ _ _ _ hfs with ⟨h0, hseq⟩ | ⟨hne, hex⟩
    · refine ⟨⟨fun _ => ⟨_, _, hseq⟩, fun _ => h0⟩, fun _ => hseq, fun hne => absurd h0 hne⟩
    · refine ⟨⟨fun h0 => absurd h0 hne, ?_⟩, fun h0 => absurd h0 hne, fun _ => hex⟩
      rintro ⟨st1, fields2, hseq⟩
      have := parse_fields_of_decodes_in_sequence hseq
      rw [hfs] at this
      simp only [Option.some.injEq, Prod.mk.injEq] at this
      exact this.1

/-- Witness of C27: the descriptors of "%H [%G" and the line "host x", on
which the Hostname field decodes and the Tag field fails. -/
theorem parse_stops_at_first_failure_witness :
    (-EILSEQ = 0 ↔ ∃ st1 fields1, decodes_in_sequence utc_time_functions default_config 7
      { line := "host x".toList ++ [NUL], data := some 0 }
      (syslog_entry_t.mk 0 72
        [(syslog_field_t.mk (syslog_field_info_t.mk SYSLOG_FIELD_ID_HOSTNAME SYSLOG_FIELD_TYPE_STRING 'H'
          "hostname" "Hostname" none)
          0 {} NUL ' '),
         (syslog_field_t.mk (syslog_field_info_t.mk SYSLOG_FIELD_ID_TAG SYSLOG_FIELD_TYPE_STRING 'G'
          "tag" "Tag" none)
          0 {} '[' NUL)]).fields st1 fields1) ∧
    (-EILSEQ = 0 → decodes_in_sequence utc_time_functions default_config 7
      { line := "host x".toList ++ [NUL], data := some 0 }
      (syslog_entry_t.mk 0 72
        [(syslog_field_t.mk (syslog_field_info_t.mk SYSLOG_FIELD_ID_HOSTNAME SYSLOG_FIELD_TYPE_STRING 'H'
          "hostname" "Hostname" none)
          0 {} NUL ' '),
         (syslog_field_t.mk (syslog_field_info_t.mk SYSLOG_FIELD_ID_TAG SYSLOG_FIELD_TYPE_STRING 'G'
          "tag" "Tag" none)
          0 {} '[' NUL)]).fields
      { line := "host\x00x".toList ++ [NUL], data := none }
      (syslog_entry_t.mk 0 72
        [(syslog_field_t.mk (syslog_field_info_t.mk SYSLOG_FIELD_ID_HOSTNAME SYSLOG_FIELD_TYPE_STRING 'H'
          "hostname" "Hostname" none)
          0 {} NUL ' '),
         (syslog_field_t.mk (syslog_field_info_t.mk SYSLOG_FIELD_ID_TAG SYSLOG_FIELD_TYPE_STRING 'G'
          "tag" "Tag" none)
          0 {} '[' NUL)]).fields) ∧
    (-EILSEQ ≠ 0 → ∃ pre field rest stp pre1 field1,
      (syslog_entry_t.mk 0 72
        [(syslog_field_t.mk (syslog_field_info_t.mk SYSLOG_FIELD_ID_HOSTNAME SYSLOG_FIELD_TYPE_STRING 'H'
          "hostname" "Hostname" none)
          0 {} NUL ' '),
         (syslog_field_t.mk (syslog_field_info_t.mk SYSLOG_FIELD_ID_TAG SYSLOG_FIELD_TYPE_STRING 'G'
          "tag" "Tag" none)
          0 {} '[' NUL)]).fields = pre ++ field :: rest ∧
      decodes_in_sequence utc_time_functions default_config 7
        { line := "host x".toList ++ [NUL], data := some 0 } pre stp pre1 ∧
      syslog_entry_field_parse utc_time_functions default_config 7 stp field =
        some (-EILSEQ, { line := "host\x00x".toList ++ [NUL], data := none }, field1) ∧
      (syslog_entry_t.mk 0 72
        [(syslog_field_t.mk (syslog_field_info_t.mk SYSLOG_FIELD_ID_HOSTNAME SYSLOG_FIELD_TYPE_STRING 'H'
          "hostname" "Hostname" none)
          0 {} NUL ' '),
         (syslog_field_t.mk (syslog_field_info_t.mk SYSLOG_FIELD_ID_TAG SYSLOG_FIELD_TYPE_STRING 'G'
          "tag" "Tag" none)
          0 {} '[' NUL)]).fields = pre1 ++ field1 :: rest) :=
  parse_stops_at_first_failure utc_time_functions default_config
    (syslog_entry_t.mk 0 72
        [(syslog_field_t.mk (syslog_field_info_t.mk SYSLOG_FIELD_ID_HOSTNAME SYSLOG_FIELD_TYPE_STRING 'H'
          "hostname" "Hostname" none)
          0 {} NUL ' '),
         (syslog_field_t.mk (syslog_field_info_t.mk SYSLOG_FIELD_ID_TAG SYSLOG_FIELD_TYPE_STRING 'G'
          "tag" "Tag" none)
          0 {} '[' NUL)])
    (syslog_entry_t.mk 0 72
        [(syslog_field_t.mk (syslog_field_info_t.mk SYSLOG_FIELD_ID_HOSTNAME SYSLOG_FIELD_TYPE_STRING 'H'
          "hostname" "Hostname" none)
          0 {} NUL ' '),
         (syslog_field_t.mk (syslog_field_info_t.mk SYSLOG_FIELD_ID_TAG SYSLOG_FIELD_TYPE_STRING 'G'
          "tag" "Tag" none)
          0 {} '[' NUL)])
    7 ("host x".toList ++ [NUL]) (-EILSEQ)
    { line := "host\x00x".toList ++ [NUL], data := none } (by decide)

/-! ### The line buffer under decoding -/

theorem overwritten_refl (fields : List syslog_field_t) (l : List Char) :
    overwritten_with_terminators fields l l :=
  ⟨rfl, fun _ => Or.inl rfl⟩

theorem overwritten_mono {fields fields1 : List syslog_field_t} {l0 l1 : List Char}
    (hsub : ∀ f ∈ fields, f ∈ fields1) (h : overwritten_with_terminators fields l0 l1) :
    overwritten_with_terminators fields1 l0 l1 := by
  refine ⟨h.1, fun i => ?_⟩
  rcases h.2 i with h1 | ⟨h1, c, hc, hcase⟩
  · exact Or.inl h1
  · refine Or.inr ⟨h1, c, hc, ?_⟩
    rcases hcase with h2 | h2 | h2 | ⟨f, hf, h2⟩
    · exact Or.inl h2
    · exact Or.inr (Or.inl h2)
    · exact Or.inr (Or.inr (Or.inl h2))
    · exact Or.inr (Or.inr (Or.inr ⟨f, hsub f hf, h2⟩))

theorem overwritten_trans {fields : List syslog_field_t} {l0 l1 l2 : List Char}
    (h01 : overwritten_with_terminators fields l0 l1)
    (h12 : overwritten_with_terminators fields l1 l2) :
    overwritten_with_terminators fields l0 l2 := by
  refine ⟨h12.1.trans h01.1, fun i => ?_⟩
  rcases h12.2 i with h2 | ⟨h2, c, hc, hcase⟩
  · rcases h01.2 i with h1 | h1
    · exact Or.inl (h2.trans h1)
    · exact Or.inr (by rw [h2]; exact h1)
  · rcases h01.2 i with h1 | ⟨_, c0, hc0, hcase0⟩
    · exact Or.inr ⟨h2, c, by rw [← h1]; exact hc, hcase⟩
    · exact Or.inr ⟨h2, c0, hc0, hcase0⟩

/-- Writing the terminator at a position that holds a CR, an LF, the
terminator or a stop character. -/
theorem overwritten_set {fields : List syslog_field_t} (l : List Char) (p : Nat) (c : Char)
    (hp : l[p]? = some c)
    (hc : c = '\r' ∨ c = '\n' ∨ c = NUL ∨ ∃ f ∈ fields, c = f.parse_stop_char) :
    overwritten_with_terminators fields l (l.set p NUL) := by
  refine ⟨List.length_set _ _ _, fun i => ?_⟩
  by_cases hi : p = i
  · subst hi
    have hlt : p < l.length := by
      by_contra hge
      rw [List.getElem?_eq_none (by omega)] at hp
      simp at hp
    refine Or.inr ⟨?_, c, hp, hc⟩
    rw [List.getElem?_set_self hlt]
  · exact Or.inl (List.getElem?_set_ne hi)

theorem strchr_from_some_get {c : Char} :
    ∀ {xs : List Char} {i p : Nat}, strchr_from xs c i = some (some p) →
      i ≤ p ∧ xs[p - i]? = some c := by
  intro xs
  induction xs with
  | nil => intro i p h; simp [strchr_from] at h
  | cons x xs ih =>
    intro i p h
    simp only [strchr_from] at h
    split at h
    · rename_i hx
      simp only [Option.some.injEq] at h
      subst h
      simp [hx]
    · split at h
      · simp at h
      · obtain ⟨hle, hget⟩ := ih h
        refine ⟨by omega, ?_⟩
        have : p - i = (p - (i + 1)) + 1 := by omega
        rw [this, List.getElem?_cons_succ]
        exact hget

theorem strchr_some_get {buf : List Char} {i p : Nat} {c : Char}
    (h : strchr buf i c = some (some p)) : buf[p]? = some c := by
  obtain ⟨hle, hget⟩ := strchr_from_some_get h
  rw [List.getElem?_drop] at hget
  have : i + (p - i) = p := by omega
  rw [this] at hget
  exact hget

theorem strpbrk_from_some_get {accept : List Char} :
    ∀ {xs : List Char} {i q : Nat}, strpbrk_from xs accept i = some (some q) →
      i ≤ q ∧ ∃ c ∈ accept, xs[q - i]? = some c := by
  intro xs
  induction xs with
  | nil => intro i q h; simp [strpbrk_from] at h
  | cons x xs ih =>
    intro i q h
    simp only [strpbrk_from] at h
    split at h
    · simp at h
    · split at h
      · rename_i hx
        simp only [Option.some.injEq] at h
        subst h
        exact ⟨le_refl _, x, hx, by simp⟩
      · obtain ⟨hle, c, hc, hget⟩ := ih h
        refine ⟨by omega, c, hc, ?_⟩
        have : q - i = (q - (i + 1)) + 1 := by omega
        rw [this, List.getElem?_cons_succ]
        exact hget

theorem strpbrk_some_get {buf accept : List Char} {i q : Nat}
    (h : strpbrk buf i accept = some (some q)) : ∃ c ∈ accept, buf[q]? = some c := by
  obtain ⟨hle, c, hc, hget⟩ := strpbrk_from_some_get h
  rw [List.getElem?_drop] at hget
  have : i + (q - i) = q := by omega
  rw [this] at hget
  exact ⟨c, hc, hget⟩

/-- What `parse_string` does to the buffer. -/
theorem parse_string_overwrites {st st1 : parse_state} {f f1 : syslog_field_t} {ret : Int}
    (h : parse_string st f = some (ret, st1, f1)) :
    overwritten_with_terminators [f] st.line st1.line := by
  unfold parse_string at h
  split at h
  · simp at h
  · simp only at h
    split at h
    · simp at h
    · split at h
      · simp at h
      · simp only [Option.some.injEq, Prod.mk.injEq] at h
        rw [← h.2.1]
        exact overwritten_refl _ _
      · rename_i p0 hp0 p hp
        have hcut : overwritten_with_terminators [f] st.line (st.line.set p NUL) :=
          overwritten_set _ _ _ (strchr_some_get hp)
            (Or.inr (Or.inr (Or.inr ⟨f, List.mem_singleton.mpr rfl, rfl⟩)))
        split at h
        · simp at h
        · simp only [Option.some.injEq, Prod.mk.injEq] at h
          rw [← h.2.1]
          exact hcut
        · rename_i q hq
          simp only [Option.some.injEq, Prod.mk.injEq] at h
          rw [← h.2.1]
          obtain ⟨c, hc, hget⟩ := strpbrk_some_get hq
          refine overwritten_trans hcut (overwritten_set _ _ c hget ?_)
          simp only [List.mem_cons, List.mem_singleton, List.not_mem_nil, or_false] at hc
          rcases hc with hc | hc
          · exact Or.inl hc
          · exact Or.inr (Or.inl hc)

theorem parse_timestamp_line {tf : time_functions} {config : config_t} {st st1 : parse_state}
    {f f1 : syslog_field_t} {ret : Int}
    (h : parse_timestamp tf config st f = some (ret, st1, f1)) : st1.line = st.line := by
  unfold parse_timestamp at h
  split at h
  · simp at h
  · split at h
    · simp at h
    · simp only at h
      split at h
      · simp only [Option.some.injEq, Prod.mk.injEq] at h
        rw [← h.2.1]
      · simp only [Option.some.injEq, Prod.mk.injEq] at h
        rw [← h.2.1]

theorem parse_integer_overwrites {st st1 : parse_state} {f f1 : syslog_field_t} {ret : Int}
    (h : parse_integer st f = some (ret, st1, f1)) :
    overwritten_with_terminators [f] st.line st1.line := by
  unfold parse_integer at h
  split at h
  · simp at h
  · rename_i r s g hs
    have := parse_string_overwrites hs
    split at h
    · split at h
      · simp at h
      · simp only [Option.some.injEq, Prod.mk.injEq] at h
        rw [← h.2.1]
        exact this
    · simp only [Option.some.injEq, Prod.mk.injEq] at h
      rw [← h.2.1]
      exact this

theorem parse_uinteger_overwrites {st st1 : parse_state} {f f1 : syslog_field_t} {ret : Int}
    (h : parse_uinteger st f = some (ret, st1, f1)) :
    overwritten_with_terminators [f] st.line st1.line := by
  unfold parse_uinteger at h
  split at h
  · simp at h
  · rename_i r s g hs
    have := parse_string_overwrites hs
    split at h
    · split at h
      · simp at h
      · simp only [Option.some.injEq, Prod.mk.injEq] at h
        rw [← h.2.1]
        exact this
    · simp only [Option.some.injEq, Prod.mk.injEq] at h
      rw [← h.2.1]
      exact this

theorem field_parse_finish_line {line_n : Nat} {ret r : Int} {st st1 : parse_state}
    {f f1 : syslog_field_t} (h : field_parse_finish line_n r st f = some (ret, st1, f1)) :
    st1.line = st.line := by
  unfold field_parse_finish at h
  split at h
  · simp only [Option.some.injEq, Prod.mk.injEq] at h
    rw [← h.2.1]
  · split at h
    · split at h
      · simp only [Option.some.injEq, Prod.mk.injEq] at h
        rw [← h.2.1]
      · split at h
        · simp at h
        · split at h
          · simp only [Option.some.injEq, Prod.mk.injEq] at h
            rw [← h.2.1]
          · simp only [Option.some.injEq, Prod.mk.injEq] at h
            rw [← h.2.1]
    · simp only [Option.some.injEq, Prod.mk.injEq] at h
      rw [← h.2.1]

/-- What the field parse of a descriptor does to the buffer. -/
theorem field_parse_overwrites {tf : time_functions} {config : config_t} {line_n : Nat}
    {st st1 : parse_state} {f f1 : syslog_field_t} {ret : Int}
    (h : syslog_entry_field_parse tf config line_n st f = some (ret, st1, f1)) :
    overwritten_with_terminators [f] st.line st1.line := by
  unfold syslog_entry_field_parse at h
  split at h
  · simp at h
  · simp only [Option.some.injEq, Prod.mk.injEq] at h
    rw [← h.2.1]
    exact overwritten_refl _ _
  · rename_i data hstart
    split at h
    · simp at h
    · rename_i r s g hv
      rw [field_parse_finish_line h]
      unfold field_parse_value at hv
      split at hv
      · rw [parse_timestamp_line hv]
        exact overwritten_refl _ _
      · have h3 := parse_string_overwrites hv
        exact h3
      · have h3 := parse_integer_overwrites hv
        exact h3
      · have h3 := parse_uinteger_overwrites hv
        exact h3

theorem parse_fields_overwrites {tf : time_functions} {config : config_t} {line_n : Nat} :
    ∀ (fields : List syslog_field_t) {st st1 : parse_state} {fields1 : List syslog_field_t}
      {ret : Int}, parse_fields tf config line_n st fields = some (ret, st1, fields1) →
      overwritten_with_terminators fields st.line st1.line := by
  intro fields
  induction fields with
  | nil =>
    intro st st1 fields1 ret h
    simp only [parse_fields, Option.some.injEq, Prod.mk.injEq] at h
    rw [← h.2.1]
    exact overwritten_refl _ _
  | cons f next ih =>
    intro st st1 fields1 ret h
    simp only [parse_fields] at h
    split at h
    · simp at h
    · rename_i r s g hf
      have hfirst : overwritten_with_terminators (f :: next) st.line s.line :=
        overwritten_mono (fun x hx => by
          rw [List.mem_singleton.mp hx]
          exact List.mem_cons_self _ _) (field_parse_overwrites hf)
      split at h
      · simp only [Option.some.injEq, Prod.mk.injEq] at h
        rw [← h.2.1]
        exact hfirst
      · split at h
        · simp at h
        · rename_i r2 s2 n2 hn
          simp only [Option.some.injEq, Prod.mk.injEq] at h
          rw [← h.2.1]
          exact overwritten_trans hfirst
            (overwritten_mono (fun x hx => List.mem_cons_of_mem _ hx) (ih hn))

/-- C22. After `syslog_entry_parse`, successful or not, the line buffer has
the length it had, and every position holds the character it held or the
terminator; a position that holds the terminator and held another character
held a CR, an LF or the stop delimiter of a descriptor of the entry. -/
theorem line_buffer_only_terminated (tf : time_functions) (config : config_t)
    (entry entry1 : syslog_entry_t) (line_n : Nat) (line : List Char) (ret : Int)
    (st : parse_state)
    (hparse : syslog_entry_parse tf config entry line_n line = some (ret, st, entry1)) :
    st.line.length = line.length ∧
    ∀ (i : Nat) (h1 : i < st.line.length) (h : i < line.length),
      st.line.get ⟨i, h1⟩ = line.get ⟨i, h⟩ ∨
      (st.line.get ⟨i, h1⟩ = NUL ∧
        (line.get ⟨i, h⟩ = '\r' ∨ line.get ⟨i, h⟩ = '\n' ∨ line.get ⟨i, h⟩ = NUL ∨
          ∃ f ∈ entry.fields, line.get ⟨i, h⟩ = f.parse_stop_char)) := by
  unfold syslog_entry_parse at hparse
  split at hparse
  · simp at hparse
  · rename_i r s fields1 hfs
    simp only [Option.some.injEq, Prod.mk.injEq] at hparse
    obtain ⟨_, h2, _⟩ := hparse
    subst h2
    have hframe := parse_fields_overwrites _ hfs
    refine ⟨hframe.1, fun i h1 h => ?_⟩
    rcases hframe.2 i with hi | ⟨hi, c, hc, hcase⟩
    · left
      simp only at hi
      rw [List.getElem?_eq_getElem h1, List.getElem?_eq_getElem h] at hi
      exact Option.some.inj hi
    · right
      simp only at hc
      rw [List.getElem?_eq_getElem h1] at hi
      rw [List.getElem?_eq_getElem h] at hc
      have hi' := Option.some.inj hi
      have hc' := Option.some.inj hc
      subst hc'
      exact ⟨hi', hcase⟩

/-- Witness of C22: the descriptors of "%H %M" and the line "a b" with its
line feed, where the space, the line feed and the terminator are
overwritten. -/
theorem line_buffer_only_terminated_witness :
    ['a', NUL, 'b', NUL, NUL].length = ['a', ' ', 'b', '\n', NUL].length ∧
    ∀ (i : Nat) (h1 : i < ['a', NUL, 'b', NUL, NUL].length) (h : i < ['a', ' ', 'b', '\n', NUL].length),
      ['a', NUL, 'b', NUL, NUL].get ⟨i, h1⟩ = ['a', ' ', 'b', '\n', NUL].get ⟨i, h⟩ ∨
      (['a', NUL, 'b', NUL, NUL].get ⟨i, h1⟩ = NUL ∧
        (['a', ' ', 'b', '\n', NUL].get ⟨i, h⟩ = '\r' ∨ ['a', ' ', 'b', '\n', NUL].get ⟨i, h⟩ = '\n' ∨
          ['a', ' ', 'b', '\n', NUL].get ⟨i, h⟩ = NUL ∨
          ∃ f ∈ (syslog_entry_t.mk 0 136
        [(syslog_field_t.mk (syslog_field_info_t.mk SYSLOG_FIELD_ID_HOSTNAME SYSLOG_FIELD_TYPE_STRING 'H'
          "hostname" "Hostname" none)
          0 {} NUL ' '),
         (syslog_field_t.mk (syslog_field_info_t.mk SYSLOG_FIELD_ID_MESSAGE SYSLOG_FIELD_TYPE_STRING 'M'
          "message" "Message" none)
          0 {} NUL NUL)]).fields,
            ['a', ' ', 'b', '\n', NUL].get ⟨i, h⟩ = f.parse_stop_char)) :=
  line_buffer_only_terminated utc_time_functions default_config
    (syslog_entry_t.mk 0 136
        [(syslog_field_t.mk (syslog_field_info_t.mk SYSLOG_FIELD_ID_HOSTNAME SYSLOG_FIELD_TYPE_STRING 'H'
          "hostname" "Hostname" none)
          0 {} NUL ' '),
         (syslog_field_t.mk (syslog_field_info_t.mk SYSLOG_FIELD_ID_MESSAGE SYSLOG_FIELD_TYPE_STRING 'M'
          "message" "Message" none)
          0 {} NUL NUL)])
    (syslog_entry_t.mk 0 136
        [(syslog_field_t.mk (syslog_field_info_t.mk SYSLOG_FIELD_ID_HOSTNAME SYSLOG_FIELD_TYPE_STRING 'H'
          "hostname" "Hostname" none)
          0 {} NUL ' '),
         (syslog_field_t.mk (syslog_field_info_t.mk SYSLOG_FIELD_ID_MESSAGE SYSLOG_FIELD_TYPE_STRING 'M'
          "message" "Message" none)
          0 { string := 2 } NUL NUL)])
    1 ['a', ' ', 'b', '\n', NUL] 0 { line := ['a', NUL, 'b', NUL, NUL], data := some 5 } (by decide)

/-! ### Fields with the NoTrim flag -/

/-- The cursor after lines 473-486 of a field with NoTrim: no white space is
skipped. -/
theorem field_parse_start_notrim {st : parse_state} {f : syslog_field_t} {data data1 : Nat}
    {s : List Char} (hnotrim : f.flags &&& SYSLOG_FIELD_FLAG_NOTRIM ≠ 0)
    (hdata : st.data = some data) (hs : c_str st.line data = some s)
    (hstart : field_parse_start st f = some (some data1)) :
    ∃ s1, c_str st.line data1 = some s1 ∧
      (f.parse_start_char = NUL → data1 = data ∧ s1 = s) ∧
      (f.parse_start_char ≠ NUL → f.parse_start_char ∈ s ∧
        data1 = data + s.indexOf f.parse_start_char + 1 ∧
        s1 = s.drop (s.indexOf f.parse_start_char + 1)) := by
  unfold field_parse_start at hstart
  rw [hdata] at hstart
  simp only [hnotrim, if_false] at hstart
  by_cases hc : f.parse_start_char = NUL
  · simp only [hc, ne_eq, not_true_eq_false, if_false, Option.some.injEq] at hstart
    subst hstart
    exact ⟨s, hs, fun _ => ⟨rfl, rfl⟩, fun h => absurd hc h⟩
  · simp only [hc, ne_eq, not_false_eq_true, if_true, strchr_eq _ hc hs] at hstart
    by_cases hmem : f.parse_start_char ∈ s
    · simp only [hmem, if_true, Option.some.injEq] at hstart
      subst hstart
      have hlt : s.indexOf f.parse_start_char < s.length := List.indexOf_lt_length.mpr hmem
      have hs1 := c_str_add (k := s.indexOf f.parse_start_char + 1) hs (by omega)
      rw [← Nat.add_assoc] at hs1
      exact ⟨_, hs1, fun h => absurd h hc, fun _ => ⟨hmem, rfl, rfl⟩⟩
    · simp [hmem] at hstart

/-- C28 (as stated, refuted). With the descriptors of "%G: %_M" and the line
"tag: \rhello", the Message field, which has the NoTrim flag, is read from
the text "\rhello" after its start delimiter; its decoded value is the empty
string, without the leading CR and without the text after it. -/
theorem notrim_leading_cr_counterexample :
    (syslog_entry_init "%G: %_M".toList).bind (fun r =>
      (syslog_entry_parse utc_time_functions default_config r.2 1
        ("tag: \rhello\n".toList ++ [NUL])).map
        (fun out => (r.1, r.2.fields.map (fun f => f.flags), out.1))) =
      some (0, [0, SYSLOG_FIELD_FLAG_NOTRIM], 0) ∧
    (syslog_entry_init "%G: %_M".toList).bind (fun r =>
      (syslog_entry_parse utc_time_functions default_config r.2 1
        ("tag: \rhello\n".toList ++ [NUL])).map
        (fun out => (out.2.2.fields.map (fun f => f.value.string),
          out.2.2.fields.map (fun f => field_string out.2.1 f)))) =
      some ([0, 5], [some "tag".toList, some []]) := by
  refine ⟨by decide, by decide⟩

/-- C28 (amended). For a String field with the NoTrim flag, with the string
`s` at the cursor: no white space is skipped before the value is read, which
is read at the cursor, or just after the first occurrence of the start
delimiter if the field has one. With `s1` the string there and `k` the length
of its leading white space, the stop delimiter is searched in `s1` from index
`k` on: if it is not found the conversion fails with `-EILSEQ`, and if it is
found at `idx` (the terminator when it is absent), the value starts at the
place where `s1` starts and is the text `s1` before `idx` up to its first CR
or LF; when that text has no CR or LF it is the value, leading white space
included. -/
theorem notrim_value_from_cursor (tf : time_functions) (config : config_t) (line_n : Nat)
    (st : parse_state) (field : syslog_field_t) (data data1 : Nat) (s : List Char)
    (hnotrim : field.flags &&& SYSLOG_FIELD_FLAG_NOTRIM ≠ 0)
    (htype : field.info.type = SYSLOG_FIELD_TYPE_STRING)
    (hdata : st.data = some data) (hs : c_str st.line data = some s)
    (hstart : field_parse_start st field = some (some data1)) :
    ∃ s1, c_str st.line data1 = some s1 ∧
      (field.parse_start_char = NUL → data1 = data ∧ s1 = s) ∧
      (field.parse_start_char ≠ NUL → field.parse_start_char ∈ s ∧
        data1 = data + s.indexOf field.parse_start_char + 1 ∧
        s1 = s.drop (s.indexOf field.parse_start_char + 1)) ∧
      syslog_entry_field_parse tf config line_n st field =
        (parse_string { st with data := some data1 } field).bind
          (fun r => field_parse_finish line_n r.1 r.2.1 r.2.2) ∧
      (field.parse_stop_char ≠ NUL →
        field.parse_stop_char ∉ s1.drop (s1.takeWhile isspace).length →
        parse_string { st with data := some data1 } field =
          some (-EILSEQ, { st with data := some data1 }, field)) ∧
      ∀ idx,
        (field.parse_stop_char = NUL ∧ idx = s1.length) ∨
          (field.parse_stop_char ≠ NUL ∧
            field.parse_stop_char ∈ s1.drop (s1.takeWhile isspace).length ∧
            idx = (s1.takeWhile isspace).length +
              (s1.drop (s1.takeWhile isspace).length).indexOf field.parse_stop_char) →
        (s1.takeWhile isspace).length ≤ idx ∧ idx ≤ s1.length ∧
        ∃ st1 field1, parse_string { st with data := some data1 } field =
            some (0, st1, field1) ∧
          st1.data = some (data1 + idx + 1) ∧
          field1.value.string = data1 ∧
          field_string st1 field1 =
            some ((s1.take idx).takeWhile (fun c => decide (c ∉ ['\r', '\n']))) ∧
          ((∀ c ∈ s1.take idx, c ∉ ['\r', '\n']) →
            field_string st1 field1 = some (s1.take idx) ∧
            s1.takeWhile isspace <+: s1.take idx) := by
  obtain ⟨s1, hs1, h1, h2⟩ := field_parse_start_notrim hnotrim hdata hs hstart
  refine ⟨s1, hs1, h1, h2, ?_, ?_⟩
  · unfold syslog_entry_field_parse
    rw [hstart]
    simp only [field_parse_value, htype]
    generalize parse_string { st with data := some data1 } field = o
    cases o with
    | none => rfl
    | some r => rfl
  · obtain ⟨hk, hfail, hok⟩ := @parse_string_eq { st with data := some data1 } field data1
      (s1.takeWhile isspace).length s1 rfl hs1 (by rw [if_pos hnotrim])
    refine ⟨hfail, ?_⟩
    intro idx hidx
    obtain ⟨hle, hres⟩ := hok idx hidx
    have hkle : (s1.takeWhile isspace).length ≤ idx := by
      rcases hidx with ⟨_, h⟩ | ⟨_, _, h⟩
      · rw [h]; exact hk
      · rw [h]; omega
    refine ⟨hkle, hle, _, _, hres, rfl, rfl, ?_, ?_⟩
    · exact c_str_after_cut hs1 hle
    · intro hfree
      have hall : (s1.take idx).takeWhile (fun c => decide (c ∉ ['\r', '\n'])) = s1.take idx := by
        rw [List.takeWhile_eq_self_iff]
        intro c hc
        exact decide_eq_true (hfree c hc)
      refine ⟨?_, ?_⟩
      · exact (c_str_after_cut hs1 hle).trans (congrArg some hall)
      · rw [takeWhile_eq_take_length]
        refine ⟨(s1.take idx).drop (s1.takeWhile isspace).length, ?_⟩
        have : s1.take (s1.takeWhile isspace).length =
            (s1.take idx).take (s1.takeWhile isspace).length := by
          rw [List.take_take, Nat.min_eq_left hkle]
        rw [this, List.take_append_drop]

/-- Witness of C28 (amended): a Message field with NoTrim and the start
delimiter ' ' at the text " \tx y", whose value is "\tx y". -/
theorem notrim_value_from_cursor_witness :
    ∃ s1, c_str [' ', '\t', 'x', ' ', 'y', '\n', NUL] 1 = some s1 ∧
      ((' ' : Char) = NUL → (1 : Nat) = 0 ∧ s1 = [' ', '\t', 'x', ' ', 'y', '\n']) ∧
      ((' ' : Char) ≠ NUL → ' ' ∈ [' ', '\t', 'x', ' ', 'y', '\n'] ∧
        (1 : Nat) = 0 + [' ', '\t', 'x', ' ', 'y', '\n'].indexOf ' ' + 1 ∧
        s1 = [' ', '\t', 'x', ' ', 'y', '\n'].drop ([' ', '\t', 'x', ' ', 'y', '\n'].indexOf ' ' + 1)) ∧
      syslog_entry_field_parse utc_time_functions default_config 1
          { line := [' ', '\t', 'x', ' ', 'y', '\n', NUL], data := some 0 }
          (syslog_field_t.mk (syslog_field_info_t.mk SYSLOG_FIELD_ID_MESSAGE SYSLOG_FIELD_TYPE_STRING 'M'
          "message" "Message" none)
          SYSLOG_FIELD_FLAG_NOTRIM {} ' ' NUL) =
        (parse_string { line := [' ', '\t', 'x', ' ', 'y', '\n', NUL], data := some 1 }
          (syslog_field_t.mk (syslog_field_info_t.mk SYSLOG_FIELD_ID_MESSAGE SYSLOG_FIELD_TYPE_STRING 'M'
          "message" "Message" none)
          SYSLOG_FIELD_FLAG_NOTRIM {} ' ' NUL)).bind
          (fun r => field_parse_finish 1 r.1 r.2.1 r.2.2) ∧
      (NUL ≠ NUL →
        NUL ∉ s1.drop (s1.takeWhile isspace).length →
        parse_string { line := [' ', '\t', 'x', ' ', 'y', '\n', NUL], data := some 1 }
          (syslog_field_t.mk (syslog_field_info_t.mk SYSLOG_FIELD_ID_MESSAGE SYSLOG_FIELD_TYPE_STRING 'M'
          "message" "Message" none)
          SYSLOG_FIELD_FLAG_NOTRIM {} ' ' NUL) =
          some (-EILSEQ, { line := [' ', '\t', 'x', ' ', 'y', '\n', NUL], data := some 1 },
          (syslog_field_t.mk (syslog_field_info_t.mk SYSLOG_FIELD_ID_MESSAGE SYSLOG_FIELD_TYPE_STRING 'M'
          "message" "Message" none)
          SYSLOG_FIELD_FLAG_NOTRIM {} ' ' NUL))) ∧
      ∀ idx,
        (NUL = NUL ∧ idx = s1.length) ∨
          (NUL ≠ NUL ∧
            NUL ∈ s1.drop (s1.takeWhile isspace).length ∧
            idx = (s1.takeWhile isspace).length +
              (s1.drop (s1.takeWhile isspace).length).indexOf NUL) →
        (s1.takeWhile isspace).length ≤ idx ∧ idx ≤ s1.length ∧
        ∃ st1 field1, parse_string { line := [' ', '\t', 'x', ' ', 'y', '\n', NUL], data := some 1 }
            (syslog_field_t.mk (syslog_field_info_t.mk SYSLOG_FIELD_ID_MESSAGE SYSLOG_FIELD_TYPE_STRING 'M'
          "message" "Message" none)
          SYSLOG_FIELD_FLAG_NOTRIM {} ' ' NUL) =
            some (0, st1, field1) ∧
          st1.data = some (1 + idx + 1) ∧
          field1.value.string = 1 ∧
          field_string st1 field1 =
            some ((s1.take idx).takeWhile (fun c => decide (c ∉ ['\r', '\n']))) ∧
          ((∀ c ∈ s1.take idx, c ∉ ['\r', '\n']) →
            field_string st1 field1 = some (s1.take idx) ∧
            s1.takeWhile isspace <+: s1.take idx) :=
  notrim_value_from_cursor utc_time_functions default_config 1
    { line := [' ', '\t', 'x', ' ', 'y', '\n', NUL], data := some 0 }
    (syslog_field_t.mk (syslog_field_info_t.mk SYSLOG_FIELD_ID_MESSAGE SYSLOG_FIELD_TYPE_STRING 'M'
          "message" "Message" none)
          SYSLOG_FIELD_FLAG_NOTRIM {} ' ' NUL)
    0 1 [' ', '\t', 'x', ' ', 'y', '\n'] (by decide) rfl rfl (by decide) (by decide)

/-! ### Integer fields -/

/-- The digits that `strtol` reads are the longest run of digits of the
base. -/
theorem strto_digits_append (base : Nat) (rest : List Char)
    (hrest : ∀ c ∈ rest.head?, is_digit_of base c = false) :
    ∀ (digits : List Char) (acc : Nat), (∀ c ∈ digits, is_digit_of base c = true) →
      strto_digits base (digits ++ rest) acc = digits_value_from base digits acc := by
  intro digits
  induction digits with
  | nil =>
    intro acc _
    simp only [List.nil_append, digits_value_from]
    cases rest with
    | nil => rfl
    | cons c rest =>
      have hc := hrest c (by simp)
      simp only [strto_digits]
      unfold is_digit_of at hc
      cases hd : digit_value c with
      | none => rfl
      | some d =>
        rw [hd] at hc
        simp only [decide_eq_false_iff_not] at hc
        simp only [if_neg hc]
  | cons c digits ih =>
    intro acc hall
    have hc := hall c (List.mem_cons_self _ _)
    unfold is_digit_of at hc
    rw [List.cons_append, strto_digits, digits_value_from]
    cases hd : digit_value c with
    | none => rw [hd] at hc; simp at hc
    | some d =>
      rw [hd] at hc
      simp only [decide_eq_true_eq] at hc
      simp only [if_pos hc, Option.getD_some]
      exact ih _ (fun x hx => hall x (List.mem_cons_of_mem _ hx))

theorem decimal_digit_range {c : Char} (h : is_digit_of 10 c = true) : '0' ≤ c ∧ c ≤ '9' := by
  unfold is_digit_of digit_value at h
  split at h
  · rename_i d hd
    split at hd
    · rename_i hr
      exact hr
    · split at hd
      · simp only [Option.some.injEq] at hd
        simp only [decide_eq_true_eq] at h
        omega
      · split at hd
        · simp only [Option.some.injEq] at hd
          simp only [decide_eq_true_eq] at h
          omega
        · simp at hd
  · simp at h

theorem decimal_digit_not_space_or_sign {c : Char} (h : is_digit_of 10 c = true) :
    isspace c = false ∧ c ≠ '-' ∧ c ≠ '+' := by
  have hr := decimal_digit_range h
  refine ⟨?_, ?_, ?_⟩
  · cases hs : isspace c with
    | false => rfl
    | true =>
      unfold isspace at hs
      simp only [Bool.or_eq_true, beq_iff_eq] at hs
      rcases hs with ((((hs | hs) | hs) | hs) | hs) | hs <;>
        (subst hs; exact absurd hr.1 (by decide))
  · rintro rfl
    exact absurd hr.1 (by decide)
  · rintro rfl
    exact absurd hr.1 (by decide)

theorem strto_subject_sign_match (c : Char) (r : List Char) (hm : c ≠ '-') (hp : c ≠ '+')
    (α : Type) (f1 f2 f3 : List Char → α) :
    strto_subject.match_1 (fun _ => α) (c :: r) f1 f2 f3 = f3 (c :: r) := by
  unfold strto_subject.match_1
  simp [hm, hp]

theorem strto_subject_base_match (c : Char) (r : List Char) (h0 : c ≠ '0')
    (α : Type) (f1 : Char → List Char → α) (f2 : List Char → α) :
    strto_subject.match_2 (fun _ => α) (c :: r) f1 f2 = f2 (c :: r) := by
  unfold strto_subject.match_2
  simp [h0]

/-- The subject sequence of a string that starts with a character other than
white space and a sign. -/
theorem strto_subject_unsigned (c : Char) (r : List Char) (hsp : isspace c = false)
    (hm : c ≠ '-') (hp : c ≠ '+') :
    strto_subject (c :: r) =
      strto_subject.match_2 (fun _ => Bool × Nat) (c :: r)
        (fun x r1 =>
          if x = 'x' ∨ x = 'X' then (false, strto_digits 16 r1 0)
          else (false, strto_digits 8 (x :: r1) 0))
        (fun _ => (false, strto_digits 10 (c :: r) 0)) := by
  have hdrop : (c :: r).dropWhile isspace = c :: r := by
    rw [List.dropWhile_cons_of_neg (by simp [hsp])]
  unfold strto_subject
  simp only [hdrop]
  rw [strto_subject_sign_match c r hm hp]

/-- The subject sequence after a "0x" or "0X" is read in base 16. -/
theorem strto_subject_hex (x : Char) (hx : x = 'x' ∨ x = 'X') (digits rest : List Char)
    (hdigits : ∀ c ∈ digits, is_digit_of 16 c = true)
    (hrest : ∀ c ∈ rest.head?, is_digit_of 16 c = false) :
    strto_subject ('0' :: x :: (digits ++ rest)) = (false, digits_value 16 digits) := by
  rw [strto_subject_unsigned _ _ (by decide) (by decide) (by decide)]
  show (if x = 'x' ∨ x = 'X' then (false, strto_digits 16 (digits ++ rest) 0)
    else (false, strto_digits 8 (x :: (digits ++ rest)) 0)) = _
  rw [if_pos hx, strto_digits_append 16 rest hrest digits 0 hdigits]
  rfl

/-- The subject sequence after a leading "0" is read in base 8. -/
theorem strto_subject_octal (digits rest : List Char)
    (hdigits : ∀ c ∈ digits, is_digit_of 8 c = true)
    (hrest : ∀ c ∈ rest.head?, is_digit_of 8 c = false)
    (hx : ∀ c ∈ (digits ++ rest).head?, c ≠ 'x' ∧ c ≠ 'X') :
    strto_subject ('0' :: (digits ++ rest)) = (false, digits_value 8 digits) := by
  rw [strto_subject_unsigned _ _ (by decide) (by decide) (by decide)]
  cases hdr : digits ++ rest with
  | nil =>
    have hd : digits = [] := (List.append_eq_nil.mp hdr).1
    subst hd
    rfl
  | cons c r =>
    have hc := hx c (by rw [hdr]; simp)
    show (if c = 'x' ∨ c = 'X' then (false, strto_digits 16 r 0)
      else (false, strto_digits 8 (c :: r) 0)) = _
    rw [if_neg (by
      rintro (h | h)
      · exact hc.1 h
      · exact hc.2 h), ← hdr, strto_digits_append 8 rest hrest digits 0 hdigits]
    rfl

/-- A subject sequence that starts with a digit from 1 to 9 is read in base
10. -/
theorem strto_subject_decimal (d : Char) (digits rest : List Char) (hd : d ≠ '0')
    (hdigits : ∀ c ∈ d :: digits, is_digit_of 10 c = true)
    (hrest : ∀ c ∈ rest.head?, is_digit_of 10 c = false) :
    strto_subject (d :: digits ++ rest) = (false, digits_value 10 (d :: digits)) := by
  obtain ⟨hsp, hminus, hplus⟩ :=
    decimal_digit_not_space_or_sign (hdigits d (List.mem_cons_self _ _))
  have hval := strto_digits_append 10 rest hrest (d :: digits) 0 hdigits
  rw [List.cons_append] at hval ⊢
  rw [strto_subject_unsigned _ _ hsp hminus hplus, strto_subject_base_match _ _ hd]
  simp only [hval]
  rfl

/-- A subject sequence that does not start with white space, a sign or a
decimal digit has the value 0. -/
theorem strto_subject_non_numeric (s : List Char)
    (hs : ∀ c ∈ s.head?, isspace c = false ∧ c ≠ '-' ∧ c ≠ '+' ∧ is_digit_of 10 c = false) :
    strto_subject s = (false, 0) := by
  cases s with
  | nil => rfl
  | cons c r =>
    obtain ⟨hsp, hminus, hplus, hdig⟩ := hs c (by simp)
    have hzero : c ≠ '0' := by
      rintro rfl
      exact absurd hdig (by decide)
    have hval := strto_digits_append 10 (c :: r) (fun x hx => by
      simp only [List.head?_cons, Option.mem_def, Option.some.injEq] at hx
      rw [← hx]
      exact hdig) [] 0 (fun x hx => absurd hx (List.not_mem_nil _))
    rw [List.nil_append] at hval
    rw [strto_subject_unsigned _ _ hsp hminus hplus, strto_subject_base_match _ _ hzero]
    simp only [hval]
    rfl

/-- The results of `strtol` and `strtoul` on a subject sequence without
sign whose value a `long` holds. -/
theorem strtol_of_subject {s : List Char} {n : Nat} (hs : strto_subject s = (false, n))
    (hn : (n : Int) ≤ LONG_MAX) : strtol s = (n : Int) ∧ strtoul s = n := by
  have hn' : n ≤ 2 ^ 63 - 1 := by
    unfold LONG_MAX at hn
    omega
  unfold strtol strtoul
  simp only [hs]
  refine ⟨?_, ?_⟩
  · rw [if_neg (by simp), if_neg (by omega)]
  · rw [if_neg (by omega), if_neg (by simp)]

/-- C24. `parse_integer` and `parse_uinteger` return what `parse_string`
returns: a code that is not 0 with nothing else done, or 0 with the value
set to `strtol`, respectively `strtoul`, with base 0 of the decoded string.
On a string that starts with "0x" or "0X" these give the value in base 16 of
the hexadecimal digits that follow, on one that starts with "0" the value in
base 8 of the octal digits that follow, and on one that starts with a digit
from 1 to 9 the value in base 10 of its leading decimal digits, as long as a
`long` holds the value; the characters after the digits are not read. On a
string that starts with neither white space, a sign nor a digit they give
0. -/
theorem integer_fields_base_zero (st st1 : parse_state) (field field1 : syslog_field_t)
    (ret : Int) (hstring : parse_string st field = some (ret, st1, field1)) :
    (ret ≠ 0 →
      parse_integer st field = some (ret, st1, field1) ∧
      parse_uinteger st field = some (ret, st1, field1)) ∧
    (ret = 0 → ∃ v, field_string st1 field1 = some v ∧
      parse_integer st field =
        some (0, st1, { field1 with value := { field1.value with integer := strtol v } }) ∧
      parse_uinteger st field =
        some (0, st1,
          { field1 with value := { field1.value with uinteger := strtoul v } })) ∧
    (∀ (x : Char) (digits rest : List Char), x = 'x' ∨ x = 'X' →
      (∀ c ∈ digits, is_digit_of 16 c = true) →
      (∀ c ∈ rest.head?, is_digit_of 16 c = false) →
      (digits_value 16 digits : Int) ≤ LONG_MAX →
      strtol ('0' :: x :: (digits ++ rest)) = (digits_value 16 digits : Int) ∧
      strtoul ('0' :: x :: (digits ++ rest)) = digits_value 16 digits) ∧
    (∀ digits rest : List Char,
      (∀ c ∈ digits, is_digit_of 8 c = true) →
      (∀ c ∈ rest.head?, is_digit_of 8 c = false) →
      (∀ c ∈ (digits ++ rest).head?, c ≠ 'x' ∧ c ≠ 'X') →
      (digits_value 8 digits : Int) ≤ LONG_MAX →
      strtol ('0' :: (digits ++ rest)) = (digits_value 8 digits : Int) ∧
      strtoul ('0' :: (digits ++ rest)) = digits_value 8 digits) ∧
    (∀ (d : Char) (digits rest : List Char), d ≠ '0' →
      (∀ c ∈ d :: digits, is_digit_of 10 c = true) →
      (∀ c ∈ rest.head?, is_digit_of 10 c = false) →
      (digits_value 10 (d :: digits) : Int) ≤ LONG_MAX →
      strtol (d :: digits ++ rest) = (digits_value 10 (d :: digits) : Int) ∧
      strtoul (d :: digits ++ rest) = digits_value 10 (d :: digits)) ∧
    (∀ s : List Char,
      (∀ c ∈ s.head?,
        isspace c = false ∧ c ≠ '-' ∧ c ≠ '+' ∧ is_digit_of 10 c = false) →
      strtol s = 0 ∧ strtoul s = 0) := by
  refine ⟨?_, ?_, ?_, ?_, ?_, ?_⟩
  · intro hne
    refine ⟨?_, ?_⟩
    · unfold parse_integer
      simp only [hstring]
      rw [if_neg hne]
    · unfold parse_uinteger
      simp only [hstring]
      rw [if_neg hne]
  · intro h0
    subst h0
    obtain ⟨v, hv⟩ := parse_string_value_defined hstring
    refine ⟨v, hv, ?_, ?_⟩
    · unfold parse_integer
      simp only [hstring, hv]
      rfl
    · unfold parse_uinteger
      simp only [hstring, hv]
      rfl
  · intro x digits rest hx hd hr hn
    exact strtol_of_subject (strto_subject_hex x hx digits rest hd hr) hn
  · intro digits rest hd hr hx hn
    exact strtol_of_subject (strto_subject_octal digits rest hd hr hx) hn
  · intro d digits rest h0 hd hr hn
    exact strtol_of_subject (strto_subject_decimal d digits rest h0 hd hr) hn
  · intro s hs
    have := strtol_of_subject (strto_subject_non_numeric s hs) (by decide)
    exact ⟨this.1, this.2⟩

/-- Witness of C24: a field with the stop delimiter ';' at the text
"0x1F;". -/
theorem integer_fields_base_zero_witness :
    ((0 : Int) ≠ 0 →
      parse_integer { line := "0x1F;".toList ++ [NUL], data := some 0 }
        (syslog_field_t.mk (syslog_field_info_t.mk SYSLOG_FIELD_ID_ID SYSLOG_FIELD_TYPE_INTEGER 'I'
          "id" "Id" none)
          0 {} NUL ';') =
        some (0, { line := "0x1F\x00".toList ++ [NUL], data := some 5 },
        (syslog_field_t.mk (syslog_field_info_t.mk SYSLOG_FIELD_ID_ID SYSLOG_FIELD_TYPE_INTEGER 'I'
          "id" "Id" none)
          0 {} NUL ';')) ∧
      parse_uinteger { line := "0x1F;".toList ++ [NUL], data := some 0 }
        (syslog_field_t.mk (syslog_field_info_t.mk SYSLOG_FIELD_ID_ID SYSLOG_FIELD_TYPE_INTEGER 'I'
          "id" "Id" none)
          0 {} NUL ';') =
        some (0, { line := "0x1F\x00".toList ++ [NUL], data := some 5 },
        (syslog_field_t.mk (syslog_field_info_t.mk SYSLOG_FIELD_ID_ID SYSLOG_FIELD_TYPE_INTEGER 'I'
          "id" "Id" none)
          0 {} NUL ';'))) ∧
    ((0 : Int) = 0 → ∃ v,
      field_string { line := "0x1F\x00".toList ++ [NUL], data := some 5 }
        (syslog_field_t.mk (syslog_field_info_t.mk SYSLOG_FIELD_ID_ID SYSLOG_FIELD_TYPE_INTEGER 'I'
          "id" "Id" none)
          0 {} NUL ';') = some v ∧
      parse_integer { line := "0x1F;".toList ++ [NUL], data := some 0 }
        (syslog_field_t.mk (syslog_field_info_t.mk SYSLOG_FIELD_ID_ID SYSLOG_FIELD_TYPE_INTEGER 'I'
          "id" "Id" none)
          0 {} NUL ';') =
        some (0, { line := "0x1F\x00".toList ++ [NUL], data := some 5 },
          { (syslog_field_t.mk (syslog_field_info_t.mk SYSLOG_FIELD_ID_ID SYSLOG_FIELD_TYPE_INTEGER 'I'
          "id" "Id" none)
          0 {} NUL ';') with
            value := { (syslog_field_t.mk (syslog_field_info_t.mk SYSLOG_FIELD_ID_ID SYSLOG_FIELD_TYPE_INTEGER 'I'
          "id" "Id" none)
          0 {} NUL ';').value with integer := strtol v } }) ∧
      parse_uinteger { line := "0x1F;".toList ++ [NUL], data := some 0 }
        (syslog_field_t.mk (syslog_field_info_t.mk SYSLOG_FIELD_ID_ID SYSLOG_FIELD_TYPE_INTEGER 'I'
          "id" "Id" none)
          0 {} NUL ';') =
        some (0, { line := "0x1F\x00".toList ++ [NUL], data := some 5 },
          { (syslog_field_t.mk (syslog_field_info_t.mk SYSLOG_FIELD_ID_ID SYSLOG_FIELD_TYPE_INTEGER 'I'
          "id" "Id" none)
          0 {} NUL ';') with
            value := { (syslog_field_t.mk (syslog_field_info_t.mk SYSLOG_FIELD_ID_ID SYSLOG_FIELD_TYPE_INTEGER 'I'
          "id" "Id" none)
          0 {} NUL ';').value with uinteger := strtoul v } })) ∧
    (∀ (x : Char) (digits rest : List Char), x = 'x' ∨ x = 'X' →
      (∀ c ∈ digits, is_digit_of 16 c = true) →
      (∀ c ∈ rest.head?, is_digit_of 16 c = false) →
      (digits_value 16 digits : Int) ≤ LONG_MAX →
      strtol ('0' :: x :: (digits ++ rest)) = (digits_value 16 digits : Int) ∧
      strtoul ('0' :: x :: (digits ++ rest)) = digits_value 16 digits) ∧
    (∀ digits rest : List Char,
      (∀ c ∈ digits, is_digit_of 8 c = true) →
      (∀ c ∈ rest.head?, is_digit_of 8 c = false) →
      (∀ c ∈ (digits ++ rest).head?, c ≠ 'x' ∧ c ≠ 'X') →
      (digits_value 8 digits : Int) ≤ LONG_MAX →
      strtol ('0' :: (digits ++ rest)) = (digits_value 8 digits : Int) ∧
      strtoul ('0' :: (digits ++ rest)) = digits_value 8 digits) ∧
    (∀ (d : Char) (digits rest : List Char), d ≠ '0' →
      (∀ c ∈ d :: digits, is_digit_of 10 c = true) →
      (∀ c ∈ rest.head?, is_digit_of 10 c = false) →
      (digits_value 10 (d :: digits) : Int) ≤ LONG_MAX →
      strtol (d :: digits ++ rest) = (digits_value 10 (d :: digits) : Int) ∧
      strtoul (d :: digits ++ rest) = digits_value 10 (d :: digits)) ∧
    (∀ s : List Char,
      (∀ c ∈ s.head?,
        isspace c = false ∧ c ≠ '-' ∧ c ≠ '+' ∧ is_digit_of 10 c = false) →
      strtol s = 0 ∧ strtoul s = 0) :=
  integer_fields_base_zero { line := "0x1F;".toList ++ [NUL], data := some 0 }
    { line := "0x1F\x00".toList ++ [NUL], data := some 5 }
    (syslog_field_t.mk (syslog_field_info_t.mk SYSLOG_FIELD_ID_ID SYSLOG_FIELD_TYPE_INTEGER 'I'
          "id" "Id" none)
          0 {} NUL ';')
    (syslog_field_t.mk (syslog_field_info_t.mk SYSLOG_FIELD_ID_ID SYSLOG_FIELD_TYPE_INTEGER 'I'
          "id" "Id" none)
          0 {} NUL ';')
    0 (by decide)

/-! ### Values left in the entry by earlier lines -/

/-- `parse_string` on a field with another value: the result is the same but
for the value, of which the string is the same after a success. -/
theorem parse_string_value_congr {st st1 : parse_state} {f f1 : syslog_field_t}
    {v : syslog_field_value_union} {ret : Int}
    (h : parse_string st f = some (ret, st1, f1)) :
    ∃ v1, parse_string st { f with value := v } = some (ret, st1, { f1 with value := v1 }) ∧
      (ret = 0 → v1.string = f1.value.string) := by
  unfold parse_string at h ⊢
  split at h
  · simp at h
  · rename_i data hdata
    simp only at h ⊢
    split at h
    · simp at h
    · rename_i p0 hp0
      rw [hp0]
      simp only
      split at h
      · simp at h
      · rename_i hchr
        simp only [Option.some.injEq, Prod.mk.injEq] at h
        obtain ⟨h1, h2, h3⟩ := h
        subst h1 h2 h3
        exact ⟨v, rfl, fun h0 => absurd h0 (by decide)⟩
      · rename_i p hchr
        split at h
        · simp at h
        · rename_i hbrk
          simp only [Option.some.injEq, Prod.mk.injEq] at h
          obtain ⟨h1, h2, h3⟩ := h
          subst h1 h2 h3
          exact ⟨{ v with string := data }, rfl, fun _ => rfl⟩
        · rename_i q hbrk
          simp only [Option.some.injEq, Prod.mk.injEq] at h
          obtain ⟨h1, h2, h3⟩ := h
          subst h1 h2 h3
          exact ⟨{ v with string := data }, rfl, fun _ => rfl⟩

theorem validator_call_value_congr (validator : validator_t) (line : List Char)
    (f : syslog_field_t) (v : syslog_field_value_union) (hv : v.string = f.value.string) :
    validator.call line { f with value := v } = validator.call line f := by
  cases validator with
  | validate_facility =>
    simp only [validator_t.call, validate_facility, hv]
  | validate_priority =>
    simp only [validator_t.call, validate_priority, hv]

theorem field_parse_finish_value_congr {line_n : Nat} {r ret : Int} {st st1 : parse_state}
    {f f1 : syslog_field_t} (v : syslog_field_value_union)
    (hv : r = 0 → v.string = f.value.string)
    (h : field_parse_finish line_n r st f = some (ret, st1, f1)) :
    field_parse_finish line_n r st { f with value := v } =
        some (ret, st1, { f1 with value := v }) ∧
      (ret = 0 → v.string = f1.value.string) := by
  unfold field_parse_finish at h ⊢
  split at h
  · rename_i hr
    simp only [Option.some.injEq, Prod.mk.injEq] at h
    obtain ⟨h1, h2, h3⟩ := h
    subst h1 h2 h3
    rw [if_pos hr]
    exact ⟨rfl, fun h0 => absurd h0 hr⟩
  · rename_i hr
    have hr0 : r = 0 := by simpa using hr
    rw [if_neg hr]
    simp only
    split at h
    · rename_i hnv
      rw [if_pos hnv]
      split at h
      · rename_i hval
        simp only [Option.some.injEq, Prod.mk.injEq] at h
        obtain ⟨h1, h2, h3⟩ := h
        subst h1 h2 h3
        exact ⟨rfl, fun _ => hv hr0⟩
      · rename_i validator hval
        rw [validator_call_value_congr validator st.line f v (hv hr0)]
        split at h
        · simp at h
        · rename_i ret1 hcall
          split at h
          · rename_i hret1
            rw [if_pos hret1]
            simp only [Option.some.injEq, Prod.mk.injEq] at h
            obtain ⟨h1, h2, h3⟩ := h
            subst h1 h2 h3
            exact ⟨rfl, fun h0 => absurd h0 hret1⟩
          · rename_i hret1
            rw [if_neg hret1]
            simp only [Option.some.injEq, Prod.mk.injEq] at h
            obtain ⟨h1, h2, h3⟩ := h
            subst h1 h2 h3
            exact ⟨rfl, fun _ => hv hr0⟩
    · rename_i hnv
      rw [if_neg hnv]
      simp only [Option.some.injEq, Prod.mk.injEq] at h
      obtain ⟨h1, h2, h3⟩ := h
      subst h1 h2 h3
      exact ⟨rfl, fun _ => hv hr0⟩

/-- The field parse of a String descriptor does not depend on the value that
the descriptor holds. -/
theorem field_parse_string_value_congr {tf : time_functions} {config : config_t}
    {line_n : Nat} {st st1 : parse_state} {f f1 : syslog_field_t} {ret : Int}
    (v : syslog_field_value_union) (htype : f.info.type = SYSLOG_FIELD_TYPE_STRING)
    (h : syslog_entry_field_parse tf config line_n st f = some (ret, st1, f1)) :
    ∃ v1, syslog_entry_field_parse tf config line_n st { f with value := v } =
        some (ret, st1, { f1 with value := v1 }) ∧
      (ret = 0 → v1.string = f1.value.string) := by
  unfold syslog_entry_field_parse at h ⊢
  have hstart : field_parse_start st { f with value := v } = field_parse_start st f := rfl
  rw [hstart]
  split at h
  · simp at h
  · simp only [Option.some.injEq, Prod.mk.injEq] at h
    obtain ⟨h1, h2, h3⟩ := h
    subst h1 h2 h3
    exact ⟨v, rfl, fun h0 => absurd h0 (by decide)⟩
  · rename_i data hst
    split at h
    · simp at h
    · rename_i r s g hv
      simp only [field_parse_value, htype] at hv ⊢
      obtain ⟨v1, hp, hv1⟩ := parse_string_value_congr (v := v) hv
      rw [hp]
      simp only
      obtain ⟨hfin, hstr⟩ := field_parse_finish_value_congr v1 hv1 h
      exact ⟨v1, hfin, hstr⟩

theorem eq_with_value_of_same_descriptor {f g : syslog_field_t} (h : same_descriptor f g) :
    g = { f with value := g.value } := by
  obtain ⟨h1, h2, h3, h4⟩ := h
  cases f
  cases g
  simp only at h1 h2 h3 h4
  subst h1 h2 h3 h4
  rfl

/-- The loop over String descriptors does not depend on the values that the
descriptors hold. -/
theorem parse_fields_string_value_congr {tf : time_functions} {config : config_t}
    {line_n : Nat} :
    ∀ {fields fields2 : List syslog_field_t}, List.Forall₂ same_descriptor fields fields2 →
      (∀ f ∈ fields, f.info.type = SYSLOG_FIELD_TYPE_STRING) →
      ∀ {st st1 : parse_state} {ret : Int} {fields1 : List syslog_field_t},
      parse_fields tf config line_n st fields = some (ret, st1, fields1) →
      ∃ fields3, parse_fields tf config line_n st fields2 = some (ret, st1, fields3) ∧
        (ret = 0 →
          List.Forall₂ (fun f g => f.value.string = g.value.string) fields1 fields3) := by
  intro fields fields2 hd
  induction hd with
  | nil =>
    intro _ st st1 ret fields1 h
    simp only [parse_fields, Option.some.injEq, Prod.mk.injEq] at h
    obtain ⟨h1, h2, h3⟩ := h
    subst h1 h2 h3
    exact ⟨[], rfl, fun _ => List.Forall₂.nil⟩
  | @cons f g fs gs hfg _ ih =>
    intro htypes st st1 ret fields1 h
    simp only [parse_fields] at h
    split at h
    · simp at h
    · rename_i r s f1 hf
      obtain ⟨v1, hg, hstr⟩ := field_parse_string_value_congr g.value
        (htypes f (List.mem_cons_self _ _)) hf
      rw [← eq_with_value_of_same_descriptor hfg] at hg
      simp only [parse_fields, hg]
      split at h
      · rename_i hr
        simp only [Option.some.injEq, Prod.mk.injEq] at h
        obtain ⟨h1, h2, h3⟩ := h
        subst h1 h2 h3
        rw [if_pos hr]
        exact ⟨_, rfl, fun h0 => absurd h0 hr⟩
      · rename_i hr
        have hr0 : r = 0 := by simpa using hr
        rw [if_neg hr]
        split at h
        · simp at h
        · rename_i r2 s2 n2 hn
          obtain ⟨fields3, hn3, hstr3⟩ :=
            ih (fun x hx => htypes x (List.mem_cons_of_mem _ hx)) hn
          simp only [Option.some.injEq, Prod.mk.injEq] at h
          obtain ⟨h1, h2, h3⟩ := h
          subst h1 h2 h3
          rw [hn3]
          exact ⟨_, rfl, fun h0 => List.Forall₂.cons (hstr hr0).symm (hstr3 h0)⟩

/-- C21 (not met by the code for Timestamp descriptors; what holds). For
descriptors of type String the result of `syslog_entry_parse` does not depend
on the values that the entry holds: on an entry with the same descriptors
and other values it returns the same code and leaves the same buffer, cursor
and messages, and after a success the same strings. A Timestamp descriptor
passes the `struct tm` that the line before has left to `strptime`, which
writes only the members that the pattern names: with the pattern
"%b %d %H:%M:%S" and the descriptors of "%T %M", the line "Jan  1 00:00:01 b"
decodes to the time 18446744071500562817 on the entry as compiled, and to the
time 18446744071532098817, a year later, after the line "Dec 31 23:59:60 a",
whose leap second has moved the year on. -/
theorem values_left_by_earlier_lines (tf : time_functions) (config : config_t)
    (entry entry2 entry1 : syslog_entry_t) (line_n : Nat) (line : List Char) (ret : Int)
    (st : parse_state)
    (hdescriptors : List.Forall₂ same_descriptor entry.fields entry2.fields)
    (hstring : ∀ f ∈ entry.fields, f.info.type = SYSLOG_FIELD_TYPE_STRING)
    (hparse : syslog_entry_parse tf config entry line_n line = some (ret, st, entry1)) :
    (∃ entry3, syslog_entry_parse tf config entry2 line_n line = some (ret, st, entry3) ∧
      (ret = 0 → List.Forall₂ (fun f g => f.value.string = g.value.string)
        entry1.fields entry3.fields)) ∧
    (syslog_entry_init "%T %M".toList).bind (fun r =>
      (syslog_entry_parse utc_time_functions
        { default_config with ts_parse_spec := "%b %d %H:%M:%S".toList } r.2 2
        ("Jan  1 00:00:01 b\n".toList ++ [NUL])).map
        (fun b => (r.1, b.1, b.2.2.fields.map (fun f => f.value.time_unixtime)))) =
      some (0, 0, [18446744071500562817, 0]) ∧
    (syslog_entry_init "%T %M".toList).bind (fun r =>
      (syslog_entry_parse utc_time_functions
        { default_config with ts_parse_spec := "%b %d %H:%M:%S".toList } r.2 1
        ("Dec 31 23:59:60 a\n".toList ++ [NUL])).bind (fun a =>
        (syslog_entry_parse utc_time_functions
          { default_config with ts_parse_spec := "%b %d %H:%M:%S".toList } a.2.2 2
          ("Jan  1 00:00:01 b\n".toList ++ [NUL])).map
          (fun b => (a.1, b.1, b.2.2.fields.map (fun f => f.value.time_unixtime))))) =
      some (0, 0, [18446744071532098817, 0]) := by
  refine ⟨?_, by decide, by decide⟩
  unfold syslog_entry_parse at hparse ⊢
  split at hparse
  · simp at hparse
  · rename_i r s fields1 hfs
    simp only [Option.some.injEq, Prod.mk.injEq] at hparse
    obtain ⟨h1, h2, h3⟩ := hparse
    subst h1 h2 h3
    obtain ⟨fields3, h3, hstr⟩ := parse_fields_string_value_congr hdescriptors hstring hfs
    rw [h3]
    exact ⟨_, rfl, hstr⟩

/-- Witness of C21: the descriptors of "%H %M", once with the values of the
compiled entry and once with other values, and the line "a b". -/
theorem values_left_by_earlier_lines_witness :
    (∃ entry3, syslog_entry_parse utc_time_functions default_config
        (syslog_entry_t.mk 5 136
        [(syslog_field_t.mk (syslog_field_info_t.mk SYSLOG_FIELD_ID_HOSTNAME SYSLOG_FIELD_TYPE_STRING 'H'
          "hostname" "Hostname" none)
          0 { string := 3 } NUL ' '),
         (syslog_field_t.mk (syslog_field_info_t.mk SYSLOG_FIELD_ID_MESSAGE SYSLOG_FIELD_TYPE_STRING 'M'
          "message" "Message" none)
          0 { string := 1 } NUL NUL)])
        1 ['a', ' ', 'b', '\n', NUL] =
        some (0, { line := ['a', NUL, 'b', NUL, NUL], data := some 5 }, entry3) ∧
      ((0 : Int) = 0 → List.Forall₂ (fun f g => f.value.string = g.value.string)
        (syslog_entry_t.mk 0 136
        [(syslog_field_t.mk (syslog_field_info_t.mk SYSLOG_FIELD_ID_HOSTNAME SYSLOG_FIELD_TYPE_STRING 'H'
          "hostname" "Hostname" none)
          0 {} NUL ' '),
         (syslog_field_t.mk (syslog_field_info_t.mk SYSLOG_FIELD_ID_MESSAGE SYSLOG_FIELD_TYPE_STRING 'M'
          "message" "Message" none)
          0 { string := 2 } NUL NUL)]).fields entry3.fields)) ∧
    (syslog_entry_init "%T %M".toList).bind (fun r =>
      (syslog_entry_parse utc_time_functions
        { default_config with ts_parse_spec := "%b %d %H:%M:%S".toList } r.2 2
        ("Jan  1 00:00:01 b\n".toList ++ [NUL])).map
        (fun b => (r.1, b.1, b.2.2.fields.map (fun f => f.value.time_unixtime)))) =
      some (0, 0, [18446744071500562817, 0]) ∧
    (syslog_entry_init "%T %M".toList).bind (fun r =>
      (syslog_entry_parse utc_time_functions
        { default_config with ts_parse_spec := "%b %d %H:%M:%S".toList } r.2 1
        ("Dec 31 23:59:60 a\n".toList ++ [NUL])).bind (fun a =>
        (syslog_entry_parse utc_time_functions
          { default_config with ts_parse_spec := "%b %d %H:%M:%S".toList } a.2.2 2
          ("Jan  1 00:00:01 b\n".toList ++ [NUL])).map
          (fun b => (a.1, b.1, b.2.2.fields.map (fun f => f.value.time_unixtime))))) =
      some (0, 0, [18446744071532098817, 0]) :=
  values_left_by_earlier_lines utc_time_functions default_config
    (syslog_entry_t.mk 0 136
        [(syslog_field_t.mk (syslog_field_info_t.mk SYSLOG_FIELD_ID_HOSTNAME SYSLOG_FIELD_TYPE_STRING 'H'
          "hostname" "Hostname" none)
          0 {} NUL ' '),
         (syslog_field_t.mk (syslog_field_info_t.mk SYSLOG_FIELD_ID_MESSAGE SYSLOG_FIELD_TYPE_STRING 'M'
          "message" "Message" none)
          0 {} NUL NUL)])
    (syslog_entry_t.mk 5 136
        [(syslog_field_t.mk (syslog_field_info_t.mk SYSLOG_FIELD_ID_HOSTNAME SYSLOG_FIELD_TYPE_STRING 'H'
          "hostname" "Hostname" none)
          0 { string := 3 } NUL ' '),
         (syslog_field_t.mk (syslog_field_info_t.mk SYSLOG_FIELD_ID_MESSAGE SYSLOG_FIELD_TYPE_STRING 'M'
          "message" "Message" none)
          0 { string := 1 } NUL NUL)])
    (syslog_entry_t.mk 0 136
        [(syslog_field_t.mk (syslog_field_info_t.mk SYSLOG_FIELD_ID_HOSTNAME SYSLOG_FIELD_TYPE_STRING 'H'
          "hostname" "Hostname" none)
          0 {} NUL ' '),
         (syslog_field_t.mk (syslog_field_info_t.mk SYSLOG_FIELD_ID_MESSAGE SYSLOG_FIELD_TYPE_STRING 'M'
          "message" "Message" none)
          0 { string := 2 } NUL NUL)])
    1 ['a', ' ', 'b', '\n', NUL] 0 { line := ['a', NUL, 'b', NUL, NUL], data := some 5 }
    (by
      refine List.Forall₂.cons ⟨rfl, rfl, rfl, rfl⟩ (List.Forall₂.cons ⟨rfl, rfl, rfl, rfl⟩ ?_)
      exact List.Forall₂.nil)
    (by decide) (by decide)

/-! ### The scan loop as a scan over the tokens -/

theorem modifier_flags_concat (ms : List Char) (c : Char) :
    modifier_flags (ms ++ [c]) = modifier_flags ms ||| modifier_flag c := by
  induction ms with
  | nil => simp [modifier_flags]
  | cons a ms ih =>
    rw [List.cons_append, modifier_flags, ih, modifier_flags, Nat.lor_assoc]

/-- The scan loop of `syslog_entry_init` over the characters is the scan over
the tokens of the characters. -/
theorem init_scan_eq_init_tokens (p : List Char) :
    (∀ st, init_scan false st p =
      (init_tokens st (spec_tokens_from none p)).map init_return) ∧
    (∀ ms st, (init_tokens st (spec_tokens_from (some ms) p)).map init_return =
      if last_stop_unset st.entry.fields then some (-EINVAL, st.entry)
      else init_scan true { st with flags := st.flags ||| modifier_flags ms } p) := by
  induction p with
  | nil =>
    constructor
    · intro st
      simp [init_scan, spec_tokens_from, init_tokens, init_return]
    · intro ms st
      simp only [spec_tokens_from, init_tokens, init_token, init_scan]
      by_cases hl : last_stop_unset st.entry.fields = true
      · simp [hl, init_return]
      · simp only [if_neg hl]
        generalize init_specifier _ NUL = r
        cases r <;> simp [init_return]
  | cons c p ih =>
    constructor
    · intro st
      simp only [init_scan, spec_tokens_from]
      by_cases h0 : c = NUL
      · simp [h0, init_tokens, init_return]
      · by_cases hc : c = '%'
        · subst hc
          simp only [if_neg h0, ne_eq, not_true_eq_false, if_false, if_true]
          rw [ih.2 [] st]
          simp [modifier_flags]
        · simp only [if_neg h0, if_neg hc, ne_eq, hc, not_false_eq_true, if_true,
            init_tokens, init_token]
          exact ih.1 _
    · intro ms st
      simp only [spec_tokens_from]
      by_cases hm : c = '!' ∨ c = '_' ∨ c = '@'
      · rw [if_pos hm, ih.2 (ms ++ [c]) st, modifier_flags_concat]
        by_cases hl : last_stop_unset st.entry.fields = true
        · simp [hl]
        · simp only [if_neg hl]
          rcases hm with h | h | h
          · subst h
            simp only [init_scan]
            rw [if_pos (by decide : '!' = SYSLOG_EXT_SPEC_DROP), Nat.lor_assoc]
            rfl
          · subst h
            simp only [init_scan]
            rw [if_neg (by decide : ¬ '_' = SYSLOG_EXT_SPEC_DROP),
              if_pos (by decide : '_' = SYSLOG_EXT_SPEC_NOTRIM), Nat.lor_assoc]
            rfl
          · subst h
            simp only [init_scan]
            rw [if_neg (by decide : ¬ '@' = SYSLOG_EXT_SPEC_DROP),
              if_neg (by decide : ¬ '@' = SYSLOG_EXT_SPEC_NOTRIM),
              if_pos (by decide : '@' = SYSLOG_EXT_SPEC_NOVALIDATION), Nat.lor_assoc]
            rfl
      · have h1 : ¬ c = SYSLOG_EXT_SPEC_DROP := fun h => hm (Or.inl h)
        have h2 : ¬ c = SYSLOG_EXT_SPEC_NOTRIM := fun h => hm (Or.inr (Or.inl h))
        have h3 : ¬ c = SYSLOG_EXT_SPEC_NOVALIDATION := fun h => hm (Or.inr (Or.inr h))
        simp only [init_scan]
        rw [if_neg hm, if_neg h1, if_neg h2, if_neg h3]
        by_cases hnul : c = NUL
        · subst hnul
          simp only [if_true, init_tokens, init_token]
          by_cases hl : last_stop_unset st.entry.fields = true
          · simp [hl, init_return]
          · simp only [if_neg hl]
            generalize init_specifier _ NUL = r
            cases r <;> simp [init_return]
        · simp only [if_neg hnul, init_tokens, init_token]
          by_cases hl : last_stop_unset st.entry.fields = true
          · simp [hl, init_return]
          · simp only [if_neg hl]
            generalize init_specifier _ c = r
            cases r with
            | error r => simp [init_return]
            | ok st1 =>
              simp only []
              exact (ih.1 st1).symm

/-- The function `syslog_entry_init` is the scan over the tokens of the
specification. -/
theorem syslog_entry_init_eq_init_tokens (entry_spec : List Char) :
    syslog_entry_init entry_spec =
      (init_tokens
        { flags := 0, field_info := none, parse_start_char := NUL,
          entry := { num := 0, fields_mask := 0, fields := [] } }
        (spec_tokens entry_spec)).map init_return :=
  (init_scan_eq_init_tokens entry_spec).1 _

theorem init_token_error {st : init_locals} {t : spec_token} {r : Int × syslog_entry_t}
    (h : init_token st t = some (.error r)) : r.1 = -EINVAL := by
  cases t with
  | literal c => simp [init_token] at h
  | token ms c =>
    simp only [init_token] at h
    split at h
    · simp only [Option.some.injEq, Except.error.injEq] at h
      rw [← h]
    · simp only [Option.some.injEq] at h
      rw [init_specifier_error h]
  | unterminated ms =>
    simp only [init_token] at h
    split at h
    · simp only [Option.some.injEq, Except.error.injEq] at h
      rw [← h]
    · split at h
      · rename_i r1 hr
        simp only [Option.some.injEq, Except.error.injEq] at h
        rw [← h, init_specifier_error hr]
      · simp at h

theorem init_tokens_error (ts : List spec_token) :
    ∀ {st : init_locals} {r : Int × syslog_entry_t},
      init_tokens st ts = some (.error r) → r.1 = -EINVAL := by
  induction ts with
  | nil => intro st r h; simp [init_tokens] at h
  | cons t ts ih =>
    intro st r h
    simp only [init_tokens] at h
    split at h
    · simp at h
    · rename_i r1 ht
      simp only [Option.some.injEq, Except.error.injEq] at h
      rw [← h]
      exact init_token_error ht
    · exact ih h

/-- A specification that compiles is scanned to its end. -/
theorem init_tokens_of_init {entry_spec : List Char} {entry : syslog_entry_t}
    (h : syslog_entry_init entry_spec = some (0, entry)) :
    ∃ st, init_tokens
        { flags := 0, field_info := none, parse_start_char := NUL,
          entry := { num := 0, fields_mask := 0, fields := [] } }
        (spec_tokens entry_spec) = some (.ok st) ∧ st.entry = entry := by
  rw [syslog_entry_init_eq_init_tokens] at h
  generalize hgen : init_tokens _ (spec_tokens entry_spec) = o at h
  cases o with
  | none => simp at h
  | some r =>
    cases r with
    | error r =>
      have hr := init_tokens_error _ hgen
      simp only [Option.map_some', init_return, Option.some.injEq] at h
      rw [h] at hr
      simp [EINVAL] at hr
    | ok st =>
      simp only [Option.map_some', init_return, Option.some.injEq, Prod.mk.injEq,
        true_and] at h
      exact ⟨st, rfl, h⟩

theorem init_tokens_cons {st st2 : init_locals} {t : spec_token} {ts : List spec_token}
    (h : init_tokens st (t :: ts) = some (.ok st2)) :
    ∃ st1, init_token st t = some (.ok st1) ∧ init_tokens st1 ts = some (.ok st2) := by
  simp only [init_tokens] at h
  split at h
  · simp at h
  · simp at h
  · rename_i st1 ht
    exact ⟨st1, ht, h⟩

theorem init_tokens_append (ts1 : List spec_token) :
    ∀ {st st2 : init_locals} {ts2 : List spec_token},
      init_tokens st (ts1 ++ ts2) = some (.ok st2) →
      ∃ st1, init_tokens st ts1 = some (.ok st1) ∧ init_tokens st1 ts2 = some (.ok st2) := by
  induction ts1 with
  | nil => intro st st2 ts2 h; exact ⟨st, rfl, h⟩
  | cons t ts ih =>
    intro st st2 ts2 h
    rw [List.cons_append] at h
    obtain ⟨sta, ht, hrest⟩ := init_tokens_cons h
    obtain ⟨st1, h1, h2⟩ := ih hrest
    refine ⟨st1, ?_, h2⟩
    simp only [init_tokens, ht]
    exact h1

/-! ### What one token does to the locals of the scan -/

theorem set_last_stop_length (c : Char) (fs : List syslog_field_t) :
    (set_last_stop c fs).length = fs.length := by
  have := congrArg List.length (set_last_stop_map_info c fs)
  simpa using this

theorem set_last_stop_map_flags (c : Char) (fs : List syslog_field_t) :
    (set_last_stop c fs).map (fun f => f.flags) = fs.map (fun f => f.flags) := by
  induction fs with
  | nil => rfl
  | cons f rest ih =>
    cases rest with
    | nil => rfl
    | cons g rest2 =>
      simp only [set_last_stop, List.map_cons] at ih ⊢
      rw [ih]

theorem set_last_stop_getElem? (c : Char) (fs : List syslog_field_t) :
    ∀ (j : Nat) (f : syslog_field_t), fs[j]? = some f →
      (set_last_stop c fs)[j]? =
        some (if j + 1 = fs.length then { f with parse_stop_char := c } else f) := by
  induction fs with
  | nil => intro j f h; simp at h
  | cons g rest ih =>
    intro j f h
    cases rest with
    | nil =>
      cases j with
      | zero =>
        simp only [List.getElem?_cons_zero, Option.some.injEq] at h
        subst h
        simp [set_last_stop]
      | succ j => simp at h
    | cons g2 rest2 =>
      cases j with
      | zero =>
        simp only [List.getElem?_cons_zero, Option.some.injEq] at h
        subst h
        simp [set_last_stop]
      | succ j =>
        simp only [List.getElem?_cons_succ] at h
        simp only [set_last_stop, List.getElem?_cons_succ]
        rw [ih j f h]
        simp

theorem last_stop_unset_getElem? {fs : List syslog_field_t} {j : Nat} {f : syslog_field_t}
    (hl : last_stop_unset fs = true) (h : fs[j]? = some f) (hj : j + 1 = fs.length) :
    f.parse_stop_char = NUL := by
  unfold last_stop_unset at hl
  rw [List.getLast?_eq_getElem?] at hl
  have : fs.length - 1 = j := by omega
  rw [this, h] at hl
  simpa using hl

theorem last_stop_unset_set_last_stop {c : Char} (hc : c ≠ NUL) (fs : List syslog_field_t) :
    last_stop_unset (set_last_stop c fs) = false := by
  unfold last_stop_unset
  rw [List.getLast?_eq_getElem?, set_last_stop_length]
  cases h : fs[fs.length - 1]? with
  | none =>
    have : (set_last_stop c fs)[fs.length - 1]? = none := by
      rw [List.getElem?_eq_none_iff] at h ⊢
      rw [set_last_stop_length]
      exact h
    rw [this]
  | some f =>
    rw [set_last_stop_getElem? c fs _ f h]
    have hlt : fs.length - 1 < fs.length := by
      by_contra hh
      rw [List.getElem?_eq_none (by omega)] at h
      simp at h
    rw [if_pos (by omega)]
    simpa using hc

theorem registered_percent : registered '%' = false := by decide

theorem registered_spec {c : Char} {info : syslog_field_info_t}
    (h : syslog_field_info.find? (fun i => c == i.spec) = some info) : info.spec = c := by
  have := List.find?_some h
  simp only [beq_iff_eq] at this
  exact this.symm

/-- The passes of the loop over a token that does not end the scan: a literal
sets the stop delimiter of the last descriptor or the pending start
delimiter, an escape before the first field only adds its modifiers to the
flags, and any other token appends a descriptor. -/
theorem init_token_ok {st st1 : init_locals} {t : spec_token}
    (h : init_token st t = some (.ok st1)) :
    (∃ c, t = spec_token.literal c ∧ last_stop_unset st.entry.fields = true ∧
      st1 = { st with entry := { st.entry with fields := set_last_stop c st.entry.fields } }) ∨
    (∃ c, t = spec_token.literal c ∧ last_stop_unset st.entry.fields = false ∧
      st1 = { st with parse_start_char := c }) ∨
    (∃ ms, t = spec_token.token ms '%' ∧ st.field_info = none ∧
      last_stop_unset st.entry.fields = false ∧
      st1 = { st with flags := st.flags ||| modifier_flags ms }) ∨
    (∃ ms c info, t = spec_token.token ms c ∧ last_stop_unset st.entry.fields = false ∧
      (st.field_info.isSome || registered c) = true ∧
      (registered c = true → info.spec = c) ∧
      st1 =
        { flags := 0, field_info := some info, parse_start_char := NUL,
          entry := { st.entry with
            fields_mask := st.entry.fields_mask ||| (1 <<< info.id.toNat),
            fields := st.entry.fields ++
              [{ flags := st.flags ||| modifier_flags ms, info := info,
                 parse_start_char := st.parse_start_char, parse_stop_char := NUL }] } }) := by
  cases t with
  | literal c =>
    simp only [init_token, Option.some.injEq, Except.ok.injEq] at h
    unfold init_literal at h
    split at h
    · rename_i hl
      exact Or.inl ⟨c, rfl, hl, h.symm⟩
    · rename_i hl
      exact Or.inr (Or.inl ⟨c, rfl, by simpa using hl, h.symm⟩)
  | unterminated ms =>
    simp only [init_token] at h
    split at h
    · simp at h
    · split at h <;> simp at h
  | token ms c =>
    simp only [init_token] at h
    split at h
    · simp at h
    · rename_i hl
      have hl' : last_stop_unset st.entry.fields = false := by simpa using hl
      simp only [Option.some.injEq] at h
      unfold init_specifier at h
      simp only at h
      split at h
      · rename_i hfi
        have hnone : syslog_field_info.find? (fun i => c == i.spec) = none ∧
            st.field_info = none := by
          split at hfi <;> simp_all
        split at h
        · rename_i hch
          subst hch
          simp only [Except.ok.injEq] at h
          exact Or.inr (Or.inr (Or.inl ⟨ms, rfl, hnone.2, hl', h.symm⟩))
        · simp at h
      · rename_i info hfi
        split at h
        · simp at h
        · simp only [Except.ok.injEq] at h
          refine Or.inr (Or.inr (Or.inr ⟨ms, c, info, rfl, hl', ?_, ?_, h.symm⟩))
          · split at hfi
            · rename_i i hi
              simp [registered, hi]
            · rename_i hi
              simp [hfi]
          · intro hreg
            split at hfi
            · rename_i i hi
              simp only [Option.some.injEq] at hfi
              subst hfi
              exact registered_spec hi
            · rename_i hi
              simp [registered, hi] at hreg

/-! ### The descriptors that the tokens make -/

/-- The scan appends one descriptor for each token that makes one. -/
theorem init_tokens_length (ts : List spec_token) :
    ∀ {st st1 : init_locals}, init_tokens st ts = some (.ok st1) →
      st1.entry.fields.length =
        st.entry.fields.length + (descriptor_tokens st.field_info.isSome ts).length := by
  induction ts with
  | nil =>
    intro st st1 h
    simp only [init_tokens, Option.some.injEq, Except.ok.injEq] at h
    subst h
    simp [descriptor_tokens]
  | cons t ts ih =>
    intro st st1 h
    obtain ⟨sta, ht, hrest⟩ := init_tokens_cons h
    have hih := ih hrest
    rcases init_token_ok ht with ⟨c, rfl, _, rfl⟩ | ⟨c, rfl, _, rfl⟩ | ⟨ms, rfl, hfi, _, rfl⟩ |
      ⟨ms, c, info, rfl, _, hmk, _, rfl⟩
    · simpa [descriptor_tokens, spec_token.makes_descriptor, set_last_stop_length] using hih
    · simpa [descriptor_tokens, spec_token.makes_descriptor] using hih
    · simp only [hfi, Option.isSome_none] at hih ⊢
      simpa [descriptor_tokens, spec_token.makes_descriptor, registered_percent] using hih
    · simp only [descriptor_tokens, spec_token.makes_descriptor, hmk, if_true,
        List.length_cons]
      simp only [List.length_append, List.length_singleton, Option.isSome_some] at hih
      omega

/-- The scan leaves a descriptor that it has appended as it is, except that it
sets its stop delimiter when that is unset. -/
theorem init_tokens_keeps (ts : List spec_token) :
    ∀ {st st1 : init_locals}, init_tokens st ts = some (.ok st1) →
      ∀ (j : Nat) (f : syslog_field_t), st.entry.fields[j]? = some f →
        ∃ f1, st1.entry.fields[j]? = some f1 ∧
          (f1 = f ∨ (f.parse_stop_char = NUL ∧ ∃ c, f1 = { f with parse_stop_char := c })) := by
  induction ts with
  | nil =>
    intro st st1 h j f hf
    simp only [init_tokens, Option.some.injEq, Except.ok.injEq] at h
    subst h
    exact ⟨f, hf, Or.inl rfl⟩
  | cons t ts ih =>
    intro st st1 h j f hf
    obtain ⟨sta, ht, hrest⟩ := init_tokens_cons h
    have hstep : ∃ fa, sta.entry.fields[j]? = some fa ∧
        (fa = f ∨ (f.parse_stop_char = NUL ∧ ∃ c, fa = { f with parse_stop_char := c })) := by
      rcases init_token_ok ht with ⟨c, rfl, hl, rfl⟩ | ⟨c, rfl, _, rfl⟩ | ⟨ms, rfl, hfi, _, rfl⟩ |
        ⟨ms, c, info, rfl, _, hmk, _, rfl⟩
      · refine ⟨_, set_last_stop_getElem? c _ j f hf, ?_⟩
        split
        · rename_i hj
          exact Or.inr ⟨last_stop_unset_getElem? hl hf hj, c, rfl⟩
        · exact Or.inl rfl
      · exact ⟨f, hf, Or.inl rfl⟩
      · exact ⟨f, hf, Or.inl rfl⟩
      · refine ⟨f, ?_, Or.inl rfl⟩
        have hj : j < st.entry.fields.length := by
          by_contra hh
          rw [List.getElem?_eq_none (by omega)] at hf
          simp at hf
        simp only
        rw [List.getElem?_append_left hj]
        exact hf
    obtain ⟨fa, hfa, hrel⟩ := hstep
    obtain ⟨f1, hf1, hrel1⟩ := ih hrest j fa hfa
    refine ⟨f1, hf1, ?_⟩
    rcases hrel with rfl | ⟨hnul, c, rfl⟩
    · exact hrel1
    · rcases hrel1 with rfl | ⟨_, c1, rfl⟩
      · exact Or.inr ⟨hnul, c, rfl⟩
      · exact Or.inr ⟨hnul, c1, rfl⟩

/-- Once a descriptor has been appended the flags are clear at every token,
and each later descriptor has the flags of the modifiers of its token. -/
theorem init_tokens_flags_seen (ts : List spec_token) :
    ∀ {st st1 : init_locals}, init_tokens st ts = some (.ok st1) →
      st.field_info.isSome = true → st.flags = 0 →
      st1.entry.fields.map (fun f => f.flags) =
        st.entry.fields.map (fun f => f.flags) ++
          (descriptor_tokens true ts).map spec_token.modifier_flags := by
  induction ts with
  | nil =>
    intro st st1 h _ _
    simp only [init_tokens, Option.some.injEq, Except.ok.injEq] at h
    subst h
    simp [descriptor_tokens]
  | cons t ts ih =>
    intro st st1 h hseen hflags
    obtain ⟨sta, ht, hrest⟩ := init_tokens_cons h
    rcases init_token_ok ht with ⟨c, rfl, _, rfl⟩ | ⟨c, rfl, _, rfl⟩ | ⟨ms, rfl, hfi, _, rfl⟩ |
      ⟨ms, c, info, rfl, _, hmk, _, rfl⟩
    · have hih := ih hrest hseen hflags
      simpa [descriptor_tokens, spec_token.makes_descriptor, set_last_stop_map_flags] using hih
    · have hih := ih hrest hseen hflags
      simpa [descriptor_tokens, spec_token.makes_descriptor] using hih
    · rw [hfi] at hseen
      simp at hseen
    · have hih := ih hrest rfl rfl
      rw [hih]
      simp [descriptor_tokens, spec_token.makes_descriptor, spec_token.modifier_flags, hflags]

/-- Before the first descriptor the flags of the tokens add up: the first
descriptor has the flags of the modifiers of all the tokens up to its own. -/
theorem init_tokens_flags (ts : List spec_token) :
    ∀ {st st1 : init_locals}, init_tokens st ts = some (.ok st1) →
      st.field_info = none →
      st1.entry.fields.map (fun f => f.flags) =
        st.entry.fields.map (fun f => f.flags) ++
          (match descriptor_tokens false ts with
          | [] => []
          | _ :: rest =>
            (st.flags ||| flags_up_to_first_descriptor ts) ::
              rest.map spec_token.modifier_flags) := by
  induction ts with
  | nil =>
    intro st st1 h _
    simp only [init_tokens, Option.some.injEq, Except.ok.injEq] at h
    subst h
    simp [descriptor_tokens]
  | cons t ts ih =>
    intro st st1 h hseen
    obtain ⟨sta, ht, hrest⟩ := init_tokens_cons h
    rcases init_token_ok ht with ⟨c, rfl, _, rfl⟩ | ⟨c, rfl, _, rfl⟩ | ⟨ms, rfl, hfi, _, rfl⟩ |
      ⟨ms, c, info, rfl, _, hmk, _, rfl⟩
    · have hih := ih hrest hseen
      simpa [descriptor_tokens, spec_token.makes_descriptor, set_last_stop_map_flags,
        flags_up_to_first_descriptor, spec_token.modifier_flags] using hih
    · have hih := ih hrest hseen
      simpa [descriptor_tokens, spec_token.makes_descriptor, flags_up_to_first_descriptor,
        spec_token.modifier_flags] using hih
    · have hih := ih hrest hseen
      simpa [descriptor_tokens, spec_token.makes_descriptor, flags_up_to_first_descriptor,
        spec_token.modifier_flags, registered_percent, Nat.lor_assoc] using hih
    · have hih := init_tokens_flags_seen ts hrest rfl rfl
      rw [hseen] at hmk
      simp only [Option.isSome_none, Bool.false_or] at hmk
      rw [hih]
      simp [descriptor_tokens, spec_token.makes_descriptor, spec_token.modifier_flags, hmk,
        flags_up_to_first_descriptor]

/-! ### The flags of the descriptors -/

/-- C29 (not met by the code; what holds). For every specification that
compiles there is one descriptor for each token that makes one, every
descriptor after the first has exactly the flags of the modifiers of its own
token, and the first descriptor has the flags of the modifiers of all the
tokens up to and including its own: the flags are cleared only when a
descriptor is appended, so the modifiers of the escapes before the first
field token carry over to it. On "%_%%@%%M" the Message token has no modifier
and its descriptor has the NoTrim and NoValidation flags of the two
escapes. -/
theorem flags_cleared_only_with_descriptor (entry_spec : List Char) (entry : syslog_entry_t)
    (hinit : syslog_entry_init entry_spec = some (0, entry)) :
    entry.fields.length = (descriptor_tokens false (spec_tokens entry_spec)).length ∧
    (entry.fields.map (fun f => f.flags)).tail =
      ((descriptor_tokens false (spec_tokens entry_spec)).map
        spec_token.modifier_flags).tail ∧
    (∀ f, entry.fields.head? = some f →
      f.flags = flags_up_to_first_descriptor (spec_tokens entry_spec)) ∧
    descriptor_tokens false (spec_tokens "%_%%@%%M".toList) = [spec_token.token [] 'M'] ∧
    (syslog_entry_init "%_%%@%%M".toList).map
        (fun r => (r.1, r.2.fields.map (fun f => (f.info.id, f.flags)))) =
      some (0, [(SYSLOG_FIELD_ID_MESSAGE,
        SYSLOG_FIELD_FLAG_NOTRIM ||| SYSLOG_FIELD_FLAG_NOVALIDATION)]) := by
  obtain ⟨st, hst, rfl⟩ := init_tokens_of_init hinit
  have hlen := init_tokens_length _ hst
  have hflags := init_tokens_flags _ hst rfl
  simp only [List.length_nil, Nat.zero_add, Option.isSome_none] at hlen
  simp only [List.map_nil, List.nil_append, Nat.zero_or] at hflags
  refine ⟨hlen, ?_, ?_, by decide, by decide⟩
  · rw [hflags]
    cases descriptor_tokens false (spec_tokens entry_spec) with
    | nil => rfl
    | cons t rest => rfl
  · intro f hf
    have hhead : (st.entry.fields.map (fun f => f.flags)).head? = some f.flags := by
      rw [List.head?_map, hf]
      rfl
    rw [hflags] at hhead
    cases hd : descriptor_tokens false (spec_tokens entry_spec) with
    | nil =>
      rw [hd] at hhead
      simp at hhead
    | cons t rest =>
      rw [hd] at hhead
      simp only [List.head?_cons, Option.some.injEq] at hhead
      exact hhead.symm

/-- Witness of C29: the specification "%T %!H". -/
theorem flags_cleared_only_with_descriptor_witness :
    (syslog_entry_t.mk 0 10
        [(syslog_field_t.mk (syslog_field_info_t.mk SYSLOG_FIELD_ID_TIMESTAMP SYSLOG_FIELD_TYPE_TIME 'T'
          "timestamp" "Timestamp" none)
          0 {} NUL ' '),
         (syslog_field_t.mk (syslog_field_info_t.mk SYSLOG_FIELD_ID_HOSTNAME SYSLOG_FIELD_TYPE_STRING 'H'
          "hostname" "Hostname" none)
          1 {} NUL NUL)]).fields.length = (descriptor_tokens false (spec_tokens "%T %!H".toList)).length ∧
    ((syslog_entry_t.mk 0 10
        [(syslog_field_t.mk (syslog_field_info_t.mk SYSLOG_FIELD_ID_TIMESTAMP SYSLOG_FIELD_TYPE_TIME 'T'
          "timestamp" "Timestamp" none)
          0 {} NUL ' '),
         (syslog_field_t.mk (syslog_field_info_t.mk SYSLOG_FIELD_ID_HOSTNAME SYSLOG_FIELD_TYPE_STRING 'H'
          "hostname" "Hostname" none)
          1 {} NUL NUL)]).fields.map (fun f => f.flags)).tail =
      ((descriptor_tokens false (spec_tokens "%T %!H".toList)).map
        spec_token.modifier_flags).tail ∧
    (∀ f, (syslog_entry_t.mk 0 10
        [(syslog_field_t.mk (syslog_field_info_t.mk SYSLOG_FIELD_ID_TIMESTAMP SYSLOG_FIELD_TYPE_TIME 'T'
          "timestamp" "Timestamp" none)
          0 {} NUL ' '),
         (syslog_field_t.mk (syslog_field_info_t.mk SYSLOG_FIELD_ID_HOSTNAME SYSLOG_FIELD_TYPE_STRING 'H'
          "hostname" "Hostname" none)
          1 {} NUL NUL)]).fields.head? = some f →
      f.flags = flags_up_to_first_descriptor (spec_tokens "%T %!H".toList)) ∧
    descriptor_tokens false (spec_tokens "%_%%@%%M".toList) = [spec_token.token [] 'M'] ∧
    (syslog_entry_init "%_%%@%%M".toList).map
        (fun r => (r.1, r.2.fields.map (fun f => (f.info.id, f.flags)))) =
      some (0, [(SYSLOG_FIELD_ID_MESSAGE,
        SYSLOG_FIELD_FLAG_NOTRIM ||| SYSLOG_FIELD_FLAG_NOVALIDATION)]) :=
  flags_cleared_only_with_descriptor "%T %!H".toList
    (syslog_entry_t.mk 0 10
        [(syslog_field_t.mk (syslog_field_info_t.mk SYSLOG_FIELD_ID_TIMESTAMP SYSLOG_FIELD_TYPE_TIME 'T'
          "timestamp" "Timestamp" none)
          0 {} NUL ' '),
         (syslog_field_t.mk (syslog_field_info_t.mk SYSLOG_FIELD_ID_HOSTNAME SYSLOG_FIELD_TYPE_STRING 'H'
          "hostname" "Hostname" none)
          1 {} NUL NUL)]) (by decide)

/-! ### Literal characters and the delimiters -/

theorem spec_tokens_from_literal_ne (p : List Char) :
    ∀ (mods : Option (List Char)) (c : Char),
      spec_token.literal c ∈ spec_tokens_from mods p → c ≠ NUL ∧ c ≠ '%' := by
  induction p with
  | nil =>
    intro mods c h
    cases mods <;> simp [spec_tokens_from] at h
  | cons a p ih =>
    intro mods c h
    cases mods with
    | none =>
      simp only [spec_tokens_from] at h
      split at h
      · simp at h
      · split at h
        · exact ih _ c h
        · rename_i h0 h1
          simp only [List.mem_cons, spec_token.literal.injEq] at h
          rcases h with rfl | h
          · exact ⟨h0, h1⟩
          · exact ih _ c h
    | some ms =>
      simp only [spec_tokens_from] at h
      split at h
      · exact ih _ c h
      · split at h
        · simp at h
        · simp only [List.mem_cons, reduceCtorEq, false_or] at h
          exact ih _ c h

theorem getLast?_getD_cons (c d : Char) (lits : List Char) :
    (c :: lits).getLast?.getD d = lits.getLast?.getD c := by
  cases lits with
  | nil => rfl
  | cons a l =>
    rw [List.getLast?_cons_cons, List.getLast?_eq_getLast _ (List.cons_ne_nil a l)]
    rfl

/-- Literal characters met while the stop delimiter of the last descriptor is
set (or there is no descriptor) only set the pending start delimiter, each
replacing the one before. -/
theorem init_tokens_literals (lits : List Char) :
    ∀ (st : init_locals), last_stop_unset st.entry.fields = false →
      init_tokens st (lits.map spec_token.literal) =
        some (.ok { st with
          parse_start_char := lits.getLast?.getD st.parse_start_char }) := by
  induction lits with
  | nil => intro st _; rfl
  | cons c lits ih =>
    intro st hl
    have hlit : init_literal st c = { st with parse_start_char := c } := by
      unfold init_literal
      rw [hl]
      rfl
    simp only [List.map_cons, init_tokens, init_token, hlit]
    rw [ih { st with parse_start_char := c } hl, getLast?_getD_cons]

theorem init_scan_literals (lits : List Char) :
    ∀ (st : init_locals) (p : List Char), (∀ c ∈ lits, c ≠ NUL ∧ c ≠ '%') →
      last_stop_unset st.entry.fields = false →
      init_scan false st (lits ++ p) =
        init_scan false
          { st with parse_start_char := lits.getLast?.getD st.parse_start_char } p := by
  induction lits with
  | nil => intro st p _ _; rfl
  | cons c lits ih =>
    intro st p hc hl
    have hlit : init_literal st c = { st with parse_start_char := c } := by
      unfold init_literal
      rw [hl]
      rfl
    have hc0 := hc c (List.mem_cons_self _ _)
    rw [List.cons_append, init_scan, if_neg hc0.1, if_pos hc0.2, hlit,
      ih { st with parse_start_char := c } p (fun x hx => hc x (List.mem_cons_of_mem _ hx)) hl,
      getLast?_getD_cons]

theorem set_last_stop_concat (c : Char) (fs : List syslog_field_t) (f : syslog_field_t) :
    set_last_stop c (fs ++ [f]) = fs ++ [{ f with parse_stop_char := c }] := by
  induction fs with
  | nil => rfl
  | cons g rest ih =>
    rw [List.cons_append, List.cons_append, ← ih]
    cases h : rest ++ [f] with
    | nil => simp at h
    | cons a l => rfl

/-- A field token, a run of literal characters and the token after the run:
the two descriptors that the scan appends. -/
theorem init_tokens_field_run_token {st st1 : init_locals} {ms1 ms2 : List Char}
    {c1 c2 r0 : Char} {rs : List Char} (hc1 : registered c1 = true) (hr0 : r0 ≠ NUL)
    (h : init_tokens st (spec_token.token ms1 c1 ::
      ((r0 :: rs).map spec_token.literal ++ [spec_token.token ms2 c2])) = some (.ok st1)) :
    ∃ f1 f2, st1.entry.fields = st.entry.fields ++ [f1, f2] ∧ f1.info.spec = c1 ∧
      (registered c2 = true → f2.info.spec = c2) ∧ f1.parse_stop_char = r0 ∧
      f2.parse_start_char = rs.getLast?.getD NUL ∧ f2.parse_stop_char = NUL := by
  obtain ⟨stb, ht1, h2⟩ := init_tokens_cons h
  obtain ⟨stc, hrun, h3⟩ := init_tokens_append _ h2
  obtain ⟨std, ht2, h4⟩ := init_tokens_cons h3
  simp only [init_tokens, Option.some.injEq, Except.ok.injEq] at h4
  subst h4
  rw [List.map_cons] at hrun
  obtain ⟨stb1, hlit, hrs⟩ := init_tokens_cons hrun
  rcases init_token_ok ht1 with ⟨c, hc, _⟩ | ⟨c, hc, _⟩ | ⟨ms, hc, _⟩ |
    ⟨ms, c, info, hc, _, _, hspec, rfl⟩
  · cases hc
  · cases hc
  · simp only [spec_token.token.injEq] at hc
    rw [hc.2, registered_percent] at hc1
    cases hc1
  · simp only [spec_token.token.injEq] at hc
    obtain ⟨rfl, rfl⟩ := hc
    rcases init_token_ok hlit with ⟨c, hc, _, rfl⟩ | ⟨c, hc, hl, _⟩ | ⟨ms, hc, _⟩ |
      ⟨ms, c, info1, hc, _⟩
    · simp only [spec_token.literal.injEq] at hc
      subst hc
      simp only [set_last_stop_concat] at hrs ht2
      rw [init_tokens_literals rs _ (by
        simp only
        unfold last_stop_unset
        rw [List.getLast?_concat]
        simpa using hr0)] at hrs
      simp only [Option.some.injEq, Except.ok.injEq] at hrs
      subst hrs
      rcases init_token_ok ht2 with ⟨c, hc, _⟩ | ⟨c, hc, _⟩ | ⟨ms, _, hfi, _⟩ |
        ⟨ms, c, info2, hc, _, _, hspec2, rfl⟩
      · cases hc
      · cases hc
      · simp at hfi
      · simp only [spec_token.token.injEq] at hc
        obtain ⟨rfl, rfl⟩ := hc
        exact ⟨_, _, List.append_assoc _ [_] [_], hspec hc1, hspec2, rfl, rfl, rfl⟩
    · rw [last_stop_unset_concat _ _ rfl] at hl
      cases hl
    · cases hc
    · cases hc

/-- The first field token after literal characters at the start of the
specification: its descriptor is the first and has the last of the literal
characters as its start delimiter. -/
theorem init_tokens_literals_token {st1 : init_locals} {lits ms : List Char} {c : Char}
    (hc : registered c = true)
    (h : init_tokens
        { flags := 0, field_info := none, parse_start_char := NUL,
          entry := { num := 0, fields_mask := 0, fields := [] } }
        (lits.map spec_token.literal ++ [spec_token.token ms c]) = some (.ok st1)) :
    ∃ f, st1.entry.fields = [f] ∧ f.info.spec = c ∧
      f.parse_start_char = lits.getLast?.getD NUL := by
  obtain ⟨sta, ha, h1⟩ := init_tokens_append _ h
  have h0 : last_stop_unset
      ({ flags := 0, field_info := none, parse_start_char := NUL,
         entry := { num := 0, fields_mask := 0, fields := [] } } : init_locals).entry.fields =
      false := rfl
  rw [init_tokens_literals lits _ h0] at ha
  simp only [Option.some.injEq, Except.ok.injEq] at ha
  subst ha
  obtain ⟨stb, ht, h2⟩ := init_tokens_cons h1
  simp only [init_tokens, Option.some.injEq, Except.ok.injEq] at h2
  subst h2
  rcases init_token_ok ht with ⟨a, ha, _⟩ | ⟨a, ha, _⟩ | ⟨ms1, ha, _⟩ |
    ⟨ms1, a, info, ha, _, _, hspec, rfl⟩
  · cases ha
  · cases ha
  · simp only [spec_token.token.injEq] at ha
    rw [ha.2, registered_percent] at hc
    cases hc
  · simp only [spec_token.token.injEq] at ha
    obtain ⟨rfl, rfl⟩ := ha
    exact ⟨_, rfl, hspec hc, rfl⟩

/-- C30. In a specification that compiles, a run of one or more literal
characters between a field token and the token after it gives the first
character of the run to the descriptor of the field token as its stop
delimiter, and the last character of the run, when the run has at least two
characters, to the next descriptor as its start delimiter, which is absent
when the run has one character. The characters in between are discarded: the
scan after a field token goes on in the same way when they are left out.
Literal characters before the first token only set the start delimiter of the
first field, to the last of them: the specification compiles to the same
entry with only the last of them. -/
theorem literal_run_sets_delimiters (entry_spec : List Char) (entry : syslog_entry_t)
    (tpre tpost : List spec_token) (ms1 ms2 : List Char) (c1 c2 : Char) (run : List Char)
    (hinit : syslog_entry_init entry_spec = some (0, entry))
    (htokens : spec_tokens entry_spec = tpre ++ spec_token.token ms1 c1 ::
      (run.map spec_token.literal ++ spec_token.token ms2 c2 :: tpost))
    (hc1 : registered c1 = true) (hrun : run ≠ []) :
    (∃ f1 f2, entry.fields[(descriptor_tokens false tpre).length]? = some f1 ∧
      entry.fields[(descriptor_tokens false tpre).length + 1]? = some f2 ∧
      f1.info.spec = c1 ∧ (registered c2 = true → f2.info.spec = c2) ∧
      run.head? = some f1.parse_stop_char ∧
      f2.parse_start_char = (if 2 ≤ run.length then run.getLast?.getD NUL else NUL)) ∧
    (∀ (st : init_locals) (first last : Char) (between p : List Char),
      last_stop_unset st.entry.fields = true →
      first ≠ NUL → first ≠ '%' → last ≠ NUL → last ≠ '%' →
      (∀ c ∈ between, c ≠ NUL ∧ c ≠ '%') →
      init_scan false st (first :: (between ++ last :: p)) =
        init_scan false st (first :: last :: p)) ∧
    (∀ (lits : List Char) (last : Char) (p : List Char),
      (∀ c ∈ lits, c ≠ NUL ∧ c ≠ '%') → last ≠ NUL → last ≠ '%' →
      syslog_entry_init (lits ++ last :: p) = syslog_entry_init (last :: p)) ∧
    (∀ (spec : List Char) (e : syslog_entry_t) (lits ms : List Char) (c : Char)
        (ts : List spec_token),
      syslog_entry_init spec = some (0, e) →
      spec_tokens spec = lits.map spec_token.literal ++ spec_token.token ms c :: ts →
      registered c = true →
      ∃ f, e.fields[0]? = some f ∧ f.info.spec = c ∧
        f.parse_start_char = lits.getLast?.getD NUL) := by
  refine ⟨?_, ?_, ?_, ?_⟩
  · cases run with
    | nil => exact absurd rfl hrun
    | cons r0 rs =>
      have hr0 : r0 ≠ NUL ∧ r0 ≠ '%' := by
        apply spec_tokens_from_literal_ne entry_spec none r0
        unfold spec_tokens at htokens
        rw [htokens]
        simp
      obtain ⟨stF, hst, rfl⟩ := init_tokens_of_init hinit
      have hsplit : tpre ++ spec_token.token ms1 c1 ::
          ((r0 :: rs).map spec_token.literal ++ spec_token.token ms2 c2 :: tpost) =
          tpre ++ ((spec_token.token ms1 c1 ::
            ((r0 :: rs).map spec_token.literal ++ [spec_token.token ms2 c2])) ++ tpost) := by
        simp
      rw [htokens, hsplit] at hst
      obtain ⟨sta, ha, h1⟩ := init_tokens_append _ hst
      obtain ⟨std, hd, h4⟩ := init_tokens_append _ h1
      obtain ⟨f1, f2, hfields, hs1, hs2, hstop, hstart, _⟩ :=
        init_tokens_field_run_token hc1 hr0.1 hd
      have hlen := init_tokens_length _ ha
      simp only [List.length_nil, Nat.zero_add, Option.isSome_none] at hlen
      have h1get : std.entry.fields[(descriptor_tokens false tpre).length]? = some f1 := by
        rw [hfields, ← hlen, List.getElem?_append_right (Nat.le_refl _)]
        simp
      have h2get : std.entry.fields[(descriptor_tokens false tpre).length + 1]? = some f2 := by
        rw [hfields, ← hlen, List.getElem?_append_right (Nat.le_succ _)]
        simp
      obtain ⟨g1, hg1, hrel1⟩ := init_tokens_keeps _ h4 _ f1 h1get
      obtain ⟨g2, hg2, hrel2⟩ := init_tokens_keeps _ h4 _ f2 h2get
      have hg1eq : g1 = f1 := by
        rcases hrel1 with h | ⟨h, _⟩
        · exact h
        · rw [hstop] at h
          exact absurd h hr0.1
      subst hg1eq
      have hg2eq : g2.info = f2.info ∧ g2.parse_start_char = f2.parse_start_char := by
        rcases hrel2 with rfl | ⟨_, c, rfl⟩
        · exact ⟨rfl, rfl⟩
        · exact ⟨rfl, rfl⟩
      refine ⟨g1, g2, hg1, hg2, hs1, ?_, ?_, ?_⟩
      · rw [hg2eq.1]
        exact hs2
      · rw [hstop]
        rfl
      · rw [hg2eq.2, hstart]
        cases rs with
        | nil => rfl
        | cons r1 rs1 =>
          rw [if_pos (by simp), List.getLast?_cons_cons]
  · intro st first last between p hl hf0 hf1 hl0 hl1 hb
    have hlit : last_stop_unset (init_literal st first).entry.fields = false := by
      unfold init_literal
      rw [hl]
      exact last_stop_unset_set_last_stop hf0 _
    have h1 : between ++ last :: p = (between ++ [last]) ++ p := by simp
    have h2 : last :: p = [last] ++ p := rfl
    rw [init_scan, if_neg hf0, if_pos hf1, init_scan, if_neg hf0, if_pos hf1, h1,
      init_scan_literals (between ++ [last]) _ p ?_ hlit, h2,
      init_scan_literals [last] _ p ?_ hlit]
    · simp
    · intro c hc
      simp only [List.mem_singleton] at hc
      subst hc
      exact ⟨hl0, hl1⟩
    · intro c hc
      rcases List.mem_append.mp hc with hc | hc
      · exact hb c hc
      · simp only [List.mem_singleton] at hc
        subst hc
        exact ⟨hl0, hl1⟩
  · intro lits last p hlits hl0 hl1
    have h1 : lits ++ last :: p = (lits ++ [last]) ++ p := by simp
    have h2 : last :: p = [last] ++ p := rfl
    have h0 : last_stop_unset
        ({ flags := 0, field_info := none, parse_start_char := NUL,
           entry := { num := 0, fields_mask := 0, fields := [] } } : init_locals).entry.fields =
        false := rfl
    unfold syslog_entry_init
    rw [h1, init_scan_literals (lits ++ [last]) _ p ?_ h0, h2,
      init_scan_literals [last] _ p ?_ h0]
    · simp
    · intro c hc
      simp only [List.mem_singleton] at hc
      subst hc
      exact ⟨hl0, hl1⟩
    · intro c hc
      rcases List.mem_append.mp hc with hc | hc
      · exact hlits c hc
      · simp only [List.mem_singleton] at hc
        subst hc
        exact ⟨hl0, hl1⟩
  · intro spec e lits ms c ts hi ht hc
    obtain ⟨stF, hst, rfl⟩ := init_tokens_of_init hi
    have hsplit : lits.map spec_token.literal ++ spec_token.token ms c :: ts =
        (lits.map spec_token.literal ++ [spec_token.token ms c]) ++ ts := by simp
    rw [ht, hsplit] at hst
    obtain ⟨sta, ha, h1⟩ := init_tokens_append _ hst
    obtain ⟨f, hf, hspec, hstart⟩ := init_tokens_literals_token hc ha
    obtain ⟨g, hg, hrel⟩ := init_tokens_keeps _ h1 0 f (by rw [hf]; rfl)
    refine ⟨g, hg, ?_, ?_⟩
    · rcases hrel with rfl | ⟨_, c, rfl⟩
      · exact hspec
      · exact hspec
    · rcases hrel with rfl | ⟨_, c, rfl⟩
      · exact hstart
      · exact hstart

/-- Witness of C30: the specification "%H [%G", with the run " [" between the
Hostname token and the Tag token. -/
theorem literal_run_sets_delimiters_witness :
    syslog_entry_init "%H [%G".toList = some (0, (syslog_entry_t.mk 0 72
        [(syslog_field_t.mk (syslog_field_info_t.mk SYSLOG_FIELD_ID_HOSTNAME SYSLOG_FIELD_TYPE_STRING 'H'
          "hostname" "Hostname" none)
          0 {} NUL ' '),
         (syslog_field_t.mk (syslog_field_info_t.mk SYSLOG_FIELD_ID_TAG SYSLOG_FIELD_TYPE_STRING 'G'
          "tag" "Tag" none)
          0 {} '[' NUL)])) ∧
    (∃ f1 f2, (syslog_entry_t.mk 0 72
        [(syslog_field_t.mk (syslog_field_info_t.mk SYSLOG_FIELD_ID_HOSTNAME SYSLOG_FIELD_TYPE_STRING 'H'
          "hostname" "Hostname" none)
          0 {} NUL ' '),
         (syslog_field_t.mk (syslog_field_info_t.mk SYSLOG_FIELD_ID_TAG SYSLOG_FIELD_TYPE_STRING 'G'
          "tag" "Tag" none)
          0 {} '[' NUL)]).fields[(descriptor_tokens false []).length]? = some f1 ∧
      (syslog_entry_t.mk 0 72
        [(syslog_field_t.mk (syslog_field_info_t.mk SYSLOG_FIELD_ID_HOSTNAME SYSLOG_FIELD_TYPE_STRING 'H'
          "hostname" "Hostname" none)
          0 {} NUL ' '),
         (syslog_field_t.mk (syslog_field_info_t.mk SYSLOG_FIELD_ID_TAG SYSLOG_FIELD_TYPE_STRING 'G'
          "tag" "Tag" none)
          0 {} '[' NUL)]).fields[(descriptor_tokens false []).length + 1]? = some f2 ∧
      f1.info.spec = 'H' ∧ (registered 'G' = true → f2.info.spec = 'G') ∧
      [' ', '['].head? = some f1.parse_stop_char ∧
      f2.parse_start_char =
        (if 2 ≤ [' ', '['].length then [' ', '['].getLast?.getD NUL else NUL)) :=
  ⟨by decide,
    (literal_run_sets_delimiters "%H [%G".toList (syslog_entry_t.mk 0 72
        [(syslog_field_t.mk (syslog_field_info_t.mk SYSLOG_FIELD_ID_HOSTNAME SYSLOG_FIELD_TYPE_STRING 'H'
          "hostname" "Hostname" none)
          0 {} NUL ' '),
         (syslog_field_t.mk (syslog_field_info_t.mk SYSLOG_FIELD_ID_TAG SYSLOG_FIELD_TYPE_STRING 'G'
          "tag" "Tag" none)
          0 {} '[' NUL)])
      [] [] [] [] 'H' 'G' [' ', '['] (by decide) (by decide) (by decide) (by decide)).1⟩

/-! ### The renderers and the Drop flag -/

/-- The loop of a renderer writes what it writes for the fields without the
Drop flag. -/
theorem output_fields_filter (cell : Nat → syslog_field_t → Option (List Char))
    (fields : List syslog_field_t) :
    ∀ count, output_fields cell count fields =
      output_fields cell count
        (fields.filter (fun field => field.flags &&& SYSLOG_FIELD_FLAG_DROP = 0)) := by
  induction fields with
  | nil => intro count; rfl
  | cons field rest ih =>
    intro count
    by_cases hd : field.flags &&& SYSLOG_FIELD_FLAG_DROP = 0
    · rw [List.filter_cons_of_pos (by simpa using hd)]
      simp only [output_fields, hd, ne_eq, not_true_eq_false, if_false]
      rw [ih (count + 1)]
    · rw [List.filter_cons_of_neg (by simpa using hd)]
      simp only [output_fields, hd, ne_eq, not_false_eq_true, if_true]
      exact ih count

/-- The loop of a renderer writes one cell for each field without the Drop
flag, in the order of the fields. -/
theorem output_fields_cells (g : Nat → syslog_field_t → List Char)
    (fields : List syslog_field_t) :
    ∀ count, output_fields (fun c field => some (g c field)) count fields =
      some (((fields.filter
        (fun field => field.flags &&& SYSLOG_FIELD_FLAG_DROP = 0)).enumFrom count).map
          (fun p => g p.1 p.2)).flatten := by
  induction fields with
  | nil => intro count; rfl
  | cons field rest ih =>
    intro count
    by_cases hd : field.flags &&& SYSLOG_FIELD_FLAG_DROP = 0
    · rw [List.filter_cons_of_pos (by simpa using hd)]
      simp only [output_fields, hd, ne_eq, not_true_eq_false, if_false]
      rw [ih (count + 1)]
      rfl
    · rw [List.filter_cons_of_neg (by simpa using hd)]
      simp only [output_fields, hd, ne_eq, not_false_eq_true, if_true]
      exact ih count

/-- The loop of a renderer writes the same for two lists of fields with the
same flags when the bodies write the same for the fields without the Drop
flag. -/
theorem output_fields_congr (cell1 cell2 : Nat → syslog_field_t → Option (List Char))
    {fields1 fields2 : List syslog_field_t}
    (h : List.Forall₂
      (fun field1 field2 => field1.flags = field2.flags ∧
        (field1.flags &&& SYSLOG_FIELD_FLAG_DROP = 0 →
          ∀ count, cell1 count field1 = cell2 count field2)) fields1 fields2) :
    ∀ count, output_fields cell1 count fields1 = output_fields cell2 count fields2 := by
  induction h with
  | nil => intro count; rfl
  | cons hhead _ ih =>
    intro count
    simp only [output_fields, ← hhead.1]
    split
    · exact ih count
    · rename_i hd
      rw [hhead.2 (by simpa using hd) count, ih (count + 1)]

theorem output_value_congr (strftime : List Char → tm → List Char) (config : config_t)
    {line1 line2 : List Char} {field1 field2 : syslog_field_t}
    (hinfo : field1.info = field2.info) (hvalue : same_value line1 line2 field1 field2)
    (time string : List Char → List Char) :
    output_value strftime config line1 field1 time string =
      output_value strftime config line2 field2 time string := by
  obtain ⟨h1, h2, h3, h4, h5⟩ := hvalue
  unfold output_value syslog_field_time_fmt
  rw [hinfo, h1, h2, h3, h4, h5]

theorem fmt_html_output_row_congr (strftime : List Char → tm → List Char) (config : config_t)
    {entry1 entry2 : syslog_entry_t} {line1 line2 : List Char}
    (h : differ_in_dropped_values entry1 line1 entry2 line2)
    (hclass : fmt_html_tr_class entry1 line1 = fmt_html_tr_class entry2 line2)
    (html_cell_tag : List Char) :
    fmt_html_output_row strftime config html_cell_tag entry1 line1 =
      fmt_html_output_row strftime config html_cell_tag entry2 line2 := by
  unfold fmt_html_output_row
  rw [hclass, output_fields_congr _
    (fun _ field => fmt_html_output_cell strftime config html_cell_tag entry2 line2 field)
    (h.2.2.imp (fun f1 f2 hr => ⟨hr.2.1, fun hk _ => by
      simp only [fmt_html_output_cell, h.1, hr.1,
        output_value_congr strftime config hr.1 (hr.2.2.2.2 hk)]⟩)) 0]

/-- The row class of the HTML renderer is the same for two entries that
differ in the values of dropped fields when the first has no ordinal or no
dropped field of kind Priority. -/
theorem fmt_html_tr_class_congr {entry1 entry2 : syslog_entry_t} {line1 line2 : List Char}
    (h : differ_in_dropped_values entry1 line1 entry2 line2)
    (hkept : entry1.num = 0 ∨ ∀ field ∈ entry1.fields,
      field.info.id = SYSLOG_FIELD_ID_PRIORITY → field.flags &&& SYSLOG_FIELD_FLAG_DROP = 0) :
    fmt_html_tr_class entry1 line1 = fmt_html_tr_class entry2 line2 := by
  unfold fmt_html_tr_class syslog_entry_has_field
  rw [← h.1, ← h.2.1]
  rcases hkept with h0 | hkept
  · simp [h0]
  · have hfind : ∀ {fields1 fields2 : List syslog_field_t},
        List.Forall₂
          (fun field1 field2 =>
            field1.info = field2.info ∧ field1.flags = field2.flags ∧
            field1.parse_start_char = field2.parse_start_char ∧
            field1.parse_stop_char = field2.parse_stop_char ∧
            (field1.flags &&& SYSLOG_FIELD_FLAG_DROP = 0 →
              same_value line1 line2 field1 field2)) fields1 fields2 →
        (∀ field ∈ fields1, field.info.id = SYSLOG_FIELD_ID_PRIORITY →
          field.flags &&& SYSLOG_FIELD_FLAG_DROP = 0) →
        (fields1.find? (fun field => field.info.id == SYSLOG_FIELD_ID_PRIORITY)).map
            (fun field => c_str line1 field.value.string) =
          (fields2.find? (fun field => field.info.id == SYSLOG_FIELD_ID_PRIORITY)).map
            (fun field => c_str line2 field.value.string) := by
      intro fields1 fields2 hf
      induction hf with
      | nil => intro _; rfl
      | @cons f1 f2 l1 l2 hhead _ ih =>
        intro hk
        by_cases hp : f1.info.id = SYSLOG_FIELD_ID_PRIORITY
        · have hp2 : f2.info.id = SYSLOG_FIELD_ID_PRIORITY := by rw [← hhead.1]; exact hp
          rw [List.find?_cons_of_pos _ (by simpa using hp),
            List.find?_cons_of_pos _ (by simpa using hp2)]
          simp only [Option.map_some']
          rw [(hhead.2.2.2.2 (hk f1 (List.mem_cons_self _ _) hp)).2.2.2.2]
        · have hp2 : ¬ f2.info.id = SYSLOG_FIELD_ID_PRIORITY := by rw [← hhead.1]; exact hp
          rw [List.find?_cons_of_neg _ (by simpa using hp),
            List.find?_cons_of_neg _ (by simpa using hp2)]
          exact ih (fun field hf => hk field (List.mem_cons_of_mem _ hf))
    have hf := hfind h.2.2 hkept
    cases h1 : entry1.fields.find? (fun field => field.info.id == SYSLOG_FIELD_ID_PRIORITY) <;>
      cases h2 :
        entry2.fields.find? (fun field => field.info.id == SYSLOG_FIELD_ID_PRIORITY) <;>
      simp only [h1, h2, Option.map_some', Option.map_none', Option.some.injEq,
        reduceCtorEq] at hf
    · rfl
    · simp only [hf]

/-- C25 (counterexample). The specification "%!P %M" drops the Priority field.
The entries decoded from the lines "err hello" and "info hello" differ only
in the value of the dropped field, and the entry callback of the HTML
renderer writes the one as a row of class "syslog-err" and the other as a row
of class "syslog-info"; so does the whole conversion of the two lines. -/
theorem html_row_class_of_dropped_priority_counterexample :
    differ_in_dropped_values (syslog_entry_t.mk 1 160
        [(syslog_field_t.mk (syslog_field_info_t.mk SYSLOG_FIELD_ID_PRIORITY SYSLOG_FIELD_TYPE_STRING 'P'
          "priority" "Priority" (some validator_t.validate_priority))
          1 { string := 0 } NUL ' '),
         (syslog_field_t.mk (syslog_field_info_t.mk SYSLOG_FIELD_ID_MESSAGE SYSLOG_FIELD_TYPE_STRING 'M'
          "message" "Message" none)
          0 { string := 4 } NUL NUL)])
      ("err".toList ++ NUL :: "hello".toList ++ [NUL, NUL])
      (syslog_entry_t.mk 1 160
        [(syslog_field_t.mk (syslog_field_info_t.mk SYSLOG_FIELD_ID_PRIORITY SYSLOG_FIELD_TYPE_STRING 'P'
          "priority" "Priority" (some validator_t.validate_priority))
          1 { string := 0 } NUL ' '),
         (syslog_field_t.mk (syslog_field_info_t.mk SYSLOG_FIELD_ID_MESSAGE SYSLOG_FIELD_TYPE_STRING 'M'
          "message" "Message" none)
          0 { string := 5 } NUL NUL)])
      ("info".toList ++ NUL :: "hello".toList ++ [NUL, NUL]) ∧
    fmt_html_output_entry (fun _ _ => []) default_config (syslog_entry_t.mk 1 160
        [(syslog_field_t.mk (syslog_field_info_t.mk SYSLOG_FIELD_ID_PRIORITY SYSLOG_FIELD_TYPE_STRING 'P'
          "priority" "Priority" (some validator_t.validate_priority))
          1 { string := 0 } NUL ' '),
         (syslog_field_t.mk (syslog_field_info_t.mk SYSLOG_FIELD_ID_MESSAGE SYSLOG_FIELD_TYPE_STRING 'M'
          "message" "Message" none)
          0 { string := 4 } NUL NUL)])
        ("err".toList ++ NUL :: "hello".toList ++ [NUL, NUL]) =
      some "<tr class=\"syslog-err\"><td><pre>hello</pre></td></tr>".toList ∧
    fmt_html_output_entry (fun _ _ => []) default_config (syslog_entry_t.mk 1 160
        [(syslog_field_t.mk (syslog_field_info_t.mk SYSLOG_FIELD_ID_PRIORITY SYSLOG_FIELD_TYPE_STRING 'P'
          "priority" "Priority" (some validator_t.validate_priority))
          1 { string := 0 } NUL ' '),
         (syslog_field_t.mk (syslog_field_info_t.mk SYSLOG_FIELD_ID_MESSAGE SYSLOG_FIELD_TYPE_STRING 'M'
          "message" "Message" none)
          0 { string := 5 } NUL NUL)])
        ("info".toList ++ NUL :: "hello".toList ++ [NUL, NUL]) =
      some "<tr class=\"syslog-info\"><td><pre>hello</pre></td></tr>".toList ∧
    (syslog_entry_parse utc_time_functions default_config
        (syslog_entry_t.mk 0 160
        [(syslog_field_t.mk (syslog_field_info_t.mk SYSLOG_FIELD_ID_PRIORITY SYSLOG_FIELD_TYPE_STRING 'P'
          "priority" "Priority" (some validator_t.validate_priority))
          1 {} NUL ' '),
         (syslog_field_t.mk (syslog_field_info_t.mk SYSLOG_FIELD_ID_MESSAGE SYSLOG_FIELD_TYPE_STRING 'M'
          "message" "Message" none)
          0 {} NUL NUL)]) 1
        ("err hello\n".toList ++ [NUL])).map
          (fun r => (r.1, r.2.1.line, { r.2.2 with num := 1 })) =
      some (0, ("err".toList ++ NUL :: "hello".toList ++ [NUL, NUL]),
        (syslog_entry_t.mk 1 160
        [(syslog_field_t.mk (syslog_field_info_t.mk SYSLOG_FIELD_ID_PRIORITY SYSLOG_FIELD_TYPE_STRING 'P'
          "priority" "Priority" (some validator_t.validate_priority))
          1 { string := 0 } NUL ' '),
         (syslog_field_t.mk (syslog_field_info_t.mk SYSLOG_FIELD_ID_MESSAGE SYSLOG_FIELD_TYPE_STRING 'M'
          "message" "Message" none)
          0 { string := 4 } NUL NUL)])) ∧
    (syslog_entry_parse utc_time_functions default_config
        (syslog_entry_t.mk 0 160
        [(syslog_field_t.mk (syslog_field_info_t.mk SYSLOG_FIELD_ID_PRIORITY SYSLOG_FIELD_TYPE_STRING 'P'
          "priority" "Priority" (some validator_t.validate_priority))
          1 {} NUL ' '),
         (syslog_field_t.mk (syslog_field_info_t.mk SYSLOG_FIELD_ID_MESSAGE SYSLOG_FIELD_TYPE_STRING 'M'
          "message" "Message" none)
          0 {} NUL NUL)]) 1
        ("info hello\n".toList ++ [NUL])).map
          (fun r => (r.1, r.2.1.line, { r.2.2 with num := 1 })) =
      some (0, ("info".toList ++ NUL :: "hello".toList ++ [NUL, NUL]),
        (syslog_entry_t.mk 1 160
        [(syslog_field_t.mk (syslog_field_info_t.mk SYSLOG_FIELD_ID_PRIORITY SYSLOG_FIELD_TYPE_STRING 'P'
          "priority" "Priority" (some validator_t.validate_priority))
          1 { string := 0 } NUL ' '),
         (syslog_field_t.mk (syslog_field_info_t.mk SYSLOG_FIELD_ID_MESSAGE SYSLOG_FIELD_TYPE_STRING 'M'
          "message" "Message" none)
          0 { string := 5 } NUL NUL)])) ∧
    (convert_syslog utc_time_functions { default_config with entry_spec := "%!P %M".toList }
        (fmt_html (fun _ _ => []) default_config) 16 64 "err hello\n".toList (some [])).map
          (fun r => (r.1, r.2.1)) =
      some (0, some ("<table class=\"syslog-table\"><thead><tr><th>Message</th></tr></thead>" ++
        "<tbody><tr class=\"syslog-err\"><td><pre>hello</pre></td></tr></tbody></table>").toList) ∧
    (convert_syslog utc_time_functions { default_config with entry_spec := "%!P %M".toList }
        (fmt_html (fun _ _ => []) default_config) 16 64 "info hello\n".toList (some [])).map
          (fun r => (r.1, r.2.1)) =
      some (0, some ("<table class=\"syslog-table\"><thead><tr><th>Message</th></tr></thead>" ++
        "<tbody><tr class=\"syslog-info\"><td><pre>hello</pre></td></tr></tbody></table>").toList) := by
  refine ⟨⟨rfl, rfl, ?_⟩, ?_, ?_, ?_, ?_, ?_, ?_⟩
  · exact List.Forall₂.cons ⟨rfl, rfl, rfl, rfl, fun h => absurd h (by decide)⟩
      (List.Forall₂.cons
        ⟨rfl, rfl, rfl, rfl, fun _ => ⟨rfl, rfl, rfl, rfl, by decide⟩⟩ List.Forall₂.nil)
  · decide
  · decide
  · decide
  · decide
  · decide
  · decide

/-- C25 (corrected). Two entries that differ only in the values of the fields
with the Drop flag are written in the same way by the start and entry
callbacks of the plain, Markdown, CSV, JSON and AsciiDoc renderers, and by
those of the HTML renderer when the class of the row is the same, which it is
when the entry has no ordinal or no field of kind Priority has the Drop flag:
the class of a row is the string of the first field of kind Priority, dropped
or not. Every callback writes what it writes for the entry without the
dropped descriptors (the HTML renderer with the same reservation), and a loop
over the fields writes one cell for each descriptor without the Drop flag, in
the order of the descriptors. -/
theorem dropped_values_rendered_only_as_html_row_class
    (strftime : List Char → tm → List Char) (config : config_t)
    (entry1 : syslog_entry_t) (line1 : List Char) (entry2 : syslog_entry_t)
    (line2 : List Char) (h : differ_in_dropped_values entry1 line1 entry2 line2) :
    (fmt_plain_output_entry strftime config entry1 line1 =
        fmt_plain_output_entry strftime config entry2 line2 ∧
      fmt_md_output_start entry1 = fmt_md_output_start entry2 ∧
      fmt_md_output_entry strftime config entry1 line1 =
        fmt_md_output_entry strftime config entry2 line2 ∧
      fmt_csv_output_start config entry1 = fmt_csv_output_start config entry2 ∧
      fmt_csv_output_entry strftime config entry1 line1 =
        fmt_csv_output_entry strftime config entry2 line2 ∧
      fmt_json_output_entry strftime config entry1 line1 =
        fmt_json_output_entry strftime config entry2 line2 ∧
      fmt_asciidoc_output_start entry1 = fmt_asciidoc_output_start entry2 ∧
      fmt_asciidoc_output_entry strftime config entry1 line1 =
        fmt_asciidoc_output_entry strftime config entry2 line2) ∧
    (fmt_html_tr_class entry1 line1 = fmt_html_tr_class entry2 line2 →
      fmt_html_output_start strftime config entry1 line1 =
        fmt_html_output_start strftime config entry2 line2 ∧
      fmt_html_output_entry strftime config entry1 line1 =
        fmt_html_output_entry strftime config entry2 line2) ∧
    ((entry1.num = 0 ∨ ∀ field ∈ entry1.fields,
        field.info.id = SYSLOG_FIELD_ID_PRIORITY →
        field.flags &&& SYSLOG_FIELD_FLAG_DROP = 0) →
      fmt_html_tr_class entry1 line1 = fmt_html_tr_class entry2 line2) ∧
    (fmt_plain_output_entry strftime config entry1 line1 =
        fmt_plain_output_entry strftime config (without_dropped entry1) line1 ∧
      fmt_md_output_start entry1 = fmt_md_output_start (without_dropped entry1) ∧
      fmt_md_output_entry strftime config entry1 line1 =
        fmt_md_output_entry strftime config (without_dropped entry1) line1 ∧
      fmt_csv_output_start config entry1 =
        fmt_csv_output_start config (without_dropped entry1) ∧
      fmt_csv_output_entry strftime config entry1 line1 =
        fmt_csv_output_entry strftime config (without_dropped entry1) line1 ∧
      fmt_json_output_entry strftime config entry1 line1 =
        fmt_json_output_entry strftime config (without_dropped entry1) line1 ∧
      fmt_asciidoc_output_start entry1 = fmt_asciidoc_output_start (without_dropped entry1) ∧
      fmt_asciidoc_output_entry strftime config entry1 line1 =
        fmt_asciidoc_output_entry strftime config (without_dropped entry1) line1) ∧
    (fmt_html_tr_class entry1 line1 = fmt_html_tr_class (without_dropped entry1) line1 →
      fmt_html_output_start strftime config entry1 line1 =
        fmt_html_output_start strftime config (without_dropped entry1) line1 ∧
      fmt_html_output_entry strftime config entry1 line1 =
        fmt_html_output_entry strftime config (without_dropped entry1) line1) ∧
    (∀ (g : Nat → syslog_field_t → List Char) (count : Nat),
      output_fields (fun c field => some (g c field)) count entry1.fields =
        some (((entry1.fields.filter
          (fun field => field.flags &&& SYSLOG_FIELD_FLAG_DROP = 0)).enumFrom count).map
            (fun p => g p.1 p.2)).flatten) := by
  have hflags : ∀ (cell1 cell2 : Nat → syslog_field_t → Option (List Char)),
      (∀ field1 field2, field1.info = field2.info →
        same_value line1 line2 field1 field2 →
        ∀ count, cell1 count field1 = cell2 count field2) →
      output_fields cell1 0 entry1.fields = output_fields cell2 0 entry2.fields :=
    fun cell1 cell2 hcell =>
      output_fields_congr cell1 cell2
        (h.2.2.imp (fun f1 f2 hr =>
          ⟨hr.2.1, fun hk count => hcell f1 f2 hr.1 (hr.2.2.2.2 hk) count⟩)) 0
  refine ⟨⟨?_, ?_, ?_, ?_, ?_, ?_, ?_, ?_⟩, ?_, fmt_html_tr_class_congr h,
    ⟨?_, ?_, ?_, ?_, ?_, ?_, ?_, ?_⟩, ?_, fun g count => output_fields_cells g _ count⟩
  · unfold fmt_plain_output_entry
    rw [hflags]
    intro f1 f2 hi hv count
    simp only [hi, output_value_congr strftime config hi hv]
  · unfold fmt_md_output_start
    rw [hflags _ (fun _ field => some ('|' :: field.info.human_name.toList)),
      hflags _ (fun _ _ => some "|---".toList)]
    · intro f1 f2 hi hv count
      rfl
    · intro f1 f2 hi hv count
      simp only [hi]
  · unfold fmt_md_output_entry
    rw [hflags]
    intro f1 f2 hi hv count
    have hq : output_string_quoted f1 = output_string_quoted f2 := by
      funext s
      simp only [output_string_quoted, hi]
    simp only [hq, output_value_congr strftime config hi hv]
  · unfold fmt_csv_output_start
    rw [hflags]
    intro f1 f2 hi hv count
    simp only [hi]
  · unfold fmt_csv_output_entry
    rw [hflags]
    intro f1 f2 hi hv count
    simp only [hi, output_value_congr strftime config hi hv]
  · unfold fmt_json_output_entry
    rw [hflags, h.1]
    intro f1 f2 hi hv count
    simp only [hi, output_value_congr strftime config hi hv]
  · unfold fmt_asciidoc_output_start
    rw [hflags _ (fun count field =>
        some ((if count ≠ 0 then [','] else []) ++
          (if field.info.id = SYSLOG_FIELD_ID_TIMESTAMP then "30".toList
          else if field.info.id = SYSLOG_FIELD_ID_MESSAGE then "70".toList
          else "1".toList))),
      hflags _ (fun _ field => some ('|' :: field.info.human_name.toList ++ ['\n']))]
    · intro f1 f2 hi hv count
      simp only [hi]
    · intro f1 f2 hi hv count
      simp only [hi]
  · unfold fmt_asciidoc_output_entry
    rw [hflags]
    intro f1 f2 hi hv count
    have hq : output_string_quoted f1 = output_string_quoted f2 := by
      funext s
      simp only [output_string_quoted, hi]
    simp only [hq, output_value_congr strftime config hi hv]
  · intro hclass
    unfold fmt_html_output_start fmt_html_output_entry
    rw [fmt_html_output_row_congr strftime config h hclass,
      fmt_html_output_row_congr strftime config h hclass]
    exact ⟨rfl, rfl⟩
  · simp only [fmt_plain_output_entry, without_dropped, ← output_fields_filter]
  · simp only [fmt_md_output_start, without_dropped, ← output_fields_filter]
  · simp only [fmt_md_output_entry, without_dropped, ← output_fields_filter]
  · simp only [fmt_csv_output_start, without_dropped, ← output_fields_filter]
  · simp only [fmt_csv_output_entry, without_dropped, ← output_fields_filter]
  · simp only [fmt_json_output_entry, without_dropped, ← output_fields_filter]
  · simp only [fmt_asciidoc_output_start, without_dropped, ← output_fields_filter]
  · simp only [fmt_asciidoc_output_entry, without_dropped, ← output_fields_filter]
  · intro hclass
    simp only [fmt_html_output_start, fmt_html_output_entry, fmt_html_output_row, ← hclass]
    simp only [fmt_html_output_cell, without_dropped, ← output_fields_filter]
    exact ⟨trivial, trivial⟩

/-- Witness of C25: the entries decoded from "alpha err hello" and "beta err
hello" by the specification "%!H %P %M", which drops the Hostname field. -/
theorem dropped_values_rendered_only_as_html_row_class_witness :
    differ_in_dropped_values (syslog_entry_t.mk 1 168
        [(syslog_field_t.mk (syslog_field_info_t.mk SYSLOG_FIELD_ID_HOSTNAME SYSLOG_FIELD_TYPE_STRING 'H'
          "hostname" "Hostname" none)
          1 { string := 0 } NUL ' '),
         (syslog_field_t.mk (syslog_field_info_t.mk SYSLOG_FIELD_ID_PRIORITY SYSLOG_FIELD_TYPE_STRING 'P'
          "priority" "Priority" (some validator_t.validate_priority))
          0 { string := 6 } NUL ' '),
         (syslog_field_t.mk (syslog_field_info_t.mk SYSLOG_FIELD_ID_MESSAGE SYSLOG_FIELD_TYPE_STRING 'M'
          "message" "Message" none)
          0 { string := 10 } NUL NUL)])
      ("alpha".toList ++ NUL :: "err".toList ++ NUL :: "hello".toList ++ [NUL, NUL])
      (syslog_entry_t.mk 1 168
        [(syslog_field_t.mk (syslog_field_info_t.mk SYSLOG_FIELD_ID_HOSTNAME SYSLOG_FIELD_TYPE_STRING 'H'
          "hostname" "Hostname" none)
          1 { string := 0 } NUL ' '),
         (syslog_field_t.mk (syslog_field_info_t.mk SYSLOG_FIELD_ID_PRIORITY SYSLOG_FIELD_TYPE_STRING 'P'
          "priority" "Priority" (some validator_t.validate_priority))
          0 { string := 5 } NUL ' '),
         (syslog_field_t.mk (syslog_field_info_t.mk SYSLOG_FIELD_ID_MESSAGE SYSLOG_FIELD_TYPE_STRING 'M'
          "message" "Message" none)
          0 { string := 9 } NUL NUL)])
      ("beta".toList ++ NUL :: "err".toList ++ NUL :: "hello".toList ++ [NUL, NUL]) ∧
    fmt_csv_output_entry (fun _ _ => []) default_config (syslog_entry_t.mk 1 168
        [(syslog_field_t.mk (syslog_field_info_t.mk SYSLOG_FIELD_ID_HOSTNAME SYSLOG_FIELD_TYPE_STRING 'H'
          "hostname" "Hostname" none)
          1 { string := 0 } NUL ' '),
         (syslog_field_t.mk (syslog_field_info_t.mk SYSLOG_FIELD_ID_PRIORITY SYSLOG_FIELD_TYPE_STRING 'P'
          "priority" "Priority" (some validator_t.validate_priority))
          0 { string := 6 } NUL ' '),
         (syslog_field_t.mk (syslog_field_info_t.mk SYSLOG_FIELD_ID_MESSAGE SYSLOG_FIELD_TYPE_STRING 'M'
          "message" "Message" none)
          0 { string := 10 } NUL NUL)])
        ("alpha".toList ++ NUL :: "err".toList ++ NUL :: "hello".toList ++ [NUL, NUL]) =
      fmt_csv_output_entry (fun _ _ => []) default_config (syslog_entry_t.mk 1 168
        [(syslog_field_t.mk (syslog_field_info_t.mk SYSLOG_FIELD_ID_HOSTNAME SYSLOG_FIELD_TYPE_STRING 'H'
          "hostname" "Hostname" none)
          1 { string := 0 } NUL ' '),
         (syslog_field_t.mk (syslog_field_info_t.mk SYSLOG_FIELD_ID_PRIORITY SYSLOG_FIELD_TYPE_STRING 'P'
          "priority" "Priority" (some validator_t.validate_priority))
          0 { string := 5 } NUL ' '),
         (syslog_field_t.mk (syslog_field_info_t.mk SYSLOG_FIELD_ID_MESSAGE SYSLOG_FIELD_TYPE_STRING 'M'
          "message" "Message" none)
          0 { string := 9 } NUL NUL)])
        ("beta".toList ++ NUL :: "err".toList ++ NUL :: "hello".toList ++ [NUL, NUL]) ∧
    fmt_html_output_entry (fun _ _ => []) default_config (syslog_entry_t.mk 1 168
        [(syslog_field_t.mk (syslog_field_info_t.mk SYSLOG_FIELD_ID_HOSTNAME SYSLOG_FIELD_TYPE_STRING 'H'
          "hostname" "Hostname" none)
          1 { string := 0 } NUL ' '),
         (syslog_field_t.mk (syslog_field_info_t.mk SYSLOG_FIELD_ID_PRIORITY SYSLOG_FIELD_TYPE_STRING 'P'
          "priority" "Priority" (some validator_t.validate_priority))
          0 { string := 6 } NUL ' '),
         (syslog_field_t.mk (syslog_field_info_t.mk SYSLOG_FIELD_ID_MESSAGE SYSLOG_FIELD_TYPE_STRING 'M'
          "message" "Message" none)
          0 { string := 10 } NUL NUL)])
        ("alpha".toList ++ NUL :: "err".toList ++ NUL :: "hello".toList ++ [NUL, NUL]) =
      fmt_html_output_entry (fun _ _ => []) default_config (syslog_entry_t.mk 1 168
        [(syslog_field_t.mk (syslog_field_info_t.mk SYSLOG_FIELD_ID_HOSTNAME SYSLOG_FIELD_TYPE_STRING 'H'
          "hostname" "Hostname" none)
          1 { string := 0 } NUL ' '),
         (syslog_field_t.mk (syslog_field_info_t.mk SYSLOG_FIELD_ID_PRIORITY SYSLOG_FIELD_TYPE_STRING 'P'
          "priority" "Priority" (some validator_t.validate_priority))
          0 { string := 5 } NUL ' '),
         (syslog_field_t.mk (syslog_field_info_t.mk SYSLOG_FIELD_ID_MESSAGE SYSLOG_FIELD_TYPE_STRING 'M'
          "message" "Message" none)
          0 { string := 9 } NUL NUL)])
        ("beta".toList ++ NUL :: "err".toList ++ NUL :: "hello".toList ++ [NUL, NUL]) ∧
    fmt_html_output_entry (fun _ _ => []) default_config (syslog_entry_t.mk 1 168
        [(syslog_field_t.mk (syslog_field_info_t.mk SYSLOG_FIELD_ID_HOSTNAME SYSLOG_FIELD_TYPE_STRING 'H'
          "hostname" "Hostname" none)
          1 { string := 0 } NUL ' '),
         (syslog_field_t.mk (syslog_field_info_t.mk SYSLOG_FIELD_ID_PRIORITY SYSLOG_FIELD_TYPE_STRING 'P'
          "priority" "Priority" (some validator_t.validate_priority))
          0 { string := 6 } NUL ' '),
         (syslog_field_t.mk (syslog_field_info_t.mk SYSLOG_FIELD_ID_MESSAGE SYSLOG_FIELD_TYPE_STRING 'M'
          "message" "Message" none)
          0 { string := 10 } NUL NUL)])
        ("alpha".toList ++ NUL :: "err".toList ++ NUL :: "hello".toList ++ [NUL, NUL]) =
      some ("<tr class=\"syslog-err\"><td>err</td>" ++
        "<td><pre>hello</pre></td></tr>").toList :=
  have hd : differ_in_dropped_values (syslog_entry_t.mk 1 168
        [(syslog_field_t.mk (syslog_field_info_t.mk SYSLOG_FIELD_ID_HOSTNAME SYSLOG_FIELD_TYPE_STRING 'H'
          "hostname" "Hostname" none)
          1 { string := 0 } NUL ' '),
         (syslog_field_t.mk (syslog_field_info_t.mk SYSLOG_FIELD_ID_PRIORITY SYSLOG_FIELD_TYPE_STRING 'P'
          "priority" "Priority" (some validator_t.validate_priority))
          0 { string := 6 } NUL ' '),
         (syslog_field_t.mk (syslog_field_info_t.mk SYSLOG_FIELD_ID_MESSAGE SYSLOG_FIELD_TYPE_STRING 'M'
          "message" "Message" none)
          0 { string := 10 } NUL NUL)])
      ("alpha".toList ++ NUL :: "err".toList ++ NUL :: "hello".toList ++ [NUL, NUL])
      (syslog_entry_t.mk 1 168
        [(syslog_field_t.mk (syslog_field_info_t.mk SYSLOG_FIELD_ID_HOSTNAME SYSLOG_FIELD_TYPE_STRING 'H'
          "hostname" "Hostname" none)
          1 { string := 0 } NUL ' '),
         (syslog_field_t.mk (syslog_field_info_t.mk SYSLOG_FIELD_ID_PRIORITY SYSLOG_FIELD_TYPE_STRING 'P'
          "priority" "Priority" (some validator_t.validate_priority))
          0 { string := 5 } NUL ' '),
         (syslog_field_t.mk (syslog_field_info_t.mk SYSLOG_FIELD_ID_MESSAGE SYSLOG_FIELD_TYPE_STRING 'M'
          "message" "Message" none)
          0 { string := 9 } NUL NUL)])
      ("beta".toList ++ NUL :: "err".toList ++ NUL :: "hello".toList ++ [NUL, NUL]) :=
    ⟨rfl, rfl, List.Forall₂.cons ⟨rfl, rfl, rfl, rfl, fun h => absurd h (by decide)⟩
      (List.Forall₂.cons ⟨rfl, rfl, rfl, rfl, fun _ => ⟨rfl, rfl, rfl, rfl, by decide⟩⟩
        (List.Forall₂.cons ⟨rfl, rfl, rfl, rfl, fun _ => ⟨rfl, rfl, rfl, rfl, by decide⟩⟩
          List.Forall₂.nil))⟩
  have hw := dropped_values_rendered_only_as_html_row_class (fun _ _ => []) default_config
    _ _ _ _ hd
  ⟨hd, hw.1.2.2.2.2.1, (hw.2.1 (hw.2.2.1 (Or.inr (by decide)))).2, by decide⟩

/-! ### What the field parse reads of a descriptor -/

theorem field_parse_start_attrs_congr (st : parse_state) (f : syslog_field_t) (fl : Nat)
    (c : Char) (hN : fl &&& SYSLOG_FIELD_FLAG_NOTRIM = f.flags &&& SYSLOG_FIELD_FLAG_NOTRIM) :
    field_parse_start st { f with flags := fl, parse_stop_char := c } =
      field_parse_start st f := by
  unfold field_parse_start
  simp only [hN]

theorem parse_timestamp_attrs_congr (tf : time_functions) (config : config_t)
    (st : parse_state) (f : syslog_field_t) (fl : Nat) (c : Char) :
    parse_timestamp tf config st { f with flags := fl, parse_stop_char := c } =
      (parse_timestamp tf config st f).map
        (fun r => (r.1, r.2.1, { r.2.2 with flags := fl, parse_stop_char := c })) := by
  unfold parse_timestamp
  cases st.data with
  | none => rfl
  | some data =>
    simp only
    cases c_str st.line data with
    | none => rfl
    | some s =>
      simp only
      cases (tf.strptime s config.ts_parse_spec f.value.time_timestamp).1 with
      | none => rfl
      | some n => rfl

theorem field_parse_value_attrs_congr (tf : time_functions) (config : config_t)
    (st : parse_state) (f : syslog_field_t) (fl : Nat) (c : Char)
    (hN : fl &&& SYSLOG_FIELD_FLAG_NOTRIM = f.flags &&& SYSLOG_FIELD_FLAG_NOTRIM)
    (hS : f.info.type = SYSLOG_FIELD_TYPE_TIME ∨ c = f.parse_stop_char) :
    field_parse_value tf config st { f with flags := fl, parse_stop_char := c } =
      (field_parse_value tf config st f).map
        (fun r => (r.1, r.2.1, { r.2.2 with flags := fl, parse_stop_char := c })) := by
  by_cases htype : f.info.type = SYSLOG_FIELD_TYPE_TIME
  · unfold field_parse_value
    simp only [htype]
    exact parse_timestamp_attrs_congr tf config st f fl c
  · have hc : c = f.parse_stop_char := by
      rcases hS with h | h
      · exact absurd h htype
      · exact h
    subst hc
    have hfl := field_parse_value_flags tf config st f fl hN
    have heq : ({ f with flags := fl, parse_stop_char := f.parse_stop_char } :
        syslog_field_t) = { f with flags := fl } := rfl
    rw [heq, hfl]
    cases hv : field_parse_value tf config st f with
    | none => rfl
    | some r =>
      obtain ⟨ret, st1, f1⟩ := r
      have hd := (field_parse_value_descriptor hv).2.2.2
      simp only [Option.map_some', Option.some.injEq, Prod.mk.injEq, true_and]
      rw [← hd]

theorem validator_call_attrs_congr (validator : validator_t) (line : List Char)
    (f : syslog_field_t) (fl : Nat) (c : Char) :
    validator.call line { f with flags := fl, parse_stop_char := c } =
      validator.call line f := by
  cases validator <;> rfl

theorem field_parse_finish_attrs_congr (line_n : Nat) (ret : Int) (st : parse_state)
    (f : syslog_field_t) (fl : Nat) (c : Char)
    (hV : fl &&& SYSLOG_FIELD_FLAG_NOVALIDATION =
      f.flags &&& SYSLOG_FIELD_FLAG_NOVALIDATION) :
    field_parse_finish line_n ret st { f with flags := fl, parse_stop_char := c } =
      (field_parse_finish line_n ret st f).map
        (fun r => (r.1, r.2.1, { r.2.2 with flags := fl, parse_stop_char := c })) := by
  unfold field_parse_finish
  by_cases hr : ret ≠ 0
  · simp only [if_pos hr, Option.map_some']
  · simp only [if_neg hr, hV]
    by_cases hv : f.flags &&& SYSLOG_FIELD_FLAG_NOVALIDATION = 0
    · simp only [if_pos hv]
      cases hval : f.info.validator with
      | none => rfl
      | some validator =>
        simp only [validator_call_attrs_congr]
        cases validator.call st.line f with
        | none => rfl
        | some r =>
          simp only
          by_cases hr1 : r ≠ 0
          · simp only [if_pos hr1, Option.map_some']
          · simp only [if_neg hr1, Option.map_some']
    · simp only [if_neg hv, Option.map_some']

/-- The field parse reads of a descriptor its registry record, its start
delimiter, its NoTrim and NoValidation flags, its value and, unless it is of
type Time, its stop delimiter: with other flags that have the same NoTrim and
NoValidation bits, and for a descriptor of type Time with another stop
delimiter, it returns the same code, state and value. -/
theorem field_parse_attrs_congr (tf : time_functions) (config : config_t) (line_n : Nat)
    (st : parse_state) (f : syslog_field_t) (fl : Nat) (c : Char)
    (hN : fl &&& SYSLOG_FIELD_FLAG_NOTRIM = f.flags &&& SYSLOG_FIELD_FLAG_NOTRIM)
    (hV : fl &&& SYSLOG_FIELD_FLAG_NOVALIDATION =
      f.flags &&& SYSLOG_FIELD_FLAG_NOVALIDATION)
    (hS : f.info.type = SYSLOG_FIELD_TYPE_TIME ∨ c = f.parse_stop_char) :
    syslog_entry_field_parse tf config line_n st
        { f with flags := fl, parse_stop_char := c } =
      (syslog_entry_field_parse tf config line_n st f).map
        (fun r => (r.1, r.2.1, { r.2.2 with flags := fl, parse_stop_char := c })) := by
  unfold syslog_entry_field_parse
  rw [field_parse_start_attrs_congr st f fl c hN]
  cases field_parse_start st f with
  | none => rfl
  | some d =>
    cases d with
    | none => rfl
    | some data =>
      simp only
      rw [field_parse_value_attrs_congr tf config _ f fl c hN hS]
      cases hv : field_parse_value tf config { st with data := some data } f with
      | none => rfl
      | some r =>
        obtain ⟨ret, st1, f1⟩ := r
        simp only [Option.map_some']
        have hV1 : fl &&& SYSLOG_FIELD_FLAG_NOVALIDATION =
            f1.flags &&& SYSLOG_FIELD_FLAG_NOVALIDATION := by
          rw [hV, (field_parse_value_descriptor hv).2.1]
        exact field_parse_finish_attrs_congr line_n ret st1 f1 fl c hV1

/-- The loop over the descriptors returns the same code, state and values for
descriptors that are read alike. -/
theorem parse_fields_read_alike {tf : time_functions} {config : config_t} {line_n : Nat}
    {fields1 fields2 : List syslog_field_t} (h : List.Forall₂ read_alike fields1 fields2) :
    ∀ st, (parse_fields tf config line_n st fields2).map
        (fun r => (r.1, r.2.1, r.2.2.map (fun field => field.value))) =
      (parse_fields tf config line_n st fields1).map
        (fun r => (r.1, r.2.1, r.2.2.map (fun field => field.value))) := by
  induction h with
  | nil => intro st; rfl
  | @cons f1 f2 l1 l2 hhead htail ih =>
    intro st
    obtain ⟨heq, hN, hV, hS⟩ := hhead
    have hp := field_parse_attrs_congr tf config line_n st f1 f2.flags f2.parse_stop_char
      hN hV hS
    rw [← heq] at hp
    simp only [parse_fields, hp]
    cases syslog_entry_field_parse tf config line_n st f1 with
    | none => rfl
    | some r =>
      obtain ⟨ret, st1, g1⟩ := r
      simp only [Option.map_some']
      by_cases hr : ret ≠ 0
      · simp only [if_pos hr, Option.map_some', List.map_cons, Option.some.injEq,
          Prod.mk.injEq, List.cons.injEq, true_and]
        have hvals : ∀ {a b : List syslog_field_t}, List.Forall₂ read_alike a b →
            b.map (fun field => field.value) = a.map (fun field => field.value) := by
          intro a b hab
          induction hab with
          | nil => rfl
          | @cons x y _ _ hxy _ ih2 =>
            rw [List.map_cons, List.map_cons, ih2, hxy.1]
        exact hvals htail
      · simp only [if_neg hr]
        have hih := ih st1
        cases h1 : parse_fields tf config line_n st1 l1 with
        | none =>
          rw [h1] at hih
          cases h2 : parse_fields tf config line_n st1 l2 with
          | none => rfl
          | some r2 => rw [h2] at hih; simp at hih
        | some r1 =>
          rw [h1] at hih
          cases h2 : parse_fields tf config line_n st1 l2 with
          | none => rw [h2] at hih; simp at hih
          | some r2 =>
            rw [h2] at hih
            simp only [Option.map_some', Option.some.injEq, Prod.mk.injEq] at hih
            obtain ⟨e1, e2, e3⟩ := hih
            simp only [Option.map_some', List.map_cons, Option.some.injEq, Prod.mk.injEq,
              List.cons.injEq, true_and]
            exact ⟨e1, e2, e3⟩

theorem decoding_result_read_alike {tf : time_functions} {config : config_t}
    {entry entry2 : syslog_entry_t} (line_n : Nat) (line : List Char)
    (h : List.Forall₂ read_alike entry.fields entry2.fields) :
    decoding_result (syslog_entry_parse tf config entry2 line_n line) =
      decoding_result (syslog_entry_parse tf config entry line_n line) := by
  have hp := @parse_fields_read_alike tf config line_n _ _ h
    { line := line, data := some 0 }
  unfold decoding_result syslog_entry_parse
  cases h1 : parse_fields tf config line_n { line := line, data := some 0 } entry.fields <;>
    cases h2 : parse_fields tf config line_n { line := line, data := some 0 }
      entry2.fields <;>
    rw [h1, h2] at hp <;>
    simp only [Option.map_some', Option.map_none', Option.some.injEq, reduceCtorEq] at hp ⊢
  exact hp

theorem or_drop_and_notrim (flags : Nat) :
    (flags ||| SYSLOG_FIELD_FLAG_DROP) &&& SYSLOG_FIELD_FLAG_NOTRIM =
      flags &&& SYSLOG_FIELD_FLAG_NOTRIM := by
  rw [Nat.and_comm, Nat.and_or_distrib_left, Nat.and_comm]
  have : SYSLOG_FIELD_FLAG_NOTRIM &&& SYSLOG_FIELD_FLAG_DROP = 0 := by decide
  rw [this, Nat.or_zero]

theorem or_drop_and_novalidation (flags : Nat) :
    (flags ||| SYSLOG_FIELD_FLAG_DROP) &&& SYSLOG_FIELD_FLAG_NOVALIDATION =
      flags &&& SYSLOG_FIELD_FLAG_NOVALIDATION := by
  rw [Nat.and_comm, Nat.and_or_distrib_left, Nat.and_comm]
  have : SYSLOG_FIELD_FLAG_NOVALIDATION &&& SYSLOG_FIELD_FLAG_DROP = 0 := by decide
  rw [this, Nat.or_zero]

theorem read_alike_of_differ_in_drop_flag {f1 f2 : syslog_field_t}
    (h : differ_in_drop_flag f1 f2) : read_alike f1 f2 := by
  obtain ⟨heq, hfl⟩ := h
  refine ⟨?_, ?_, ?_, Or.inr ?_⟩
  · rw [heq]
  · rw [← or_drop_and_notrim f2.flags, hfl, or_drop_and_notrim]
  · rw [← or_drop_and_novalidation f2.flags, hfl, or_drop_and_novalidation]
  · rw [heq]

theorem read_alike_of_differ_in_time_stop_char {f1 f2 : syslog_field_t}
    (h : differ_in_time_stop_char f1 f2) : read_alike f1 f2 := by
  obtain ⟨heq, hstop⟩ := h
  have hfl : f2.flags = f1.flags := by rw [heq]
  refine ⟨?_, ?_, ?_, ?_⟩
  · rw [hfl]
    exact heq
  · rw [hfl]
  · rw [hfl]
  · by_cases ht : f1.info.type = SYSLOG_FIELD_TYPE_TIME
    · exact Or.inl ht
    · exact Or.inr (hstop ht)

/-! ### The stop delimiter of a Time descriptor -/

/-- C34. An entry whose descriptors of type Time have other stop delimiters
decodes every line to the same return code, line buffer, cursor, messages and
values; in particular so does the entry with the stop delimiter of one
descriptor of type Time replaced by any character. When the field parse of a
descriptor of type Time returns 0, the buffer is as it was and the cursor is
where `strptime`, called on the string after the start delimiter and the
white space, has stopped: the character there is not passed over. -/
theorem time_stop_delimiter_not_consulted (tf : time_functions) (config : config_t)
    (entry entry2 : syslog_entry_t) (line_n : Nat) (line : List Char)
    (h : List.Forall₂ differ_in_time_stop_char entry.fields entry2.fields) :
    decoding_result (syslog_entry_parse tf config entry2 line_n line) =
      decoding_result (syslog_entry_parse tf config entry line_n line) ∧
    (∀ (pre post : List syslog_field_t) (field : syslog_field_t) (c : Char),
      entry.fields = pre ++ field :: post →
      field.info.type = SYSLOG_FIELD_TYPE_TIME →
      decoding_result (syslog_entry_parse tf config
          { entry with fields := pre ++ { field with parse_stop_char := c } :: post }
          line_n line) =
        decoding_result (syslog_entry_parse tf config entry line_n line)) ∧
    (∀ (st st1 : parse_state) (field field1 : syslog_field_t),
      field.info.type = SYSLOG_FIELD_TYPE_TIME →
      syslog_entry_field_parse tf config line_n st field = some (0, st1, field1) →
      ∃ data s k, field_parse_start st field = some (some data) ∧
        c_str st.line data = some s ∧
        (tf.strptime s config.ts_parse_spec field.value.time_timestamp).1 = some k ∧
        st1.data = some (data + k) ∧ st1.line = st.line) := by
  have hrefl : ∀ l : List syslog_field_t, List.Forall₂ read_alike l l := by
    intro l
    induction l with
    | nil => exact List.Forall₂.nil
    | cons x l ih => exact List.Forall₂.cons ⟨rfl, rfl, rfl, Or.inr rfl⟩ ih
  refine ⟨?_, ?_, ?_⟩
  · exact decoding_result_read_alike line_n line
      (h.imp (fun _ _ hd => read_alike_of_differ_in_time_stop_char hd))
  · intro pre post field c hfields htype
    apply decoding_result_read_alike line_n line
    rw [hfields]
    exact List.rel_append (hrefl pre)
      (List.Forall₂.cons ⟨rfl, rfl, rfl, Or.inl htype⟩ (hrefl post))
  · intro st st1 field field1 htype hparse
    unfold syslog_entry_field_parse at hparse
    cases hstart : field_parse_start st field with
    | none => rw [hstart] at hparse; simp at hparse
    | some d =>
      cases d with
      | none =>
        rw [hstart] at hparse
        simp only [Option.some.injEq, Prod.mk.injEq] at hparse
        exact absurd hparse.1 (by decide)
      | some data =>
        rw [hstart] at hparse
        simp only at hparse
        cases hv : field_parse_value tf config { st with data := some data } field with
        | none => rw [hv] at hparse; simp at hparse
        | some r =>
          obtain ⟨ret, st2, f2⟩ := r
          rw [hv] at hparse
          simp only at hparse
          obtain ⟨hret, hst, _⟩ := field_parse_finish_ok hparse
          subst hret hst
          simp only [field_parse_value, htype, parse_timestamp] at hv
          cases hs : c_str st.line data with
          | none => rw [hs] at hv; simp at hv
          | some s =>
            rw [hs] at hv
            simp only at hv
            cases hk : (tf.strptime s config.ts_parse_spec field.value.time_timestamp).1 with
            | none =>
              rw [hk] at hv
              simp only [Option.some.injEq, Prod.mk.injEq] at hv
              exact absurd hv.1 (by decide)
            | some k =>
              rw [hk] at hv
              simp only [Option.some.injEq, Prod.mk.injEq, true_and] at hv
              refine ⟨data, s, k, rfl, hs, hk, ?_, ?_⟩
              · rw [← hv.1]
              · rw [← hv.1]

/-- Witness of C34: the descriptors of "%T %M" and the same with ';' as the
stop delimiter of the Timestamp descriptor, on the line
"Mon Jun 24 18:12:50 2019 hello". -/
theorem time_stop_delimiter_not_consulted_witness :
    decoding_result (syslog_entry_parse utc_time_functions default_config
        (syslog_entry_t.mk 0 130
        [(syslog_field_t.mk (syslog_field_info_t.mk SYSLOG_FIELD_ID_TIMESTAMP SYSLOG_FIELD_TYPE_TIME 'T'
          "timestamp" "Timestamp" none)
          0 {} NUL ';'),
         (syslog_field_t.mk (syslog_field_info_t.mk SYSLOG_FIELD_ID_MESSAGE SYSLOG_FIELD_TYPE_STRING 'M'
          "message" "Message" none)
          0 {} NUL NUL)]) 1
        ("Mon Jun 24 18:12:50 2019 hello\n".toList ++ [NUL])) =
      decoding_result (syslog_entry_parse utc_time_functions default_config
        (syslog_entry_t.mk 0 130
        [(syslog_field_t.mk (syslog_field_info_t.mk SYSLOG_FIELD_ID_TIMESTAMP SYSLOG_FIELD_TYPE_TIME 'T'
          "timestamp" "Timestamp" none)
          0 {} NUL ' '),
         (syslog_field_t.mk (syslog_field_info_t.mk SYSLOG_FIELD_ID_MESSAGE SYSLOG_FIELD_TYPE_STRING 'M'
          "message" "Message" none)
          0 {} NUL NUL)]) 1
        ("Mon Jun 24 18:12:50 2019 hello\n".toList ++ [NUL])) ∧
    (syslog_entry_parse utc_time_functions default_config
        (syslog_entry_t.mk 0 130
        [(syslog_field_t.mk (syslog_field_info_t.mk SYSLOG_FIELD_ID_TIMESTAMP SYSLOG_FIELD_TYPE_TIME 'T'
          "timestamp" "Timestamp" none)
          0 {} NUL ';'),
         (syslog_field_t.mk (syslog_field_info_t.mk SYSLOG_FIELD_ID_MESSAGE SYSLOG_FIELD_TYPE_STRING 'M'
          "message" "Message" none)
          0 {} NUL NUL)]) 1
        ("Mon Jun 24 18:12:50 2019 hello\n".toList ++ [NUL])).map
          (fun r => (r.1, r.2.1.data,
            r.2.2.fields.map (fun f => (f.value.time_unixtime, f.value.string)))) =
      some (0, some 32, [(1561399970, 0), (0, 25)]) :=
  ⟨(time_stop_delimiter_not_consulted utc_time_functions default_config
      (syslog_entry_t.mk 0 130
        [(syslog_field_t.mk (syslog_field_info_t.mk SYSLOG_FIELD_ID_TIMESTAMP SYSLOG_FIELD_TYPE_TIME 'T'
          "timestamp" "Timestamp" none)
          0 {} NUL ' '),
         (syslog_field_t.mk (syslog_field_info_t.mk SYSLOG_FIELD_ID_MESSAGE SYSLOG_FIELD_TYPE_STRING 'M'
          "message" "Message" none)
          0 {} NUL NUL)])
      (syslog_entry_t.mk 0 130
        [(syslog_field_t.mk (syslog_field_info_t.mk SYSLOG_FIELD_ID_TIMESTAMP SYSLOG_FIELD_TYPE_TIME 'T'
          "timestamp" "Timestamp" none)
          0 {} NUL ';'),
         (syslog_field_t.mk (syslog_field_info_t.mk SYSLOG_FIELD_ID_MESSAGE SYSLOG_FIELD_TYPE_STRING 'M'
          "message" "Message" none)
          0 {} NUL NUL)]) 1
      ("Mon Jun 24 18:12:50 2019 hello\n".toList ++ [NUL])
      (List.Forall₂.cons ⟨rfl, fun h => absurd rfl h⟩
        (List.Forall₂.cons ⟨rfl, fun _ => rfl⟩ List.Forall₂.nil))).1,
    by decide⟩

/-! ### The Drop flag and the decoder -/

/-- C35. Two entries whose descriptors differ at most in the Drop flag decode
every line to the same return code, line buffer, cursor, messages and values.
A dropped Facility field is parsed and validated: with the descriptors of
"%!F %M" the line "bogus hello" fails with `-EINVAL` and the message of the
validation, as it does with those of "%F %M". -/
theorem drop_flag_not_read_by_decoder (tf : time_functions) (config : config_t)
    (entry entry2 : syslog_entry_t) (line_n : Nat) (line : List Char)
    (h : List.Forall₂ differ_in_drop_flag entry.fields entry2.fields) :
    decoding_result (syslog_entry_parse tf config entry2 line_n line) =
      decoding_result (syslog_entry_parse tf config entry line_n line) ∧
    (syslog_entry_parse utc_time_functions default_config
        (syslog_entry_t.mk 0 144
        [(syslog_field_t.mk (syslog_field_info_t.mk SYSLOG_FIELD_ID_FACILITY SYSLOG_FIELD_TYPE_STRING 'F'
          "facility" "Facility" (some validator_t.validate_facility))
          1 {} NUL ' '),
         (syslog_field_t.mk (syslog_field_info_t.mk SYSLOG_FIELD_ID_MESSAGE SYSLOG_FIELD_TYPE_STRING 'M'
          "message" "Message" none)
          0 {} NUL NUL)]) 1
        ("bogus hello\n".toList ++ [NUL])).map (fun r => (r.1, r.2.1.stderr)) =
      some (-EINVAL, ["line 1: Readed invalid value for field 'facility' (-22)\n"]) ∧
    (syslog_entry_parse utc_time_functions default_config
        (syslog_entry_t.mk 0 144
        [(syslog_field_t.mk (syslog_field_info_t.mk SYSLOG_FIELD_ID_FACILITY SYSLOG_FIELD_TYPE_STRING 'F'
          "facility" "Facility" (some validator_t.validate_facility))
          0 {} NUL ' '),
         (syslog_field_t.mk (syslog_field_info_t.mk SYSLOG_FIELD_ID_MESSAGE SYSLOG_FIELD_TYPE_STRING 'M'
          "message" "Message" none)
          0 {} NUL NUL)]) 1
        ("bogus hello\n".toList ++ [NUL])).map (fun r => (r.1, r.2.1.stderr)) =
      some (-EINVAL, ["line 1: Readed invalid value for field 'facility' (-22)\n"]) := by
  refine ⟨?_, ?_, ?_⟩
  · exact decoding_result_read_alike line_n line
      (h.imp (fun _ _ hd => read_alike_of_differ_in_drop_flag hd))
  · decide
  · decide

/-- Witness of C35: the descriptors of "%F %M" and of "%!F %M" on the line
"daemon hello". -/
theorem drop_flag_not_read_by_decoder_witness :
    decoding_result (syslog_entry_parse utc_time_functions default_config
        (syslog_entry_t.mk 0 144
        [(syslog_field_t.mk (syslog_field_info_t.mk SYSLOG_FIELD_ID_FACILITY SYSLOG_FIELD_TYPE_STRING 'F'
          "facility" "Facility" (some validator_t.validate_facility))
          1 {} NUL ' '),
         (syslog_field_t.mk (syslog_field_info_t.mk SYSLOG_FIELD_ID_MESSAGE SYSLOG_FIELD_TYPE_STRING 'M'
          "message" "Message" none)
          0 {} NUL NUL)]) 1
        ("daemon hello\n".toList ++ [NUL])) =
      decoding_result (syslog_entry_parse utc_time_functions default_config
        (syslog_entry_t.mk 0 144
        [(syslog_field_t.mk (syslog_field_info_t.mk SYSLOG_FIELD_ID_FACILITY SYSLOG_FIELD_TYPE_STRING 'F'
          "facility" "Facility" (some validator_t.validate_facility))
          0 {} NUL ' '),
         (syslog_field_t.mk (syslog_field_info_t.mk SYSLOG_FIELD_ID_MESSAGE SYSLOG_FIELD_TYPE_STRING 'M'
          "message" "Message" none)
          0 {} NUL NUL)]) 1
        ("daemon hello\n".toList ++ [NUL])) ∧
    (syslog_entry_parse utc_time_functions default_config
        (syslog_entry_t.mk 0 144
        [(syslog_field_t.mk (syslog_field_info_t.mk SYSLOG_FIELD_ID_FACILITY SYSLOG_FIELD_TYPE_STRING 'F'
          "facility" "Facility" (some validator_t.validate_facility))
          1 {} NUL ' '),
         (syslog_field_t.mk (syslog_field_info_t.mk SYSLOG_FIELD_ID_MESSAGE SYSLOG_FIELD_TYPE_STRING 'M'
          "message" "Message" none)
          0 {} NUL NUL)]) 1
        ("daemon hello\n".toList ++ [NUL])).map
          (fun r => (r.1, r.2.2.fields.map (fun f => field_string r.2.1 f))) =
      some (0, [some "daemon".toList, some "hello".toList]) :=
  ⟨(drop_flag_not_read_by_decoder utc_time_functions default_config
      (syslog_entry_t.mk 0 144
        [(syslog_field_t.mk (syslog_field_info_t.mk SYSLOG_FIELD_ID_FACILITY SYSLOG_FIELD_TYPE_STRING 'F'
          "facility" "Facility" (some validator_t.validate_facility))
          0 {} NUL ' '),
         (syslog_field_t.mk (syslog_field_info_t.mk SYSLOG_FIELD_ID_MESSAGE SYSLOG_FIELD_TYPE_STRING 'M'
          "message" "Message" none)
          0 {} NUL NUL)])
      (syslog_entry_t.mk 0 144
        [(syslog_field_t.mk (syslog_field_info_t.mk SYSLOG_FIELD_ID_FACILITY SYSLOG_FIELD_TYPE_STRING 'F'
          "facility" "Facility" (some validator_t.validate_facility))
          1 {} NUL ' '),
         (syslog_field_t.mk (syslog_field_info_t.mk SYSLOG_FIELD_ID_MESSAGE SYSLOG_FIELD_TYPE_STRING 'M'
          "message" "Message" none)
          0 {} NUL NUL)]) 1
      ("daemon hello\n".toList ++ [NUL])
      (List.Forall₂.cons ⟨rfl, by decide⟩
        (List.Forall₂.cons ⟨rfl, by decide⟩ List.Forall₂.nil))).1,
    by decide⟩

/-! ### The kinds of the descriptors -/

theorem kind_of_registered {c : Char} {info : syslog_field_info_t}
    (h : syslog_field_info.find? (fun i => c == i.spec) = some info) :
    kind_of_letter c = some info.id := by
  have hspec := registered_spec h
  have hmem := List.mem_of_find?_eq_some h
  subst hspec
  simp only [syslog_field_info, List.mem_cons, List.mem_singleton, List.not_mem_nil,
    or_false] at hmem
  rcases hmem with rfl | rfl | rfl | rfl | rfl | rfl <;> rfl

/-- A token with a registered letter that does not end the scan leaves the
record of its letter as the current one. -/
theorem init_token_field_info {st st1 : init_locals} {ms : List Char} {c : Char}
    (h : init_token st (spec_token.token ms c) = some (.ok st1))
    (hreg : registered c = true) :
    syslog_field_info.find? (fun i => c == i.spec) = st1.field_info := by
  unfold registered at hreg
  cases hfind : syslog_field_info.find? (fun i => c == i.spec) with
  | none => rw [hfind] at hreg; cases hreg
  | some info =>
    simp only [init_token] at h
    split at h
    · simp at h
    · simp only [Option.some.injEq] at h
      unfold init_specifier at h
      simp only [hfind] at h
      split at h
      · simp at h
      · simp only [Except.ok.injEq] at h
        rw [← h]

/-- Literal characters and escapes before the first field token append no
descriptor. -/
theorem init_tokens_before_fields (lead : List spec_token) :
    ∀ {st st1 : init_locals}, init_tokens st lead = some (.ok st1) →
      st.field_info = none → st.entry.fields = [] →
      (∀ t ∈ lead, t.is_field = false) →
      st1.field_info = none ∧ st1.entry.fields = [] := by
  induction lead with
  | nil =>
    intro st st1 h hfi hf _
    simp only [init_tokens, Option.some.injEq, Except.ok.injEq] at h
    subst h
    exact ⟨hfi, hf⟩
  | cons t ts ih =>
    intro st st1 h hfi hf hlead
    obtain ⟨sta, ht, hrest⟩ := init_tokens_cons h
    have hts : ∀ t ∈ ts, t.is_field = false := fun x hx => hlead x (List.mem_cons_of_mem _ hx)
    have ht0 := hlead t (List.mem_cons_self _ _)
    rcases init_token_ok ht with ⟨c, rfl, _, rfl⟩ | ⟨c, rfl, _, rfl⟩ | ⟨ms, rfl, _, _, rfl⟩ |
      ⟨ms, c, info, rfl, _, hmk, _, rfl⟩
    · exact ih hrest hfi (by simp only [hf]; rfl) hts
    · exact ih hrest hfi hf hts
    · exact ih hrest hfi hf hts
    · rw [hfi] at hmk
      simp only [Option.isSome_none, Bool.false_or] at hmk
      simp only [spec_token.is_field, bne_eq_false_iff_eq] at ht0
      rw [ht0, registered_percent] at hmk
      cases hmk

/-- Tokens with registered letters append a descriptor each, of the kind of
the letter. -/
theorem init_tokens_kinds (ts : List spec_token) :
    ∀ {st st1 : init_locals}, init_tokens st ts = some (.ok st1) →
      (∀ ms c, spec_token.token ms c ∈ ts → registered c = true) →
      st1.entry.fields.map (fun f => some f.info.id) =
        st.entry.fields.map (fun f => some f.info.id) ++
          (ts.filterMap spec_token.letter).map kind_of_letter := by
  induction ts with
  | nil =>
    intro st st1 h _
    simp only [init_tokens, Option.some.injEq, Except.ok.injEq] at h
    subst h
    simp
  | cons t ts ih =>
    intro st st1 h hreg
    obtain ⟨sta, ht, hrest⟩ := init_tokens_cons h
    have hts : ∀ ms c, spec_token.token ms c ∈ ts → registered c = true :=
      fun ms c hx => hreg ms c (List.mem_cons_of_mem _ hx)
    have hih := ih hrest hts
    have hmap : ∀ (c : Char) (fs : List syslog_field_t),
        (set_last_stop c fs).map (fun f => some f.info.id) =
          fs.map (fun f => some f.info.id) := by
      intro c fs
      have := congrArg (List.map (fun i : syslog_field_info_t => some i.id))
        (set_last_stop_map_info c fs)
      simpa [List.map_map] using this
    rcases init_token_ok ht with ⟨c, rfl, _, rfl⟩ | ⟨c, rfl, _, rfl⟩ | ⟨ms, rfl, _, _, rfl⟩ |
      ⟨ms, c, info, rfl, _, hmk, _, rfl⟩
    · rw [hih]
      simp only [hmap, List.filterMap_cons, spec_token.letter]
    · rw [hih]
      simp only [List.filterMap_cons, spec_token.letter]
    · have := hreg ms '%' (List.mem_cons_self _ _)
      rw [registered_percent] at this
      cases this
    · have hc := hreg ms c (List.mem_cons_self _ _)
      have hfind := init_token_field_info ht hc
      simp only at hfind
      rw [hih]
      simp only [List.map_append, List.map_cons, List.map_nil, List.filterMap_cons,
        spec_token.letter, kind_of_registered hfind, List.append_assoc, List.singleton_append]

theorem filter_is_field_of_not_field {lead : List spec_token}
    (h : ∀ t ∈ lead, t.is_field = false) : lead.filter spec_token.is_field = [] := by
  rw [List.filter_eq_nil_iff]
  intro t ht
  rw [h t ht]
  simp

theorem filter_is_field_letters {rest : List spec_token}
    (h : ∀ ms c, spec_token.token ms c ∈ rest → registered c = true) :
    (rest.filter spec_token.is_field).filterMap spec_token.letter =
      rest.filterMap spec_token.letter := by
  induction rest with
  | nil => rfl
  | cons t ts ih =>
    have hts : ∀ ms c, spec_token.token ms c ∈ ts → registered c = true :=
      fun ms c hx => h ms c (List.mem_cons_of_mem _ hx)
    cases t with
    | literal c => simpa [List.filter_cons, spec_token.is_field, spec_token.letter] using ih hts
    | unterminated ms =>
      simpa [List.filter_cons, spec_token.is_field, spec_token.letter] using ih hts
    | token ms c =>
      have hc := h ms c (List.mem_cons_self _ _)
      have hne : c ≠ '%' := by
        intro hp
        rw [hp, registered_percent] at hc
        cases hc
      simp only [List.filter_cons, spec_token.is_field, bne_iff_ne, ne_eq, hne,
        not_false_eq_true, decide_True, if_true, List.filterMap_cons, spec_token.letter,
        ih hts]

/-- C31 (not met by the code when an escape follows a field token; what
holds). In a specification that compiles, whose tokens are literal characters
and escapes up to some place and, from there on, literal characters and
tokens with registered letters, there is one descriptor for each field token
and the kinds of the descriptors are, in order, the kinds of the letters of
the field tokens. An escape after a field token is compiled to a descriptor
of its own, of the kind of the field token before it: "%T %!% %M", whose field
tokens are "%T" and "%M", compiles to a Timestamp descriptor, a dropped
Timestamp descriptor and a Message descriptor. -/
theorem descriptors_follow_field_tokens (entry_spec : List Char) (entry : syslog_entry_t)
    (lead rest : List spec_token)
    (hinit : syslog_entry_init entry_spec = some (0, entry))
    (htokens : spec_tokens entry_spec = lead ++ rest)
    (hlead : ∀ t ∈ lead, t.is_field = false)
    (hrest : ∀ ms c, spec_token.token ms c ∈ rest → registered c = true) :
    entry.fields.map (fun f => some f.info.id) =
      field_token_kinds (spec_tokens entry_spec) ∧
    entry.fields.length = ((spec_tokens entry_spec).filter spec_token.is_field).length ∧
    (spec_tokens "%T %!% %M".toList).filter spec_token.is_field =
      [spec_token.token [] 'T', spec_token.token [] 'M'] ∧
    field_token_kinds (spec_tokens "%T %!% %M".toList) =
      [some SYSLOG_FIELD_ID_TIMESTAMP, some SYSLOG_FIELD_ID_MESSAGE] ∧
    (syslog_entry_init "%T %!% %M".toList).map
        (fun r => (r.1, r.2.fields.map (fun f => (f.info.id, f.flags)))) =
      some (0, [(SYSLOG_FIELD_ID_TIMESTAMP, 0),
        (SYSLOG_FIELD_ID_TIMESTAMP, SYSLOG_FIELD_FLAG_DROP), (SYSLOG_FIELD_ID_MESSAGE, 0)]) := by
  obtain ⟨stF, hst, rfl⟩ := init_tokens_of_init hinit
  rw [htokens] at hst
  obtain ⟨sta, ha, hb⟩ := init_tokens_append _ hst
  obtain ⟨hfi, hf⟩ := init_tokens_before_fields lead ha rfl rfl hlead
  have hk := init_tokens_kinds rest hb hrest
  rw [hf] at hk
  simp only [List.map_nil, List.nil_append] at hk
  have hkinds : stF.entry.fields.map (fun f => some f.info.id) =
      field_token_kinds (spec_tokens entry_spec) := by
    rw [hk, field_token_kinds, htokens, List.filter_append,
      filter_is_field_of_not_field hlead, List.nil_append, filter_is_field_letters hrest]
  refine ⟨hkinds, ?_, by decide, by decide, by decide⟩
  have hlen := congrArg List.length hkinds
  rw [field_token_kinds, List.length_map, List.length_map] at hlen
  rw [hlen]
  have hall : ∀ (l : List spec_token),
      ((l.filter spec_token.is_field).filterMap spec_token.letter).length =
        (l.filter spec_token.is_field).length := by
    intro l
    induction l with
    | nil => rfl
    | cons t ts ih =>
      cases t with
      | literal c => simpa [List.filter_cons, spec_token.is_field] using ih
      | unterminated ms => simpa [List.filter_cons, spec_token.is_field] using ih
      | token ms c =>
        by_cases hc : c = '%'
        · simpa [List.filter_cons, spec_token.is_field, hc] using ih
        · simp [List.filter_cons, spec_token.is_field, hc, spec_token.letter, ih]
  exact hall _

/-- Witness of C31: the specification "%%%H %M", an escape before the field
tokens "%H" and "%M". -/
theorem descriptors_follow_field_tokens_witness :
    (syslog_entry_t.mk 0 136
        [(syslog_field_t.mk (syslog_field_info_t.mk SYSLOG_FIELD_ID_HOSTNAME SYSLOG_FIELD_TYPE_STRING 'H'
          "hostname" "Hostname" none)
          0 {} NUL ' '),
         (syslog_field_t.mk (syslog_field_info_t.mk SYSLOG_FIELD_ID_MESSAGE SYSLOG_FIELD_TYPE_STRING 'M'
          "message" "Message" none)
          0 {} NUL NUL)]).fields.map (fun f => some f.info.id) =
      field_token_kinds (spec_tokens "%%%H %M".toList) ∧
    field_token_kinds (spec_tokens "%%%H %M".toList) =
      [some SYSLOG_FIELD_ID_HOSTNAME, some SYSLOG_FIELD_ID_MESSAGE] :=
  ⟨(descriptors_follow_field_tokens "%%%H %M".toList
      (syslog_entry_t.mk 0 136
        [(syslog_field_t.mk (syslog_field_info_t.mk SYSLOG_FIELD_ID_HOSTNAME SYSLOG_FIELD_TYPE_STRING 'H'
          "hostname" "Hostname" none)
          0 {} NUL ' '),
         (syslog_field_t.mk (syslog_field_info_t.mk SYSLOG_FIELD_ID_MESSAGE SYSLOG_FIELD_TYPE_STRING 'M'
          "message" "Message" none)
          0 {} NUL NUL)])
      [spec_token.token [] '%']
      [spec_token.token [] 'H', spec_token.literal ' ', spec_token.token [] 'M']
      (by decide) (by decide) (by decide)
      (by
        intro ms c h
        simp only [List.mem_cons, spec_token.token.injEq, reduceCtorEq, List.mem_singleton,
          List.not_mem_nil, or_false, false_or] at h
        rcases h with ⟨_, rfl⟩ | ⟨_, rfl⟩ <;> decide)).1,
    by decide⟩

/-! ### The end of the scan -/

/-- A token cut short by the end of the string is the last token. -/
theorem spec_tokens_from_unterminated_last (p : List Char) :
    ∀ (mods : Option (List Char)) (pre post : List spec_token) (ms : List Char),
      spec_tokens_from mods p = pre ++ spec_token.unterminated ms :: post → post = [] := by
  induction p with
  | nil =>
    intro mods pre post ms h
    cases mods with
    | none =>
      simp only [spec_tokens_from] at h
      have := congrArg List.length h
      simp only [List.length_append, List.length_cons, List.length_nil,
        List.length_singleton] at this
      omega
    | some m =>
      simp only [spec_tokens_from] at h
      have := congrArg List.length h
      simp only [List.length_append, List.length_cons, List.length_nil,
        List.length_singleton] at this
      exact List.length_eq_zero.mp (by omega)
  | cons a p ih =>
    intro mods pre post ms h
    cases mods with
    | none =>
      simp only [spec_tokens_from] at h
      split at h
      · have := congrArg List.length h
        simp only [List.length_append, List.length_cons, List.length_nil,
          List.length_singleton] at this
        omega
      · split at h
        · exact ih _ _ _ _ h
        · cases pre with
          | nil => simp at h
          | cons t pre1 =>
            simp only [List.cons_append, List.cons.injEq] at h
            exact ih _ _ _ _ h.2
    | some m =>
      simp only [spec_tokens_from] at h
      split at h
      · exact ih _ _ _ _ h
      · split at h
        · have := congrArg List.length h
          simp only [List.length_append, List.length_cons, List.length_nil,
            List.length_singleton] at this
          exact List.length_eq_zero.mp (by omega)
        · cases pre with
          | nil => simp at h
          | cons t pre1 =>
            simp only [List.cons_append, List.cons.injEq] at h
            exact ih _ _ _ _ h.2

/-- The scan over the tokens has no result only at a token that the end of
the string cuts short. -/
theorem init_tokens_none (ts : List spec_token) :
    ∀ {st : init_locals}, init_tokens st ts = none →
      ∃ pre ms post st1, ts = pre ++ spec_token.unterminated ms :: post ∧
        init_tokens st pre = some (.ok st1) ∧
        init_token st1 (spec_token.unterminated ms) = none := by
  induction ts with
  | nil => intro st h; simp [init_tokens] at h
  | cons t ts ih =>
    intro st h
    simp only [init_tokens] at h
    cases ht : init_token st t with
    | none =>
      cases t with
      | literal c => simp [init_token] at ht
      | token ms c =>
        simp only [init_token] at ht
        split at ht <;> simp at ht
      | unterminated ms => exact ⟨[], ms, ts, st, rfl, rfl, ht⟩
    | some r =>
      cases r with
      | error e => rw [ht] at h; simp at h
      | ok sta =>
        rw [ht] at h
        simp only at h
        obtain ⟨pre, ms, post, st1, hts, hpre, hun⟩ := ih h
        refine ⟨t :: pre, ms, post, st1, by rw [hts]; rfl, ?_, hun⟩
        simp only [init_tokens, ht]
        exact hpre

theorem find_registry_nul :
    syslog_field_info.find? (fun i => NUL == i.spec) = none := by decide

/-- The loop increment moves beyond the terminator only when a field has been
compiled before and the duplicate test lets the token pass. -/
theorem init_token_unterminated_none {st : init_locals} {ms : List Char}
    (h : init_token st (spec_token.unterminated ms) = none) :
    ∃ info, st.field_info = some info ∧
      ¬ ((st.flags ||| modifier_flags ms) &&& SYSLOG_FIELD_FLAG_DROP = 0 ∧
        st.entry.fields_mask &&& (1 <<< info.id.toNat) ≠ 0) := by
  simp only [init_token] at h
  split at h
  · simp at h
  · split at h
    · simp at h
    · rename_i st2 hs
      unfold init_specifier at hs
      simp only [find_registry_nul] at hs
      cases hfi : st.field_info with
      | none =>
        rw [hfi] at hs
        simp only at hs
        rw [if_neg (by decide : ¬ NUL = '%')] at hs
        simp at hs
      | some info =>
        rw [hfi] at hs
        simp only at hs
        split at hs
        · simp at hs
        · rename_i hdup
          exact ⟨info, rfl, hdup⟩

/-- At every token after a field has been compiled, the flags are clear and
the bit of the kind of the current record is set. -/
theorem init_tokens_seen (ts : List spec_token) :
    ∀ {st st1 : init_locals}, init_tokens st ts = some (.ok st1) →
      (∀ info, st.field_info = some info →
        st.flags = 0 ∧ st.entry.fields_mask &&& (1 <<< info.id.toNat) ≠ 0) →
      ∀ info, st1.field_info = some info →
        st1.flags = 0 ∧ st1.entry.fields_mask &&& (1 <<< info.id.toNat) ≠ 0 := by
  induction ts with
  | nil =>
    intro st st1 h hJ
    simp only [init_tokens, Option.some.injEq, Except.ok.injEq] at h
    subst h
    exact hJ
  | cons t ts ih =>
    intro st st1 h hJ
    obtain ⟨sta, ht, hrest⟩ := init_tokens_cons h
    apply ih hrest
    rcases init_token_ok ht with ⟨c, rfl, _, rfl⟩ | ⟨c, rfl, _, rfl⟩ | ⟨ms, rfl, hfi, _, rfl⟩ |
      ⟨ms, c, info, rfl, _, hmk, _, rfl⟩
    · exact hJ
    · exact hJ
    · intro info hi
      simp only at hi
      rw [hfi] at hi
      cases hi
    · intro info1 hi
      simp only [Option.some.injEq] at hi
      subst hi
      exact ⟨rfl, or_bit_and_self_ne_zero _ _⟩

/-- A record is current only after a token with a registered letter. -/
theorem init_tokens_field_info_origin (ts : List spec_token) :
    ∀ {st st1 : init_locals}, init_tokens st ts = some (.ok st1) →
      st.field_info = none → st1.field_info.isSome = true →
      ∃ ms c, spec_token.token ms c ∈ ts ∧ registered c = true := by
  induction ts with
  | nil =>
    intro st st1 h hfi hsome
    simp only [init_tokens, Option.some.injEq, Except.ok.injEq] at h
    subst h
    rw [hfi] at hsome
    cases hsome
  | cons t ts ih =>
    intro st st1 h hfi hsome
    obtain ⟨sta, ht, hrest⟩ := init_tokens_cons h
    rcases init_token_ok ht with ⟨c, rfl, _, rfl⟩ | ⟨c, rfl, _, rfl⟩ | ⟨ms, rfl, _, _, rfl⟩ |
      ⟨ms, c, info, rfl, _, hmk, _, rfl⟩
    · obtain ⟨ms, c, hm, hr⟩ := ih hrest hfi hsome
      exact ⟨ms, c, List.mem_cons_of_mem _ hm, hr⟩
    · obtain ⟨ms, c, hm, hr⟩ := ih hrest hfi hsome
      exact ⟨ms, c, List.mem_cons_of_mem _ hm, hr⟩
    · obtain ⟨ms, c, hm, hr⟩ := ih hrest hfi hsome
      exact ⟨ms, c, List.mem_cons_of_mem _ hm, hr⟩
    · rw [hfi] at hmk
      simp only [Option.isSome_none, Bool.false_or] at hmk
      exact ⟨ms, c, List.mem_cons_self _ _, hmk⟩

theorem modifier_flags_drop {ms : List Char}
    (h : modifier_flags ms &&& SYSLOG_FIELD_FLAG_DROP ≠ 0) : '!' ∈ ms := by
  by_contra hn
  apply h
  rw [modifier_flags_eq, if_neg hn]
  by_cases a : '_' ∈ ms <;> by_cases b : '@' ∈ ms <;> simp only [a, b, if_true, if_false] <;>
    decide

/-- C33 (not met by the code after a field; what holds). The scan of
`syslog_entry_init` ends at the terminator, with a return code, for every
specification that does not end inside a token. One that does, as "%" and
"%!" do, is rejected with `-EINVAL` at the terminator, unless a field token
precedes and the token cut short has the Drop modifier: then the terminator
is taken as the letter of the token, a descriptor is appended, and the loop
increment moves beyond the terminator, so that the next character read is
outside the string. "%T %!" is such a specification; "%T %" and "%T %_" are
rejected. -/
theorem init_reads_beyond_terminator_after_field (entry_spec : List Char) :
    ((∀ ms, spec_token.unterminated ms ∉ spec_tokens entry_spec) →
      (syslog_entry_init entry_spec).isSome = true) ∧
    (syslog_entry_init entry_spec = none →
      ∃ pre ms, spec_tokens entry_spec = pre ++ [spec_token.unterminated ms] ∧ '!' ∈ ms ∧
        ∃ ms1 c, spec_token.token ms1 c ∈ pre ∧ registered c = true) ∧
    syslog_entry_init "%T %!".toList = none ∧
    (syslog_entry_init "%".toList).map (fun r => r.1) = some (-EINVAL) ∧
    (syslog_entry_init "%!".toList).map (fun r => r.1) = some (-EINVAL) ∧
    (syslog_entry_init "%T %".toList).map (fun r => r.1) = some (-EINVAL) ∧
    (syslog_entry_init "%T %_".toList).map (fun r => r.1) = some (-EINVAL) := by
  have hnone : syslog_entry_init entry_spec = none →
      ∃ pre ms, spec_tokens entry_spec = pre ++ [spec_token.unterminated ms] ∧ '!' ∈ ms ∧
        ∃ ms1 c, spec_token.token ms1 c ∈ pre ∧ registered c = true := by
    intro h
    rw [syslog_entry_init_eq_init_tokens] at h
    simp only [Option.map_eq_none'] at h
    obtain ⟨pre, ms, post, st1, hts, hpre, hun⟩ := init_tokens_none _ h
    have hpost : post = [] := spec_tokens_from_unterminated_last entry_spec none pre post ms hts
    subst hpost
    obtain ⟨info, hfi, hdup⟩ := init_token_unterminated_none hun
    have hJ := init_tokens_seen pre hpre (by intro info hi; cases hi) info hfi
    have horigin := init_tokens_field_info_origin pre hpre rfl (by rw [hfi]; rfl)
    refine ⟨pre, ms, hts, ?_, horigin⟩
    apply modifier_flags_drop
    intro h0
    apply hdup
    rw [hJ.1, Nat.zero_or]
    exact ⟨h0, hJ.2⟩
  refine ⟨?_, hnone, by decide, by decide, by decide, by decide, by decide⟩
  intro hno
  cases hinit : syslog_entry_init entry_spec with
  | some r => rfl
  | none =>
    obtain ⟨pre, ms, hts, _⟩ := hnone hinit
    exact absurd (by rw [hts]; simp) (hno ms)

/-- Witness of C33: the specification "%T %!". -/
theorem init_reads_beyond_terminator_after_field_witness :
    ∃ pre ms, spec_tokens "%T %!".toList = pre ++ [spec_token.unterminated ms] ∧ '!' ∈ ms ∧
      ∃ ms1 c, spec_token.token ms1 c ∈ pre ∧ registered c = true :=
  (init_reads_beyond_terminator_after_field "%T %!".toList).2.1 (by decide)

/-! ### The cursor stays within the line -/

theorem takeWhile_ne_nul_length_le :
    ∀ (l : List Char) (k : Nat), l[k]? = some NUL →
      (l.takeWhile (fun c => c != NUL)).length ≤ k := by
  intro l
  induction l with
  | nil => intro k h; simp at h
  | cons x xs ih =>
    intro k h
    cases k with
    | zero =>
      simp only [List.getElem?_cons_zero, Option.some.injEq] at h
      subst h
      simp [List.takeWhile]
    | succ k =>
      simp only [List.getElem?_cons_succ] at h
      have := ih k h
      rw [List.takeWhile_cons]
      split
      · rw [List.length_cons]
        omega
      · simp

/-- With a terminator at index `n`, the string at an index up to `n` ends at
or before `n`. -/
theorem c_str_of_nul_at {buf : List Char} {n d : Nat} (hn : buf[n]? = some NUL)
    (hd : d ≤ n) : ∃ s, c_str buf d = some s ∧ d + s.length ≤ n := by
  have hget : (buf.drop d)[n - d]? = some NUL := by
    rw [List.getElem?_drop, (show d + (n - d) = n by omega)]
    exact hn
  have hmem : NUL ∈ buf.drop d := List.getElem?_mem hget
  refine ⟨_, by unfold c_str; rw [if_pos hmem], ?_⟩
  have := takeWhile_ne_nul_length_le _ _ hget
  omega

theorem field_parse_start_within {st : parse_state} {f : syslog_field_t} {n d : Nat}
    (hnul : st.line[n]? = some NUL) (hdata : st.data = some d) (hd : d ≤ n) :
    field_parse_start st f = some none ∨
      ∃ d2, field_parse_start st f = some (some d2) ∧ d2 ≤ n := by
  have hskip : ∀ d1, d1 ≤ n → ∃ d2, strskipspaces st.line d1 = some d2 ∧ d2 ≤ n := by
    intro d1 h1
    obtain ⟨s1, hs1, hb⟩ := c_str_of_nul_at hnul h1
    refine ⟨_, strskipspaces_eq hs1, ?_⟩
    have := takeWhile_length_le isspace s1
    omega
  unfold field_parse_start
  rw [hdata]
  simp only
  by_cases hstart : f.parse_start_char ≠ NUL
  · rw [if_pos hstart]
    obtain ⟨s, hs, hb⟩ := c_str_of_nul_at hnul hd
    rw [strchr_eq _ hstart hs]
    by_cases hmem : f.parse_start_char ∈ s
    · rw [if_pos hmem]
      simp only
      have hidx := List.indexOf_lt_length.mpr hmem
      by_cases htrim : f.flags &&& SYSLOG_FIELD_FLAG_NOTRIM = 0
      · rw [if_pos htrim]
        obtain ⟨d2, h2, hb2⟩ := hskip (d + s.indexOf f.parse_start_char + 1) (by omega)
        rw [h2]
        exact Or.inr ⟨d2, rfl, hb2⟩
      · rw [if_neg htrim]
        exact Or.inr ⟨_, rfl, by omega⟩
    · rw [if_neg hmem]
      exact Or.inl rfl
  · rw [if_neg hstart]
    simp only
    by_cases htrim : f.flags &&& SYSLOG_FIELD_FLAG_NOTRIM = 0
    · rw [if_pos htrim]
      obtain ⟨d2, h2, hb2⟩ := hskip d hd
      rw [h2]
      exact Or.inr ⟨d2, rfl, hb2⟩
    · rw [if_neg htrim]
      exact Or.inr ⟨_, rfl, hd⟩

theorem parse_timestamp_within {tf : time_functions} {config : config_t} {st : parse_state}
    {f : syslog_field_t} {n d : Nat}
    (htf : ∀ s format t k, (tf.strptime s format t).1 = some k → k ≤ s.length)
    (hnul : st.line[n]? = some NUL) (hdata : st.data = some d) (hd : d ≤ n) :
    ∃ ret st1 f1, parse_timestamp tf config st f = some (ret, st1, f1) ∧
      st1.line = st.line ∧ (ret = 0 → ∃ d3, st1.data = some d3 ∧ d3 ≤ n) := by
  obtain ⟨s, hs, hb⟩ := c_str_of_nul_at hnul hd
  unfold parse_timestamp
  rw [hdata]
  simp only
  rw [hs]
  simp only
  cases hk : (tf.strptime s config.ts_parse_spec f.value.time_timestamp).1 with
  | none => exact ⟨_, _, _, rfl, rfl, fun h => absurd h (by decide)⟩
  | some k =>
    have := htf _ _ _ _ hk
    exact ⟨_, _, _, rfl, rfl, fun _ => ⟨_, rfl, by omega⟩⟩

theorem parse_string_within {st : parse_state} {f : syslog_field_t} {n d : Nat}
    (hnul : st.line[n]? = some NUL) (hdata : st.data = some d) (hd : d ≤ n) :
    ∃ ret st1 f1, parse_string st f = some (ret, st1, f1) ∧
      (ret = 0 → f1.value.string = d ∧ ∃ d3, st1.data = some d3 ∧ d3 ≤ n + 1 ∧
        (f.parse_stop_char ≠ NUL → d3 ≤ n)) := by
  obtain ⟨s, hs, hb⟩ := c_str_of_nul_at hnul hd
  obtain ⟨hk, hfail, hok⟩ := parse_string_eq (f := f) hdata hs rfl
  by_cases hstop : f.parse_stop_char = NUL
  · obtain ⟨hidx, hp⟩ := hok s.length (Or.inl ⟨hstop, rfl⟩)
    exact ⟨_, _, _, hp, fun _ => ⟨rfl, _, rfl, by omega, fun h => absurd hstop h⟩⟩
  · by_cases hmem : f.parse_stop_char ∈ s.drop
        (if f.flags &&& SYSLOG_FIELD_FLAG_NOTRIM ≠ 0 then (s.takeWhile isspace).length else 0)
    · obtain ⟨hidx, hp⟩ := hok _ (Or.inr ⟨hstop, hmem, rfl⟩)
      have h1 := List.indexOf_lt_length.mpr hmem
      rw [List.length_drop] at h1
      exact ⟨_, _, _, hp, fun _ => ⟨rfl, _, rfl, by omega, fun _ => by omega⟩⟩
    · exact ⟨_, _, _, hfail hstop hmem, fun h => absurd h (by decide)⟩

theorem registry_facts {info : syslog_field_info_t} (h : info ∈ syslog_field_info) :
    (info.type = SYSLOG_FIELD_TYPE_TIME ∨ info.type = SYSLOG_FIELD_TYPE_STRING) ∧
    ∀ v, info.validator = some v → info.type = SYSLOG_FIELD_TYPE_STRING ∧
      ((v = validator_t.validate_facility ∧ info.id = SYSLOG_FIELD_ID_FACILITY) ∨
        (v = validator_t.validate_priority ∧ info.id = SYSLOG_FIELD_ID_PRIORITY)) := by
  simp only [syslog_field_info, List.mem_cons, List.mem_singleton, List.not_mem_nil,
    or_false] at h
  rcases h with rfl | rfl | rfl | rfl | rfl | rfl <;>
    refine ⟨by decide, fun v hv => ?_⟩ <;>
    simp only [Option.some.injEq, reduceCtorEq] at hv <;>
    (subst hv; exact ⟨rfl, by decide⟩)

theorem field_parse_finish_within {line_n : Nat} {ret : Int} {st1 : parse_state}
    {f1 : syslog_field_t} {n : Nat} (hinfo : f1.info ∈ syslog_field_info)
    (hnul : st1.line[n]? = some NUL)
    (hval : ret = 0 → f1.info.type = SYSLOG_FIELD_TYPE_STRING → f1.value.string ≤ n) :
    ∃ ret1 err, field_parse_finish line_n ret st1 f1 =
        some (ret1, { st1 with stderr := err }, f1) ∧ (ret1 = 0 → ret = 0) := by
  unfold field_parse_finish
  by_cases hr : ret ≠ 0
  · rw [if_pos hr]
    exact ⟨_, _, rfl, fun h => absurd h hr⟩
  · rw [if_neg hr]
    have hr0 : ret = 0 := by simpa using hr
    by_cases hv : f1.flags &&& SYSLOG_FIELD_FLAG_NOVALIDATION = 0
    · rw [if_pos hv]
      cases hvd : f1.info.validator with
      | none => exact ⟨0, st1.stderr, rfl, fun _ => hr0⟩
      | some v =>
        obtain ⟨htype, hcase⟩ := (registry_facts hinfo).2 v hvd
        obtain ⟨sv, hsv, _⟩ := c_str_of_nul_at hnul (hval hr0 htype)
        have hcall : ∃ r, v.call st1.line f1 = some r := by
          rcases hcase with ⟨rfl, hid⟩ | ⟨rfl, hid⟩
          · simp only [validator_t.call, validate_facility, hid, ne_eq, not_true_eq_false,
              if_false, hsv]
            split <;> exact ⟨_, rfl⟩
          · simp only [validator_t.call, validate_priority, hid, ne_eq, not_true_eq_false,
              if_false, hsv]
            split <;> exact ⟨_, rfl⟩
        obtain ⟨r, hcallr⟩ := hcall
        simp only [hcallr]
        by_cases hr1 : r ≠ 0
        · rw [if_pos hr1]
          exact ⟨_, _, rfl, fun h => absurd h hr1⟩
        · rw [if_neg hr1]
          exact ⟨0, st1.stderr, rfl, fun _ => hr0⟩
    · rw [if_neg hv]
      exact ⟨0, st1.stderr, rfl, fun _ => hr0⟩

theorem nul_kept_of_overwritten {fields : List syslog_field_t} {before after : List Char}
    {n : Nat} (h : overwritten_with_terminators fields before after)
    (hlen : before.length = n + 1) (hnul : before[n]? = some NUL) :
    after.length = n + 1 ∧ after[n]? = some NUL := by
  refine ⟨h.1.trans hlen, ?_⟩
  rcases h.2 n with h1 | h1
  · rw [h1, hnul]
  · exact h1.1

/-- The field parse of a descriptor of the registry, from a cursor at or
before the terminator that ends the buffer, has a result; when it returns 0
the cursor is at most one beyond the terminator, and at or before it when the
descriptor is of type Time or has a stop delimiter. -/
theorem field_parse_within {tf : time_functions} {config : config_t} {line_n : Nat}
    {st : parse_state} {f : syslog_field_t} {n : Nat}
    (htf : ∀ s format t k, (tf.strptime s format t).1 = some k → k ≤ s.length)
    (hinfo : f.info ∈ syslog_field_info) (hI : within_line n st) :
    ∃ ret st1 f1, syslog_entry_field_parse tf config line_n st f = some (ret, st1, f1) ∧
      st1.line.length = n + 1 ∧ st1.line[n]? = some NUL ∧
      (ret = 0 → ∃ d3, st1.data = some d3 ∧ d3 ≤ n + 1 ∧
        (f.info.type = SYSLOG_FIELD_TYPE_TIME ∨ f.parse_stop_char ≠ NUL → d3 ≤ n)) := by
  obtain ⟨hlen, hnul, d, hdata, hd⟩ := hI
  have key : ∃ ret st1 f1,
      syslog_entry_field_parse tf config line_n st f = some (ret, st1, f1) ∧
      (ret = 0 → ∃ d3, st1.data = some d3 ∧ d3 ≤ n + 1 ∧
        (f.info.type = SYSLOG_FIELD_TYPE_TIME ∨ f.parse_stop_char ≠ NUL → d3 ≤ n)) := by
    unfold syslog_entry_field_parse
    rcases field_parse_start_within (f := f) hnul hdata hd with hs | ⟨d2, hs, hd2⟩
    · rw [hs]
      exact ⟨_, _, _, rfl, fun h => absurd h (by decide)⟩
    · rw [hs]
      simp only
      have hnul2 : ({ st with data := some d2 } : parse_state).line[n]? = some NUL := hnul
      rcases (registry_facts hinfo).1 with htype | htype
      · obtain ⟨ret, st1, f1, hv, hline, hcur⟩ :=
          @parse_timestamp_within tf config _ f n d2 htf hnul2 rfl hd2
        have hd1 := parse_timestamp_descriptor hv
        have hv2 : field_parse_value tf config { st with data := some d2 } f =
            some (ret, st1, f1) := by
          unfold field_parse_value
          rw [htype]
          exact hv
        rw [hv2]
        simp only
        have hnul1 : st1.line[n]? = some NUL := by rw [hline]; exact hnul
        obtain ⟨ret1, err, hfin, hret⟩ := @field_parse_finish_within line_n
          ret st1 f1 n (by rw [hd1.1]; exact hinfo) hnul1
          (by
            intro _ hstr
            rw [hd1.1, htype] at hstr
            cases hstr)
        refine ⟨_, _, _, hfin, fun h0 => ?_⟩
        obtain ⟨d3, h3, hb3⟩ := hcur (hret h0)
        exact ⟨d3, h3, by omega, fun _ => hb3⟩
      · obtain ⟨ret, st1, f1, hv, hcur⟩ := parse_string_within (f := f) hnul2 rfl hd2
        have hd1 := parse_string_descriptor hv
        have hv2 : field_parse_value tf config { st with data := some d2 } f =
            some (ret, st1, f1) := by
          unfold field_parse_value
          rw [htype]
          exact hv
        rw [hv2]
        simp only
        have hnul1 : st1.line[n]? = some NUL :=
          (nul_kept_of_overwritten (parse_string_overwrites hv) hlen hnul2).2
        obtain ⟨ret1, err, hfin, hret⟩ := @field_parse_finish_within line_n
          ret st1 f1 n (by rw [hd1.1]; exact hinfo) hnul1
          (by
            intro h0 _
            rw [(hcur h0).1]
            exact hd2)
        refine ⟨_, _, _, hfin, fun h0 => ?_⟩
        obtain ⟨_, d3, h3, hb3, hb4⟩ := hcur (hret h0)
        refine ⟨d3, h3, hb3, fun hor => ?_⟩
        rcases hor with h | h
        · rw [htype] at h
          cases h
        · exact hb4 h
  obtain ⟨ret, st1, f1, hparse, hcur⟩ := key
  obtain ⟨h1, h2⟩ := nul_kept_of_overwritten (field_parse_overwrites hparse) hlen hnul
  exact ⟨ret, st1, f1, hparse, h1, h2, hcur⟩

/-- While the descriptors decode in sequence and each is of type Time or has
a stop delimiter, the cursor stays at or before the terminator. -/
theorem decodes_in_sequence_within {tf : time_functions} {config : config_t} {line_n : Nat}
    {n : Nat} (htf : ∀ s format t k, (tf.strptime s format t).1 = some k → k ≤ s.length)
    {st stp : parse_state} {pre pre1 : List syslog_field_t}
    (h : decodes_in_sequence tf config line_n st pre stp pre1) :
    within_line n st →
    (∀ f ∈ pre, f.info ∈ syslog_field_info ∧
      (f.info.type = SYSLOG_FIELD_TYPE_TIME ∨ f.parse_stop_char ≠ NUL)) →
    within_line n stp := by
  induction h with
  | nil st => intro hI _; exact hI
  | @cons st st1 st2 field field1 fields fields1 hparse _ ih =>
    intro hI hpre
    have hf := hpre field (List.mem_cons_self _ _)
    obtain ⟨ret, sta, fa, hp, hlen, hnul, hcur⟩ := @field_parse_within tf config line_n
      _ _ n htf hf.1 hI
    rw [hparse] at hp
    simp only [Option.some.injEq, Prod.mk.injEq] at hp
    obtain ⟨hr, hs, _⟩ := hp
    subst hr hs
    obtain ⟨d3, h3, _, hb⟩ := hcur rfl
    exact ih ⟨hlen, hnul, d3, h3, hb hf.2⟩
      (fun f hm => hpre f (List.mem_cons_of_mem _ hm))

/-- The loop over descriptors of the registry, all but the last of which are
of type Time or have a stop delimiter, has a result from a cursor at or
before the terminator that ends the buffer. -/
theorem parse_fields_within {tf : time_functions} {config : config_t} {line_n : Nat}
    {n : Nat} (htf : ∀ s format t k, (tf.strptime s format t).1 = some k → k ≤ s.length) :
    ∀ (fields : List syslog_field_t) (st : parse_state), within_line n st →
      (∀ f ∈ fields, f.info ∈ syslog_field_info) →
      (∀ f ∈ fields.dropLast,
        f.info.type = SYSLOG_FIELD_TYPE_TIME ∨ f.parse_stop_char ≠ NUL) →
      ∃ ret st1 fields1, parse_fields tf config line_n st fields = some (ret, st1, fields1) ∧
        st1.line.length = n + 1 ∧ (ret = 0 → ∃ d, st1.data = some d ∧ d ≤ n + 1) := by
  intro fields
  induction fields with
  | nil =>
    intro st hI _ _
    obtain ⟨hlen, _, d, hdata, hd⟩ := hI
    exact ⟨0, st, [], rfl, hlen, fun _ => ⟨d, hdata, by omega⟩⟩
  | cons f rest ih =>
    intro st hI hinfo hstop
    obtain ⟨ret, st1, f1, hp, hlen, hnul, hcur⟩ := @field_parse_within tf config line_n
      _ _ n htf (hinfo f (List.mem_cons_self _ _)) hI
    simp only [parse_fields, hp]
    by_cases hr : ret ≠ 0
    · rw [if_pos hr]
      exact ⟨_, _, _, rfl, hlen, fun h0 => absurd h0 hr⟩
    · rw [if_neg hr]
      have hr0 : ret = 0 := by simpa using hr
      obtain ⟨d3, h3, hb3, hb⟩ := hcur hr0
      cases rest with
      | nil =>
        simp only [parse_fields]
        exact ⟨_, _, _, rfl, hlen, fun _ => ⟨d3, h3, hb3⟩⟩
      | cons g rest2 =>
        have hfstop := hstop f (by simp [List.dropLast])
        obtain ⟨ret2, st2, fields2, hp2, hlen2, hcur2⟩ := ih st1
          ⟨hlen, hnul, d3, h3, hb hfstop⟩
          (fun x hx => hinfo x (List.mem_cons_of_mem _ hx))
          (fun x hx => hstop x (by
            rw [List.dropLast_cons_of_ne_nil (by simp)]
            exact List.mem_cons_of_mem _ hx))
        rw [hp2]
        exact ⟨_, _, _, rfl, hlen2, hcur2⟩

/-- After a successful `syslog_entry_init` every descriptor but the last has
a stop delimiter. -/
theorem init_fields_nonfinal_stop (entry_spec : List Char) (entry : syslog_entry_t)
    (h : syslog_entry_init entry_spec = some (0, entry)) :
    ∀ field ∈ entry.fields.dropLast, field.parse_stop_char ≠ NUL := by
  have key := init_scan_invariant
    (fun m st => (∀ f ∈ st.entry.fields.dropLast, f.parse_stop_char ≠ NUL) ∧
      (m = true → last_stop_unset st.entry.fields = false))
    (by
      intro st c hI _ _
      refine ⟨?_, by simp⟩
      unfold init_literal
      split
      · simp only [set_last_stop_dropLast]
        exact hI.1
      · exact hI.1)
    (by
      intro st hI hl
      exact ⟨hI.1, fun _ => hl⟩)
    (by
      intro st bit hI _
      exact ⟨hI.1, fun _ => hI.2 rfl⟩)
    (by
      intro st ch st1 hI hs
      refine ⟨?_, by simp⟩
      rcases init_specifier_ok hs with ⟨_, _, _, _, hf⟩ | ⟨_, _, _, hl, _⟩ |
        ⟨info, _, _, _, _, _, _, _, hf⟩
      · rw [hf]; exact hI.1
      · rw [hI.2 rfl] at hl
        exact absurd hl (by simp)
      · rw [hf, List.dropLast_concat]
        exact stop_set_of_dropLast (hI.2 rfl) hI.1)
    entry_spec false _ entry ⟨by simp, by simp⟩ h
  obtain ⟨st1, hI, he⟩ := key
  rw [← he]
  exact hI.1

/-- C32. With the descriptors of a successful `syslog_entry_init`, a time
parser that stops within the string it is given, and a line buffer that ends
with its terminator, `syslog_entry_parse` has a result: it reads and writes
no character beyond the terminator, and the buffer keeps its length.
Whenever a descriptor starts to be processed, those before it having decoded
in sequence, the cursor is at or before the terminator, which is still the
last character of the buffer. Every descriptor but the last has a stop
delimiter, and after a successful call the cursor is at most one beyond the
terminator. -/
theorem decoding_stays_within_line (entry_spec : List Char) (entry : syslog_entry_t)
    (hinit : syslog_entry_init entry_spec = some (0, entry))
    (tf : time_functions)
    (htf : ∀ s format t k, (tf.strptime s format t).1 = some k → k ≤ s.length)
    (config : config_t) (line_n : Nat) (s : List Char) :
    (∃ ret st entry1,
      syslog_entry_parse tf config entry line_n (s ++ [NUL]) = some (ret, st, entry1) ∧
      st.line.length = s.length + 1 ∧
      (ret = 0 → ∃ d, st.data = some d ∧ d ≤ s.length + 1)) ∧
    (∀ pre field rest stp pre1, entry.fields = pre ++ field :: rest →
      decodes_in_sequence tf config line_n { line := s ++ [NUL], data := some 0 }
        pre stp pre1 →
      within_line s.length stp) ∧
    (∀ field ∈ entry.fields.dropLast, field.parse_stop_char ≠ NUL) := by
  have hreg := init_fields_info_registered entry_spec entry hinit
  have hstop := init_fields_nonfinal_stop entry_spec entry hinit
  have hI0 : within_line s.length
      ({ line := s ++ [NUL], data := some 0 } : parse_state) := by
    refine ⟨by simp, ?_, 0, rfl, Nat.zero_le _⟩
    simp
  refine ⟨?_, ?_, hstop⟩
  · obtain ⟨ret, st1, fields1, hp, hlen, hcur⟩ :=
      @parse_fields_within tf config line_n _ htf entry.fields _ hI0 hreg
        (fun f hf => Or.inr (hstop f hf))
    refine ⟨ret, st1, { entry with fields := fields1 }, ?_, hlen, hcur⟩
    unfold syslog_entry_parse
    rw [hp]
  · intro pre field rest stp pre1 hfields hdec
    refine decodes_in_sequence_within htf hdec hI0 ?_
    intro f hf
    refine ⟨hreg f (by rw [hfields]; exact List.mem_append_left _ hf), Or.inr ?_⟩
    apply hstop f
    rw [hfields, List.dropLast_append_of_ne_nil _ (List.cons_ne_nil _ _)]
    exact List.mem_append_left _ hf

/-- Witness of C32: the descriptors of "%H %M" and the line "host hello". -/
theorem decoding_stays_within_line_witness :
    ∃ ret st entry1,
      syslog_entry_parse utc_time_functions default_config
        (syslog_entry_t.mk 0 136
        [(syslog_field_t.mk (syslog_field_info_t.mk SYSLOG_FIELD_ID_HOSTNAME SYSLOG_FIELD_TYPE_STRING 'H'
          "hostname" "Hostname" none)
          0 {} NUL ' '),
         (syslog_field_t.mk (syslog_field_info_t.mk SYSLOG_FIELD_ID_MESSAGE SYSLOG_FIELD_TYPE_STRING 'M'
          "message" "Message" none)
          0 {} NUL NUL)]) 1
        ("host hello\n".toList ++ [NUL]) = some (ret, st, entry1) ∧
      st.line.length = "host hello\n".toList.length + 1 ∧
      (ret = 0 → ∃ d, st.data = some d ∧ d ≤ "host hello\n".toList.length + 1) :=
  (decoding_stays_within_line "%H %M".toList
    (syslog_entry_t.mk 0 136
        [(syslog_field_t.mk (syslog_field_info_t.mk SYSLOG_FIELD_ID_HOSTNAME SYSLOG_FIELD_TYPE_STRING 'H'
          "hostname" "Hostname" none)
          0 {} NUL ' '),
         (syslog_field_t.mk (syslog_field_info_t.mk SYSLOG_FIELD_ID_MESSAGE SYSLOG_FIELD_TYPE_STRING 'M'
          "message" "Message" none)
          0 {} NUL NUL)]) (by decide)
    utc_time_functions (fun _ _ _ _ h => by
      simp only [utc_time_functions, strptime_model] at h
      cases hr : (strptime_scan _ _ _).1 with
      | none => rw [hr] at h; cases h
      | some rest =>
        rw [hr] at h
        simp only [Option.map_some', Option.some.injEq] at h
        omega)
    default_config 1 "host hello\n".toList).1

/-! ### The token at which the scan fails -/

/-- A scan over the tokens that ends with an error has scanned the tokens
before some token and fails at that token. -/
theorem init_tokens_error_split (ts : List spec_token) :
    ∀ {st : init_locals} {r : Int × syslog_entry_t}, init_tokens st ts = some (.error r) →
      ∃ tpre t tpost st1, ts = tpre ++ t :: tpost ∧
        init_tokens st tpre = some (.ok st1) ∧ init_token st1 t = some (.error r) := by
  induction ts with
  | nil => intro st r h; simp [init_tokens] at h
  | cons t ts ih =>
    intro st r h
    simp only [init_tokens] at h
    cases ht : init_token st t with
    | none => rw [ht] at h; simp at h
    | some x =>
      cases x with
      | error e =>
        rw [ht] at h
        simp only [Option.some.injEq, Except.error.injEq] at h
        subst h
        exact ⟨[], t, ts, st, rfl, rfl, ht⟩
      | ok sta =>
        rw [ht] at h
        simp only at h
        obtain ⟨tpre, t1, tpost, st1, hts, hpre, herr⟩ := ih h
        refine ⟨t :: tpre, t1, tpost, st1, by rw [hts]; rfl, ?_, herr⟩
        simp only [init_tokens, ht]
        exact hpre

/-- The token at which the scan fails is not a literal character, and the
entry returned is the entry as it stands when the token is met. -/
theorem init_token_error_entry {st : init_locals} {t : spec_token}
    {r : Int × syslog_entry_t} (h : init_token st t = some (.error r)) :
    r.2 = st.entry ∧ t.is_literal = false := by
  cases t with
  | literal c => simp [init_token] at h
  | token ms c =>
    simp only [init_token] at h
    split at h
    · simp only [Option.some.injEq, Except.error.injEq] at h
      rw [← h]
      exact ⟨rfl, rfl⟩
    · simp only [Option.some.injEq] at h
      rw [init_specifier_error h]
      exact ⟨rfl, rfl⟩
  | unterminated ms =>
    simp only [init_token] at h
    split at h
    · simp only [Option.some.injEq, Except.error.injEq] at h
      rw [← h]
      exact ⟨rfl, rfl⟩
    · split at h
      · rename_i r1 hr
        simp only [Option.some.injEq, Except.error.injEq] at h
        rw [← h, init_specifier_error hr]
        exact ⟨rfl, rfl⟩
      · simp at h

/-- The tokens before a token of a specification are the tokens of an
initial part of the specification. -/
theorem spec_tokens_from_split (p : List Char) :
    ∀ (mods : Option (List Char)) (tpre tpost : List spec_token),
      spec_tokens_from mods p = tpre ++ tpost → (mods = none ∨ tpre ≠ []) →
      ∃ q r, p = q ++ r ∧ spec_tokens_from mods q = tpre := by
  induction p with
  | nil =>
    intro mods tpre tpost h hside
    cases mods with
    | none =>
      simp only [spec_tokens_from] at h
      have hnil : tpre = [] := (List.append_eq_nil.mp h.symm).1
      exact ⟨[], [], rfl, by rw [hnil]; rfl⟩
    | some ms =>
      have hne : tpre ≠ [] := by
        rcases hside with h1 | h1
        · cases h1
        · exact h1
      simp only [spec_tokens_from] at h
      cases tpre with
      | nil => exact absurd rfl hne
      | cons t tpre1 =>
        simp only [List.cons_append, List.cons.injEq] at h
        have hnil : tpre1 = [] := (List.append_eq_nil.mp h.2.symm).1
        refine ⟨[], [], rfl, ?_⟩
        rw [hnil, ← h.1]
        rfl
  | cons c p ih =>
    intro mods tpre tpost h hside
    cases mods with
    | none =>
      cases tpre with
      | nil => exact ⟨[], c :: p, rfl, rfl⟩
      | cons t tpre1 =>
        simp only [spec_tokens_from] at h
        split at h
        · simp at h
        · rename_i h0
          split at h
          · rename_i hc
            obtain ⟨q, r, hp, hq⟩ := ih (some []) (t :: tpre1) tpost h (Or.inr (by simp))
            refine ⟨c :: q, r, by rw [hp]; rfl, ?_⟩
            simp only [spec_tokens_from, if_neg h0, if_pos hc]
            exact hq
          · rename_i hc
            simp only [List.cons_append, List.cons.injEq] at h
            obtain ⟨q, r, hp, hq⟩ := ih none tpre1 tpost h.2 (Or.inl rfl)
            refine ⟨c :: q, r, by rw [hp]; rfl, ?_⟩
            simp only [spec_tokens_from, if_neg h0, if_neg hc]
            rw [hq, h.1]
    | some ms =>
      have hne : tpre ≠ [] := by
        rcases hside with h1 | h1
        · cases h1
        · exact h1
      cases tpre with
      | nil => exact absurd rfl hne
      | cons t tpre1 =>
        simp only [spec_tokens_from] at h
        split at h
        · rename_i hm
          obtain ⟨q, r, hp, hq⟩ := ih (some (ms ++ [c])) (t :: tpre1) tpost h
            (Or.inr (by simp))
          refine ⟨c :: q, r, by rw [hp]; rfl, ?_⟩
          simp only [spec_tokens_from, if_pos hm]
          exact hq
        · rename_i hm
          split at h
          · rename_i h0
            simp only [List.cons_append, List.cons.injEq] at h
            have hnil : tpre1 = [] := (List.append_eq_nil.mp h.2.symm).1
            refine ⟨[], c :: p, rfl, ?_⟩
            rw [hnil, ← h.1]
            rfl
          · rename_i h0
            simp only [List.cons_append, List.cons.injEq] at h
            obtain ⟨q, r, hp, hq⟩ := ih none tpre1 tpost h.2 (Or.inl rfl)
            refine ⟨c :: q, r, by rw [hp]; rfl, ?_⟩
            simp only [spec_tokens_from, if_neg hm, if_neg h0]
            rw [hq, h.1]

theorem or_bit_ne_zero (m i : Nat) : m ||| (1 <<< i) ≠ 0 := by
  intro h
  have := or_bit_and_self_ne_zero m i
  rw [h] at this
  simp at this

/-- The presence bitmask is zero exactly as long as no descriptor has been
appended. -/
theorem init_tokens_mask_zero (ts : List spec_token) :
    ∀ {st st1 : init_locals}, init_tokens st ts = some (.ok st1) →
      (st.entry.fields_mask = 0 ↔ st.entry.fields = []) →
      (st1.entry.fields_mask = 0 ↔ st1.entry.fields = []) := by
  induction ts with
  | nil =>
    intro st st1 h hJ
    simp only [init_tokens, Option.some.injEq, Except.ok.injEq] at h
    subst h
    exact hJ
  | cons t ts ih =>
    intro st st1 h hJ
    obtain ⟨sta, ht, hrest⟩ := init_tokens_cons h
    apply ih hrest
    rcases init_token_ok ht with ⟨c, rfl, _, rfl⟩ | ⟨c, rfl, _, rfl⟩ | ⟨ms, rfl, hfi, _, rfl⟩ |
      ⟨ms, c, info, rfl, _, hmk, _, rfl⟩
    · simp only
      rw [hJ]
      constructor
      · intro h0
        rw [h0]
        rfl
      · intro h0
        have := congrArg List.length h0
        rw [set_last_stop_length] at this
        exact List.length_eq_zero.mp this
    · exact hJ
    · exact hJ
    · simp only
      constructor
      · intro h0
        exact absurd h0 (or_bit_ne_zero _ _)
      · intro h0
        simp at h0

/-- C17 (amended). Whenever `syslog_entry_init` returns an error (every
allocation is taken to succeed), the scan has failed at a token, and the
entry holds all that has been compiled before that token: the part of the
specification whose tokens are the tokens before it compiles with code 0 to
exactly the entry returned, which is the entry under construction when the
failing token is met and has one descriptor for each token of that part that
makes a descriptor. The entry has no descriptor only when no token before
the failing one makes a descriptor, and its presence bitmask is zero exactly
when it has no descriptor. -/
theorem init_error_keeps_compiled_part (entry_spec : List Char) (code : Int)
    (entry : syslog_entry_t) (hinit : syslog_entry_init entry_spec = some (code, entry))
    (hcode : code ≠ 0) :
    ∃ (compiled rest : List Char) (t : spec_token) (tpost : List spec_token),
      entry_spec = compiled ++ rest ∧
      spec_tokens entry_spec = spec_tokens compiled ++ t :: tpost ∧
      t.is_literal = false ∧
      syslog_entry_init compiled = some (0, entry) ∧
      (∃ st, init_tokens
          { flags := 0, field_info := none, parse_start_char := NUL,
            entry := { num := 0, fields_mask := 0, fields := [] } }
          (spec_tokens compiled) = some (.ok st) ∧
        st.entry = entry ∧ init_token st t = some (.error (code, entry))) ∧
      entry.fields.length = (descriptor_tokens false (spec_tokens compiled)).length ∧
      (entry.fields = [] ↔ descriptor_tokens false (spec_tokens compiled) = []) ∧
      (entry.fields_mask = 0 ↔ entry.fields = []) := by
  rw [syslog_entry_init_eq_init_tokens] at hinit
  cases hgen : init_tokens
      { flags := 0, field_info := none, parse_start_char := NUL,
        entry := { num := 0, fields_mask := 0, fields := [] } }
      (spec_tokens entry_spec) with
  | none => rw [hgen] at hinit; simp at hinit
  | some x =>
    rw [hgen] at hinit
    cases x with
    | ok st =>
      simp only [Option.map_some', init_return, Option.some.injEq, Prod.mk.injEq] at hinit
      exact absurd hinit.1.symm hcode
    | error r =>
      simp only [Option.map_some', init_return, Option.some.injEq] at hinit
      subst hinit
      obtain ⟨tpre, t, tpost, st1, hts, hpre, herr⟩ := init_tokens_error_split _ hgen
      obtain ⟨q, r, hp, hq⟩ := spec_tokens_from_split entry_spec none tpre (t :: tpost) hts
        (Or.inl rfl)
      have hq2 : spec_tokens q = tpre := hq
      obtain ⟨hentry, hlit⟩ := init_token_error_entry herr
      simp only at hentry
      have hlen := init_tokens_length _ hpre
      simp only [List.length_nil, Nat.zero_add, Option.isSome_none] at hlen
      have hmask := init_tokens_mask_zero _ hpre (by simp)
      refine ⟨q, r, t, tpost, hp, by rw [hq2]; exact hts, hlit, ?_, ?_, ?_, ?_, ?_⟩
      · rw [syslog_entry_init_eq_init_tokens, hq2, hpre, hentry]
        rfl
      · exact ⟨st1, by rw [hq2]; exact hpre, hentry.symm, herr⟩
      · rw [hq2, hentry]
        exact hlen
      · rw [hq2, hentry, ← List.length_eq_zero, hlen, List.length_eq_zero]
      · rw [hentry]
        exact hmask

/-- Witness of C17 (amended): the specification "%T %T", whose entry after
the error is that of "%T ". -/
theorem init_error_keeps_compiled_part_witness :
    ∃ (compiled rest : List Char) (t : spec_token) (tpost : List spec_token),
      "%T %T".toList = compiled ++ rest ∧
      spec_tokens "%T %T".toList = spec_tokens compiled ++ t :: tpost ∧
      t.is_literal = false ∧
      syslog_entry_init compiled = some (0, (syslog_entry_t.mk 0 2
          [{ info := { id := SYSLOG_FIELD_ID_TIMESTAMP,
                       type := SYSLOG_FIELD_TYPE_TIME, spec := 'T',
                       param_name := "timestamp", human_name := "Timestamp" },
             flags := 0, parse_start_char := NUL, parse_stop_char := ' ' }])) ∧
      (∃ st, init_tokens
          { flags := 0, field_info := none, parse_start_char := NUL,
            entry := { num := 0, fields_mask := 0, fields := [] } }
          (spec_tokens compiled) = some (.ok st) ∧
        st.entry = (syslog_entry_t.mk 0 2
          [{ info := { id := SYSLOG_FIELD_ID_TIMESTAMP,
                       type := SYSLOG_FIELD_TYPE_TIME, spec := 'T',
                       param_name := "timestamp", human_name := "Timestamp" },
             flags := 0, parse_start_char := NUL, parse_stop_char := ' ' }]) ∧
        init_token st t = some (.error (-EINVAL, (syslog_entry_t.mk 0 2
          [{ info := { id := SYSLOG_FIELD_ID_TIMESTAMP,
                       type := SYSLOG_FIELD_TYPE_TIME, spec := 'T',
                       param_name := "timestamp", human_name := "Timestamp" },
             flags := 0, parse_start_char := NUL, parse_stop_char := ' ' }])))) ∧
      (syslog_entry_t.mk 0 2
          [{ info := { id := SYSLOG_FIELD_ID_TIMESTAMP,
                       type := SYSLOG_FIELD_TYPE_TIME, spec := 'T',
                       param_name := "timestamp", human_name := "Timestamp" },
             flags := 0, parse_start_char := NUL, parse_stop_char := ' ' }]).fields.length = (descriptor_tokens false (spec_tokens compiled)).length ∧
      ((syslog_entry_t.mk 0 2
          [{ info := { id := SYSLOG_FIELD_ID_TIMESTAMP,
                       type := SYSLOG_FIELD_TYPE_TIME, spec := 'T',
                       param_name := "timestamp", human_name := "Timestamp" },
             flags := 0, parse_start_char := NUL, parse_stop_char := ' ' }]).fields = [] ↔ descriptor_tokens false (spec_tokens compiled) = []) ∧
      ((syslog_entry_t.mk 0 2
          [{ info := { id := SYSLOG_FIELD_ID_TIMESTAMP,
                       type := SYSLOG_FIELD_TYPE_TIME, spec := 'T',
                       param_name := "timestamp", human_name := "Timestamp" },
             flags := 0, parse_start_char := NUL, parse_stop_char := ' ' }]).fields_mask = 0 ↔ (syslog_entry_t.mk 0 2
          [{ info := { id := SYSLOG_FIELD_ID_TIMESTAMP,
                       type := SYSLOG_FIELD_TYPE_TIME, spec := 'T',
                       param_name := "timestamp", human_name := "Timestamp" },
             flags := 0, parse_start_char := NUL, parse_stop_char := ' ' }]).fields = []) :=
  init_error_keeps_compiled_part "%T %T".toList (-EINVAL)
    (syslog_entry_t.mk 0 2
          [{ info := { id := SYSLOG_FIELD_ID_TIMESTAMP,
                       type := SYSLOG_FIELD_TYPE_TIME, spec := 'T',
                       param_name := "timestamp", human_name := "Timestamp" },
             flags := 0, parse_start_char := NUL, parse_stop_char := ' ' }]) (by decide) (by decide)

end SyslogFc
